import Mathlib

/-!
# Operating-systems simulators: paging engine, disk scheduler, CPU scheduler

Shallow embedding of three simulators of the repository:

* `MMU`   : `lab3_tk3301/mmu.cpp`        (demand paging, six replacement policies)
* `Disk`  : `lab4_tk3301/ioscheduler.cpp` (disk head scheduling, five policies)
* `Sched` : `lab2_tk3301/iosched.cpp`    (discrete-event CPU scheduler, six policies)

Global C++ variables become fields of an explicit state record; pointers into
global arrays become indices; loops become fuel-bounded recursions that return
`none` when the fuel runs out.  Values of type `int` are integers (signed
overflow is undefined behaviour and is not modelled); the 64-bit counters and
clocks of type `unsigned long` are natural numbers: each starts at zero and
grows by less than `2^32` per simulated step, so none wraps in a run of fewer
than `2^32` steps.
-/

set_option autoImplicit false

/-! ## Generic loop combinators -/

/-- Outcome of one loop body: `brk r` leaves the loop with result `r`
(a C++ `break`), `next x` reaches the end of the body with loop state `x`. -/
inductive LoopStep (ρ σ : Type) where
  | brk : ρ → LoopStep ρ σ
  | next : σ → LoopStep ρ σ

/-- The C++ loop `do { body } while (cond);` with a bound on the number of
iterations.  `none` means the bound was reached before the loop left. -/
def doWhile {ρ σ : Type} (body : σ → LoopStep ρ σ) (cond : σ → Bool) :
    Nat → σ → Option (LoopStep ρ σ)
  | 0, _ => none
  | k + 1, x =>
    match body x with
    | LoopStep.brk r => some (LoopStep.brk r)
    | LoopStep.next y => if cond y then doWhile body cond k y else some (LoopStep.next y)

namespace MMU

/-! ## Paging engine (`mmu.cpp`) -/

/-- `const int MAX_VPAGES`: virtual pages per process. -/
def MAX_VPAGES : Nat := 64

/-- `const int MAX_FRAMES`: size of `frame_table`. -/
def MAX_FRAMES : Nat := 128

/-- `struct pte_t` (bit fields; `frame` is 7 bits wide). -/
structure pte_t where
  present : Bool
  referenced : Bool
  modified : Bool
  write_protect : Bool
  pagedout : Bool
  frame : Nat
  file_mapped : Bool
deriving DecidableEq, Repr

/-- The all-zero entry produced by `memset(page_table, 0, ...)`. -/
def pte_zero : pte_t :=
  { present := false, referenced := false, modified := false, write_protect := false,
    pagedout := false, frame := 0, file_mapped := false }

/-- `struct frame_t`.  The field `index` of the source always equals the
position of the frame in `frame_table` and is not stored. -/
structure frame_t where
  pid : Int
  vpage : Int
  age : Nat
  last_used_time : Nat
  mapped : Bool
deriving DecidableEq, Repr

/-- Default member initialisers of `frame_t`. -/
def frame_init : frame_t :=
  { pid := -1, vpage := -1, age := 0, last_used_time := 0, mapped := false }

/-- `frame->pid = -1; frame->vpage = -1;` (process exit). -/
def frame_t.release (fr : frame_t) : frame_t := { fr with pid := -1, vpage := -1 }

/-- `pte->present = 0; pte->referenced = 0; pte->modified = 0; pte->pagedout = 0;`
(process exit). -/
def pte_t.clear (e : pte_t) : pte_t :=
  { e with present := false, referenced := false, modified := false, pagedout := false }

/-- `oldpte->present = 0; oldpte->referenced = 0;` (unmapping a victim). -/
def pte_t.unmap (e : pte_t) : pte_t := { e with present := false, referenced := false }

/-- `struct vma_t`. -/
structure vma_t where
  start_vpage : Nat
  end_vpage : Nat
  write_protected : Bool
  file_mapped : Bool
deriving DecidableEq, Repr

/-- `struct pstats_t`. -/
structure pstats_t where
  unmaps : Nat
  maps : Nat
  ins : Nat
  outs : Nat
  fins : Nat
  fouts : Nat
  zeros : Nat
  segv : Nat
  segprot : Nat
deriving DecidableEq, Repr

namespace pstats_t

/-- `stats.unmaps++`. -/
def incUnmaps (st : pstats_t) : pstats_t := { st with unmaps := st.unmaps + 1 }
/-- `stats.maps++`. -/
def incMaps (st : pstats_t) : pstats_t := { st with maps := st.maps + 1 }
/-- `stats.ins++`. -/
def incIns (st : pstats_t) : pstats_t := { st with ins := st.ins + 1 }
/-- `stats.outs++`. -/
def incOuts (st : pstats_t) : pstats_t := { st with outs := st.outs + 1 }
/-- `stats.fins++`. -/
def incFins (st : pstats_t) : pstats_t := { st with fins := st.fins + 1 }
/-- `stats.fouts++`. -/
def incFouts (st : pstats_t) : pstats_t := { st with fouts := st.fouts + 1 }
/-- `stats.zeros++`. -/
def incZeros (st : pstats_t) : pstats_t := { st with zeros := st.zeros + 1 }
/-- `stats.segv++`. -/
def incSegv (st : pstats_t) : pstats_t := { st with segv := st.segv + 1 }
/-- `stats.segprot++`. -/
def incSegprot (st : pstats_t) : pstats_t := { st with segprot := st.segprot + 1 }

end pstats_t

/-- The counters after the constructor `pstats_t()` (`memset` to zero). -/
def pstats_zero : pstats_t :=
  { unmaps := 0, maps := 0, ins := 0, outs := 0, fins := 0, fouts := 0, zeros := 0,
    segv := 0, segprot := 0 }

/-- `class Process` (process control block). -/
structure Process where
  pid : Nat
  vmas : List vma_t
  page_table : Nat → pte_t
  stats : pstats_t

/-- `Process::is_valid_vpage`: `none` is the `false` return (the two output
references are then left untouched), `some (write_protected, file_mapped)` the
`true` return with the attributes of the first VMA containing `vpage`. -/
def is_valid_vpage : List vma_t → Nat → Option (Bool × Bool)
  | [], _ => none
  | vma :: rest, vpage =>
    if vpage ≥ vma.start_vpage ∧ vpage ≤ vma.end_vpage then
      some (vma.write_protected, vma.file_mapped)
    else is_valid_vpage rest vpage

/-- The six `Pager` subclasses built by `create_pager`. -/
inductive PagerKind where
  | FIFO | Random | Clock | NRU | Aging | WorkingSet
deriving DecidableEq, Repr

/-- `create_pager`: `none` is the `exit(1)` of the default case. -/
def create_pager (algo : Char) : Option PagerKind :=
  if algo = 'f' then some PagerKind.FIFO
  else if algo = 'r' then some PagerKind.Random
  else if algo = 'c' then some PagerKind.Clock
  else if algo = 'e' then some PagerKind.NRU
  else if algo = 'a' then some PagerKind.Aging
  else if algo = 'w' then some PagerKind.WorkingSet
  else none

/-- The lines written to standard output while an instruction is simulated. -/
inductive TraceEv where
  | UNMAP : Int → Int → TraceEv
  | OUT | FOUT | IN | FIN | ZERO
  | MAP : Nat → TraceEv
  | SEGV | SEGPROT
deriving DecidableEq, Repr

/-- All global variables of `mmu.cpp` together with the members of the one
pager object (`kind`, `num_frames`, `hand`, `last_reset`) and the output. -/
structure State where
  nprocs : Nat
  processes : Nat → Process
  random_numbers : List Nat
  rpos : Nat
  frame_table : Nat → frame_t
  free_pool : List Nat
  current_process : Nat
  inst_count : Nat
  ctx_switches : Nat
  process_exits : Nat
  cost : Nat
  kind : PagerKind
  num_frames : Nat
  hand : Nat
  last_reset : Nat
  trace : List TraceEv

namespace State

/-- `processes[p]->page_table[v]`. -/
def pte (s : State) (p v : Nat) : pte_t := (s.processes p).page_table v

/-- `processes[p]->stats`. -/
def stats (s : State) (p : Nat) : pstats_t := (s.processes p).stats

/-- `processes[p]->vmas`. -/
def vmas (s : State) (p : Nat) : List vma_t := (s.processes p).vmas

/-- Assignment to `processes[p]->page_table[v]`. -/
def setPte (s : State) (p v : Nat) (e : pte_t) : State :=
  let proc : Process :=
    { s.processes p with page_table := Function.update (s.processes p).page_table v e }
  { s with processes := Function.update s.processes p proc }

/-- Assignment to `processes[p]->stats`. -/
def setStats (s : State) (p : Nat) (st : pstats_t) : State :=
  let proc : Process := { s.processes p with stats := st }
  { s with processes := Function.update s.processes p proc }

/-- Assignment to `frame_table[f]`. -/
def setFrame (s : State) (f : Nat) (fr : frame_t) : State :=
  { s with frame_table := Function.update s.frame_table f fr }

/-- `cost += c`. -/
def addCost (s : State) (c : Nat) : State := { s with cost := s.cost + c }

/-- One line of output. -/
def emit (s : State) (t : TraceEv) : State := { s with trace := s.trace ++ [t] }

/-- The `file_mapped` output of `processes[p]->is_valid_vpage(v, ...)` as it is
read after the call; it is only read for mapped pages, which always lie inside
a VMA (`false` stands for the uninitialised local otherwise). -/
def fileMapped (s : State) (p v : Nat) : Bool :=
  match is_valid_vpage (s.vmas p) v with
  | some r => r.2
  | none => false

/-- `inst_count++`. -/
def tick (s : State) : State := { s with inst_count := s.inst_count + 1 }

/-- `free_pool.push_back(&frame_table[f])`. -/
def pushFree (s : State) (f : Nat) : State := { s with free_pool := s.free_pool ++ [f] }

/-- Assignment to the pager member `hand`. -/
def setHand (s : State) (h : Nat) : State := { s with hand := h }

/-- The recurring triple `cout << t; processes[p]->stats.x++; cost += c;` where
`f` increments the counter `x`. -/
def charge (s : State) (t : TraceEv) (p : Nat) (f : pstats_t → pstats_t) (c : Nat) : State :=
  ((s.emit t).setStats p (f (s.stats p))).addCost c

/-- The entry `processes[frame->pid]->page_table[frame->vpage]` of frame `f`. -/
def framePte (s : State) (f : Nat) : pte_t :=
  s.pte (s.frame_table f).pid.toNat (s.frame_table f).vpage.toNat

/-- Assignment to `pte->referenced` of the entry owning frame `f`. -/
def setFrameRef (s : State) (f : Nat) (b : Bool) : State :=
  s.setPte (s.frame_table f).pid.toNat (s.frame_table f).vpage.toNat
    { s.framePte f with referenced := b }

end State

/-- `get_next_random`. -/
def get_next_random (s : State) : Nat × State :=
  let rpos := if s.rpos ≥ s.random_numbers.length then 0 else s.rpos
  (s.random_numbers.getD rpos 0, { s with rpos := rpos + 1 })

/-! ### Replacement policies -/

/-- `FIFOPager::select_victim_frame`. -/
def FIFOPager_select_victim_frame (s : State) : Nat × State :=
  (s.hand, s.setHand ((s.hand + 1) % s.num_frames))

/-- `RandomPager::select_victim_frame`. -/
def RandomPager_select_victim_frame (s : State) : Nat × State :=
  let r := get_next_random s
  (r.1 % s.num_frames, r.2)

/-- Body of the `while (true)` loop of `ClockPager::select_victim_frame`. -/
def ClockPager_body (s : State) : LoopStep (Nat × State) State :=
  if (s.framePte s.hand).referenced = false then
    LoopStep.brk (s.hand, s.setHand ((s.hand + 1) % s.num_frames))
  else
    LoopStep.next ((s.setFrameRef s.hand false).setHand ((s.hand + 1) % s.num_frames))

/-- `ClockPager::select_victim_frame` with a bound on the number of probes. -/
def ClockPager_select_victim_frame (fuel : Nat) (s : State) : Option (Nat × State) :=
  match doWhile ClockPager_body (fun _ => true) fuel s with
  | some (LoopStep.brk r) => some r
  | _ => none

/-- Local variables and globals of the scan loop of `NRUPager`. -/
structure NRUScan where
  st : State
  class_victims : Nat → Option Nat

/-- Body of the `do ... while (hand != start_hand)` loop of
`NRUPager::select_victim_frame`; `brk` carries the victim of the early exit. -/
def NRUPager_body (needs_reset : Bool) (x : NRUScan) : LoopStep (Nat × NRUScan) NRUScan :=
  let s := x.st
  let frame := s.hand
  let pte := s.framePte frame
  let class_num := 2 * pte.referenced.toNat + pte.modified.toNat
  let fresh := (x.class_victims class_num).isNone
  let cv := if fresh then Function.update x.class_victims class_num (some frame)
            else x.class_victims
  if fresh ∧ class_num = 0 ∧ needs_reset = false then
    LoopStep.brk (frame, { st := s, class_victims := cv })
  else
    let s1 := if needs_reset then s.setFrameRef frame false else s
    LoopStep.next { st := s1.setHand ((s1.hand + 1) % s1.num_frames), class_victims := cv }

/-- The `for (i = 0; i < 4; i++)` search for the lowest non-empty class. -/
def NRUPager_lowest (cv : Nat → Option Nat) : Option Nat :=
  ((List.range 4).filterMap cv).head?

/-- `NRUPager::select_victim_frame` with a bound on the number of probes;
`RESET_INTERVAL = 48`, `last_reset` is an `unsigned int`. -/
def NRUPager_select_victim_frame (fuel : Nat) (s : State) : Option (Nat × State) :=
  let start_hand := s.hand
  let needs_reset : Bool := decide (s.inst_count - s.last_reset ≥ 48)
  match doWhile (NRUPager_body needs_reset) (fun x => x.st.hand != start_hand) fuel
      { st := s, class_victims := fun _ => none } with
  | none => none
  | some r =>
    let fin : Option Nat × NRUScan :=
      match r with
      | LoopStep.brk (v, x) => (some v, x)
      | LoopStep.next x => (NRUPager_lowest x.class_victims, x)
    let s1 := fin.2.st
    let s2 := if needs_reset then { s1 with last_reset := s1.inst_count % 2 ^ 32 } else s1
    match fin.1 with
    | none => none
    | some v => some (v, s2.setHand ((v + 1) % s2.num_frames))

/-- Local `current` and globals of the first loop of `AgingPager`. -/
structure AgingScan where
  st : State
  current : Nat
  min_age : Nat
  victim : Option Nat

/-- Body of the first loop of `AgingPager::select_victim_frame`: age every
frame (`age` is a 32-bit `unsigned int`). -/
def AgingPager_age_body (x : AgingScan) : LoopStep Unit AgingScan :=
  let s := x.st
  let fr := s.frame_table x.current
  let referenced := (s.framePte x.current).referenced
  let s1 := s.setFrame x.current { fr with age := fr.age / 2 }
  let s2 := if referenced then
      (s1.setFrame x.current
        { s1.frame_table x.current with age := (s1.frame_table x.current).age ||| 0x80000000 }
        ).setFrameRef x.current false
    else s1
  LoopStep.next { x with st := s2, current := (x.current + 1) % s.num_frames }

/-- Body of the second loop of `AgingPager::select_victim_frame`: first frame
of minimum age. -/
def AgingPager_min_body (x : AgingScan) : LoopStep Unit AgingScan :=
  let s := x.st
  let fr := s.frame_table x.current
  let y : AgingScan :=
    if fr.age < x.min_age then
      { x with min_age := fr.age, victim := some x.current,
               st := s.setHand ((x.current + 1) % s.num_frames) }
    else x
  LoopStep.next { y with current := (x.current + 1) % s.num_frames }

/-- `AgingPager::select_victim_frame` with a bound on the iterations of each
loop; `UINT_MAX = 2^32 - 1`. -/
def AgingPager_select_victim_frame (fuel : Nat) (s : State) : Option (Nat × State) :=
  let start_hand := s.hand
  match doWhile AgingPager_age_body (fun x => x.current != start_hand) fuel
      { st := s, current := s.hand, min_age := 4294967295, victim := none } with
  | some (LoopStep.next x1) =>
    match doWhile AgingPager_min_body (fun x => x.current != start_hand) fuel
        { x1 with current := x1.st.hand } with
    | some (LoopStep.next x2) =>
      match x2.victim with
      | some v => some (v, x2.st)
      | none => some (x2.st.hand, x2.st.setHand ((x2.st.hand + 1) % x2.st.num_frames))
    | _ => none
  | _ => none

/-- Locals and globals of the loop of `WorkingSetPager`. -/
structure WSScan where
  st : State
  max_age : Nat
  victim : Option Nat

/-- Body of the loop of `WorkingSetPager::select_victim_frame`; `TAU = 49`,
`last_used_time` is an `unsigned int`. -/
def WorkingSetPager_body (x : WSScan) : LoopStep WSScan WSScan :=
  let s := x.st
  let frame := s.hand
  let fr := s.frame_table frame
  let pte := s.framePte frame
  let age := s.inst_count - fr.last_used_time
  if pte.referenced = false ∧ age > 49 then
    LoopStep.brk { x with victim := some frame, st := s.setHand ((s.hand + 1) % s.num_frames) }
  else
    let y : WSScan :=
      if pte.referenced then
        { x with st := (s.setFrame frame { fr with last_used_time := s.inst_count % 2 ^ 32 }
                        ).setFrameRef frame false }
      else if age > x.max_age then { x with max_age := age, victim := some frame }
      else x
    LoopStep.next { y with st := y.st.setHand ((y.st.hand + 1) % y.st.num_frames) }

/-- `WorkingSetPager::select_victim_frame` with a bound on the number of probes. -/
def WorkingSetPager_select_victim_frame (fuel : Nat) (s : State) : Option (Nat × State) :=
  let start_hand := s.hand
  match doWhile WorkingSetPager_body (fun x => x.st.hand != start_hand) fuel
      { st := s, max_age := 0, victim := none } with
  | none => none
  | some r =>
    let x : WSScan := match r with
      | LoopStep.brk x => x
      | LoopStep.next x => x
    let v := match x.victim with
      | some v => v
      | none => start_hand
    some (v, x.st.setHand ((v + 1) % x.st.num_frames))

/-- `THE_PAGER->select_victim_frame()`; every loop may probe up to
`num_frames + 1` frames.  With `num_frames = 0` no pager returns: FIFO and
Random evaluate `% num_frames` with a zero divisor, the other four read
`processes[frame->pid]` of the unmapped frame 0 (`pid = -1`) and then divide by
zero as well; `main` never calls `validate_frame_number`, so `-f0` gets here.
`none` is that abnormal end. -/
def select_victim_frame (s : State) : Option (Nat × State) :=
  if s.num_frames = 0 then none else
  match s.kind with
  | PagerKind.FIFO => some (FIFOPager_select_victim_frame s)
  | PagerKind.Random => some (RandomPager_select_victim_frame s)
  | PagerKind.Clock => ClockPager_select_victim_frame (s.num_frames + 1) s
  | PagerKind.NRU => NRUPager_select_victim_frame (s.num_frames + 1) s
  | PagerKind.Aging => AgingPager_select_victim_frame (s.num_frames + 1) s
  | PagerKind.WorkingSet => WorkingSetPager_select_victim_frame (s.num_frames + 1) s

/-- `THE_PAGER->reset_age(frame)`. -/
def reset_age (s : State) (f : Nat) : State :=
  match s.kind with
  | PagerKind.Aging => s.setFrame f { s.frame_table f with age := 0 }
  | PagerKind.WorkingSet =>
    s.setFrame f { s.frame_table f with last_used_time := s.inst_count % 2 ^ 32 }
  | _ => s

/-- `allocate_frame_from_free_list`: `none` is the `nullptr` return. -/
def allocate_frame_from_free_list (s : State) : Option (Nat × State) :=
  match s.free_pool with
  | [] => none
  | f :: rest => some (f, { s with free_pool := rest })

/-- `get_frame`. -/
def get_frame (s : State) : Option (Nat × State) :=
  match allocate_frame_from_free_list s with
  | some r => some r
  | none => select_victim_frame s

/-! ### Page faults and instructions -/

/-- Lines 402-420 of `handle_page_fault`: count the UNMAP of the old owner
`(op, ov)` of frame `nf` and write a modified page back (FOUT for a file-mapped
page, OUT otherwise). -/
def unmap_old_writeback (s : State) (nf : Nat) : State :=
  let fr := s.frame_table nf
  let op := fr.pid.toNat
  let ov := fr.vpage.toNat
  let s3 := s.charge (TraceEv.UNMAP fr.pid fr.vpage) op pstats_t.incUnmaps 410
  if (s3.pte op ov).modified then
    if s3.fileMapped op ov then s3.charge TraceEv.FOUT op pstats_t.incFouts 2800
    else
      let t := s3.charge TraceEv.OUT op pstats_t.incOuts 2750
      t.setPte op ov { t.pte op ov with pagedout := true }
  else s3

/-- First part of `handle_page_fault` (lines 397-423): when the frame `nf`
obtained from `get_frame` is in use, unmap its old owner. -/
def unmap_old (s : State) (nf : Nat) : State :=
  if (s.frame_table nf).pid ≠ -1 then
    let op := (s.frame_table nf).pid.toNat
    let ov := (s.frame_table nf).vpage.toNat
    let s4 := unmap_old_writeback s nf
    s4.setPte op ov (s4.pte op ov).unmap
  else s

/-- Lines 430-447 of `handle_page_fault`: bring the page content in (IN for a
paged-out page, else FIN for a file-mapped one, else ZERO) and count the MAP. -/
def source_count (s : State) (p vpage nf : Nat) (file_mapped : Bool) : State :=
  let s2 :=
    if (s.pte p vpage).pagedout then s.charge TraceEv.IN p pstats_t.incIns 3200
    else if file_mapped then s.charge TraceEv.FIN p pstats_t.incFins 2350
    else s.charge TraceEv.ZERO p pstats_t.incZeros 150
  s2.charge (TraceEv.MAP nf) p pstats_t.incMaps 350

/-- Second part of `handle_page_fault` (lines 425-447): reset the faulting
entry, then source the page. -/
def source_page (s : State) (p vpage nf : Nat) (file_mapped : Bool) : State :=
  let s1 := s.setPte p vpage
    { s.pte p vpage with present := false, referenced := false, modified := false }
  source_count s1 p vpage nf file_mapped

/-- Last part of `handle_page_fault` (lines 449-461): record the owner in the
frame, fill in the entry (`frame` is a 7-bit field) and reset the frame age. -/
def map_new (s : State) (p vpage nf : Nat) (write_protected : Bool) : State :=
  let s1 := s.setFrame nf
    { s.frame_table nf with pid := (s.current_process : Int), vpage := (vpage : Int),
                            mapped := true }
  let e := s1.pte p vpage
  let s2 := s1.setPte p vpage
    { e with frame := nf % 128, present := true, referenced := true,
             write_protect := if write_protected then true else e.write_protect }
  reset_age s2 nf

/-- `handle_page_fault(proc, pte, vpage, write_protected, file_mapped)` where
`proc = processes[p]` and `pte = &proc->page_table[vpage]`. -/
def handle_page_fault (s : State) (p vpage : Nat) (write_protected file_mapped : Bool) :
    Option State :=
  match get_frame s with
  | none => none
  | some (nf, s0) =>
    some (map_new (source_page (unmap_old s0 nf) p vpage nf file_mapped) p vpage nf
      write_protected)

/-- Lines 489-499 of the `'e'` case: count the UNMAP of page `i` of the
exiting process `p` and the FOUT of a modified file-mapped page. -/
def exit_writeback (p : Nat) (s : State) (i : Nat) : State :=
  let pte := s.pte p i
  let fr := s.frame_table pte.frame
  let s1 := s.charge (TraceEv.UNMAP fr.pid fr.vpage) p pstats_t.incUnmaps 410
  if pte.modified = true ∧ s1.fileMapped p i = true then
    s1.charge TraceEv.FOUT p pstats_t.incFouts 2800
  else s1

/-- Lines 485-505 of the `'e'` case: the body of `if (pte->present)`. -/
def exit_unmap (p : Nat) (s : State) (i : Nat) : State :=
  let f := (s.pte p i).frame
  let s2 := exit_writeback p s i
  let s3 := s2.setFrame f (s2.frame_table f).release
  s3.pushFree f

/-- Body of the `for (i = 0; i < MAX_VPAGES; i++)` loop of the `'e'` case. -/
def exit_page (p : Nat) (s : State) (i : Nat) : State :=
  let s4 := if (s.pte p i).present then exit_unmap p s i else s
  s4.setPte p i (s4.pte p i).clear

/-- The `'e'` case of `simulate_instruction` after `inst_count++`. -/
def process_exit (s : State) : State :=
  let p := s.current_process
  let s1 := { s with process_exits := s.process_exits + 1 }
  let s2 := s1.addCost 1230
  (List.range MAX_VPAGES).foldl (exit_page p) s2

/-- Lines 531-541 of `simulate_instruction`: set the referenced bit, then for
a write either report SEGPROT or set the modified bit. -/
def touch_page (s : State) (p vpage : Nat) (operation : Char) (write_protected : Bool) :
    State :=
  let s3 := s.setPte p vpage { s.pte p vpage with referenced := true }
  if operation = 'w' then
    if write_protected then s3.charge TraceEv.SEGPROT p pstats_t.incSegprot 410
    else s3.setPte p vpage { s3.pte p vpage with modified := true }
  else s3

/-- The `'r'`/`'w'` case of `simulate_instruction` after `inst_count++`. -/
def access (s : State) (operation : Char) (vpage : Nat) : Option State :=
  let p := s.current_process
  let s1 := s.addCost 1
  match is_valid_vpage (s1.vmas p) vpage with
  | none => some (s1.charge TraceEv.SEGV p pstats_t.incSegv 440)
  | some (write_protected, file_mapped) =>
    let faulted : Option State :=
      if (s1.pte p vpage).present = false then
        handle_page_fault s1 p vpage write_protected file_mapped
      else some s1
    match faulted with
    | none => none
    | some s2 => some (touch_page s2 p vpage operation write_protected)

/-- `simulate_instruction(operation, vpage)`; `none` is the `exit(1)` of an
unknown operation (or a pager that returned no frame: a loop that did not
finish, or the division by zero with `num_frames = 0`). -/
def simulate_instruction (s : State) (operation : Char) (vpage : Nat) : Option State :=
  let s0 := s.tick
  if operation = 'c' then
    some ({ s0 with current_process := vpage, ctx_switches := s0.ctx_switches + 1 }.addCost 130)
  else if operation = 'e' then some (process_exit s0)
  else if operation = 'r' ∨ operation = 'w' then access s0 operation vpage
  else none

/-- What `main` reads before the first instruction: `-f`, `-a`, the process
descriptors (one VMA list per process) and the random file. -/
structure Config where
  num_frames : Nat
  kind : PagerKind
  procs : List (List vma_t)
  random_numbers : List Nat

/-- The state built by `main` and `read_input` before the first instruction. -/
def init (c : Config) : State :=
  { nprocs := c.procs.length
    processes := fun p =>
      { pid := p, vmas := c.procs.getD p [], page_table := fun _ => pte_zero,
        stats := pstats_zero }
    random_numbers := c.random_numbers
    rpos := 0
    frame_table := fun _ => frame_init
    free_pool := List.range c.num_frames
    current_process := 0
    inst_count := 0
    ctx_switches := 0
    process_exits := 0
    cost := 0
    kind := c.kind
    num_frames := c.num_frames
    hand := 0
    last_reset := 0
    trace := [] }

/-- One instruction line `op vpage` of the input. -/
structure Instr where
  operation : Char
  vpage : Nat
deriving DecidableEq, Repr

/-- The instruction loop of `main` from state `s`. -/
def runFrom : State → List Instr → Option State
  | s, [] => some s
  | s, i :: rest =>
    match simulate_instruction s i.operation i.vpage with
    | none => none
    | some s1 => runFrom s1 rest

/-- The instruction loop of `main` from the initial state. -/
def run (c : Config) (instrs : List Instr) : Option State := runFrom (init c) instrs

/-! ### Invariants and relations of the paging engine -/

/-- Two states that differ at most in what a pager may write: referenced bits,
frame ages and last-use times, the hand, `last_reset` and the random cursor. -/
structure Same (s t : State) : Prop where
  nprocs : t.nprocs = s.nprocs
  random_numbers : t.random_numbers = s.random_numbers
  free_pool : t.free_pool = s.free_pool
  current_process : t.current_process = s.current_process
  inst_count : t.inst_count = s.inst_count
  ctx_switches : t.ctx_switches = s.ctx_switches
  process_exits : t.process_exits = s.process_exits
  cost : t.cost = s.cost
  kind : t.kind = s.kind
  num_frames : t.num_frames = s.num_frames
  trace : t.trace = s.trace
  frame_pid : ∀ f, (t.frame_table f).pid = (s.frame_table f).pid
  frame_vpage : ∀ f, (t.frame_table f).vpage = (s.frame_table f).vpage
  frame_mapped : ∀ f, (t.frame_table f).mapped = (s.frame_table f).mapped
  stats : ∀ p, t.stats p = s.stats p
  vmas : ∀ p, t.vmas p = s.vmas p
  present : ∀ p v, (t.pte p v).present = (s.pte p v).present
  modified : ∀ p v, (t.pte p v).modified = (s.pte p v).modified
  write_protect : ∀ p v, (t.pte p v).write_protect = (s.pte p v).write_protect
  pagedout : ∀ p v, (t.pte p v).pagedout = (s.pte p v).pagedout
  frame : ∀ p v, (t.pte p v).frame = (s.pte p v).frame
  file_mapped : ∀ p v, (t.pte p v).file_mapped = (s.pte p v).file_mapped

/-- What every replacement policy guarantees about its result `r = (victim, state)`. -/
def VictimOK (s : State) (r : Nat × State) : Prop :=
  Same s r.2 ∧ r.1 < s.num_frames ∧ r.2.hand < s.num_frames

/-- Frame/page-table consistency, possibly with one frame `hole` that is being
remapped: every other frame in use is owned by a present entry that points back
to it, and every present entry points to a frame that names it as owner. -/
structure Cons (hole : Option Nat) (s : State) : Prop where
  owner : ∀ f, some f ≠ hole → (s.frame_table f).pid ≠ -1 →
    ∃ p v : Nat, (s.frame_table f).pid = (p : Int) ∧ (s.frame_table f).vpage = (v : Int) ∧
      p < s.nprocs ∧ v < 64 ∧ f < s.num_frames ∧
      (s.pte p v).present = true ∧ (s.pte p v).frame = f
  back : ∀ p v, (s.pte p v).present = true →
    (s.frame_table (s.pte p v).frame).pid = (p : Int) ∧
    (s.frame_table (s.pte p v).frame).vpage = (v : Int) ∧
    some (s.pte p v).frame ≠ hole
  inVma : ∀ p v, (s.pte p v).present = true → (is_valid_vpage (s.vmas p) v).isSome = true

/-- Two states with the same mapping data (frame owners, present bits and
frame fields of the entries). -/
structure SameMap (s t : State) : Prop where
  nprocs : t.nprocs = s.nprocs
  num_frames : t.num_frames = s.num_frames
  frame_pid : ∀ f, (t.frame_table f).pid = (s.frame_table f).pid
  frame_vpage : ∀ f, (t.frame_table f).vpage = (s.frame_table f).vpage
  present : ∀ p v, (t.pte p v).present = (s.pte p v).present
  frame : ∀ p v, (t.pte p v).frame = (s.pte p v).frame
  vmas : ∀ p, t.vmas p = s.vmas p

/-- The globals that only `simulate_instruction` itself writes. -/
structure Keeps (s t : State) : Prop where
  nprocs : t.nprocs = s.nprocs
  num_frames : t.num_frames = s.num_frames
  kind : t.kind = s.kind
  random_numbers : t.random_numbers = s.random_numbers
  current_process : t.current_process = s.current_process
  inst_count : t.inst_count = s.inst_count
  ctx_switches : t.ctx_switches = s.ctx_switches
  process_exits : t.process_exits = s.process_exits
  vmas : ∀ p, t.vmas p = s.vmas p

/-- Cost of the events counted in one process's statistics (the cost table). -/
def weight (st : pstats_t) : Nat :=
  350 * st.maps + 410 * st.unmaps + 3200 * st.ins + 2750 * st.outs + 2350 * st.fins +
    2800 * st.fouts + 150 * st.zeros + 440 * st.segv + 410 * st.segprot

/-- Sum of `weight` over all processes. -/
def total (s : State) : Nat := ((List.range s.nprocs).map (fun p => weight (s.stats p))).sum

/-- Every MAP was preceded by exactly one of IN, FIN, ZERO. -/
def MapsOK (s : State) : Prop :=
  ∀ p, (s.stats p).maps = (s.stats p).ins + (s.stats p).fins + (s.stats p).zeros

/-- A modified entry lies in a VMA that is not write-protected. -/
def WpOK (s : State) : Prop :=
  ∀ p v, (s.pte p v).modified = true → ∃ fm, is_valid_vpage (s.vmas p) v = some (false, fm)

/-- `cost` and the weighted statistics move together, the MAP balance and the
write-protection invariant survive. -/
structure Acc (s t : State) : Prop where
  nprocs : t.nprocs = s.nprocs
  bal : t.cost + total s = s.cost + total t
  maps : MapsOK s → MapsOK t
  wp : WpOK s → WpOK t

/-- No control state changes: `Keeps` together with the pager members, the
random cursor and the free list. -/
structure Quiet (s t : State) : Prop where
  keeps : Keeps s t
  hand : t.hand = s.hand
  free_pool : t.free_pool = s.free_pool
  rpos : t.rpos = s.rpos
  last_reset : t.last_reset = s.last_reset

/-- The structural invariant of the paging engine (with the frame count of
a legal command line). -/
structure Wf (s : State) : Prop where
  nf_le : s.num_frames ≤ 128
  hand : s.hand < s.num_frames
  cur : s.current_process < s.nprocs
  free_lt : ∀ f ∈ s.free_pool, f < s.num_frames
  cons : Cons none s

/-- What no instruction changes. -/
structure Static (s t : State) : Prop where
  nprocs : t.nprocs = s.nprocs
  num_frames : t.num_frames = s.num_frames
  kind : t.kind = s.kind
  random_numbers : t.random_numbers = s.random_numbers
  vmas : ∀ p, t.vmas p = s.vmas p

/-- An instruction that the program can execute without leaving the arrays:
`c` names an existing process, `r`/`w` a page number below `MAX_VPAGES`. -/
def Instr.valid (nprocs : Nat) (i : Instr) : Prop :=
  (i.operation = 'c' ∧ i.vpage < nprocs) ∨ i.operation = 'e' ∨
    ((i.operation = 'r' ∨ i.operation = 'w') ∧ i.vpage < MAX_VPAGES)

instance (nprocs : Nat) (i : Instr) : Decidable (i.valid nprocs) := by
  unfold Instr.valid; infer_instance

/-- A command line and input the program accepts without undefined behaviour:
between 1 and `MAX_FRAMES` frames, at least one process, a non-empty random file. -/
def Config.WF (c : Config) : Prop :=
  0 < c.num_frames ∧ c.num_frames ≤ MAX_FRAMES ∧ 0 < c.procs.length ∧ c.random_numbers ≠ []

instance (c : Config) : Decidable c.WF := by
  unfold Config.WF; infer_instance

/-- The invariant of the paging engine: the structural part, the cost table,
the MAP balance and write protection. -/
structure Good (s : State) : Prop where
  wf : Wf s
  counters : s.ctx_switches + s.process_exits ≤ s.inst_count
  cost : s.cost + s.ctx_switches + s.process_exits =
    s.inst_count + 130 * s.ctx_switches + 1230 * s.process_exits + total s
  maps : MapsOK s
  wp : WpOK s

/-- The page-content event of a fault: IN for a paged-out page, else FIN for a
file-mapped one, else ZERO. -/
def source_event (pagedout file_mapped : Bool) : TraceEv :=
  if pagedout then TraceEv.IN else if file_mapped then TraceEv.FIN else TraceEv.ZERO

/-- The statistics update that goes with `source_event`. -/
def source_counter (pagedout file_mapped : Bool) : pstats_t → pstats_t :=
  if pagedout then pstats_t.incIns else if file_mapped then pstats_t.incFins
  else pstats_t.incZeros

/-- The cost that goes with `source_event`. -/
def source_cost (pagedout file_mapped : Bool) : Nat :=
  if pagedout then 3200 else if file_mapped then 2350 else 150

/-- The state `s0` left by `get_frame` called in state `s`: either a frame was
taken from the free list, or the pager ran (which leaves a state `Same` as `s`). -/
def Alloc (s s0 : State) : Prop := ∃ s' l, Same s s' ∧ s0 = { s' with free_pool := l }

/-- The pages below `k` of process `p` that are present in state `s`. -/
def presentPages (s : State) (p k : Nat) : List Nat :=
  (List.range k).filter (fun w => (s.pte p w).present)

/-- The pages below `k` of process `p` that are present, modified and
file-mapped in state `s`. -/
def writtenPages (s : State) (p k : Nat) : List Nat :=
  (List.range k).filter
    (fun w => (s.pte p w).present && ((s.pte p w).modified && s.fileMapped p w))

/-- State of the exit loop of process `p`, started in `s`, after pages
`0 .. k-1`. -/
structure ExitInv (p : Nat) (s e : State) (k : Nat) : Prop where
  pte_done : ∀ w, w < k → e.pte p w = (s.pte p w).clear
  pte_rest : ∀ q w, ¬ (q = p ∧ w < k) → e.pte q w = s.pte q w
  frame_rel : ∀ w, w < k → (s.pte p w).present = true →
    e.frame_table (s.pte p w).frame = (s.frame_table (s.pte p w).frame).release
  frame_rest : ∀ f, (∀ w, w < k → (s.pte p w).present = true → (s.pte p w).frame ≠ f) →
    e.frame_table f = s.frame_table f
  free_pool : e.free_pool = s.free_pool ++ (presentPages s p k).map (fun w => (s.pte p w).frame)
  stats_p : e.stats p =
    { s.stats p with unmaps := (s.stats p).unmaps + (presentPages s p k).length,
                     fouts := (s.stats p).fouts + (writtenPages s p k).length }
  stats_rest : ∀ q, q ≠ p → e.stats q = s.stats q
  cost : e.cost = s.cost + 410 * (presentPages s p k).length +
    2800 * (writtenPages s p k).length
  keeps : Keeps s e
  hand : e.hand = s.hand
  rpos : e.rpos = s.rpos
  last_reset : e.last_reset = s.last_reset

/-- A three-frame FIFO configuration with one process owning pages 0..7. -/
def cfgA : Config :=
  { num_frames := 3, kind := PagerKind.FIFO,
    procs := [[{ start_vpage := 0, end_vpage := 7, write_protected := false,
                 file_mapped := false }]],
    random_numbers := [1, 2, 3] }

/-- The instruction stream `c 0; r 0; r 1; w 2; r 3; e 0`. -/
def insA : List Instr :=
  [⟨'c', 0⟩, ⟨'r', 0⟩, ⟨'r', 1⟩, ⟨'w', 2⟩, ⟨'r', 3⟩, ⟨'e', 0⟩]

/-- A one-frame FIFO configuration with one process owning pages 0..7. -/
def cfgB : Config :=
  { num_frames := 1, kind := PagerKind.FIFO,
    procs := [[{ start_vpage := 0, end_vpage := 7, write_protected := false,
                 file_mapped := false }]],
    random_numbers := [1] }

/-- The state of `cfgB` after `w 0`: the only frame holds the modified page 0. -/
def stB : State := (run cfgB [⟨'w', 0⟩]).getD (init cfgB)

/-- The state left by `get_frame` when page 1 faults in `stB`. -/
def stB0 : State := ((get_frame (stB.tick.addCost 1)).map Prod.snd).getD stB

/-- The references `r 0; r 1; r 2; r 3`. -/
def insF : List Instr := [⟨'r', 0⟩, ⟨'r', 1⟩, ⟨'r', 2⟩, ⟨'r', 3⟩]

/-- Every frame of the table is mapped: its owner is a process and a page, and
the owning page-table entry is present and points back to the frame. -/
def AllMapped (s : State) : Prop :=
  ∀ f, f < s.num_frames → 0 ≤ (s.frame_table f).pid ∧ 0 ≤ (s.frame_table f).vpage ∧
    (s.framePte f).present = true ∧ (s.framePte f).frame = f

instance (s : State) : Decidable (AllMapped s) := by
  unfold AllMapped; infer_instance

/-- No two frames of the table are owned by the same page-table entry. -/
def OwnersDistinct (s : State) : Prop :=
  ∀ f g, f < s.num_frames → g < s.num_frames →
    (s.frame_table f).pid.toNat = (s.frame_table g).pid.toNat →
    (s.frame_table f).vpage.toNat = (s.frame_table g).vpage.toNat → f = g

/-- The frames `hand, hand + 1, ...` (mod `n`) met by `j` steps of a hand. -/
def circ (hand n j : Nat) : List Nat := (List.range j).map (fun i => (hand + i) % n)

/-- The state after `pte->referenced = 0` for the owners of the frames `fs`. -/
def clearRefs (s : State) (fs : List Nat) : State :=
  fs.foldl (fun t f => t.setFrameRef f false) s

/-- A three-frame Clock configuration with one process owning pages 0..7. -/
def cfgC : Config :=
  { num_frames := 3, kind := PagerKind.Clock,
    procs := [[{ start_vpage := 0, end_vpage := 7, write_protected := false,
                 file_mapped := false }]],
    random_numbers := [1, 2, 3] }

/-- The state of `cfgC` after `r 0; r 1; w 2; r 3; r 1`: the hand is at frame 1,
the pages of frames 0 and 1 are referenced, the page of frame 2 is not. -/
def stC : State :=
  (run cfgC [⟨'r', 0⟩, ⟨'r', 1⟩, ⟨'w', 2⟩, ⟨'r', 3⟩, ⟨'r', 1⟩]).getD (init cfgC)

/-- The NRU class `(referenced << 1) | modified` of the entry owning frame `f`. -/
def NRU_class (s : State) (f : Nat) : Nat :=
  2 * (s.framePte f).referenced.toNat + (s.framePte f).modified.toNat

/-- The least `i < j` with `p i`, if any. -/
def firstIdx (p : Nat → Bool) : Nat → Option Nat
  | 0 => none
  | j + 1 =>
    match firstIdx p j with
    | some i => some i
    | none => if p j then some j else none

/-- The state of the NRU scan after `j` frames: with `needs_reset` the
referenced bits of the frames scanned are cleared; the hand has moved `j` steps. -/
def NRU_scanned (s : State) (nr : Bool) (j : Nat) : State :=
  (if nr then clearRefs s (circ s.hand s.num_frames j) else s).setHand
    ((s.hand + j) % s.num_frames)

/-- The array `class_victims` of the NRU scan after `j` frames: for each class
the first frame of that class (by the bits at the start of the call). -/
def NRU_victims (s : State) (j : Nat) (c : Nat) : Option Nat :=
  (firstIdx (fun i => decide (NRU_class s ((s.hand + i) % s.num_frames) = c)) j).map
    (fun i => (s.hand + i) % s.num_frames)

/-- The age `AgingPager::select_victim_frame` gives to frame `f`: shifted right
by one, with bit 31 set when the owning entry is referenced. -/
def AgingPager_new_age (s : State) (f : Nat) : Nat :=
  if (s.framePte f).referenced then (s.frame_table f).age / 2 ||| 0x80000000
  else (s.frame_table f).age / 2

/-- The update of frame `c` by the first loop of
`AgingPager::select_victim_frame`. -/
def AgingPager_aged (s : State) (c : Nat) : State :=
  let s1 := s.setFrame c { s.frame_table c with age := (s.frame_table c).age / 2 }
  if (s.framePte c).referenced then
    (s1.setFrame c
      { s1.frame_table c with age := (s1.frame_table c).age ||| 0x80000000 }).setFrameRef c false
  else s1

/-- Invariant of the first loop of `AgingPager::select_victim_frame` after `j`
frames. -/
def AgingInv1 (s : State) (j : Nat) (x : AgingScan) : Prop :=
  Same s x.st ∧ x.st.hand = s.hand ∧ x.current = (s.hand + j) % s.num_frames ∧
  x.min_age = 4294967295 ∧ x.victim = none ∧
  (∀ f, f < s.num_frames → (x.st.frame_table f).age =
    if f ∈ circ s.hand s.num_frames j then AgingPager_new_age s f else (s.frame_table f).age) ∧
  (∀ f, f < s.num_frames → (x.st.framePte f).referenced =
    if f ∈ circ s.hand s.num_frames j then false else (s.framePte f).referenced)

/-- Invariant of the second loop of `AgingPager::select_victim_frame` after `j`
frames; `s1` is the state left by the first loop. -/
def AgingInv2 (s1 : State) (hand : Nat) (j : Nat) (x : AgingScan) : Prop :=
  x.st = s1.setHand x.st.hand ∧ x.current = (hand + j) % s1.num_frames ∧
  (x.victim = none → x.min_age = 4294967295 ∧ x.st.hand = hand ∧
    ∀ k, k < j → 4294967295 ≤ (s1.frame_table ((hand + k) % s1.num_frames)).age) ∧
  (∀ v, x.victim = some v → ∃ i, i < j ∧ v = (hand + i) % s1.num_frames ∧
    x.min_age = (s1.frame_table v).age ∧ x.st.hand = (v + 1) % s1.num_frames ∧
    (∀ k, k < j → (s1.frame_table v).age ≤ (s1.frame_table ((hand + k) % s1.num_frames)).age) ∧
    (∀ k, k < i → (s1.frame_table v).age < (s1.frame_table ((hand + k) % s1.num_frames)).age))

/-- The victims of `k` successive calls of `RandomPager::select_victim_frame`. -/
def RandomPager_victims : Nat → State → List Nat
  | 0, _ => []
  | k + 1, s =>
    (RandomPager_select_victim_frame s).1 ::
      RandomPager_victims k (RandomPager_select_victim_frame s).2

/-- Three frames, the policy Random, one process with the pages 0 to 7 and the
random numbers 3 and 7. -/
def cfgR : Config :=
  { num_frames := 3, kind := PagerKind.Random,
    procs := [[{ start_vpage := 0, end_vpage := 7, write_protected := false,
                 file_mapped := false }]],
    random_numbers := [3, 7] }

/-- The `age = inst_count - frame->last_used_time` of frame `f` in
`WorkingSetPager::select_victim_frame`. -/
def WS_age (s : State) (f : Nat) : Nat := s.inst_count - (s.frame_table f).last_used_time

/-- The test `!pte->referenced && age > TAU` of `WorkingSetPager` for frame `f`
(`TAU = 49`). -/
def WS_old (s : State) (f : Nat) : Bool :=
  !(s.framePte f).referenced && decide (WS_age s f > 49)

/-- Frame `c` after `frame->last_used_time = inst_count` (an `unsigned int`). -/
def WS_touch (s : State) (c : Nat) : frame_t :=
  { s.frame_table c with last_used_time := s.inst_count % 2 ^ 32 }

/-- What the loop of `WorkingSetPager::select_victim_frame` does to a frame `c`
it passes: a referenced frame gets `last_used_time = inst_count` and its
referenced bit is cleared. -/
def WS_passed (s : State) (c : Nat) : State :=
  if (s.framePte c).referenced then
    (s.setFrame c (WS_touch s c)).setFrameRef c false
  else s

/-- Invariant of the loop of `WorkingSetPager::select_victim_frame` after `j`
frames, none of which passed the test. -/
def WSInv (s : State) (j : Nat) (x : WSScan) : Prop :=
  Same s x.st ∧ x.st.hand = (s.hand + j) % s.num_frames ∧
  (∀ f, f < s.num_frames → x.st.frame_table f =
    if f ∈ circ s.hand s.num_frames j ∧ (s.framePte f).referenced = true then
      WS_touch s f
    else s.frame_table f) ∧
  (∀ f, f < s.num_frames → x.st.framePte f =
    if f ∈ circ s.hand s.num_frames j then { s.framePte f with referenced := false }
    else s.framePte f) ∧
  (∀ k, k < j → WS_old s ((s.hand + k) % s.num_frames) = false) ∧
  (x.victim = none → x.max_age = 0 ∧
    ∀ k, k < j → (s.framePte ((s.hand + k) % s.num_frames)).referenced = false →
      WS_age s ((s.hand + k) % s.num_frames) = 0) ∧
  (∀ v, x.victim = some v → ∃ i, i < j ∧ v = (s.hand + i) % s.num_frames ∧
    (s.framePte v).referenced = false ∧ x.max_age = WS_age s v ∧
    (∀ k, k < j → (s.framePte ((s.hand + k) % s.num_frames)).referenced = false →
      WS_age s ((s.hand + k) % s.num_frames) ≤ WS_age s v) ∧
    (∀ k, k < i → (s.framePte ((s.hand + k) % s.num_frames)).referenced = false →
      WS_age s ((s.hand + k) % s.num_frames) < WS_age s v))

/-- Three frames, the policy WorkingSet, one process with the pages 0 to 7. -/
def cfgW : Config :=
  { num_frames := 3, kind := PagerKind.WorkingSet,
    procs := [[{ start_vpage := 0, end_vpage := 7, write_protected := false,
                 file_mapped := false }]],
    random_numbers := [1, 2, 3] }

/-- Seventy reads: page 0 at instructions 0 to 9, page 1 at instructions 10 to
19, page 2 at instructions 20 to 69. -/
def insW : List Instr :=
  List.replicate 10 ⟨'r', 0⟩ ++ List.replicate 10 ⟨'r', 1⟩ ++ List.replicate 50 ⟨'r', 2⟩

/-- The state in which `select_victim_frame` is called by the fault of `r 3` at
instruction 70, after `insW`. -/
def stW : State := ((run cfgW insW).getD (init cfgW)).tick.addCost 1

/-- No frame was last used after the current instruction. -/
def LastUsedLe (s : State) : Prop := ∀ f, (s.frame_table f).last_used_time ≤ s.inst_count

/-- From `s` to `t` the instruction counter is unchanged and every frame keeps
its `last_used_time` or gets the current instruction counter (as an
`unsigned int`). -/
structure Used (s t : State) : Prop where
  inst_count : t.inst_count = s.inst_count
  last : ∀ f, (t.frame_table f).last_used_time = (s.frame_table f).last_used_time ∨
    (t.frame_table f).last_used_time = s.inst_count % 2 ^ 32

/-- Three frames, the policy NRU, one process with the pages 0 to 7. -/
def cfgN : Config :=
  { num_frames := 3, kind := PagerKind.NRU,
    procs := [[{ start_vpage := 0, end_vpage := 7, write_protected := false,
                 file_mapped := false }]],
    random_numbers := [1, 2, 3] }

/-- Fifty reads: pages 0, 1 and 2 once each, then page 2 another 47 times. -/
def insN : List Instr :=
  [⟨'r', 0⟩, ⟨'r', 1⟩, ⟨'r', 2⟩] ++ List.replicate 47 ⟨'r', 2⟩

/-- The state in which `select_victim_frame` is called by the fault of `r 3` at
instruction 50, after `insN`: 51 instructions are counted, no reset happened
yet, and the pages of all three frames are referenced. -/
def stN : State := ((run cfgN insN).getD (init cfgN)).tick.addCost 1

/-- Every frame of the table other than `hole` is on the free list or in use
(`pid != -1`); `hole` is the frame taken by `get_frame` and not yet mapped. -/
def FullBut (hole : Option Nat) (s : State) : Prop :=
  ∀ f, f < s.num_frames → some f ≠ hole → f ∈ s.free_pool ∨ (s.frame_table f).pid ≠ -1

/-- The processes that execute a memory reference: the value of
`current_process` at each `r` and `w` of the instruction list, where `cur` is
the current process before the first instruction and `c` sets it. -/
def referencing : Nat → List Instr → List Nat
  | _, [] => []
  | cur, i :: rest =>
    if i.operation = 'c' then referencing i.vpage rest
    else if i.operation = 'r' ∨ i.operation = 'w' then cur :: referencing cur rest
    else referencing cur rest

/-- Process `q` has no trace in the state: its counters are zero, none of its
pages is present and no frame in use belongs to it. -/
structure Untouched (q : Nat) (s : State) : Prop where
  stats : s.stats q = pstats_zero
  absent : ∀ v, (s.pte q v).present = false
  frames : ∀ f, (s.frame_table f).pid ≠ -1 → (s.frame_table f).pid.toNat ≠ q

/-- Two frames, the policy FIFO, two processes with the pages 0 to 7 each. -/
def cfgI : Config :=
  { num_frames := 2, kind := PagerKind.FIFO,
    procs := [[{ start_vpage := 0, end_vpage := 7, write_protected := false,
                 file_mapped := false }],
              [{ start_vpage := 0, end_vpage := 7, write_protected := false,
                 file_mapped := false }]],
    random_numbers := [1, 2, 3] }

/-- Process 0 references three pages; process 1 is switched to and exits in
between without a reference. -/
def insI : List Instr :=
  [⟨'c', 0⟩, ⟨'r', 0⟩, ⟨'w', 1⟩, ⟨'c', 1⟩, ⟨'e', 1⟩, ⟨'c', 0⟩, ⟨'r', 2⟩]

/-- Four frames, the policy FIFO and two processes: process 0 with the
file-mapped pages 0..3 and the anonymous pages 4..7, process 1 with the
anonymous pages 0..7. -/
def cfgE : Config :=
  { num_frames := 4, kind := PagerKind.FIFO,
    procs := [[{ start_vpage := 0, end_vpage := 3, write_protected := false,
                 file_mapped := true },
               { start_vpage := 4, end_vpage := 7, write_protected := false,
                 file_mapped := false }],
              [{ start_vpage := 0, end_vpage := 7, write_protected := false,
                 file_mapped := false }]],
    random_numbers := [1, 2, 3] }

/-- The instruction stream `c 1; w 0; c 0; r 0; w 1; w 4`. -/
def insE : List Instr :=
  [⟨'c', 1⟩, ⟨'w', 0⟩, ⟨'c', 0⟩, ⟨'r', 0⟩, ⟨'w', 1⟩, ⟨'w', 4⟩]

/-- The state of `cfgE` after `insE`: process 1 holds frame 0, the current
process 0 holds the frames 1, 2 and 3 with its pages 0, 1 (written,
file-mapped) and 4 (written, anonymous). -/
def stE : State := (run cfgE insE).getD (init cfgE)

/-- Two frames, the policy FIFO and one process with the write-protected pages
0..3 and the writable pages 4..7. -/
def cfgP : Config :=
  { num_frames := 2, kind := PagerKind.FIFO,
    procs := [[{ start_vpage := 0, end_vpage := 3, write_protected := true,
                 file_mapped := false },
               { start_vpage := 4, end_vpage := 7, write_protected := false,
                 file_mapped := false }]],
    random_numbers := [1, 2, 3] }

/-- The instruction stream `w 0; w 4`. -/
def insP : List Instr := [⟨'w', 0⟩, ⟨'w', 4⟩]

/-- The state of `cfgP` after `insP`: frame 0 holds the write-protected page 0
after a refused write, frame 1 the written page 4; the free list is empty. -/
def stP : State := (run cfgP insP).getD (init cfgP)

/-- The command line `-f0 -af` with one process owning pages 0..7: no frame at
all, which `main` accepts. -/
def cfgZ : Config :=
  { num_frames := 0, kind := PagerKind.FIFO,
    procs := [[{ start_vpage := 0, end_vpage := 7, write_protected := false,
                 file_mapped := false }]],
    random_numbers := [1, 2, 3] }

end MMU

namespace Disk

/-! ## Disk scheduler (`ioscheduler.cpp`) -/

/-- `class IORequest`.  The field `issue_track` is not in the source: it
records the value of `current_track` printed by the ` issue ` trace line when
the request was issued. -/
structure IORequest where
  id : Nat
  arrival_time : Nat
  track : Nat
  start_time : Nat
  end_time : Nat
  issue_track : Int
deriving DecidableEq, Repr

/-- The five `IOScheduler` subclasses built by `createScheduler`. -/
inductive SchedKind where
  | FIFO | SSTF | LOOK | CLOOK | FLOOK
deriving DecidableEq, Repr

/-- `createScheduler`: `none` is the `std::invalid_argument` of the default case. -/
def createScheduler (algo : Char) : Option SchedKind :=
  if algo = 'N' then some SchedKind.FIFO
  else if algo = 'S' then some SchedKind.SSTF
  else if algo = 'L' then some SchedKind.LOOK
  else if algo = 'C' then some SchedKind.CLOOK
  else if algo = 'F' then some SchedKind.FLOOK
  else none

/-- The members of the scheduler object: the `queue` of the base class, and
`active_queue`, `add_queue`, `direction` of the LOOK and FLOOK subclasses.
A request pointer is the index of the request in `all_requests`. -/
structure Scheduler where
  kind : SchedKind
  queue : List Nat
  active_queue : List Nat
  add_queue : List Nat
  direction : Bool
deriving DecidableEq, Repr

/-- The scheduler object right after construction (`direction(true)`). -/
def Scheduler.new (k : SchedKind) : Scheduler :=
  { kind := k, queue := [], active_queue := [], add_queue := [], direction := true }

/-- `(*it)->track` for a request pointer `i`. -/
def trackOf (reqs : List IORequest) (i : Nat) : Int :=
  match reqs[i]? with
  | some r => (r.track : Int)
  | none => 0

/-- `*pos` followed by `erase(pos)` on a list of request pointers. -/
def takeAt (q : List Nat) (pos : Nat) : Option Nat × List Nat := (q[pos]?, q.eraseIdx pos)

/-- Assignment through a request pointer: apply `f` to the request at index `i`. -/
def updateAt (f : IORequest → IORequest) : List IORequest → Nat → List IORequest
  | [], _ => []
  | r :: rest, 0 => f r :: rest
  | r :: rest, i + 1 => r :: updateAt f rest i

/-- `addRequest`: FLOOK appends to `add_queue`, the others to `queue`. -/
def addRequest (sch : Scheduler) (i : Nat) : Scheduler :=
  match sch.kind with
  | SchedKind.FLOOK => { sch with add_queue := sch.add_queue ++ [i] }
  | _ => { sch with queue := sch.queue ++ [i] }

/-- `isEmpty`. -/
def isEmpty (sch : Scheduler) : Bool :=
  match sch.kind with
  | SchedKind.FLOOK => sch.active_queue.isEmpty && sch.add_queue.isEmpty
  | _ => sch.queue.isEmpty

/-- The loop of `SSTFScheduler::getNextRequest`: position of the first request
at minimum distance; `pos` is the position of the head of the list, `closest`
and `cd` the position and distance of the best request so far. -/
def sstf_scan (d : Nat → Nat) : List Nat → Nat → Nat → Nat → Nat
  | [], _, closest, _ => closest
  | r :: rest, pos, closest, cd =>
    if d r < cd then sstf_scan d rest (pos + 1) pos (d r)
    else sstf_scan d rest (pos + 1) closest cd

/-- The predicate of the two `std::find_if` calls of `LOOKScheduler` and the
test of `FLOOKScheduler::findNextRequest`: the request lies in the direction. -/
def inDirection (direction : Bool) (current_track : Int) (track : Int) : Bool :=
  (direction && decide (track ≥ current_track)) ||
    (!direction && decide (track ≤ current_track))

/-- The last loop of `LOOKScheduler::getNextRequest`, run from the position
`next` found by `find_if`: `closest` and `ct` are the position and the track of
the best request so far. -/
def look_scan (direction : Bool) (current_track : Int) (trk : Nat → Int) :
    List Nat → Nat → Nat → Int → Nat
  | [], _, closest, _ => closest
  | r :: rest, pos, closest, ct =>
    if (direction && decide (trk r ≥ current_track) && decide (trk r < ct)) ||
       (!direction && decide (trk r ≤ current_track) && decide (trk r > ct)) then
      look_scan direction current_track trk rest (pos + 1) pos (trk r)
    else look_scan direction current_track trk rest (pos + 1) closest ct

/-- The loop of `CLOOKScheduler::getNextRequest`: `lowest` is the position of
the first request of smallest track, `next` the position of the first request
of smallest track among those at or above `current_track` (`none` is
`queue.end()`); `lt` and `nt` are their tracks. -/
def clook_scan (current_track : Int) (trk : Nat → Int) :
    List Nat → Nat → Nat → Int → Option (Nat × Int) → Nat × Option (Nat × Int)
  | [], _, lowest, _, next => (lowest, next)
  | r :: rest, pos, lowest, lt, next =>
    let low := if trk r < lt then (pos, trk r) else (lowest, lt)
    let nxt :=
      if decide (trk r ≥ current_track) &&
          (match next with
           | none => true
           | some n => decide (trk r < n.2)) then some (pos, trk r)
      else next
    clook_scan current_track trk rest (pos + 1) low.1 low.2 nxt

/-- `FLOOKScheduler::findNextRequest`: position of the first request at
minimum distance in the direction, `none` is `active_queue.end()`;
`min_distance` starts at `INT_MAX`. -/
def flook_scan (direction : Bool) (current_track : Int) (trk : Nat → Int) :
    List Nat → Nat → Option Nat → Int → Option Nat
  | [], _, best, _ => best
  | r :: rest, pos, best, min_distance =>
    if inDirection direction current_track (trk r) = true ∧
        |trk r - current_track| < min_distance then
      flook_scan direction current_track trk rest (pos + 1) (some pos) |trk r - current_track|
    else flook_scan direction current_track trk rest (pos + 1) best min_distance

/-- `INT_MAX`. -/
def INT_MAX : Int := 2147483647

/-- `FIFOScheduler::getNextRequest`. -/
def FIFO_getNextRequest (sch : Scheduler) : Option Nat × Scheduler :=
  match sch.queue with
  | [] => (none, sch)
  | i :: rest => (some i, { sch with queue := rest })

/-- `SSTFScheduler::getNextRequest`. -/
def SSTF_getNextRequest (reqs : List IORequest) (current_track : Int) (sch : Scheduler) :
    Option Nat × Scheduler :=
  match sch.queue with
  | [] => (none, sch)
  | i :: rest =>
    let d : Nat → Nat := fun r => (trackOf reqs r - current_track).natAbs
    let closest := sstf_scan d (i :: rest) 0 0 (d i)
    let r := takeAt sch.queue closest
    (r.1, { sch with queue := r.2 })

/-- `LOOKScheduler::getNextRequest`. -/
def LOOK_getNextRequest (reqs : List IORequest) (current_track : Int) (sch : Scheduler) :
    Option Nat × Scheduler :=
  if sch.queue.isEmpty then (none, sch)
  else
    let trk := trackOf reqs
    let found := sch.queue.findIdx? (fun r => inDirection sch.direction current_track (trk r))
    let sch1 : Scheduler :=
      match found with
      | some _ => sch
      | none => { sch with direction := !sch.direction }
    let next :=
      match found with
      | some n => some n
      | none => sch.queue.findIdx? (fun r => inDirection sch1.direction current_track (trk r))
    match next with
    | none => (none, sch1)
    | some n =>
      let closest := look_scan sch1.direction current_track trk (sch.queue.drop n) n n
        (trk (sch.queue.getD n 0))
      let r := takeAt sch1.queue closest
      (r.1, { sch1 with queue := r.2 })

/-- `CLOOKScheduler::getNextRequest`. -/
def CLOOK_getNextRequest (reqs : List IORequest) (current_track : Int) (sch : Scheduler) :
    Option Nat × Scheduler :=
  match sch.queue with
  | [] => (none, sch)
  | i :: rest =>
    let trk := trackOf reqs
    let r := clook_scan current_track trk (i :: rest) 0 0 (trk i) none
    let next :=
      match r.2 with
      | some n => n.1
      | none => r.1
    let t := takeAt sch.queue next
    (t.1, { sch with queue := t.2 })

/-- `FLOOKScheduler::getNextRequest`. -/
def FLOOK_getNextRequest (reqs : List IORequest) (current_track : Int) (sch : Scheduler) :
    Option Nat × Scheduler :=
  if sch.active_queue.isEmpty ∧ sch.add_queue.isEmpty then (none, sch)
  else
    let sch0 : Scheduler :=
      if sch.active_queue.isEmpty then
        { sch with active_queue := sch.add_queue, add_queue := sch.active_queue }
      else sch
    let trk := trackOf reqs
    let first := flook_scan sch0.direction current_track trk sch0.active_queue 0 none INT_MAX
    let sch1 : Scheduler :=
      match first with
      | some _ => sch0
      | none => { sch0 with direction := !sch0.direction }
    let next :=
      match first with
      | some n => some n
      | none => flook_scan sch1.direction current_track trk sch1.active_queue 0 none INT_MAX
    match next with
    | none => (none, sch1)
    | some n =>
      let t := takeAt sch1.active_queue n
      (t.1, { sch1 with active_queue := t.2 })

/-- `scheduler->getNextRequest(current_track)`. -/
def getNextRequest (reqs : List IORequest) (current_track : Int) (sch : Scheduler) :
    Option Nat × Scheduler :=
  match sch.kind with
  | SchedKind.FIFO => FIFO_getNextRequest sch
  | SchedKind.SSTF => SSTF_getNextRequest reqs current_track sch
  | SchedKind.LOOK => LOOK_getNextRequest reqs current_track sch
  | SchedKind.CLOOK => CLOOK_getNextRequest reqs current_track sch
  | SchedKind.FLOOK => FLOOK_getNextRequest reqs current_track sch

/-- `class DiskSimulator` together with the iterator `next_req` of
`simulation` (an index into `all_requests`). -/
structure Sim where
  scheduler : Scheduler
  current_track : Int
  current_time : Nat
  all_requests : List IORequest
  next_req : Nat
  active_request : Option Nat
  total_movement : Nat
  max_wait_time : Nat
  total_turnaround_time : Nat
  total_wait_time : Nat
  io_busy_time : Nat
deriving Repr

/-- Update of the request behind a pointer. -/
def Sim.modifyRequest (s : Sim) (i : Nat) (f : IORequest → IORequest) : Sim :=
  { s with all_requests := updateAt f s.all_requests i }

/-- The inner `while` of `simulation` (lines 325-335): hand every request that
has arrived to the scheduler.  `n` bounds the number of iterations by the
number of requests not yet handed over. -/
def arrivals : Nat → Sim → Sim
  | 0, s => s
  | n + 1, s =>
    match s.all_requests[s.next_req]? with
    | none => s
    | some r =>
      if r.arrival_time ≤ s.current_time then
        arrivals n { s with scheduler := addRequest s.scheduler s.next_req,
                            next_req := s.next_req + 1 }
      else s

/-- Lines 337-346 of `simulation`: ask the scheduler for a request when the
disk is idle. -/
def issue (s : Sim) : Sim :=
  match s.active_request with
  | some _ => s
  | none =>
    let r := getNextRequest s.all_requests s.current_track s.scheduler
    let s1 := { s with scheduler := r.2, active_request := r.1 }
    match r.1 with
    | none => s1
    | some i =>
      s1.modifyRequest i (fun q =>
        { q with start_time := max s.current_time q.arrival_time,
                 issue_track := s.current_track })

/-- `DiskSimulator::finishRequest` for the active request `i`. -/
def finishRequest (s : Sim) (i : Nat) : Sim :=
  let s1 := s.modifyRequest i (fun q => { q with end_time := s.current_time })
  match s1.all_requests[i]? with
  | none => { s1 with active_request := none }
  | some q =>
    let turnaround_time := s.current_time - q.arrival_time
    let wait_time := q.start_time - q.arrival_time
    { s1 with total_turnaround_time := s1.total_turnaround_time + turnaround_time,
              total_wait_time := s1.total_wait_time + wait_time,
              max_wait_time := max s1.max_wait_time wait_time,
              active_request := none }

/-- `DiskSimulator::moveHead` for the active request `i`. -/
def moveHead (s : Sim) (i : Nat) : Sim :=
  let direction : Int := if trackOf s.all_requests i > s.current_track then 1 else -1
  { s with current_track := s.current_track + direction,
           current_time := s.current_time + 1,
           total_movement := s.total_movement + 1,
           io_busy_time := s.io_busy_time + 1 }

/-- One iteration of the `while (true)` loop of `simulation`; the flag is
`true` when the iteration ends with the `break`. -/
def iteration (s : Sim) : Bool × Sim :=
  let s1 := arrivals (s.all_requests.length - s.next_req) s
  let s2 := issue s1
  match s2.active_request with
  | some i =>
    if s2.current_track = trackOf s2.all_requests i then (false, finishRequest s2 i)
    else (false, moveHead s2 i)
  | none =>
    if s2.next_req ≥ s2.all_requests.length ∧ isEmpty s2.scheduler = true then (true, s2)
    else (false, { s2 with current_time := s2.current_time + 1 })

/-- The `while (true)` loop of `simulation` with a bound on the number of
iterations: `some s` is the state at the `break`, `none` means the bound was
reached first. -/
def loop : Nat → Sim → Option Sim
  | 0, _ => none
  | fuel + 1, s =>
    match iteration s with
    | (true, s1) => some s1
    | (false, s1) => loop fuel s1

/-- The simulator right after construction and the `addRequest` calls of `main`. -/
def Sim.new (k : SchedKind) (reqs : List IORequest) : Sim :=
  { scheduler := Scheduler.new k, current_track := 0, current_time := 0,
    all_requests := reqs, next_req := 0, active_request := none, total_movement := 0,
    max_wait_time := 0, total_turnaround_time := 0, total_wait_time := 0, io_busy_time := 0 }

/-- `parseInputFile` on the input lines `arrival_time track` (comment and
empty lines left out): `none` is a `std::runtime_error`, thrown for a track
above `INT_MAX` and for an input without requests. -/
def parseInputFile (lines : List (Nat × Nat)) : Option (List IORequest) :=
  if lines.any (fun x => decide ((x.2 : Int) > INT_MAX)) then none
  else if lines.isEmpty then none
  else
    some (lines.enum.map (fun x =>
      { id := x.1, arrival_time := x.2.1, track := x.2.2, start_time := 0, end_time := 0,
        issue_track := 0 }))

/-- The `std::sort` of `simulation` by `arrival_time`.  `std::sort` leaves the
order of requests of equal arrival time unspecified; the stable order is taken
here. -/
def sortByArrival (reqs : List IORequest) : List IORequest :=
  reqs.insertionSort (fun a b => a.arrival_time ≤ b.arrival_time)

/-- `DiskSimulator::simulation` on the sorted request list `reqs`, with a bound
on the number of loop iterations. -/
def simulationFrom (k : SchedKind) (reqs : List IORequest) (fuel : Nat) : Option Sim :=
  loop fuel (Sim.new k reqs)

/-- `main` for the scheduler `k` and the input `lines`: `parseInputFile`, the
`addRequest` calls and `simulation`.  The call `setMaxTracks(max_tracks)` made
in between, which throws when the largest track of the input is 0, is not part
of this definition: it is `DiskSimulator::simulation` on the parsed input. -/
def simulation (k : SchedKind) (lines : List (Nat × Nat)) (fuel : Nat) : Option Sim :=
  match parseInputFile lines with
  | none => none
  | some reqs => simulationFrom k (sortByArrival reqs) fuel

/-! ### Invariant of the disk simulation -/

/-- The requests held by the scheduler. -/
def members (sch : Scheduler) : List Nat :=
  match sch.kind with
  | SchedKind.FLOOK => sch.active_queue ++ sch.add_queue
  | _ => sch.queue

/-- What every policy guarantees about `getNextRequest`: the request returned
was held, every request held is returned or still held, nothing new is held. -/
def NextOK (sch : Scheduler) (r : Option Nat × Scheduler) : Prop :=
  (∀ i, r.1 = some i → i ∈ members sch) ∧
  (∀ j, j ∈ members sch → r.1 = some j ∨ j ∈ members r.2) ∧
  (∀ j, j ∈ members r.2 → j ∈ members sch) ∧ r.2.kind = sch.kind

/-- The input data of a request: what `parseInputFile` read. -/
def IORequest.key (r : IORequest) : Nat × Nat × Nat := (r.id, r.arrival_time, r.track)

/-- The property of a request once it is finished: `arrival ≤ start ≤ end`
and `end − start = |track − T|`, where `T` is the track of the head when the
request was issued. -/
def ReqOK (r : IORequest) : Prop :=
  r.arrival_time ≤ r.start_time ∧ r.start_time ≤ r.end_time ∧
    (r.end_time : Int) - (r.start_time : Int) = |(r.track : Int) - r.issue_track|

/-- The property of the active request while the head moves towards it: the
time still needed is the distance still to go. -/
def InFlight (s : Sim) (r : IORequest) : Prop :=
  r.arrival_time ≤ r.start_time ∧ r.start_time ≤ s.current_time ∧
    (s.current_time : Int) + |(r.track : Int) - s.current_track| =
      (r.start_time : Int) + |(r.track : Int) - r.issue_track|

/-- Invariant of the loop of `simulation`: every request is not yet handed
over, held by the scheduler, active, or finished with the right times. -/
structure Inv (s : Sim) : Prop where
  arrived : ∀ i r, i ∈ members s.scheduler → s.all_requests[i]? = some r →
    r.arrival_time ≤ s.current_time
  act : ∀ i r, s.active_request = some i → s.all_requests[i]? = some r → InFlight s r
  status : ∀ i r, s.all_requests[i]? = some r →
    s.next_req ≤ i ∨ i ∈ members s.scheduler ∨ s.active_request = some i ∨ ReqOK r

/-- Requests of the sample run: `0 20`, `1 5`, `2 15`, sorted by arrival. -/
def reqsW : List IORequest := sortByArrival ((parseInputFile [(0, 20), (1, 5), (2, 15)]).getD [])

/-- State at the end of the sample run under LOOK. -/
def simW : Sim := (simulationFrom SchedKind.LOOK reqsW 50).getD (Sim.new SchedKind.LOOK reqsW)

/-- Position `pos` of the queue `q` holds the first request, among those
satisfying `p`, of least `key`: no request satisfying `p` has a smaller key and
none before `pos` has the same key. -/
def FirstLeast (q : List Nat) (p : Nat → Bool) (key : Nat → Int) (pos : Nat) : Prop :=
  ∃ r, q[pos]? = some r ∧ p r = true ∧
    (∀ (j x : Nat), q[j]? = some x → p x = true → key r ≤ key x) ∧
    (∀ (j x : Nat), j < pos → q[j]? = some x → p x = true → key r < key x)

/-- The requests of a scheduler `sch` of the sample calls: tracks 30, 10, 50
and 12. -/
def reqsQ : List IORequest :=
  (parseInputFile [(0, 30), (0, 10), (0, 50), (0, 12)]).getD []

/-- An SSTF scheduler holding the four requests of `reqsQ`. -/
def schS : Scheduler := { Scheduler.new SchedKind.SSTF with queue := [0, 1, 2, 3] }

/-- A LOOK scheduler holding the four requests of `reqsQ`, direction up. -/
def schL : Scheduler := { Scheduler.new SchedKind.LOOK with queue := [0, 1, 2, 3] }

/-- What the variable `next` of the loop of `CLOOKScheduler::getNextRequest`
holds after the requests `q`: `queue.end()` when no request is at or above
`current_track`, otherwise the first request of least track among those. -/
def ClookNext (cur : Int) (trk : Nat → Int) (q : List Nat) (next : Option (Nat × Int)) : Prop :=
  match next with
  | none => ∀ x, x ∈ q → decide (trk x ≥ cur) = false
  | some n => FirstLeast q (fun x => decide (trk x ≥ cur)) trk n.1 ∧
      ∃ x, q[n.1]? = some x ∧ n.2 = trk x

/-- A CLOOK scheduler holding the four requests of `reqsQ`. -/
def schC : Scheduler := { Scheduler.new SchedKind.CLOOK with queue := [0, 1, 2, 3] }

/-- What `best` and `min_distance` of `FLOOKScheduler::findNextRequest` hold
after the requests `q`: `active_queue.end()` and `INT_MAX` when no request lies
in the direction, otherwise the first request of least distance among those in
the direction, and its distance. -/
def FlookBest (d : Bool) (cur : Int) (trk : Nat → Int) (q : List Nat) (best : Option Nat)
    (md : Int) : Prop :=
  match best with
  | none => md = INT_MAX ∧ ∀ x, x ∈ q → inDirection d cur (trk x) = false
  | some c => FirstLeast q (fun x => inDirection d cur (trk x)) (fun x => |trk x - cur|) c ∧
      ∃ b, q[c]? = some b ∧ md = |trk b - cur|

/-- The requests of the sample call at the edge of the track range: one
request for track `INT_MAX`. -/
def reqsM : List IORequest := (parseInputFile [(0, 2147483647)]).getD []

/-- A FLOOK scheduler whose active queue holds the four requests of `reqsQ`. -/
def schFL : Scheduler := { Scheduler.new SchedKind.FLOOK with active_queue := [0, 1, 2, 3] }

/-- A call on a scheduler: `addRequest(r)` or `getNextRequest(current_track)`. -/
inductive FlookOp where
  | add (r : Nat)
  | get (current_track : Int)
deriving Repr, DecidableEq

/-- One call: what it returned (`none` for `addRequest` and for `nullptr`) and
the scheduler after it. -/
def flookCall (reqs : List IORequest) (sch : Scheduler) : FlookOp → Option Nat × Scheduler
  | FlookOp.add r => (none, addRequest sch r)
  | FlookOp.get t => getNextRequest reqs t sch

/-- The values returned by a sequence of calls, in order. -/
def flookCalls (reqs : List IORequest) : Scheduler → List FlookOp → List (Option Nat)
  | _, [] => []
  | sch, op :: ops =>
    (flookCall reqs sch op).1 :: flookCalls reqs (flookCall reqs sch op).2 ops

/-- A FLOOK scheduler whose active queue holds the requests 0 and 1 of
`reqsQ`. -/
def schF2 : Scheduler := { Scheduler.new SchedKind.FLOOK with active_queue := [0, 1] }

/-- The tracks of the requests in the order in which they were finished
(ascending `end_time`). -/
def finishOrder (s : Sim) : List Nat :=
  (s.all_requests.insertionSort (fun a b => a.end_time ≤ b.end_time)).map (fun r => r.track)

/-- The state of the FLOOK run on the single request for track `INT_MAX` at the
start of every iteration after the first: the request waits in the active
queue, the head stays on track 0, and only the direction and the time change. -/
def stuck (d : Bool) (t : Nat) : Sim :=
  { Sim.new SchedKind.FLOOK reqsM with
    scheduler := { Scheduler.new SchedKind.FLOOK with active_queue := [0], direction := d },
    current_time := t, next_req := 1 }

/-- Progress of `getNextRequest`: it hands out one of the requests held, or it
returns `nullptr` and no request is held. -/
def Live (sch : Scheduler) (r : Option Nat × Scheduler) : Prop :=
  r.2.kind = sch.kind ∧
  ((∃ i, r.1 = some i ∧ (members r.2).length + 1 = (members sch).length) ∨
    (r.1 = none ∧ members sch = [] ∧ members r.2 = []))

/-- The bounds under which the loop of `simulation` is shown to end: the head
and every requested track lie in `0..T`, every arrival time is at most `A`, and
under FLOOK `T` is below `INT_MAX`. -/
structure Within (A T : Nat) (s : Sim) : Prop where
  track_lo : 0 ≤ s.current_track
  track_hi : s.current_track ≤ T
  tracks : ∀ r, r ∈ s.all_requests → r.track ≤ T
  arrive : ∀ r, r ∈ s.all_requests → r.arrival_time ≤ A
  flook : s.scheduler.kind = SchedKind.FLOOK → (T : Int) < INT_MAX

/-- The work left for the active request: the distance to its track and the
iteration that finishes it. -/
def actWork (s : Sim) : Nat :=
  match s.active_request with
  | some i => (trackOf s.all_requests i - s.current_track).natAbs + 1
  | none => 0

/-- A bound on the number of iterations left: the time until the last arrival,
`T + 1` iterations for every request not yet issued, and the work left for the
active request. -/
def mu (A T : Nat) (s : Sim) : Nat :=
  (A - s.current_time) +
    (s.all_requests.length - s.next_req + (members s.scheduler).length) * (T + 1) + actWork s

/-- The greatest value of `f` over the input lines. -/
def maxOf (f : Nat × Nat → Nat) (lines : List (Nat × Nat)) : Nat :=
  lines.foldr (fun x m => max (f x) m) 0

/-- The six orders of the input lines `0 10`, `0 30`, `0 5` of disk
scenario 6. -/
def linesC : List (List (Nat × Nat)) :=
  [[(0, 10), (0, 30), (0, 5)], [(0, 10), (0, 5), (0, 30)], [(0, 30), (0, 10), (0, 5)],
   [(0, 30), (0, 5), (0, 10)], [(0, 5), (0, 10), (0, 30)], [(0, 5), (0, 30), (0, 10)]]

/-- What every policy guarantees about the requests held across
`getNextRequest`: the request returned is taken out once, the others stay, each
as often as before. -/
def NextPerm (sch : Scheduler) (r : Option Nat × Scheduler) : Prop :=
  (∀ i, r.1 = some i → (members sch).Perm (i :: members r.2)) ∧
  (r.1 = none → (members sch).Perm (members r.2))

/-- The time for which the head has moved for request `i` so far: nothing
before the request is issued, `current_time - start_time` while it is the
active request, `end_time - start_time` once it is finished. -/
def moved (s : Sim) (i : Nat) : Nat :=
  if s.next_req ≤ i ∨ i ∈ members s.scheduler then 0
  else
    match s.all_requests[i]? with
    | none => 0
    | some r =>
      if s.active_request = some i then s.current_time - r.start_time
      else r.end_time - r.start_time

/-- Invariant of the loop of `simulation` for the movement counters: the two
counters agree and do not exceed the clock, no request is held twice, a request
held or active has been handed over, and `total_movement` is the sum of the
movement done for each request. -/
structure Busy (s : Sim) : Prop where
  busy : s.total_movement = s.io_busy_time
  le : s.io_busy_time ≤ s.current_time
  nodup : (members s.scheduler).Nodup
  held : ∀ i, i ∈ members s.scheduler → i < s.next_req
  act : ∀ i, s.active_request = some i → i < s.next_req ∧ i ∉ members s.scheduler
  next_le : s.next_req ≤ s.all_requests.length
  sum : s.total_movement = ((List.range s.all_requests.length).map (moved s)).sum

/-- The quotient `io_busy_time / current_time` that `printSummary` reports as
the I/O utilisation (computed there in `double`); 0 when `current_time` is 0. -/
def io_utilization (s : Sim) : ℚ :=
  if s.current_time > 0 then (s.io_busy_time : ℚ) / (s.current_time : ℚ) else 0

end Disk

namespace Sched

/-! ## CPU scheduler (`iosched.cpp`) -/

/-- Process states (`enum ProcessState`). -/
inductive ProcessState where
  | STATE_CREATED | STATE_READY | STATE_RUNNING | STATE_BLOCKED | STATE_FINISHED
deriving DecidableEq, Repr

/-- Fields of `class Process`; the `int` fields are integers. -/
structure Process where
  pid : Int
  arrival_time : Int
  total_cpu_time : Int
  cpu_burst : Int
  io_burst : Int
  static_priority : Int
  dynamic_priority : Int
  finish_time : Int
  cpu_waiting_time : Int
  io_time : Int
  cpu_time_remaining : Int
  current_cpu_burst : Int
  state_ts : Int
  state : ProcessState
deriving DecidableEq, Repr

/-- Constructor `Process(_pid, at, tc, cb, io)`. -/
def Process.new (pid arr tc cb io : Int) : Process :=
  { pid := pid, arrival_time := arr, total_cpu_time := tc, cpu_burst := cb, io_burst := io,
    static_priority := 0, dynamic_priority := 0, finish_time := 0, cpu_waiting_time := 0,
    io_time := 0, cpu_time_remaining := tc, current_cpu_burst := 0, state_ts := 0,
    state := ProcessState.STATE_CREATED }

/-- Event kinds (`enum Transition`). -/
inductive Transition where
  | TRANS_TO_READY | TRANS_TO_RUN | TRANS_TO_BLOCK | TRANS_TO_PREEMPT
deriving DecidableEq, Repr

/-- Fields of `class Event`.  The pointer `process` is the index of the process
in `DES_Layer::processes`, which is also its `pid` (`read_input_file` numbers
the processes in the order in which it stores them); it is never null. -/
structure Event where
  timestamp : Int
  process : Nat
  transition : Transition
deriving DecidableEq, Repr

/-- `EventComparator::operator()` on two events whose processes are not null:
`true` means that `e1` leaves the queue after `e2`. -/
def EventComparator (e1 e2 : Event) : Bool :=
  if e1.timestamp = e2.timestamp then decide ((e1.process : Int) > (e2.process : Int))
  else decide (e1.timestamp > e2.timestamp)

/-- `EventQueue::add_event`, that is `std::priority_queue::push`.  The queue is
the list of its events in the order in which `top` and `pop` deliver them: the
new event goes behind every event that the comparator does not put after it.
Between two events that the comparator does not order (same timestamp and same
process) `std::priority_queue` fixes no order; the list keeps them in insertion
order. -/
def EventQueue.add_event (evt : Event) : List Event → List Event
  | [] => [evt]
  | e :: rest =>
    if EventComparator e evt then evt :: e :: rest
    else e :: EventQueue.add_event evt rest

/-- `EventQueue::get_next_event`: `none` is the `nullptr` of the empty queue. -/
def EventQueue.get_next_event (events : List Event) : Option Event × List Event :=
  match events with
  | [] => (none, [])
  | evt :: rest => (some evt, rest)

/-- `EventQueue::peek`. -/
def EventQueue.peek (events : List Event) : Option Event := events.head?

/-- The six scheduler classes. -/
inductive SchedKind where
  | FCFS | LCFS | SRTF | RR | PRIO | PREPRIO
deriving DecidableEq, Repr

/-- The scheduler object: `quantum` and `maxprio` of the base class, the
`runqueue` of FCFS, SRTF and RR (front of the queue, top of the heap first),
the `runstack` of LCFS (top first), `activeQ` and `expiredQ` of PRIO and
PREPRIO.  A process pointer is the index of the process. -/
structure Scheduler where
  kind : SchedKind
  quantum : Int
  maxprio : Int
  runqueue : List Nat
  runstack : List Nat
  activeQ : List (List Nat)
  expiredQ : List (List Nat)
deriving DecidableEq, Repr

/-- The scheduler specification of the command line, after the numbers are read. -/
inductive SchedSpec where
  | F | L | S
  | R (quantum : Int)
  | P (quantum : Int) (maxprio : Int)
  | E (quantum : Int) (maxprio : Int)
deriving DecidableEq, Repr

/-- The scheduler right after construction; the base class default is
`quantum = 10000`, `maxprio = 4`. -/
def Scheduler.new (kind : SchedKind) (quantum maxprio : Int) : Scheduler :=
  { kind := kind, quantum := quantum, maxprio := maxprio, runqueue := [], runstack := [],
    activeQ := List.replicate maxprio.toNat [], expiredQ := List.replicate maxprio.toNat [] }

/-- `create_scheduler`: `none` is the `exit(1)` of an invalid specification. -/
def create_scheduler (spec : SchedSpec) : Option Scheduler :=
  match spec with
  | SchedSpec.F => some (Scheduler.new SchedKind.FCFS 10000 4)
  | SchedSpec.L => some (Scheduler.new SchedKind.LCFS 10000 4)
  | SchedSpec.S => some (Scheduler.new SchedKind.SRTF 10000 4)
  | SchedSpec.R q => if q > 0 then some (Scheduler.new SchedKind.RR q 4) else none
  | SchedSpec.P q mp =>
    if q > 0 ∧ mp > 0 then some (Scheduler.new SchedKind.PRIO q mp) else none
  | SchedSpec.E q mp =>
    if q > 0 ∧ mp > 0 then some (Scheduler.new SchedKind.PREPRIO q mp) else none

/-- `SRTFScheduler::SRTFComparator`: `true` means that `p1` leaves the heap
after `p2`. -/
def SRTFComparator (p1 p2 : Process) : Bool :=
  if p1.cpu_time_remaining = p2.cpu_time_remaining then decide (p1.pid > p2.pid)
  else decide (p1.cpu_time_remaining > p2.cpu_time_remaining)

/-- `*proc` for a process pointer. -/
def procAt (processes : List Process) (p : Nat) : Process :=
  processes.getD p (Process.new 0 0 0 0 0)

/-- Assignment through a process pointer. -/
def modifyAt {α : Type} (f : α → α) : List α → Nat → List α
  | [], _ => []
  | x :: rest, 0 => f x :: rest
  | x :: rest, i + 1 => x :: modifyAt f rest i

/-- `std::priority_queue::push` of the SRTF run queue, kept in delivery order. -/
def srtf_push (processes : List Process) (p : Nat) : List Nat → List Nat
  | [] => [p]
  | q :: rest =>
    if SRTFComparator (procAt processes q) (procAt processes p) then p :: q :: rest
    else q :: srtf_push processes p rest

/-- `PrioScheduler::add_process`, inherited by PREPRIO.  It writes the dynamic
priority of the process, so the process table is returned as well. -/
def PrioScheduler_add_process (sch : Scheduler) (processes : List Process) (p : Nat) :
    Scheduler × List Process :=
  if (procAt processes p).dynamic_priority < 0 then
    let processes1 :=
      modifyAt (fun x => { x with dynamic_priority := x.static_priority - 1 }) processes p
    let d := (procAt processes1 p).dynamic_priority.toNat
    ({ sch with expiredQ := modifyAt (fun l => l ++ [p]) sch.expiredQ d }, processes1)
  else
    let d := (procAt processes p).dynamic_priority.toNat
    ({ sch with activeQ := modifyAt (fun l => l ++ [p]) sch.activeQ d }, processes)

/-- `add_process` of the six schedulers.  RR and PRIO write the dynamic
priority of the process, so the process table is returned as well. -/
def add_process (sch : Scheduler) (processes : List Process) (p : Nat) :
    Scheduler × List Process :=
  match sch.kind with
  | SchedKind.FCFS => ({ sch with runqueue := sch.runqueue ++ [p] }, processes)
  | SchedKind.LCFS => ({ sch with runstack := p :: sch.runstack }, processes)
  | SchedKind.SRTF => ({ sch with runqueue := srtf_push processes p sch.runqueue }, processes)
  | SchedKind.RR =>
    ({ sch with runqueue := sch.runqueue ++ [p] },
      modifyAt (fun x => { x with dynamic_priority := x.static_priority - 1 }) processes p)
  | SchedKind.PRIO => PrioScheduler_add_process sch processes p
  | SchedKind.PREPRIO => PrioScheduler_add_process sch processes p

/-- The `for (prio = maxprio - 1; prio >= 0; prio--)` loop of
`PrioScheduler::get_next_process` over `prio < n`: the first non-empty level and
its front process. -/
def prio_scan (q : List (List Nat)) : Nat → Option (Nat × Nat)
  | 0 => none
  | n + 1 =>
    match q.getD n [] with
    | p :: _ => some (n, p)
    | [] => prio_scan q n

/-- `PrioScheduler::has_expired_processes`. -/
def has_expired_processes (sch : Scheduler) : Bool :=
  sch.expiredQ.any (fun level => !level.isEmpty)

/-- `PrioScheduler::get_next_process`. -/
def PrioScheduler_get_next_process (sch : Scheduler) : Option Nat × Scheduler :=
  match prio_scan sch.activeQ sch.maxprio.toNat with
  | some (prio, next) => (some next, { sch with activeQ := modifyAt List.tail sch.activeQ prio })
  | none =>
    if has_expired_processes sch then
      let sch1 : Scheduler := { sch with activeQ := sch.expiredQ, expiredQ := sch.activeQ }
      match prio_scan sch1.activeQ sch1.maxprio.toNat with
      | some (prio, next) =>
        (some next, { sch1 with activeQ := modifyAt List.tail sch1.activeQ prio })
      | none => (none, sch1)
    else (none, sch)

/-- `get_next_process` of the six schedulers; `none` is `nullptr`. -/
def get_next_process (sch : Scheduler) : Option Nat × Scheduler :=
  match sch.kind with
  | SchedKind.LCFS =>
    match sch.runstack with
    | [] => (none, sch)
    | p :: rest => (some p, { sch with runstack := rest })
  | SchedKind.PRIO => PrioScheduler_get_next_process sch
  | SchedKind.PREPRIO => PrioScheduler_get_next_process sch
  | _ =>
    match sch.runqueue with
    | [] => (none, sch)
    | p :: rest => (some p, { sch with runqueue := rest })

/-- `test_preempt`: the base class and RR return `false`, `PrePrioScheduler`
overrides it.  `current_running` is `none` for `nullptr`. -/
def test_preempt (sch : Scheduler) (p : Process) (current_running : Option Process)
    (next_event : Option Event) (current_time : Int) : Bool :=
  match sch.kind with
  | SchedKind.PREPRIO =>
    match current_running with
    | none => false
    | some cur =>
      if p.dynamic_priority > cur.dynamic_priority then
        match next_event with
        | some ne => if ne.timestamp = current_time then false else true
        | none => true
      else false
  | _ => false

/-- `class DES_Layer`, with the local variable `last_time` of `run_simulation`. -/
structure DES where
  CURRENT_TIME : Int
  event_queue : List Event
  scheduler : Scheduler
  CURRENT_RUNNING_PROCESS : Option Nat
  CALL_SCHEDULER : Bool
  processes : List Process
  randvals : List Int
  rand_index : Nat
  processes_in_io : Int
  total_cpu_time : Int
  total_io_time : Int
  last_time : Int
deriving DecidableEq, Repr

/-- `*proc` in the simulator. -/
def DES.proc (s : DES) (p : Nat) : Process := procAt s.processes p

/-- Assignment to fields of `*proc`. -/
def DES.modifyProc (s : DES) (p : Nat) (f : Process → Process) : DES :=
  { s with processes := modifyAt f s.processes p }

/-- `DES_Layer::myrandom`; `%` is the truncating remainder of C++, defined for
a divisor `burst` other than 0 (with `burst = 0` the C++ expression is
undefined, while `Int.tmod v 0` is `v`). -/
def myrandom (s : DES) (burst : Int) : Int × DES :=
  let i := if s.rand_index ≥ s.randvals.length then 0 else s.rand_index
  (1 + Int.tmod (s.randvals.getD i 0) burst, { s with rand_index := i + 1 })

/-- `DES_Layer::add_event`. -/
def DES.add_event (s : DES) (timestamp : Int) (proc : Nat) (trans : Transition) : DES :=
  let evt : Event := { timestamp := timestamp, process := proc, transition := trans }
  { s with event_queue := EventQueue.add_event evt s.event_queue }

/-- `scheduler->add_process(proc)` in the simulator. -/
def DES.add_process (s : DES) (proc : Nat) : DES :=
  let r := Sched.add_process s.scheduler s.processes proc
  { s with scheduler := r.1, processes := r.2 }

/-- `DES_Layer::get_next_event_time`. -/
def get_next_event_time (s : DES) : Int :=
  match EventQueue.peek s.event_queue with
  | some next => next.timestamp
  | none => -1

/-- Body of the `while` loop of `read_input_file` for the input line
`at tc cb io` of the process number `pid`. -/
def read_process (s : DES) (line : Int × Int × Int × Int) : DES :=
  let pid := s.processes.length
  let proc := Process.new pid line.1 line.2.1 line.2.2.1 line.2.2.2
  let r := myrandom s s.scheduler.maxprio
  let proc1 := { proc with static_priority := r.1, dynamic_priority := r.1 - 1 }
  let s1 := { r.2 with processes := r.2.processes ++ [proc1] }
  s1.add_event line.1 pid Transition.TRANS_TO_READY

/-- The simulator after `set_scheduler`, `read_rfile` and `read_input_file`. -/
def read_input_file (sch : Scheduler) (randvals : List Int)
    (lines : List (Int × Int × Int × Int)) : DES :=
  lines.foldl read_process
    { CURRENT_TIME := 0, event_queue := [], scheduler := sch, CURRENT_RUNNING_PROCESS := none,
      CALL_SCHEDULER := false, processes := [], randvals := randvals, rand_index := 0,
      processes_in_io := 0, total_cpu_time := 0, total_io_time := 0, last_time := 0 }

/-- The `if (proc->state == STATE_BLOCKED)` block of `case TRANS_TO_READY`. -/
def end_io (s : DES) (proc : Nat) (timeInPrevState : Int) : DES :=
  if (s.proc proc).state = ProcessState.STATE_BLOCKED then
    let t := s.modifyProc proc (fun p =>
      { p with io_time := p.io_time + timeInPrevState,
               dynamic_priority := p.static_priority - 1 })
    { t with processes_in_io := t.processes_in_io - 1 }
  else s

/-- The preemption block of `case TRANS_TO_READY`: when a process is selected
and `test_preempt` holds, the event at the top of the queue is removed if it is
an event of the selected process, and a `TRANS_TO_PREEMPT` of the selected
process is added at the current time. -/
def preempt_running (s : DES) (proc : Nat) : DES :=
  let next_event := EventQueue.peek s.event_queue
  match s.CURRENT_RUNNING_PROCESS with
  | none => s
  | some cur =>
    if test_preempt s.scheduler (s.proc proc) (some (s.proc cur)) next_event
        s.CURRENT_TIME then
      let s1 :=
        match next_event with
        | some ne =>
          if ne.process = cur then
            { s with event_queue := (EventQueue.get_next_event s.event_queue).2 }
          else s
        | none => s
      s1.add_event s1.CURRENT_TIME cur Transition.TRANS_TO_PREEMPT
    else s

/-- `case TRANS_TO_READY` of `run_simulation`. -/
def case_TRANS_TO_READY (s : DES) (proc : Nat) (timeInPrevState : Int) : DES :=
  let s1 := end_io s proc timeInPrevState
  let s2 := s1.modifyProc proc (fun p =>
    { p with state := ProcessState.STATE_READY, state_ts := s1.CURRENT_TIME })
  let s3 := preempt_running s2 proc
  let s4 := s3.add_process proc
  { s4 with CALL_SCHEDULER := true }

/-- The `if (proc->current_cpu_burst == 0)` block of `case TRANS_TO_RUN`: a
new burst is drawn and capped by the remaining CPU time. -/
def new_cpu_burst (s : DES) (proc : Nat) : DES :=
  if (s.proc proc).current_cpu_burst = 0 then
    let r := myrandom s (s.proc proc).cpu_burst
    r.2.modifyProc proc (fun p =>
      { p with current_cpu_burst :=
          if r.1 > p.cpu_time_remaining then p.cpu_time_remaining else r.1 })
  else s

/-- `case TRANS_TO_RUN` of `run_simulation`; the two branches of the
`dynamic_cast<RRScheduler*>` test are the same code. -/
def case_TRANS_TO_RUN (s : DES) (proc : Nat) : DES :=
  let s1 := s.modifyProc proc (fun p =>
    { p with state := ProcessState.STATE_RUNNING, state_ts := s.CURRENT_TIME })
  let s2 := new_cpu_burst s1 proc
  let quantum := s2.scheduler.quantum
  let remaining_burst := (s2.proc proc).current_cpu_burst
  if remaining_burst > quantum then
    s2.add_event (s2.CURRENT_TIME + quantum) proc Transition.TRANS_TO_PREEMPT
  else
    s2.add_event (s2.CURRENT_TIME + remaining_burst) proc Transition.TRANS_TO_BLOCK

/-- The `if (proc->cpu_time_remaining <= 0)` statement of `case TRANS_TO_BLOCK`:
the process finishes, or blocks for an I/O burst drawn by `myrandom`. -/
def finish_or_block (s : DES) (proc : Nat) : DES :=
  if (s.proc proc).cpu_time_remaining ≤ 0 then
    s.modifyProc proc (fun p =>
      { p with state := ProcessState.STATE_FINISHED, finish_time := s.CURRENT_TIME })
  else
    let t := s.modifyProc proc (fun p => { p with state := ProcessState.STATE_BLOCKED })
    let t1 := { t with processes_in_io := t.processes_in_io + 1 }
    let r := myrandom t1 (t1.proc proc).io_burst
    r.2.add_event (r.2.CURRENT_TIME + r.1) proc Transition.TRANS_TO_READY

/-- `case TRANS_TO_BLOCK` of `run_simulation`. -/
def case_TRANS_TO_BLOCK (s : DES) (proc : Nat) (timeInPrevState : Int) : DES :=
  let s1 := { s with total_cpu_time := s.total_cpu_time + timeInPrevState }
  let s2 := s1.modifyProc proc (fun p =>
    { p with cpu_time_remaining := p.cpu_time_remaining - p.current_cpu_burst,
             current_cpu_burst := 0 })
  let s3 := finish_or_block s2 proc
  let s4 := s3.modifyProc proc (fun p => { p with state_ts := s3.CURRENT_TIME })
  { s4 with CURRENT_RUNNING_PROCESS := none, CALL_SCHEDULER := true }

/-- The change of the dynamic priority in `case TRANS_TO_PREEMPT`: reset for
RR, otherwise decremented and reset when it falls below zero. -/
def decay_priority (s : DES) (proc : Nat) : DES :=
  if s.scheduler.kind = SchedKind.RR then
    s.modifyProc proc (fun p => { p with dynamic_priority := p.static_priority - 1 })
  else
    s.modifyProc proc (fun p =>
      if p.dynamic_priority - 1 < 0 then { p with dynamic_priority := p.static_priority - 1 }
      else { p with dynamic_priority := p.dynamic_priority - 1 })

/-- `case TRANS_TO_PREEMPT` of `run_simulation`. -/
def case_TRANS_TO_PREEMPT (s : DES) (proc : Nat) (timeInPrevState : Int) : DES :=
  let s1 := { s with total_cpu_time := s.total_cpu_time + timeInPrevState }
  let s2 := s1.modifyProc proc (fun p =>
    { p with cpu_time_remaining := p.cpu_time_remaining - timeInPrevState,
             current_cpu_burst := p.current_cpu_burst - timeInPrevState,
             state := ProcessState.STATE_READY, state_ts := s1.CURRENT_TIME })
  let s3 := decay_priority s2 proc
  let s4 := s3.add_process proc
  { s4 with CURRENT_RUNNING_PROCESS := none, CALL_SCHEDULER := true }

/-- The `if (CURRENT_RUNNING_PROCESS == nullptr)` block of the scheduler call:
the next process is taken from the scheduler and its `TRANS_TO_RUN` is added at
the current time. -/
def dispatch (s : DES) : DES :=
  match s.CURRENT_RUNNING_PROCESS with
  | some _ => s
  | none =>
    let r := get_next_process s.scheduler
    let s1 := { s with scheduler := r.2, CURRENT_RUNNING_PROCESS := r.1 }
    match r.1 with
    | some p => s1.add_event s1.CURRENT_TIME p Transition.TRANS_TO_RUN
    | none => s1

/-- The `if (CALL_SCHEDULER)` block that ends the body of the loop. -/
def call_scheduler (s : DES) : DES :=
  if s.CALL_SCHEDULER then
    if get_next_event_time s = s.CURRENT_TIME then s
    else dispatch { s with CALL_SCHEDULER := false }
  else s

/-- The statement `if (proc->state == STATE_READY) proc->cpu_waiting_time +=
timeInPrevState;` at the head of the loop body. -/
def account_waiting (s : DES) (proc : Nat) (timeInPrevState : Int) : DES :=
  if (s.proc proc).state = ProcessState.STATE_READY then
    s.modifyProc proc (fun p =>
      { p with cpu_waiting_time := p.cpu_waiting_time + timeInPrevState })
  else s

/-- The statements `if (processes_in_io > 0) total_io_time += CURRENT_TIME -
last_time; last_time = CURRENT_TIME;` at the head of the loop body. -/
def account_io (s : DES) : DES :=
  let s1 :=
    if (0 : Int) < s.processes_in_io then
      { s with total_io_time := s.total_io_time + (s.CURRENT_TIME - s.last_time) }
    else s
  { s1 with last_time := s1.CURRENT_TIME }

/-- The head of the loop body of `run_simulation` for the event `evt` taken
from the queue: the clock is set, waiting time and I/O time are accumulated. -/
def begin_event (s : DES) (evt : Event) : DES :=
  let s0 := { s with CURRENT_TIME := evt.timestamp }
  let timeInPrevState := s0.CURRENT_TIME - (s0.proc evt.process).state_ts
  account_io (account_waiting s0 evt.process timeInPrevState)

/-- The `switch (transition)` of `run_simulation`. -/
def handle_transition (s : DES) (evt : Event) (timeInPrevState : Int) : DES :=
  match evt.transition with
  | Transition.TRANS_TO_READY => case_TRANS_TO_READY s evt.process timeInPrevState
  | Transition.TRANS_TO_RUN => case_TRANS_TO_RUN s evt.process
  | Transition.TRANS_TO_BLOCK => case_TRANS_TO_BLOCK s evt.process timeInPrevState
  | Transition.TRANS_TO_PREEMPT => case_TRANS_TO_PREEMPT s evt.process timeInPrevState

/-- One iteration of the `while` loop of `run_simulation`; `none` when the
event queue is empty and the loop ends. -/
def iteration (s : DES) : Option DES :=
  match EventQueue.get_next_event s.event_queue with
  | (none, _) => none
  | (some evt, rest) =>
    let timeInPrevState := evt.timestamp - (s.proc evt.process).state_ts
    let s3 := begin_event { s with event_queue := rest } evt
    some (call_scheduler (handle_transition s3 evt timeInPrevState))

/-- The state after `n` iterations of the loop of `run_simulation`; `none` when
the loop ended before. -/
def iterations : Nat → DES → Option DES
  | 0, s => some s
  | n + 1, s =>
    match iteration s with
    | none => none
    | some s1 => iterations n s1

/-- `run_simulation` with a bound on the number of iterations: the state when
the loop ends, `none` when the bound is reached first. -/
def run_simulation : Nat → DES → Option DES
  | 0, _ => none
  | fuel + 1, s =>
    match iteration s with
    | none => some s
    | some s1 => run_simulation fuel s1

/-- Number of processes whose state is `STATE_RUNNING`. -/
def running (s : DES) : Nat :=
  s.processes.countP (fun p => decide (p.state = ProcessState.STATE_RUNNING))

/-! ### Event order and the sample run -/

/-- The queue after `add_event` is called on each event of `evts` in turn,
starting from the empty queue. -/
def EventQueue.add_events (evts : List Event) : List Event :=
  evts.foldl (fun q e => EventQueue.add_event e q) []

/-- The events returned by `n` successive calls of `get_next_event`, up to the
first `nullptr`. -/
def EventQueue.drain : Nat → List Event → List Event
  | 0, _ => []
  | n + 1, q =>
    match EventQueue.get_next_event q with
    | (none, _) => []
    | (some e, rest) => e :: EventQueue.drain n rest

/-- Delivery order of the event queue: ascending timestamp, and ascending pid
among equal timestamps. -/
def Event.Before (a b : Event) : Prop :=
  a.timestamp < b.timestamp ∨ (a.timestamp = b.timestamp ∧ a.process ≤ b.process)

/-- The scheduler of the run with two running processes: `-sE10000`. -/
def schE : Scheduler :=
  (create_scheduler (SchedSpec.E 10000 4)).getD (Scheduler.new SchedKind.PREPRIO 10000 4)

/-- The simulator of the run with two running processes: three processes
`0 100 100 10`, `5 100 100 10`, `7 100 100 10` and the random numbers
`0 3 0 19 49 4`. -/
def desE : DES :=
  read_input_file schE [0, 3, 0, 19, 49, 4]
    [(0, 100, 100, 10), (5, 100, 100, 10), (7, 100, 100, 10)]

/-- An event other than `TRANS_TO_READY`: an event of the process that holds
the CPU or is about to hold it. -/
def Event.cpu (e : Event) : Bool := decide (e.transition ≠ Transition.TRANS_TO_READY)

/-- The pending events other than `TRANS_TO_READY`. -/
def cpuEvents (s : DES) : List Event := s.event_queue.filter Event.cpu

/-- Invariant of the loop of `run_simulation` when no preemption happens: at
most one event other than `TRANS_TO_READY` is pending, none when no process is
selected, and every RUNNING process has its `TRANS_TO_BLOCK` or
`TRANS_TO_PREEMPT` pending. -/
structure OneCpu (s : DES) : Prop where
  count : (cpuEvents s).length ≤ 1
  idle : s.CURRENT_RUNNING_PROCESS = none → cpuEvents s = []
  running : ∀ p, (s.proc p).state = ProcessState.STATE_RUNNING →
    ∃ e ∈ s.event_queue, e.process = p ∧ e.cpu = true

/-- What a part of the loop body does, as far as the invariant is concerned:
the scheduler class stays, and no process other than `proc` changes state. -/
structure Effect (s t : DES) (proc : Nat) : Prop where
  kind : t.scheduler.kind = s.scheduler.kind
  others : ∀ q, q ≠ proc → (t.proc q).state = (s.proc q).state

/-- What the scheduler call does: nothing that the invariant sees, or a
process is selected while none was and its `TRANS_TO_RUN` is added. -/
def Dispatched (s t : DES) : Prop :=
  (∀ q, (t.proc q).state = (s.proc q).state) ∧ t.scheduler.kind = s.scheduler.kind ∧
    ((t.event_queue = s.event_queue ∧
        t.CURRENT_RUNNING_PROCESS = s.CURRENT_RUNNING_PROCESS) ∨
      (s.CURRENT_RUNNING_PROCESS = none ∧ ∃ (p : Nat) (e : Event), e.cpu = true ∧
        t.CURRENT_RUNNING_PROCESS = some p ∧
        t.event_queue = EventQueue.add_event e s.event_queue))

/-- The simulator before the first event: only `TRANS_TO_READY` events are
pending, no process is selected, every process is in `STATE_CREATED`. -/
structure Fresh (sch : Scheduler) (s : DES) : Prop where
  kind : s.scheduler.kind = sch.kind
  events : ∀ e ∈ s.event_queue, e.cpu = false
  cur : s.CURRENT_RUNNING_PROCESS = none
  created : ∀ x ∈ s.processes, x.state = ProcessState.STATE_CREATED

/-- The scheduler `-sP10000`: PRIO with quantum 10000 and four priority levels. -/
def schP : Scheduler :=
  (create_scheduler (SchedSpec.P 10000 4)).getD (Scheduler.new SchedKind.PRIO 10000 4)

/-- The simulator for the input and random numbers of `desE` under `schP`. -/
def desP : DES :=
  read_input_file schP [0, 3, 0, 19, 49, 4]
    [(0, 100, 100, 10), (5, 100, 100, 10), (7, 100, 100, 10)]

/-- The state of `desP` after eight iterations of the loop. -/
def desP8 : DES := (iterations 8 desP).getD desP

/-- The simulator of the run in which an arrival at the current time suppresses
a preemption: PREPRIO (`-sE10000`), the processes `0 100 100 10`,
`5 100 100 10`, `5 100 100 10` and the random numbers `0 3 0 19 49 4`
(static priorities 1, 4, 1). -/
def desS : DES :=
  read_input_file schE [0, 3, 0, 19, 49, 4]
    [(0, 100, 100, 10), (5, 100, 100, 10), (5, 100, 100, 10)]

/-- The state of `desS` after two iterations of the loop: process 0 is running,
the arrival of process 1 is the next event. -/
def desS2 : DES := (iterations 2 desS).getD desS

/-- The scheduler stub and process table of the sample call of
`PrioScheduler::add_process`: three levels, process 0 with static priority 2 and
dynamic priority 1. -/
def schQ : Scheduler :=
  { Scheduler.new SchedKind.PRIO 5 3 with activeQ := [[], [4], []], expiredQ := [[7], [], []] }

/-- The process table of the sample call of `PrioScheduler::add_process`. -/
def procsQ : List Process :=
  [{ Process.new 0 0 10 5 5 with static_priority := 2, dynamic_priority := 1 }]

/-- A call on an `SRTFScheduler`: `add_process(p)` or `get_next_process()`. -/
inductive SRTFOp where
  | add (p : Nat)
  | get
deriving DecidableEq, Repr

/-- One call on the scheduler, together with the bookkeeping of the processes
that were added and not yet returned. -/
def srtf_step (processes : List Process) (st : Scheduler × List Nat) :
    SRTFOp → Scheduler × List Nat
  | SRTFOp.add p => ((add_process st.1 processes p).1, p :: st.2)
  | SRTFOp.get =>
    match (get_next_process st.1).1 with
    | some r => ((get_next_process st.1).2, st.2.erase r)
    | none => ((get_next_process st.1).2, st.2)

/-- A sequence of calls on a fresh `SRTFScheduler`, the process table being
fixed (no `cpu_time_remaining` changes while a process is queued). -/
def srtf_ops (processes : List Process) (ops : List SRTFOp) : Scheduler × List Nat :=
  ops.foldl (srtf_step processes) (Scheduler.new SchedKind.SRTF 10000 4, [])

/-- Delivery order of the SRTF heap: `a` does not leave after `b`. -/
def SRTFLe (processes : List Process) (a b : Nat) : Prop :=
  (procAt processes a).cpu_time_remaining < (procAt processes b).cpu_time_remaining ∨
  ((procAt processes a).cpu_time_remaining = (procAt processes b).cpu_time_remaining ∧
    (procAt processes a).pid ≤ (procAt processes b).pid)

/-- The invariant of `srtf_ops`: the heap holds exactly the processes added and
not yet returned, in delivery order. -/
def SRTFInv (processes : List Process) (st : Scheduler × List Nat) : Prop :=
  st.1.kind = SchedKind.SRTF ∧ st.1.runqueue.Perm st.2 ∧
    st.1.runqueue.Pairwise (SRTFLe processes)

/-- The scheduler of the FCFS run with a long burst: `-sF`. -/
def schF : Scheduler :=
  (create_scheduler SchedSpec.F).getD (Scheduler.new SchedKind.FCFS 10000 4)

/-- The simulator of the FCFS run with a long burst: the processes
`0 20000 20000 10`, `5 100 100 10` and the random numbers `0 0 15000 50`. -/
def desF : DES :=
  read_input_file schF [0, 0, 15000, 50] [(0, 20000, 20000, 10), (5, 100, 100, 10)]

/-- The state after five iterations of the loop for `-sF`, the processes
`0 20000 10000 10`, `5 100 100 10` and the random numbers `0 0 15000 50`. -/
def desF5 : DES :=
  ((iterations 5 (read_input_file schF [0, 0, 15000, 50]
    [(0, 20000, 10000, 10), (5, 100, 100, 10)]))).getD desF

/-- A process whose CPU bursts fit in the quantum 10000 of the schedulers
without time slice. -/
def ShortBurst (x : Process) : Prop :=
  1 ≤ x.cpu_burst ∧ x.cpu_burst ≤ 10000 ∧ x.current_cpu_burst ≤ 10000

/-- Invariant of the loop of `run_simulation` for FCFS, LCFS and SRTF when every
`cpu_burst` is between 1 and 10000: no `TRANS_TO_PREEMPT` event is pending. -/
structure NoPreempt (s : DES) : Prop where
  kind : s.scheduler.kind = SchedKind.FCFS ∨ s.scheduler.kind = SchedKind.LCFS ∨
    s.scheduler.kind = SchedKind.SRTF
  quantum : s.scheduler.quantum = 10000
  events : ∀ e, e ∈ s.event_queue → e.transition ≠ Transition.TRANS_TO_PREEMPT
  procs : ∀ x, x ∈ s.processes → ShortBurst x

/-- Sum over all processes of `finish_time - arrival_time` (the turnaround
times that `print_statistics` adds up). -/
def total_turnaround (s : DES) : Int :=
  (s.processes.map (fun p => p.finish_time - p.arrival_time)).sum

/-- Sum over all processes of `total_cpu_time`. -/
def total_demand (s : DES) : Int := (s.processes.map (fun p => p.total_cpu_time)).sum

/-- The simulator of the run that finishes early: PREPRIO (`-sE10000`), the
processes `2 25 11 1`, `3 2 25 1`, `4 8 16 1` and the random numbers
`36 34 34 4 36 9`. -/
def desT : DES :=
  read_input_file schE [36, 34, 34, 4, 36, 9] [(2, 25, 11, 1), (3, 2, 25, 1), (4, 8, 16, 1)]

/-- The simulator of CPU scenario 1: `-sF`, the processes `0 100 10 10` (A) and
`50 50 20 5` (B), and the random numbers of the file all equal to 1 (`n` of
them, the cursor wraps around). -/
def desOnes (n : Nat) : DES :=
  read_input_file schF (List.replicate n 1) [(0, 100, 10, 10), (50, 50, 20, 5)]

/-- The simulator of the sample draws: the random numbers 7, 0, 12, cursor at
the end of the sequence. -/
def desR : DES :=
  { read_input_file schF [7, 0, 12] [] with rand_index := 3 }

/-- The last statement of `case TRANS_TO_RUN`, on the state `s2` in which the
burst has been chosen: the `if (remaining_burst > quantum)` that adds the
event. -/
def case_TRANS_TO_RUN_tail (s2 : DES) (proc : Nat) : DES :=
  if (s2.proc proc).current_cpu_burst > s2.scheduler.quantum then
    s2.add_event (s2.CURRENT_TIME + s2.scheduler.quantum) proc Transition.TRANS_TO_PREEMPT
  else
    s2.add_event (s2.CURRENT_TIME + (s2.proc proc).current_cpu_burst) proc
      Transition.TRANS_TO_BLOCK

/-- The simulator of the sample dispatch: RR with quantum 1 (`-sR1`), the
process `0 100 10 10` and the random numbers 0 and 6, after one iteration of
the loop (the `TRANS_TO_READY` of the process): its `TRANS_TO_RUN` is the next
event. -/
def desRR : DES :=
  (iterations 1 (read_input_file ((create_scheduler (SchedSpec.R 1)).getD schF) [0, 6]
    [(0, 100, 10, 10)])).getD (read_input_file schF [] [])

/-- The bounds of the two priorities of a process when the scheduler has
`maxprio` levels. -/
def PrioBounds (maxprio : Int) (x : Process) : Prop :=
  1 ≤ x.static_priority ∧ x.static_priority ≤ maxprio ∧
  0 ≤ x.dynamic_priority ∧ x.dynamic_priority ≤ x.static_priority - 1

/-- Invariant of the loop of `run_simulation` under PRIO and PREPRIO: the two
arrays have `maxprio` levels, every process has its priorities within bounds,
every process pointer held by an event, by `CURRENT_RUNNING_PROCESS` or by a
queue level points into the process table, and no random value is negative. -/
structure PrioInv (s : DES) : Prop where
  kind : s.scheduler.kind = SchedKind.PRIO ∨ s.scheduler.kind = SchedKind.PREPRIO
  levels : 1 ≤ s.scheduler.maxprio
  active_len : s.scheduler.activeQ.length = s.scheduler.maxprio.toNat
  expired_len : s.scheduler.expiredQ.length = s.scheduler.maxprio.toNat
  procs : ∀ x, x ∈ s.processes → PrioBounds s.scheduler.maxprio x
  events : ∀ e, e ∈ s.event_queue → e.process < s.processes.length
  cur : ∀ c, s.CURRENT_RUNNING_PROCESS = some c → c < s.processes.length
  active : ∀ l, l ∈ s.scheduler.activeQ → ∀ p, p ∈ l → p < s.processes.length
  expired : ∀ l, l ∈ s.scheduler.expiredQ → ∀ p, p ∈ l → p < s.processes.length
  rand : ∀ v, v ∈ s.randvals → 0 ≤ v

/-- The state in which, and the process for which, the handler of the event
`evt` calls `scheduler->add_process(proc)`: `case TRANS_TO_READY` calls it after
the preemption block, `case TRANS_TO_PREEMPT` after the change of the dynamic
priority; the other two handlers do not call it (`none`). -/
def add_process_call (s : DES) (evt : Event) (timeInPrevState : Int) : Option (DES × Nat) :=
  match evt.transition with
  | Transition.TRANS_TO_READY =>
    let s1 := end_io s evt.process timeInPrevState
    let s2 := s1.modifyProc evt.process (fun p =>
      { p with state := ProcessState.STATE_READY, state_ts := s1.CURRENT_TIME })
    some (preempt_running s2 evt.process, evt.process)
  | Transition.TRANS_TO_PREEMPT =>
    let s1 := { s with total_cpu_time := s.total_cpu_time + timeInPrevState }
    let s2 := s1.modifyProc evt.process (fun p =>
      { p with cpu_time_remaining := p.cpu_time_remaining - timeInPrevState,
               current_cpu_burst := p.current_cpu_burst - timeInPrevState,
               state := ProcessState.STATE_READY, state_ts := s1.CURRENT_TIME })
    some (decay_priority s2 evt.process, evt.process)
  | _ => none

/-- The call of `scheduler->add_process(proc)` made by the iteration of the
loop of `run_simulation` that starts in `s`, if it makes one. -/
def iteration_add_process_call (s : DES) : Option (DES × Nat) :=
  match EventQueue.get_next_event s.event_queue with
  | (none, _) => none
  | (some evt, rest) =>
    add_process_call (begin_event { s with event_queue := rest } evt) evt
      (evt.timestamp - (s.proc evt.process).state_ts)

/-- The scheduler `-sP2:4`: PRIO with quantum 2 and four priority levels. -/
def schD : Scheduler :=
  (create_scheduler (SchedSpec.P 2 4)).getD (Scheduler.new SchedKind.PRIO 2 4)

/-- The simulator of the run with a decayed priority: `-sP2:4`, the process
`0 100 10 10` and the random numbers `0 5` (static priority 1, dynamic priority
0, first CPU burst 6). -/
def desD : DES := read_input_file schD [0, 5] [(0, 100, 10, 10)]

/-- The state of `desD` after two iterations of the loop: process 0 is running
and its `TRANS_TO_PREEMPT` at time 2 is the next event. -/
def desD2 : DES := (iterations 2 desD).getD desD

/-- Every level of `expiredQ` is empty. -/
def NoExpired (s : DES) : Prop := ∀ l, l ∈ s.scheduler.expiredQ → l = []

/-- The state of `desE` after two iterations of the loop: process 0 is running
with its `TRANS_TO_BLOCK` pending at time 20, the arrival of process 1 at time 5
is the next event. -/
def desE2 : DES := (iterations 2 desE).getD desE

end Sched

/-! # Theorems -/

/-! ## Loops -/

theorem doWhile_cyclic {ρ σ : Type} (body : σ → LoopStep ρ σ) (cond : σ → Bool)
    (I J : σ → Prop) (Q : ρ → Prop) (pos : σ → Nat) (n start : Nat)
    (hnext : ∀ x y, I x → body x = LoopStep.next y → J y ∧ pos y = (pos x + 1) % n)
    (hweak : ∀ y, J y → I y)
    (hbrk : ∀ x r, I x → body x = LoopStep.brk r → Q r)
    (hcond : ∀ y, cond y = true → pos y ≠ start) (hstart : start < n) :
    ∀ (fuel j : Nat) (x : σ), j < n → n - j ≤ fuel → I x → pos x = (start + j) % n →
      (∃ r, doWhile body cond fuel x = some (LoopStep.brk r) ∧ Q r) ∨
      (∃ y, doWhile body cond fuel x = some (LoopStep.next y) ∧ J y) := by
  intro fuel
  induction fuel with
  | zero => intro j x hj hf; omega
  | succ k ih =>
    intro j x hj hf hI hpos
    unfold doWhile
    cases hb : body x with
    | brk r => exact Or.inl ⟨r, rfl, hbrk x r hI hb⟩
    | next y =>
      obtain ⟨hIy, hy⟩ := hnext x y hI hb
      by_cases hc : cond y = true
      · have hne := hcond y hc
        have hpy : pos y = (start + (j + 1)) % n := by
          rw [hy, hpos, Nat.mod_add_mod, Nat.add_assoc]
        have hj1 : j + 1 < n := by
          by_contra hcon
          have : j + 1 = n := by omega
          rw [this, Nat.add_mod_right, Nat.mod_eq_of_lt hstart] at hpy
          exact hne hpy
        simp only [hc, if_true]
        exact ih (j + 1) y hj1 (by omega) (hweak y hIy) hpy
      · simp only [hc]
        exact Or.inr ⟨y, by simp, hIy⟩

namespace MMU

/-! ### Reading a field after an assignment -/

namespace State

@[simp] theorem nprocs_setPte (s : State) (p v : Nat) (e : pte_t) :
    (s.setPte p v e).nprocs = s.nprocs := rfl

@[simp] theorem random_numbers_setPte (s : State) (p v : Nat) (e : pte_t) :
    (s.setPte p v e).random_numbers = s.random_numbers := rfl

@[simp] theorem rpos_setPte (s : State) (p v : Nat) (e : pte_t) :
    (s.setPte p v e).rpos = s.rpos := rfl

@[simp] theorem frame_table_setPte (s : State) (p v : Nat) (e : pte_t) :
    (s.setPte p v e).frame_table = s.frame_table := rfl

@[simp] theorem free_pool_setPte (s : State) (p v : Nat) (e : pte_t) :
    (s.setPte p v e).free_pool = s.free_pool := rfl

@[simp] theorem current_process_setPte (s : State) (p v : Nat) (e : pte_t) :
    (s.setPte p v e).current_process = s.current_process := rfl

@[simp] theorem inst_count_setPte (s : State) (p v : Nat) (e : pte_t) :
    (s.setPte p v e).inst_count = s.inst_count := rfl

@[simp] theorem ctx_switches_setPte (s : State) (p v : Nat) (e : pte_t) :
    (s.setPte p v e).ctx_switches = s.ctx_switches := rfl

@[simp] theorem process_exits_setPte (s : State) (p v : Nat) (e : pte_t) :
    (s.setPte p v e).process_exits = s.process_exits := rfl

@[simp] theorem cost_setPte (s : State) (p v : Nat) (e : pte_t) :
    (s.setPte p v e).cost = s.cost := rfl

@[simp] theorem kind_setPte (s : State) (p v : Nat) (e : pte_t) :
    (s.setPte p v e).kind = s.kind := rfl

@[simp] theorem num_frames_setPte (s : State) (p v : Nat) (e : pte_t) :
    (s.setPte p v e).num_frames = s.num_frames := rfl

@[simp] theorem hand_setPte (s : State) (p v : Nat) (e : pte_t) :
    (s.setPte p v e).hand = s.hand := rfl

@[simp] theorem last_reset_setPte (s : State) (p v : Nat) (e : pte_t) :
    (s.setPte p v e).last_reset = s.last_reset := rfl

@[simp] theorem trace_setPte (s : State) (p v : Nat) (e : pte_t) :
    (s.setPte p v e).trace = s.trace := rfl

@[simp] theorem nprocs_setStats (s : State) (p : Nat) (st : pstats_t) :
    (s.setStats p st).nprocs = s.nprocs := rfl

@[simp] theorem random_numbers_setStats (s : State) (p : Nat) (st : pstats_t) :
    (s.setStats p st).random_numbers = s.random_numbers := rfl

@[simp] theorem rpos_setStats (s : State) (p : Nat) (st : pstats_t) :
    (s.setStats p st).rpos = s.rpos := rfl

@[simp] theorem frame_table_setStats (s : State) (p : Nat) (st : pstats_t) :
    (s.setStats p st).frame_table = s.frame_table := rfl

@[simp] theorem free_pool_setStats (s : State) (p : Nat) (st : pstats_t) :
    (s.setStats p st).free_pool = s.free_pool := rfl

@[simp] theorem current_process_setStats (s : State) (p : Nat) (st : pstats_t) :
    (s.setStats p st).current_process = s.current_process := rfl

@[simp] theorem inst_count_setStats (s : State) (p : Nat) (st : pstats_t) :
    (s.setStats p st).inst_count = s.inst_count := rfl

@[simp] theorem ctx_switches_setStats (s : State) (p : Nat) (st : pstats_t) :
    (s.setStats p st).ctx_switches = s.ctx_switches := rfl

@[simp] theorem process_exits_setStats (s : State) (p : Nat) (st : pstats_t) :
    (s.setStats p st).process_exits = s.process_exits := rfl

@[simp] theorem cost_setStats (s : State) (p : Nat) (st : pstats_t) :
    (s.setStats p st).cost = s.cost := rfl

@[simp] theorem kind_setStats (s : State) (p : Nat) (st : pstats_t) :
    (s.setStats p st).kind = s.kind := rfl

@[simp] theorem num_frames_setStats (s : State) (p : Nat) (st : pstats_t) :
    (s.setStats p st).num_frames = s.num_frames := rfl

@[simp] theorem hand_setStats (s : State) (p : Nat) (st : pstats_t) :
    (s.setStats p st).hand = s.hand := rfl

@[simp] theorem last_reset_setStats (s : State) (p : Nat) (st : pstats_t) :
    (s.setStats p st).last_reset = s.last_reset := rfl

@[simp] theorem trace_setStats (s : State) (p : Nat) (st : pstats_t) :
    (s.setStats p st).trace = s.trace := rfl

@[simp] theorem nprocs_setFrame (s : State) (f : Nat) (fr : frame_t) :
    (s.setFrame f fr).nprocs = s.nprocs := rfl

@[simp] theorem random_numbers_setFrame (s : State) (f : Nat) (fr : frame_t) :
    (s.setFrame f fr).random_numbers = s.random_numbers := rfl

@[simp] theorem rpos_setFrame (s : State) (f : Nat) (fr : frame_t) :
    (s.setFrame f fr).rpos = s.rpos := rfl

@[simp] theorem free_pool_setFrame (s : State) (f : Nat) (fr : frame_t) :
    (s.setFrame f fr).free_pool = s.free_pool := rfl

@[simp] theorem current_process_setFrame (s : State) (f : Nat) (fr : frame_t) :
    (s.setFrame f fr).current_process = s.current_process := rfl

@[simp] theorem inst_count_setFrame (s : State) (f : Nat) (fr : frame_t) :
    (s.setFrame f fr).inst_count = s.inst_count := rfl

@[simp] theorem ctx_switches_setFrame (s : State) (f : Nat) (fr : frame_t) :
    (s.setFrame f fr).ctx_switches = s.ctx_switches := rfl

@[simp] theorem process_exits_setFrame (s : State) (f : Nat) (fr : frame_t) :
    (s.setFrame f fr).process_exits = s.process_exits := rfl

@[simp] theorem cost_setFrame (s : State) (f : Nat) (fr : frame_t) :
    (s.setFrame f fr).cost = s.cost := rfl

@[simp] theorem kind_setFrame (s : State) (f : Nat) (fr : frame_t) :
    (s.setFrame f fr).kind = s.kind := rfl

@[simp] theorem num_frames_setFrame (s : State) (f : Nat) (fr : frame_t) :
    (s.setFrame f fr).num_frames = s.num_frames := rfl

@[simp] theorem hand_setFrame (s : State) (f : Nat) (fr : frame_t) :
    (s.setFrame f fr).hand = s.hand := rfl

@[simp] theorem last_reset_setFrame (s : State) (f : Nat) (fr : frame_t) :
    (s.setFrame f fr).last_reset = s.last_reset := rfl

@[simp] theorem trace_setFrame (s : State) (f : Nat) (fr : frame_t) :
    (s.setFrame f fr).trace = s.trace := rfl

@[simp] theorem pte_setFrame (s : State) (f : Nat) (fr : frame_t) (q w : Nat) :
    (s.setFrame f fr).pte q w = s.pte q w := rfl

@[simp] theorem stats_setFrame (s : State) (f : Nat) (fr : frame_t) (q : Nat) :
    (s.setFrame f fr).stats q = s.stats q := rfl

@[simp] theorem vmas_setFrame (s : State) (f : Nat) (fr : frame_t) (q : Nat) :
    (s.setFrame f fr).vmas q = s.vmas q := rfl

@[simp] theorem nprocs_addCost (s : State) (c : Nat) :
    (s.addCost c).nprocs = s.nprocs := rfl

@[simp] theorem random_numbers_addCost (s : State) (c : Nat) :
    (s.addCost c).random_numbers = s.random_numbers := rfl

@[simp] theorem rpos_addCost (s : State) (c : Nat) :
    (s.addCost c).rpos = s.rpos := rfl

@[simp] theorem frame_table_addCost (s : State) (c : Nat) :
    (s.addCost c).frame_table = s.frame_table := rfl

@[simp] theorem free_pool_addCost (s : State) (c : Nat) :
    (s.addCost c).free_pool = s.free_pool := rfl

@[simp] theorem current_process_addCost (s : State) (c : Nat) :
    (s.addCost c).current_process = s.current_process := rfl

@[simp] theorem inst_count_addCost (s : State) (c : Nat) :
    (s.addCost c).inst_count = s.inst_count := rfl

@[simp] theorem ctx_switches_addCost (s : State) (c : Nat) :
    (s.addCost c).ctx_switches = s.ctx_switches := rfl

@[simp] theorem process_exits_addCost (s : State) (c : Nat) :
    (s.addCost c).process_exits = s.process_exits := rfl

@[simp] theorem kind_addCost (s : State) (c : Nat) :
    (s.addCost c).kind = s.kind := rfl

@[simp] theorem num_frames_addCost (s : State) (c : Nat) :
    (s.addCost c).num_frames = s.num_frames := rfl

@[simp] theorem hand_addCost (s : State) (c : Nat) :
    (s.addCost c).hand = s.hand := rfl

@[simp] theorem last_reset_addCost (s : State) (c : Nat) :
    (s.addCost c).last_reset = s.last_reset := rfl

@[simp] theorem trace_addCost (s : State) (c : Nat) :
    (s.addCost c).trace = s.trace := rfl

@[simp] theorem pte_addCost (s : State) (c : Nat) (q w : Nat) :
    (s.addCost c).pte q w = s.pte q w := rfl

@[simp] theorem stats_addCost (s : State) (c : Nat) (q : Nat) :
    (s.addCost c).stats q = s.stats q := rfl

@[simp] theorem vmas_addCost (s : State) (c : Nat) (q : Nat) :
    (s.addCost c).vmas q = s.vmas q := rfl

@[simp] theorem nprocs_emit (s : State) (t : TraceEv) :
    (s.emit t).nprocs = s.nprocs := rfl

@[simp] theorem random_numbers_emit (s : State) (t : TraceEv) :
    (s.emit t).random_numbers = s.random_numbers := rfl

@[simp] theorem rpos_emit (s : State) (t : TraceEv) :
    (s.emit t).rpos = s.rpos := rfl

@[simp] theorem frame_table_emit (s : State) (t : TraceEv) :
    (s.emit t).frame_table = s.frame_table := rfl

@[simp] theorem free_pool_emit (s : State) (t : TraceEv) :
    (s.emit t).free_pool = s.free_pool := rfl

@[simp] theorem current_process_emit (s : State) (t : TraceEv) :
    (s.emit t).current_process = s.current_process := rfl

@[simp] theorem inst_count_emit (s : State) (t : TraceEv) :
    (s.emit t).inst_count = s.inst_count := rfl

@[simp] theorem ctx_switches_emit (s : State) (t : TraceEv) :
    (s.emit t).ctx_switches = s.ctx_switches := rfl

@[simp] theorem process_exits_emit (s : State) (t : TraceEv) :
    (s.emit t).process_exits = s.process_exits := rfl

@[simp] theorem cost_emit (s : State) (t : TraceEv) :
    (s.emit t).cost = s.cost := rfl

@[simp] theorem kind_emit (s : State) (t : TraceEv) :
    (s.emit t).kind = s.kind := rfl

@[simp] theorem num_frames_emit (s : State) (t : TraceEv) :
    (s.emit t).num_frames = s.num_frames := rfl

@[simp] theorem hand_emit (s : State) (t : TraceEv) :
    (s.emit t).hand = s.hand := rfl

@[simp] theorem last_reset_emit (s : State) (t : TraceEv) :
    (s.emit t).last_reset = s.last_reset := rfl

@[simp] theorem pte_emit (s : State) (t : TraceEv) (q w : Nat) :
    (s.emit t).pte q w = s.pte q w := rfl

@[simp] theorem stats_emit (s : State) (t : TraceEv) (q : Nat) :
    (s.emit t).stats q = s.stats q := rfl

@[simp] theorem vmas_emit (s : State) (t : TraceEv) (q : Nat) :
    (s.emit t).vmas q = s.vmas q := rfl

@[simp] theorem nprocs_setHand (s : State) (h : Nat) :
    (s.setHand h).nprocs = s.nprocs := rfl

@[simp] theorem random_numbers_setHand (s : State) (h : Nat) :
    (s.setHand h).random_numbers = s.random_numbers := rfl

@[simp] theorem rpos_setHand (s : State) (h : Nat) :
    (s.setHand h).rpos = s.rpos := rfl

@[simp] theorem frame_table_setHand (s : State) (h : Nat) :
    (s.setHand h).frame_table = s.frame_table := rfl

@[simp] theorem free_pool_setHand (s : State) (h : Nat) :
    (s.setHand h).free_pool = s.free_pool := rfl

@[simp] theorem current_process_setHand (s : State) (h : Nat) :
    (s.setHand h).current_process = s.current_process := rfl

@[simp] theorem inst_count_setHand (s : State) (h : Nat) :
    (s.setHand h).inst_count = s.inst_count := rfl

@[simp] theorem ctx_switches_setHand (s : State) (h : Nat) :
    (s.setHand h).ctx_switches = s.ctx_switches := rfl

@[simp] theorem process_exits_setHand (s : State) (h : Nat) :
    (s.setHand h).process_exits = s.process_exits := rfl

@[simp] theorem cost_setHand (s : State) (h : Nat) :
    (s.setHand h).cost = s.cost := rfl

@[simp] theorem kind_setHand (s : State) (h : Nat) :
    (s.setHand h).kind = s.kind := rfl

@[simp] theorem num_frames_setHand (s : State) (h : Nat) :
    (s.setHand h).num_frames = s.num_frames := rfl

@[simp] theorem last_reset_setHand (s : State) (h : Nat) :
    (s.setHand h).last_reset = s.last_reset := rfl

@[simp] theorem trace_setHand (s : State) (h : Nat) :
    (s.setHand h).trace = s.trace := rfl

@[simp] theorem pte_setHand (s : State) (h : Nat) (q w : Nat) :
    (s.setHand h).pte q w = s.pte q w := rfl

@[simp] theorem stats_setHand (s : State) (h : Nat) (q : Nat) :
    (s.setHand h).stats q = s.stats q := rfl

@[simp] theorem vmas_setHand (s : State) (h : Nat) (q : Nat) :
    (s.setHand h).vmas q = s.vmas q := rfl

@[simp] theorem cost_addCost (s : State) (c : Nat) : (s.addCost c).cost = s.cost + c := rfl

@[simp] theorem trace_emit (s : State) (t : TraceEv) : (s.emit t).trace = s.trace ++ [t] := rfl

@[simp] theorem hand_setHand (s : State) (h : Nat) : (s.setHand h).hand = h := rfl

@[simp] theorem frame_table_setFrame (s : State) (f : Nat) (fr : frame_t) (g : Nat) :
    (s.setFrame f fr).frame_table g = if g = f then fr else s.frame_table g := by
  simp [setFrame, Function.update_apply]

@[simp] theorem pte_setPte (s : State) (p v : Nat) (e : pte_t) (q w : Nat) :
    (s.setPte p v e).pte q w = if q = p ∧ w = v then e else s.pte q w := by
  by_cases hq : q = p
  · subst hq
    by_cases hw : w = v
    · subst hw; simp [setPte, pte]
    · simp [setPte, pte, hw]
  · simp [setPte, pte, hq]

@[simp] theorem stats_setPte (s : State) (p v : Nat) (e : pte_t) (q : Nat) :
    (s.setPte p v e).stats q = s.stats q := by
  by_cases hq : q = p
  · subst hq; simp [setPte, stats]
  · simp [setPte, stats, hq]

@[simp] theorem vmas_setPte (s : State) (p v : Nat) (e : pte_t) (q : Nat) :
    (s.setPte p v e).vmas q = s.vmas q := by
  by_cases hq : q = p
  · subst hq; simp [setPte, vmas]
  · simp [setPte, vmas, hq]

@[simp] theorem pte_setStats (s : State) (p : Nat) (st : pstats_t) (q w : Nat) :
    (s.setStats p st).pte q w = s.pte q w := by
  by_cases hq : q = p
  · subst hq; simp [setStats, pte]
  · simp [setStats, pte, hq]

@[simp] theorem stats_setStats (s : State) (p : Nat) (st : pstats_t) (q : Nat) :
    (s.setStats p st).stats q = if q = p then st else s.stats q := by
  by_cases hq : q = p
  · subst hq; simp [setStats, stats]
  · simp [setStats, stats, hq]

@[simp] theorem vmas_setStats (s : State) (p : Nat) (st : pstats_t) (q : Nat) :
    (s.setStats p st).vmas q = s.vmas q := by
  by_cases hq : q = p
  · subst hq; simp [setStats, vmas]
  · simp [setStats, vmas, hq]

@[simp] theorem nprocs_charge (s : State) (t : TraceEv) (p : Nat) (f : pstats_t → pstats_t)
    (c : Nat) : (s.charge t p f c).nprocs = s.nprocs := rfl

@[simp] theorem random_numbers_charge (s : State) (t : TraceEv) (p : Nat) (f : pstats_t → pstats_t)
    (c : Nat) : (s.charge t p f c).random_numbers = s.random_numbers := rfl

@[simp] theorem rpos_charge (s : State) (t : TraceEv) (p : Nat) (f : pstats_t → pstats_t)
    (c : Nat) : (s.charge t p f c).rpos = s.rpos := rfl

@[simp] theorem frame_table_charge (s : State) (t : TraceEv) (p : Nat) (f : pstats_t → pstats_t)
    (c : Nat) : (s.charge t p f c).frame_table = s.frame_table := rfl

@[simp] theorem free_pool_charge (s : State) (t : TraceEv) (p : Nat) (f : pstats_t → pstats_t)
    (c : Nat) : (s.charge t p f c).free_pool = s.free_pool := rfl

@[simp] theorem current_process_charge (s : State) (t : TraceEv) (p : Nat) (f : pstats_t → pstats_t)
    (c : Nat) : (s.charge t p f c).current_process = s.current_process := rfl

@[simp] theorem inst_count_charge (s : State) (t : TraceEv) (p : Nat) (f : pstats_t → pstats_t)
    (c : Nat) : (s.charge t p f c).inst_count = s.inst_count := rfl

@[simp] theorem ctx_switches_charge (s : State) (t : TraceEv) (p : Nat) (f : pstats_t → pstats_t)
    (c : Nat) : (s.charge t p f c).ctx_switches = s.ctx_switches := rfl

@[simp] theorem process_exits_charge (s : State) (t : TraceEv) (p : Nat) (f : pstats_t → pstats_t)
    (c : Nat) : (s.charge t p f c).process_exits = s.process_exits := rfl

@[simp] theorem kind_charge (s : State) (t : TraceEv) (p : Nat) (f : pstats_t → pstats_t)
    (c : Nat) : (s.charge t p f c).kind = s.kind := rfl

@[simp] theorem num_frames_charge (s : State) (t : TraceEv) (p : Nat) (f : pstats_t → pstats_t)
    (c : Nat) : (s.charge t p f c).num_frames = s.num_frames := rfl

@[simp] theorem hand_charge (s : State) (t : TraceEv) (p : Nat) (f : pstats_t → pstats_t)
    (c : Nat) : (s.charge t p f c).hand = s.hand := rfl

@[simp] theorem last_reset_charge (s : State) (t : TraceEv) (p : Nat) (f : pstats_t → pstats_t)
    (c : Nat) : (s.charge t p f c).last_reset = s.last_reset := rfl

@[simp] theorem cost_charge (s : State) (t : TraceEv) (p : Nat) (f : pstats_t → pstats_t)
    (c : Nat) : (s.charge t p f c).cost = s.cost + c := rfl

@[simp] theorem trace_charge (s : State) (t : TraceEv) (p : Nat) (f : pstats_t → pstats_t)
    (c : Nat) : (s.charge t p f c).trace = s.trace ++ [t] := rfl

@[simp] theorem pte_charge (s : State) (t : TraceEv) (p : Nat) (f : pstats_t → pstats_t)
    (c : Nat) (q w : Nat) : (s.charge t p f c).pte q w = s.pte q w := by
  simp [charge]

@[simp] theorem vmas_charge (s : State) (t : TraceEv) (p : Nat) (f : pstats_t → pstats_t)
    (c : Nat) (q : Nat) : (s.charge t p f c).vmas q = s.vmas q := by
  simp [charge]

@[simp] theorem stats_charge (s : State) (t : TraceEv) (p : Nat) (f : pstats_t → pstats_t)
    (c : Nat) (q : Nat) :
    (s.charge t p f c).stats q = if q = p then f (s.stats p) else s.stats q := by
  simp [charge]

@[simp] theorem nprocs_pushFree (s : State) (f : Nat) :
    (s.pushFree f).nprocs = s.nprocs := rfl

@[simp] theorem random_numbers_pushFree (s : State) (f : Nat) :
    (s.pushFree f).random_numbers = s.random_numbers := rfl

@[simp] theorem rpos_pushFree (s : State) (f : Nat) :
    (s.pushFree f).rpos = s.rpos := rfl

@[simp] theorem frame_table_pushFree (s : State) (f : Nat) :
    (s.pushFree f).frame_table = s.frame_table := rfl

@[simp] theorem current_process_pushFree (s : State) (f : Nat) :
    (s.pushFree f).current_process = s.current_process := rfl

@[simp] theorem inst_count_pushFree (s : State) (f : Nat) :
    (s.pushFree f).inst_count = s.inst_count := rfl

@[simp] theorem ctx_switches_pushFree (s : State) (f : Nat) :
    (s.pushFree f).ctx_switches = s.ctx_switches := rfl

@[simp] theorem process_exits_pushFree (s : State) (f : Nat) :
    (s.pushFree f).process_exits = s.process_exits := rfl

@[simp] theorem cost_pushFree (s : State) (f : Nat) :
    (s.pushFree f).cost = s.cost := rfl

@[simp] theorem kind_pushFree (s : State) (f : Nat) :
    (s.pushFree f).kind = s.kind := rfl

@[simp] theorem num_frames_pushFree (s : State) (f : Nat) :
    (s.pushFree f).num_frames = s.num_frames := rfl

@[simp] theorem hand_pushFree (s : State) (f : Nat) :
    (s.pushFree f).hand = s.hand := rfl

@[simp] theorem last_reset_pushFree (s : State) (f : Nat) :
    (s.pushFree f).last_reset = s.last_reset := rfl

@[simp] theorem trace_pushFree (s : State) (f : Nat) :
    (s.pushFree f).trace = s.trace := rfl

@[simp] theorem pte_pushFree (s : State) (f : Nat) (q w : Nat) :
    (s.pushFree f).pte q w = s.pte q w := rfl

@[simp] theorem stats_pushFree (s : State) (f : Nat) (q : Nat) :
    (s.pushFree f).stats q = s.stats q := rfl

@[simp] theorem vmas_pushFree (s : State) (f : Nat) (q : Nat) :
    (s.pushFree f).vmas q = s.vmas q := rfl

@[simp] theorem free_pool_pushFree (s : State) (f : Nat) :
    (s.pushFree f).free_pool = s.free_pool ++ [f] := rfl

theorem setPte_pushFree (s : State) (f p v : Nat) (e : pte_t) :
    (s.pushFree f).setPte p v e = (s.setPte p v e).pushFree f := rfl

@[simp] theorem nprocs_tick (s : State) : s.tick.nprocs = s.nprocs := rfl

@[simp] theorem random_numbers_tick (s : State) : s.tick.random_numbers = s.random_numbers := rfl

@[simp] theorem rpos_tick (s : State) : s.tick.rpos = s.rpos := rfl

@[simp] theorem frame_table_tick (s : State) : s.tick.frame_table = s.frame_table := rfl

@[simp] theorem free_pool_tick (s : State) : s.tick.free_pool = s.free_pool := rfl

@[simp] theorem current_process_tick (s : State) : s.tick.current_process = s.current_process := rfl

@[simp] theorem ctx_switches_tick (s : State) : s.tick.ctx_switches = s.ctx_switches := rfl

@[simp] theorem process_exits_tick (s : State) : s.tick.process_exits = s.process_exits := rfl

@[simp] theorem cost_tick (s : State) : s.tick.cost = s.cost := rfl

@[simp] theorem kind_tick (s : State) : s.tick.kind = s.kind := rfl

@[simp] theorem num_frames_tick (s : State) : s.tick.num_frames = s.num_frames := rfl

@[simp] theorem hand_tick (s : State) : s.tick.hand = s.hand := rfl

@[simp] theorem last_reset_tick (s : State) : s.tick.last_reset = s.last_reset := rfl

@[simp] theorem trace_tick (s : State) : s.tick.trace = s.trace := rfl

@[simp] theorem pte_tick (s : State) (q w : Nat) : s.tick.pte q w = s.pte q w := rfl

@[simp] theorem stats_tick (s : State) (q : Nat) : s.tick.stats q = s.stats q := rfl

@[simp] theorem vmas_tick (s : State) (q : Nat) : s.tick.vmas q = s.vmas q := rfl

@[simp] theorem inst_count_tick (s : State) : s.tick.inst_count = s.inst_count + 1 := rfl

theorem fileMapped_congr (s t : State) (p v : Nat) (h : t.vmas p = s.vmas p) :
    t.fileMapped p v = s.fileMapped p v := by
  unfold fileMapped
  rw [h]

@[simp] theorem fileMapped_charge (s : State) (t : TraceEv) (p : Nat) (f : pstats_t → pstats_t)
    (c : Nat) (q w : Nat) : (s.charge t p f c).fileMapped q w = s.fileMapped q w :=
  fileMapped_congr _ _ _ _ (vmas_charge _ _ _ _ _ _)

@[simp] theorem fileMapped_setPte (s : State) (p v : Nat) (e : pte_t) (q w : Nat) :
    (s.setPte p v e).fileMapped q w = s.fileMapped q w :=
  fileMapped_congr _ _ _ _ (vmas_setPte _ _ _ _ _)

@[simp] theorem fileMapped_setFrame (s : State) (f : Nat) (fr : frame_t) (q w : Nat) :
    (s.setFrame f fr).fileMapped q w = s.fileMapped q w := rfl

@[simp] theorem fileMapped_pushFree (s : State) (f : Nat) (q w : Nat) :
    (s.pushFree f).fileMapped q w = s.fileMapped q w := rfl

@[simp] theorem fileMapped_addCost (s : State) (c : Nat) (q w : Nat) :
    (s.addCost c).fileMapped q w = s.fileMapped q w := rfl

@[simp] theorem fileMapped_tick (s : State) (q w : Nat) :
    s.tick.fileMapped q w = s.fileMapped q w := rfl

end State

theorem Same.same_refl (s : State) : Same s s := by
  constructor <;> intros <;> rfl

theorem Same.same_trans {s t u : State} (h1 : Same s t) (h2 : Same t u) : Same s u := by
  constructor
  · exact h2.nprocs.trans h1.nprocs
  · exact h2.random_numbers.trans h1.random_numbers
  · exact h2.free_pool.trans h1.free_pool
  · exact h2.current_process.trans h1.current_process
  · exact h2.inst_count.trans h1.inst_count
  · exact h2.ctx_switches.trans h1.ctx_switches
  · exact h2.process_exits.trans h1.process_exits
  · exact h2.cost.trans h1.cost
  · exact h2.kind.trans h1.kind
  · exact h2.num_frames.trans h1.num_frames
  · exact h2.trace.trans h1.trace
  · exact fun f => (h2.frame_pid f).trans (h1.frame_pid f)
  · exact fun f => (h2.frame_vpage f).trans (h1.frame_vpage f)
  · exact fun f => (h2.frame_mapped f).trans (h1.frame_mapped f)
  · exact fun p => (h2.stats p).trans (h1.stats p)
  · exact fun p => (h2.vmas p).trans (h1.vmas p)
  · exact fun p v => (h2.present p v).trans (h1.present p v)
  · exact fun p v => (h2.modified p v).trans (h1.modified p v)
  · exact fun p v => (h2.write_protect p v).trans (h1.write_protect p v)
  · exact fun p v => (h2.pagedout p v).trans (h1.pagedout p v)
  · exact fun p v => (h2.frame p v).trans (h1.frame p v)
  · exact fun p v => (h2.file_mapped p v).trans (h1.file_mapped p v)

theorem same_setHand (s : State) (h : Nat) : Same s (s.setHand h) := by
  constructor <;> intros <;> rfl

theorem same_setFrameRef (s : State) (f : Nat) (b : Bool) : Same s (s.setFrameRef f b) := by
  constructor <;> intros <;>
    simp only [State.setFrameRef, State.framePte, State.pte_setPte, State.stats_setPte,
      State.vmas_setPte, State.nprocs_setPte, State.random_numbers_setPte,
      State.free_pool_setPte, State.current_process_setPte, State.inst_count_setPte,
      State.ctx_switches_setPte, State.process_exits_setPte, State.cost_setPte,
      State.kind_setPte, State.num_frames_setPte, State.trace_setPte,
      State.frame_table_setPte] <;>
    first
      | rfl
      | (split <;> rename_i h <;> first | rfl | (rw [h.1, h.2]))

theorem same_setFrame (s : State) (f : Nat) (fr : frame_t)
    (h1 : fr.pid = (s.frame_table f).pid) (h2 : fr.vpage = (s.frame_table f).vpage)
    (h3 : fr.mapped = (s.frame_table f).mapped) : Same s (s.setFrame f fr) := by
  constructor <;> intros <;>
    simp only [State.frame_table_setFrame, State.pte_setFrame, State.stats_setFrame,
      State.vmas_setFrame, State.nprocs_setFrame, State.random_numbers_setFrame,
      State.free_pool_setFrame, State.current_process_setFrame, State.inst_count_setFrame,
      State.ctx_switches_setFrame, State.process_exits_setFrame, State.cost_setFrame,
      State.kind_setFrame, State.num_frames_setFrame, State.trace_setFrame] <;>
    first
      | rfl
      | (split <;> rename_i h <;> first | rfl | (subst h; assumption))

theorem same_rpos (s : State) (r : Nat) : Same s { s with rpos := r } := by
  constructor <;> intros <;> rfl

theorem same_last_reset (s : State) (r : Nat) : Same s { s with last_reset := r } := by
  constructor <;> intros <;> rfl

theorem FIFOPager_ok (s : State) (hh : s.hand < s.num_frames) :
    VictimOK s (FIFOPager_select_victim_frame s) := by
  refine ⟨same_setHand _ _, hh, ?_⟩
  exact Nat.mod_lt _ (by omega)

theorem RandomPager_ok (s : State) (hh : s.hand < s.num_frames) :
    VictimOK s (RandomPager_select_victim_frame s) := by
  refine ⟨same_rpos _ _, ?_, hh⟩
  exact Nat.mod_lt _ (by omega)

theorem referenced_setFrameRef_false (s : State) (f g : Nat) :
    ((s.setFrameRef f false).framePte g).referenced = true →
      (s.framePte g).referenced = true ∧
        ¬ ((s.frame_table g).pid.toNat = (s.frame_table f).pid.toNat ∧
           (s.frame_table g).vpage.toNat = (s.frame_table f).vpage.toNat) := by
  simp only [State.setFrameRef, State.framePte, State.pte_setPte, State.frame_table_setPte]
  split
  · intro h; simp at h
  · rename_i h; intro h'; exact ⟨h', h⟩

theorem ClockPager_loop (s0 : State) (n h0 : Nat) (hh0 : h0 < n) :
    ∀ (fuel j : Nat) (s : State), j ≤ n → n + 1 - j ≤ fuel → Same s0 s → s.num_frames = n →
      s.hand = (h0 + j) % n →
      (∀ i, i < j → (s.framePte ((h0 + i) % n)).referenced = false) →
      ∃ r, doWhile ClockPager_body (fun _ => true) fuel s = some (LoopStep.brk r) ∧
        Same s0 r.2 ∧ r.1 < n ∧ r.2.hand < n := by
  intro fuel
  induction fuel with
  | zero => intro j s hj hf; omega
  | succ k ih =>
    intro j s hj hf hsame hn hhand hclr
    have hlt : s.hand < n := by rw [hhand]; exact Nat.mod_lt _ (by omega)
    unfold doWhile
    by_cases href : (s.framePte s.hand).referenced = false
    · refine ⟨(s.hand, s.setHand ((s.hand + 1) % s.num_frames)), ?_, ?_, hlt, ?_⟩
      · simp [ClockPager_body, href]
      · exact hsame.same_trans (same_setHand _ _)
      · simp only [State.hand_setHand, hn]; exact Nat.mod_lt _ (by omega)
    · have hjn : j < n := by
        by_contra hcon
        have hjeq : j = n := by omega
        apply href
        have h0' := hclr 0 (by omega)
        rw [hhand, hjeq, Nat.add_mod_right, Nat.mod_eq_of_lt hh0]
        simpa [Nat.mod_eq_of_lt hh0] using h0'
      have hbody : ClockPager_body s =
          LoopStep.next ((s.setFrameRef s.hand false).setHand ((s.hand + 1) % s.num_frames)) := by
        simp [ClockPager_body, href]
      rw [hbody]
      simp only [if_true]
      apply ih (j + 1) _ (by omega) (by omega)
      · exact (hsame.same_trans (same_setFrameRef _ _ _)).same_trans (same_setHand _ _)
      · simpa using hn
      · simp only [State.hand_setHand, hn, hhand, Nat.mod_add_mod, Nat.add_assoc]
      · intro i hi
        by_contra hcon
        have hcon' : (State.framePte (s.setFrameRef s.hand false) ((h0 + i) % n)).referenced
            = true := by
          simpa [State.framePte] using hcon
        obtain ⟨h1, h2⟩ := referenced_setFrameRef_false s s.hand _ hcon'
        by_cases hij : i = j
        · subst hij; rw [hhand] at h2; exact h2 ⟨rfl, rfl⟩
        · have := hclr i (by omega)
          rw [this] at h1; cases h1

theorem ClockPager_ok (s : State) (hh : s.hand < s.num_frames) :
    ∃ r, ClockPager_select_victim_frame (s.num_frames + 1) s = some r ∧ VictimOK s r := by
  obtain ⟨r, hr, h1, h2, h3⟩ := ClockPager_loop s s.num_frames s.hand hh (s.num_frames + 1) 0 s
    (by omega) (by omega) (Same.same_refl s) rfl (by simp [Nat.mod_eq_of_lt hh])
    (by intro i hi; omega)
  exact ⟨r, by simp [ClockPager_select_victim_frame, hr], h1, h2, h3⟩

theorem NRU_class_lt (e : pte_t) : 2 * e.referenced.toNat + e.modified.toNat < 4 := by
  cases e.referenced <;> cases e.modified <;> simp

theorem NRUPager_body_next (nr : Bool) (x y : NRUScan)
    (h : NRUPager_body nr x = LoopStep.next y) :
    Same x.st y.st ∧ y.st.hand = (x.st.hand + 1) % x.st.num_frames ∧
      (∀ c f, y.class_victims c = some f → x.class_victims c = some f ∨ f = x.st.hand) ∧
      (∃ c, c < 4 ∧ (y.class_victims c).isSome = true) := by
  unfold NRUPager_body at h
  simp only at h
  split at h
  · cases h
  · injection h with h
    subst h
    refine ⟨?_, ?_, ?_, ?_⟩
    · simp only
      split
      · exact (same_setFrameRef _ _ _).same_trans (same_setHand _ _)
      · exact same_setHand _ _
    · simp only
      split <;> simp [State.setFrameRef]
    · intro c f hcf
      simp only at hcf
      split at hcf
      · by_cases hc : c = 2 * (x.st.framePte x.st.hand).referenced.toNat +
            (x.st.framePte x.st.hand).modified.toNat
        · subst hc
          simp at hcf
          exact Or.inr hcf.symm
        · rw [Function.update_noteq hc] at hcf
          exact Or.inl hcf
      · exact Or.inl hcf
    · refine ⟨_, NRU_class_lt (x.st.framePte x.st.hand), ?_⟩
      simp only
      split
      · simp
      · rename_i hfresh
        rw [Option.isSome_iff_ne_none]
        simpa using hfresh

theorem NRUPager_body_brk (nr : Bool) (x : NRUScan) (r : Nat × NRUScan)
    (h : NRUPager_body nr x = LoopStep.brk r) : r.1 = x.st.hand ∧ r.2.st = x.st := by
  unfold NRUPager_body at h
  simp only at h
  split at h
  · injection h with h
    subst h
    exact ⟨rfl, rfl⟩
  · cases h

theorem NRUPager_lowest_some (cv : Nat → Option Nat) (c : Nat) (hc : c < 4)
    (h : (cv c).isSome = true) : ∃ v, NRUPager_lowest cv = some v ∧ ∃ d, cv d = some v := by
  unfold NRUPager_lowest
  cases hl : (List.filterMap cv (List.range 4)).head? with
  | none =>
    rw [List.head?_eq_none_iff] at hl
    obtain ⟨v, hv⟩ := Option.isSome_iff_exists.mp h
    have : v ∈ List.filterMap cv (List.range 4) :=
      List.mem_filterMap.mpr ⟨c, List.mem_range.mpr hc, hv⟩
    rw [hl] at this
    cases this
  | some v =>
    refine ⟨v, rfl, ?_⟩
    have : v ∈ List.filterMap cv (List.range 4) := List.mem_of_mem_head? hl
    obtain ⟨d, _, hd⟩ := List.mem_filterMap.mp this
    exact ⟨d, hd⟩

theorem NRUPager_ok (s : State) (hh : s.hand < s.num_frames) :
    ∃ r, NRUPager_select_victim_frame (s.num_frames + 1) s = some r ∧ VictimOK s r := by
  have key := doWhile_cyclic
    (NRUPager_body (decide (s.inst_count - s.last_reset ≥ 48)))
    (fun x => x.st.hand != s.hand)
    (fun x => Same s x.st ∧ x.st.hand < s.num_frames ∧
      ∀ c f, x.class_victims c = some f → f < s.num_frames)
    (fun x => (Same s x.st ∧ x.st.hand < s.num_frames ∧
      ∀ c f, x.class_victims c = some f → f < s.num_frames) ∧
      ∃ c, c < 4 ∧ (x.class_victims c).isSome = true)
    (fun r => Same s r.2.st ∧ r.1 < s.num_frames)
    (fun x => x.st.hand) s.num_frames s.hand
    (by
      intro x y hI hb
      obtain ⟨h1, h2, h3, h4⟩ := NRUPager_body_next _ x y hb
      have hnf : x.st.num_frames = s.num_frames := hI.1.num_frames
      rw [hnf] at h2
      refine ⟨⟨⟨hI.1.same_trans h1, ?_, ?_⟩, h4⟩, h2⟩
      · rw [h2]; exact Nat.mod_lt _ (by omega)
      · intro c f hcf
        rcases h3 c f hcf with h | h
        · exact hI.2.2 c f h
        · rw [h]; exact hI.2.1)
    (fun y h => h.1)
    (by
      intro x r hI hb
      obtain ⟨h1, h2⟩ := NRUPager_body_brk _ x r hb
      exact ⟨by rw [h2]; exact hI.1, by rw [h1]; exact hI.2.1⟩)
    (by intro y hy; simpa using hy)
    hh (s.num_frames + 1) 0 { st := s, class_victims := fun _ => none } (by omega) (by omega)
    ⟨Same.same_refl s, hh, by intro c f h; cases h⟩ (by simp [Nat.mod_eq_of_lt hh])
  unfold NRUPager_select_victim_frame
  simp only
  rcases key with ⟨r, hr, hs, hv⟩ | ⟨y, hy, ⟨hs, hh', hcv⟩, c, hc, hsome⟩
  · rw [hr]
    obtain ⟨v, x⟩ := r
    simp only
    refine ⟨_, rfl, ?_, hv, ?_⟩
    · split
      · exact (hs.same_trans (same_last_reset _ _)).same_trans (same_setHand _ _)
      · exact hs.same_trans (same_setHand _ _)
    · simp only [State.hand_setHand]
      have : ∀ t : State, Same s t → (v + 1) % t.num_frames < s.num_frames := by
        intro t ht; rw [ht.num_frames]; exact Nat.mod_lt _ (by omega)
      split
      · exact this _ (hs.same_trans (same_last_reset _ _))
      · exact this _ hs
  · rw [hy]
    obtain ⟨v, hv, d, hd⟩ := NRUPager_lowest_some y.class_victims c hc hsome
    simp only [hv]
    have hvn : v < s.num_frames := hcv d v hd
    refine ⟨_, rfl, ?_, hvn, ?_⟩
    · split
      · exact (hs.same_trans (same_last_reset _ _)).same_trans (same_setHand _ _)
      · exact hs.same_trans (same_setHand _ _)
    · simp only [State.hand_setHand]
      have : ∀ t : State, Same s t → (v + 1) % t.num_frames < s.num_frames := by
        intro t ht; rw [ht.num_frames]; exact Nat.mod_lt _ (by omega)
      split
      · exact this _ (hs.same_trans (same_last_reset _ _))
      · exact this _ hs

theorem AgingPager_age_body_next (x : AgingScan) :
    ∃ y, AgingPager_age_body x = LoopStep.next y ∧ Same x.st y.st ∧
      y.current = (x.current + 1) % x.st.num_frames ∧ y.st.hand = x.st.hand ∧
      y.min_age = x.min_age ∧ y.victim = x.victim := by
  refine ⟨_, rfl, ?_, rfl, ?_, rfl, rfl⟩
  · simp only
    have h1 : Same x.st (x.st.setFrame x.current
        { x.st.frame_table x.current with age := (x.st.frame_table x.current).age / 2 }) :=
      same_setFrame _ _ _ rfl rfl rfl
    split
    · refine Same.same_trans (Same.same_trans h1 ?_) (same_setFrameRef _ _ _)
      exact same_setFrame _ _ _ rfl rfl rfl
    · exact h1
  · simp only
    split <;> simp [State.setFrameRef]

theorem AgingPager_min_body_next (x : AgingScan) :
    ∃ y, AgingPager_min_body x = LoopStep.next y ∧ Same x.st y.st ∧
      y.current = (x.current + 1) % x.st.num_frames ∧
      (y.st.hand = x.st.hand ∨ y.st.hand = (x.current + 1) % x.st.num_frames) ∧
      (y.victim = x.victim ∨ y.victim = some x.current) := by
  refine ⟨_, rfl, ?_, rfl, ?_, ?_⟩
  · simp only
    split
    · exact same_setHand _ _
    · exact Same.same_refl _
  · simp only
    split
    · right; rfl
    · left; rfl
  · simp only
    split
    · right; rfl
    · left; rfl

theorem AgingPager_ok (s : State) (hh : s.hand < s.num_frames) :
    ∃ r, AgingPager_select_victim_frame (s.num_frames + 1) s = some r ∧ VictimOK s r := by
  have key1 := doWhile_cyclic AgingPager_age_body (fun x => x.current != s.hand)
    (fun x => Same s x.st ∧ x.st.hand = s.hand ∧ x.victim = none)
    (fun x => Same s x.st ∧ x.st.hand = s.hand ∧ x.victim = none)
    (fun _ => False)
    (fun x => x.current) s.num_frames s.hand
    (by
      intro x y hI hb
      obtain ⟨y', hy', h1, h2, h3, _, h5⟩ := AgingPager_age_body_next x
      rw [hy'] at hb
      injection hb with hb
      subst hb
      have hnf : x.st.num_frames = s.num_frames := hI.1.num_frames
      rw [hnf] at h2
      exact ⟨⟨hI.1.same_trans h1, h3.trans hI.2.1, h5.trans hI.2.2⟩, h2⟩)
    (fun y h => h)
    (by
      intro x r _ hb
      obtain ⟨y', hy', _⟩ := AgingPager_age_body_next x
      rw [hy'] at hb
      cases hb)
    (by intro y hy; simpa using hy)
    hh (s.num_frames + 1) 0
    { st := s, current := s.hand, min_age := 4294967295, victim := none }
    (by omega) (by omega)
    ⟨Same.same_refl s, rfl, rfl⟩ (by simp [Nat.mod_eq_of_lt hh])
  rcases key1 with ⟨r, _, hF⟩ | ⟨x1, hx1, hs1, hh1, hv1⟩
  · exact hF.elim
  have key2 := doWhile_cyclic AgingPager_min_body (fun x => x.current != s.hand)
    (fun x => Same s x.st ∧ x.current < s.num_frames ∧ x.st.hand < s.num_frames ∧
      ∀ v, x.victim = some v → v < s.num_frames)
    (fun x => Same s x.st ∧ x.current < s.num_frames ∧ x.st.hand < s.num_frames ∧
      ∀ v, x.victim = some v → v < s.num_frames)
    (fun _ => False)
    (fun x => x.current) s.num_frames s.hand
    (by
      intro x y hI hb
      obtain ⟨y', hy', h1, h2, h3, h4⟩ := AgingPager_min_body_next x
      rw [hy'] at hb
      injection hb with hb
      subst hb
      have hnf : x.st.num_frames = s.num_frames := hI.1.num_frames
      rw [hnf] at h2 h3
      have hm : (x.current + 1) % s.num_frames < s.num_frames := Nat.mod_lt _ (by omega)
      refine ⟨⟨hI.1.same_trans h1, by rw [h2]; exact hm, ?_, ?_⟩, h2⟩
      · rcases h3 with h | h
        · rw [h]; exact hI.2.2.1
        · rw [h]; exact hm
      · intro v hv
        rcases h4 with h | h
        · exact hI.2.2.2 v (h ▸ hv)
        · rw [h] at hv
          injection hv with hv
          rw [← hv]; exact hI.2.1)
    (fun y h => h)
    (by
      intro x r _ hb
      obtain ⟨y', hy', _⟩ := AgingPager_min_body_next x
      rw [hy'] at hb
      cases hb)
    (by intro y hy; simpa using hy)
    hh (s.num_frames + 1) 0
    { x1 with current := x1.st.hand }
    (by omega) (by omega)
    ⟨hs1, by simp only [hh1]; exact hh, by rw [hh1]; exact hh,
      by intro v hv; simp only [hv1] at hv; cases hv⟩
    (by simp [hh1, Nat.mod_eq_of_lt hh])
  rcases key2 with ⟨r, _, hF⟩ | ⟨x2, hx2, hs2, _, hh2, hv2⟩
  · exact hF.elim
  unfold AgingPager_select_victim_frame
  simp only [hx1, hx2]
  cases hv : x2.victim with
  | some v => exact ⟨_, rfl, hs2, hv2 v hv, hh2⟩
  | none =>
    refine ⟨_, rfl, hs2.same_trans (same_setHand _ _), hh2, ?_⟩
    simp only [State.hand_setHand, hs2.num_frames]
    exact Nat.mod_lt _ (by omega)

theorem WorkingSetPager_body_spec (x : WSScan) :
    (∃ r, WorkingSetPager_body x = LoopStep.brk r ∧ Same x.st r.st ∧
      r.victim = some x.st.hand) ∨
    (∃ y, WorkingSetPager_body x = LoopStep.next y ∧ Same x.st y.st ∧
      y.st.hand = (x.st.hand + 1) % x.st.num_frames ∧
      (y.victim = x.victim ∨ y.victim = some x.st.hand)) := by
  unfold WorkingSetPager_body
  simp only
  split
  · left
    exact ⟨_, rfl, same_setHand _ _, rfl⟩
  · right
    refine ⟨_, rfl, ?_, ?_, ?_⟩
    · simp only
      split
      · refine Same.same_trans (Same.same_trans ?_ (same_setFrameRef _ _ _)) (same_setHand _ _)
        exact same_setFrame _ _ _ rfl rfl rfl
      · split
        · exact same_setHand _ _
        · exact same_setHand _ _
    · simp only
      split
      · simp [State.setFrameRef]
      · split <;> simp
    · simp only
      split
      · left; rfl
      · split
        · right; rfl
        · left; rfl

theorem WorkingSetPager_ok (s : State) (hh : s.hand < s.num_frames) :
    ∃ r, WorkingSetPager_select_victim_frame (s.num_frames + 1) s = some r ∧ VictimOK s r := by
  have key := doWhile_cyclic WorkingSetPager_body (fun x => x.st.hand != s.hand)
    (fun x => Same s x.st ∧ x.st.hand < s.num_frames ∧
      ∀ v, x.victim = some v → v < s.num_frames)
    (fun x => Same s x.st ∧ x.st.hand < s.num_frames ∧
      ∀ v, x.victim = some v → v < s.num_frames)
    (fun x => Same s x.st ∧ ∀ v, x.victim = some v → v < s.num_frames)
    (fun x => x.st.hand) s.num_frames s.hand
    (by
      intro x y hI hb
      rcases WorkingSetPager_body_spec x with ⟨r, hr, _⟩ | ⟨y', hy', h1, h2, h3⟩
      · rw [hr] at hb; cases hb
      rw [hy'] at hb
      injection hb with hb
      subst hb
      have hnf : x.st.num_frames = s.num_frames := hI.1.num_frames
      rw [hnf] at h2
      refine ⟨⟨hI.1.same_trans h1, by rw [h2]; exact Nat.mod_lt _ (by omega), ?_⟩, h2⟩
      intro v hv
      rcases h3 with h | h
      · exact hI.2.2 v (h ▸ hv)
      · rw [h] at hv
        injection hv with hv
        rw [← hv]; exact hI.2.1)
    (fun y h => h)
    (by
      intro x r hI hb
      rcases WorkingSetPager_body_spec x with ⟨r', hr, h1, h2⟩ | ⟨y', hy', _⟩
      · rw [hr] at hb
        injection hb with hb
        subst hb
        refine ⟨hI.1.same_trans h1, ?_⟩
        intro v hv
        rw [h2] at hv
        injection hv with hv
        rw [← hv]; exact hI.2.1
      · rw [hy'] at hb; cases hb)
    (by intro y hy; simpa using hy)
    hh (s.num_frames + 1) 0 { st := s, max_age := 0, victim := none } (by omega) (by omega)
    ⟨Same.same_refl s, hh, by intro v hv; cases hv⟩ (by simp [Nat.mod_eq_of_lt hh])
  unfold WorkingSetPager_select_victim_frame
  simp only
  have fin : ∀ x : WSScan, Same s x.st → (∀ v, x.victim = some v → v < s.num_frames) →
      VictimOK s ((match x.victim with | some v => v | none => s.hand),
        x.st.setHand (((match x.victim with | some v => v | none => s.hand) + 1)
          % x.st.num_frames)) := by
    intro x hs hv
    refine ⟨hs.same_trans (same_setHand _ _), ?_, ?_⟩
    · cases hx : x.victim with
      | some v => exact hv v hx
      | none => exact hh
    · simp only [State.hand_setHand, hs.num_frames]
      exact Nat.mod_lt _ (by omega)
  rcases key with ⟨r, hr, hs, hv⟩ | ⟨y, hy, hs, _, hv⟩
  · rw [hr]; exact ⟨_, rfl, fin r hs hv⟩
  · rw [hy]; exact ⟨_, rfl, fin y hs hv⟩

theorem select_victim_frame_ok (s : State) (hh : s.hand < s.num_frames) :
    ∃ r, select_victim_frame s = some r ∧ VictimOK s r := by
  unfold select_victim_frame
  rw [if_neg (show ¬ s.num_frames = 0 by omega)]
  cases hk : s.kind with
  | FIFO => exact ⟨_, rfl, FIFOPager_ok s hh⟩
  | Random => exact ⟨_, rfl, RandomPager_ok s hh⟩
  | Clock => exact ClockPager_ok s hh
  | NRU => exact NRUPager_ok s hh
  | Aging => exact AgingPager_ok s hh
  | WorkingSet => exact WorkingSetPager_ok s hh

theorem Same.to_sameMap {s t : State} (h : Same s t) : SameMap s t :=
  ⟨h.nprocs, h.num_frames, h.frame_pid, h.frame_vpage, h.present, h.frame, h.vmas⟩

theorem SameMap.sameMap_refl (s : State) : SameMap s s := ⟨rfl, rfl, fun _ => rfl, fun _ => rfl,
  fun _ _ => rfl, fun _ _ => rfl, fun _ => rfl⟩

theorem SameMap.sameMap_trans {s t u : State} (h1 : SameMap s t) (h2 : SameMap t u) : SameMap s u :=
  ⟨h2.nprocs.trans h1.nprocs, h2.num_frames.trans h1.num_frames,
   fun f => (h2.frame_pid f).trans (h1.frame_pid f),
   fun f => (h2.frame_vpage f).trans (h1.frame_vpage f),
   fun p v => (h2.present p v).trans (h1.present p v),
   fun p v => (h2.frame p v).trans (h1.frame p v),
   fun p => (h2.vmas p).trans (h1.vmas p)⟩

theorem Cons.of_sameMap {hole : Option Nat} {s t : State} (h : Cons hole s) (hm : SameMap s t) :
    Cons hole t := by
  constructor
  · intro f hf hpid
    rw [hm.frame_pid] at hpid
    obtain ⟨p, v, h1, h2, h3, h4, h5, h6, h7⟩ := h.owner f hf hpid
    refine ⟨p, v, ?_, ?_, ?_, h4, ?_, ?_, ?_⟩
    · rw [hm.frame_pid]; exact h1
    · rw [hm.frame_vpage]; exact h2
    · rw [hm.nprocs]; exact h3
    · rw [hm.num_frames]; exact h5
    · rw [hm.present]; exact h6
    · rw [hm.frame]; exact h7
  · intro p v hp
    rw [hm.present] at hp
    obtain ⟨h1, h2, h3⟩ := h.back p v hp
    rw [hm.frame, hm.frame_pid, hm.frame_vpage]
    exact ⟨h1, h2, h3⟩
  · intro p v hp
    rw [hm.present] at hp
    rw [hm.vmas]
    exact h.inVma p v hp

/-- Clearing the present bit of the owner of frame `nf` opens a hole at `nf`. -/
theorem Cons.unmap {s : State} (h : Cons none s) (nf : Nat) (e : pte_t)
    (hp : (s.frame_table nf).pid ≠ -1) (he : e.present = false) :
    Cons (some nf)
      (s.setPte (s.frame_table nf).pid.toNat (s.frame_table nf).vpage.toNat e) := by
  obtain ⟨p0, v0, h1, h2, _, _, _, h6, h7⟩ := h.owner nf (by simp) hp
  have hop : (s.frame_table nf).pid.toNat = p0 := by rw [h1]; simp
  have hov : (s.frame_table nf).vpage.toNat = v0 := by rw [h2]; simp
  rw [hop, hov]
  constructor
  · intro f hf hpid
    simp only [State.frame_table_setPte] at hpid ⊢
    obtain ⟨p, v, g1, g2, g3, g4, g5, g6, g7⟩ := h.owner f (by simp) hpid
    refine ⟨p, v, g1, g2, g3, g4, g5, ?_⟩
    simp only [State.pte_setPte, State.nprocs_setPte, State.num_frames_setPte]
    have hne : ¬ (p = p0 ∧ v = v0) := by
      rintro ⟨rfl, rfl⟩
      apply hf
      rw [← g7, h7]
    simp only [hne, if_false]
    exact ⟨g6, g7⟩
  · intro p v hpres
    simp only [State.pte_setPte, State.frame_table_setPte] at hpres ⊢
    by_cases hpv : p = p0 ∧ v = v0
    · simp only [hpv, and_self, if_true] at hpres
      rw [he] at hpres; cases hpres
    · simp only [hpv, if_false] at hpres ⊢
      obtain ⟨g1, g2, _⟩ := h.back p v hpres
      refine ⟨g1, g2, ?_⟩
      intro hcon
      injection hcon with hcon
      apply hpv
      rw [hcon, h1] at g1
      rw [hcon, h2] at g2
      exact ⟨by exact_mod_cast g1.symm, by exact_mod_cast g2.symm⟩
  · intro p v hpres
    simp only [State.pte_setPte, State.vmas_setPte] at hpres ⊢
    by_cases hpv : p = p0 ∧ v = v0
    · simp only [hpv, and_self, if_true] at hpres
      rw [he] at hpres; cases hpres
    · simp only [hpv, if_false] at hpres
      exact h.inVma p v hpres

/-- Rewriting an entry that is not present, keeping it not present. -/
theorem Cons.touch {hole : Option Nat} {s : State} (h : Cons hole s) (p v : Nat) (e : pte_t)
    (hp : (s.pte p v).present = false) (he : e.present = false) :
    Cons hole (s.setPte p v e) := by
  constructor
  · intro f hf hpid
    simp only [State.frame_table_setPte] at hpid ⊢
    obtain ⟨q, w, g1, g2, g3, g4, g5, g6, g7⟩ := h.owner f hf hpid
    refine ⟨q, w, g1, g2, g3, g4, g5, ?_⟩
    simp only [State.pte_setPte]
    have hne : ¬ (q = p ∧ w = v) := by
      rintro ⟨rfl, rfl⟩
      rw [hp] at g6; cases g6
    simp only [hne, if_false]
    exact ⟨g6, g7⟩
  · intro q w hpres
    simp only [State.pte_setPte, State.frame_table_setPte] at hpres ⊢
    by_cases hqw : q = p ∧ w = v
    · simp only [hqw, and_self, if_true] at hpres
      rw [he] at hpres; cases hpres
    · simp only [hqw, if_false] at hpres ⊢
      exact h.back q w hpres
  · intro q w hpres
    simp only [State.pte_setPte, State.vmas_setPte] at hpres ⊢
    by_cases hqw : q = p ∧ w = v
    · simp only [hqw, and_self, if_true] at hpres
      rw [he] at hpres; cases hpres
    · simp only [hqw, if_false] at hpres
      exact h.inVma q w hpres

/-- Filling the hole: frame `nf` becomes owned by the entry `(p, v)`. -/
theorem Cons.map {s : State} (nf p v : Nat) (h : Cons (some nf) s) (fr : frame_t) (e : pte_t)
    (hp : (s.pte p v).present = false) (hnf : nf < s.num_frames) (hpn : p < s.nprocs)
    (hv : v < 64) (h1 : fr.pid = (p : Int)) (h2 : fr.vpage = (v : Int))
    (h3 : e.present = true) (h4 : e.frame = nf)
    (h5 : (is_valid_vpage (s.vmas p) v).isSome = true) :
    Cons none ((s.setFrame nf fr).setPte p v e) := by
  constructor
  · intro f _ hpid
    simp only [State.frame_table_setPte, State.frame_table_setFrame, State.pte_setPte,
      State.pte_setFrame, State.nprocs_setPte, State.nprocs_setFrame,
      State.num_frames_setPte, State.num_frames_setFrame] at hpid ⊢
    by_cases hf : f = nf
    · subst hf
      simp only [if_true]
      exact ⟨p, v, h1, h2, hpn, hv, hnf, by simp [h3, h4]⟩
    · simp only [hf, if_false] at hpid ⊢
      obtain ⟨q, w, g1, g2, g3, g4, g5, g6, g7⟩ :=
        h.owner f (by intro hc; injection hc with hc; exact hf hc) hpid
      refine ⟨q, w, g1, g2, g3, g4, g5, ?_⟩
      have hne : ¬ (q = p ∧ w = v) := by
        rintro ⟨rfl, rfl⟩
        rw [hp] at g6; cases g6
      simp only [hne, if_false]
      exact ⟨g6, g7⟩
  · intro q w hpres
    simp only [State.frame_table_setPte, State.frame_table_setFrame, State.pte_setPte,
      State.pte_setFrame] at hpres ⊢
    by_cases hqw : q = p ∧ w = v
    · simp only [hqw, and_self, if_true, h4]
      obtain ⟨rfl, rfl⟩ := hqw
      exact ⟨h1, h2, by simp⟩
    · simp only [hqw, if_false] at hpres ⊢
      obtain ⟨g1, g2, g3⟩ := h.back q w hpres
      have hne : (s.pte q w).frame ≠ nf := by
        intro hc; exact g3 (by rw [hc])
      simp only [hne, if_false]
      exact ⟨g1, g2, by simp⟩
  · intro q w hpres
    simp only [State.pte_setPte, State.pte_setFrame, State.vmas_setPte,
      State.vmas_setFrame] at hpres ⊢
    by_cases hqw : q = p ∧ w = v
    · rw [hqw.1, hqw.2]; exact h5
    · simp only [hqw, if_false] at hpres
      exact h.inVma q w hpres

/-- Releasing the frame of a present entry (process exit). -/
theorem Cons.release {s : State} (h : Cons none s) (p i : Nat) (fr : frame_t) (e : pte_t)
    (hp : (s.pte p i).present = true) (h1 : fr.pid = -1) (he : e.present = false) :
    Cons none ((s.setFrame (s.pte p i).frame fr).setPte p i e) := by
  obtain ⟨b1, b2, _⟩ := h.back p i hp
  constructor
  · intro f _ hpid
    simp only [State.frame_table_setPte, State.frame_table_setFrame, State.pte_setPte,
      State.pte_setFrame, State.nprocs_setPte, State.nprocs_setFrame,
      State.num_frames_setPte, State.num_frames_setFrame] at hpid ⊢
    by_cases hf : f = (s.pte p i).frame
    · rw [if_pos hf] at hpid
      exact absurd h1 hpid
    · simp only [hf, if_false] at hpid ⊢
      obtain ⟨q, w, g1, g2, g3, g4, g5, g6, g7⟩ := h.owner f (by simp) hpid
      refine ⟨q, w, g1, g2, g3, g4, g5, ?_⟩
      have hne : ¬ (q = p ∧ w = i) := by
        rintro ⟨rfl, rfl⟩
        exact hf g7.symm
      simp only [hne, if_false]
      exact ⟨g6, g7⟩
  · intro q w hpres
    simp only [State.frame_table_setPte, State.frame_table_setFrame, State.pte_setPte,
      State.pte_setFrame] at hpres ⊢
    by_cases hqw : q = p ∧ w = i
    · simp only [hqw, and_self, if_true] at hpres
      rw [he] at hpres; cases hpres
    · simp only [hqw, if_false] at hpres ⊢
      obtain ⟨g1, g2, _⟩ := h.back q w hpres
      have hne : (s.pte q w).frame ≠ (s.pte p i).frame := by
        intro hc
        rw [hc, b1] at g1
        rw [hc, b2] at g2
        apply hqw
        exact ⟨by exact_mod_cast g1.symm, by exact_mod_cast g2.symm⟩
      simp only [hne, if_false]
      exact ⟨g1, g2, by simp⟩
  · intro q w hpres
    simp only [State.pte_setPte, State.pte_setFrame, State.vmas_setPte,
      State.vmas_setFrame] at hpres ⊢
    by_cases hqw : q = p ∧ w = i
    · simp only [hqw, and_self, if_true] at hpres
      rw [he] at hpres; cases hpres
    · simp only [hqw, if_false] at hpres
      exact h.inVma q w hpres

theorem Keeps.keeps_refl (s : State) : Keeps s s := by
  constructor <;> intros <;> rfl

theorem Keeps.keeps_trans {s t u : State} (h1 : Keeps s t) (h2 : Keeps t u) : Keeps s u :=
  ⟨h2.nprocs.trans h1.nprocs, h2.num_frames.trans h1.num_frames, h2.kind.trans h1.kind,
   h2.random_numbers.trans h1.random_numbers, h2.current_process.trans h1.current_process,
   h2.inst_count.trans h1.inst_count, h2.ctx_switches.trans h1.ctx_switches,
   h2.process_exits.trans h1.process_exits, fun p => (h2.vmas p).trans (h1.vmas p)⟩

theorem Same.keeps {s t : State} (h : Same s t) : Keeps s t :=
  ⟨h.nprocs, h.num_frames, h.kind, h.random_numbers, h.current_process, h.inst_count,
   h.ctx_switches, h.process_exits, h.vmas⟩

theorem keeps_setPte (s : State) (p v : Nat) (e : pte_t) : Keeps s (s.setPte p v e) := by
  constructor <;> intros <;> simp

theorem keeps_setFrame (s : State) (f : Nat) (fr : frame_t) : Keeps s (s.setFrame f fr) := by
  constructor <;> intros <;> rfl

theorem keeps_charge (s : State) (t : TraceEv) (p : Nat) (f : pstats_t → pstats_t) (c : Nat) :
    Keeps s (s.charge t p f c) := by
  constructor <;> intros <;> simp

theorem keeps_free_pool (s : State) (l : List Nat) : Keeps s { s with free_pool := l } := by
  constructor <;> intros <;> rfl

theorem sameMap_charge (s : State) (t : TraceEv) (p : Nat) (f : pstats_t → pstats_t)
    (c : Nat) : SameMap s (s.charge t p f c) := by
  constructor <;> intros <;> simp

theorem sameMap_free_pool (s : State) (l : List Nat) :
    SameMap s { s with free_pool := l } := by
  constructor <;> intros <;> rfl

/-- Rewriting an entry without touching its `present` and `frame` fields. -/
theorem sameMap_setPte (s : State) (p v : Nat) (e : pte_t)
    (h1 : e.present = (s.pte p v).present) (h2 : e.frame = (s.pte p v).frame) :
    SameMap s (s.setPte p v e) := by
  constructor <;> intros <;> simp only [State.pte_setPte, State.frame_table_setPte,
    State.nprocs_setPte, State.num_frames_setPte, State.vmas_setPte]
  · split
    · rename_i h; rw [h.1, h.2]; exact h1
    · rfl
  · split
    · rename_i h; rw [h.1, h.2]; exact h2
    · rfl

/-- Rewriting a frame without touching its owner fields. -/
theorem sameMap_setFrame (s : State) (f : Nat) (fr : frame_t)
    (h1 : fr.pid = (s.frame_table f).pid) (h2 : fr.vpage = (s.frame_table f).vpage) :
    SameMap s (s.setFrame f fr) := by
  constructor <;> intros <;> simp only [State.pte_setFrame, State.frame_table_setFrame,
    State.nprocs_setFrame, State.num_frames_setFrame, State.vmas_setFrame]
  · split
    · rename_i h; rw [h]; exact h1
    · rfl
  · split
    · rename_i h; rw [h]; exact h2
    · rfl

/-! ### `unmap_old` -/

theorem unmap_old_used (s : State) (nf : Nat) (h : (s.frame_table nf).pid ≠ -1) :
    unmap_old s nf =
      (unmap_old_writeback s nf).setPte (s.frame_table nf).pid.toNat
        (s.frame_table nf).vpage.toNat
        ((unmap_old_writeback s nf).pte (s.frame_table nf).pid.toNat
            (s.frame_table nf).vpage.toNat).unmap := by
  unfold unmap_old
  rw [if_pos h]

theorem unmap_old_free (s : State) (nf : Nat) (h : (s.frame_table nf).pid = -1) :
    unmap_old s nf = s := by
  unfold unmap_old
  rw [if_neg (by simpa using h)]

theorem unmap_old_writeback_sameMap (s : State) (nf : Nat) :
    SameMap s (unmap_old_writeback s nf) := by
  unfold unmap_old_writeback
  simp only
  split
  · split
    · exact (sameMap_charge _ _ _ _ _).sameMap_trans (sameMap_charge _ _ _ _ _)
    · exact ((sameMap_charge _ _ _ _ _).sameMap_trans (sameMap_charge _ _ _ _ _)).sameMap_trans
        (sameMap_setPte _ _ _ _ rfl rfl)
  · exact sameMap_charge _ _ _ _ _

theorem unmap_old_writeback_keeps (s : State) (nf : Nat) :
    Keeps s (unmap_old_writeback s nf) := by
  unfold unmap_old_writeback
  simp only
  split
  · split
    · exact (keeps_charge _ _ _ _ _).keeps_trans (keeps_charge _ _ _ _ _)
    · exact ((keeps_charge _ _ _ _ _).keeps_trans (keeps_charge _ _ _ _ _)).keeps_trans
        (keeps_setPte _ _ _ _)
  · exact keeps_charge _ _ _ _ _

theorem unmap_old_keeps (s : State) (nf : Nat) : Keeps s (unmap_old s nf) := by
  by_cases hp : (s.frame_table nf).pid = -1
  · rw [unmap_old_free s nf hp]; exact Keeps.keeps_refl s
  · rw [unmap_old_used s nf hp]
    exact (unmap_old_writeback_keeps s nf).keeps_trans (keeps_setPte _ _ _ _)

theorem unmap_old_cons (s : State) (nf : Nat) (h : Cons none s) :
    Cons (some nf) (unmap_old s nf) := by
  by_cases hp : (s.frame_table nf).pid = -1
  · rw [unmap_old_free s nf hp]
    constructor
    · intro f _ hpid
      exact h.owner f (by simp) hpid
    · intro p v hpres
      obtain ⟨g1, g2, _⟩ := h.back p v hpres
      refine ⟨g1, g2, ?_⟩
      intro hc
      injection hc with hc
      rw [hc, hp] at g1
      omega
    · exact h.inVma
  · rw [unmap_old_used s nf hp]
    have hm := unmap_old_writeback_sameMap s nf
    have hc : Cons none (unmap_old_writeback s nf) := h.of_sameMap hm
    have := hc.unmap nf
      ((unmap_old_writeback s nf).pte (s.frame_table nf).pid.toNat
          (s.frame_table nf).vpage.toNat).unmap
      (by rw [hm.frame_pid]; exact hp) rfl
    rw [hm.frame_pid, hm.frame_vpage] at this
    exact this

theorem unmap_old_present (s : State) (nf p v : Nat) (h : (s.pte p v).present = false) :
    ((unmap_old s nf).pte p v).present = false := by
  by_cases hp : (s.frame_table nf).pid = -1
  · rw [unmap_old_free s nf hp]; exact h
  · rw [unmap_old_used s nf hp]
    simp only [State.pte_setPte]
    split
    · rfl
    · rw [(unmap_old_writeback_sameMap s nf).present]; exact h

theorem sum_map_update (n : Nat) (g h : Nat → Nat) (p : Nat) (hp : p < n)
    (hq : ∀ q, q ≠ p → h q = g q) :
    ((List.range n).map h).sum + g p = ((List.range n).map g).sum + h p := by
  induction n with
  | zero => omega
  | succ k ih =>
    simp only [List.range_succ, List.map_append, List.sum_append, List.map_cons, List.map_nil,
      List.sum_cons, List.sum_nil, Nat.add_zero]
    by_cases hk : p = k
    · subst hk
      have : (List.range p).map h = (List.range p).map g := by
        apply List.map_congr_left
        intro q hq'
        exact hq q (by have := List.mem_range.mp hq'; omega)
      rw [this]; omega
    · have := ih (by omega)
      have hk' := hq k (by omega)
      omega

theorem total_congr (s t : State) (h1 : t.nprocs = s.nprocs) (h2 : ∀ p, t.stats p = s.stats p) :
    total t = total s := by
  unfold total
  rw [h1]
  apply congrArg
  apply List.map_congr_left
  intro p _
  rw [h2]

theorem Acc.acc_refl (s : State) : Acc s s := ⟨rfl, rfl, id, id⟩

theorem Acc.acc_trans {s t u : State} (h1 : Acc s t) (h2 : Acc t u) : Acc s u :=
  ⟨h2.nprocs.trans h1.nprocs, by have := h1.bal; have := h2.bal; omega,
   fun h => h2.maps (h1.maps h), fun h => h2.wp (h1.wp h)⟩

/-- A change that leaves cost, statistics, VMAs alone and sets no modified bit. -/
theorem Acc.acc_of_eq {s t : State} (h1 : t.nprocs = s.nprocs) (h2 : t.cost = s.cost)
    (h3 : ∀ p, t.stats p = s.stats p) (h4 : ∀ p, t.vmas p = s.vmas p)
    (h5 : ∀ p v, (t.pte p v).modified = true → (s.pte p v).modified = true) : Acc s t := by
  refine ⟨h1, ?_, ?_, ?_⟩
  · rw [h2, total_congr s t h1 h3]
  · intro h p
    rw [h3]; exact h p
  · intro h p v hm
    rw [h4]; exact h p v (h5 p v hm)

theorem Same.acc {s t : State} (h : Same s t) : Acc s t :=
  Acc.acc_of_eq h.nprocs h.cost h.stats h.vmas (fun p v hm => by rw [← h.modified]; exact hm)

theorem acc_setPte (s : State) (p v : Nat) (e : pte_t)
    (he : e.modified = true → (s.pte p v).modified = true) : Acc s (s.setPte p v e) := by
  refine Acc.acc_of_eq rfl rfl (by simp) (by simp) ?_
  intro q w hm
  simp only [State.pte_setPte] at hm
  split at hm
  · rename_i h; rw [h.1, h.2]; exact he hm
  · exact hm

theorem acc_setFrame (s : State) (f : Nat) (fr : frame_t) : Acc s (s.setFrame f fr) :=
  Acc.acc_of_eq rfl rfl (fun _ => rfl) (fun _ => rfl) (fun _ _ h => h)

theorem acc_pushFree (s : State) (f : Nat) : Acc s (s.pushFree f) :=
  Acc.acc_of_eq rfl rfl (fun _ => rfl) (fun _ => rfl) (fun _ _ h => h)

theorem acc_free_pool (s : State) (l : List Nat) : Acc s { s with free_pool := l } :=
  Acc.acc_of_eq rfl rfl (fun _ => rfl) (fun _ => rfl) (fun _ _ h => h)

theorem total_charge (s : State) (t : TraceEv) (p : Nat) (f : pstats_t → pstats_t) (c : Nat)
    (hp : p < s.nprocs) (hw : weight (f (s.stats p)) = weight (s.stats p) + c) :
    total (s.charge t p f c) = total s + c := by
  have := sum_map_update s.nprocs (fun q => weight (s.stats q))
    (fun q => weight ((s.charge t p f c).stats q)) p hp (by
      intro q hq
      simp [hq])
  simp only [State.stats_charge, if_true] at this
  unfold total
  simp only [State.nprocs_charge]
  simp only [State.stats_charge]
  omega

/-- A charge whose counter is none of `maps`, `ins`, `fins`, `zeros`. -/
theorem acc_charge (s : State) (t : TraceEv) (p : Nat) (f : pstats_t → pstats_t) (c : Nat)
    (hp : p < s.nprocs) (hw : ∀ st, weight (f st) = weight st + c)
    (hm : ∀ st, (f st).maps = st.maps ∧ (f st).ins = st.ins ∧ (f st).fins = st.fins ∧
      (f st).zeros = st.zeros) : Acc s (s.charge t p f c) := by
  refine ⟨rfl, ?_, ?_, ?_⟩
  · rw [total_charge s t p f c hp (hw _)]; simp only [State.cost_charge]; omega
  · intro h q
    simp only [State.stats_charge]
    split
    · obtain ⟨h1, h2, h3, h4⟩ := hm (s.stats p)
      rw [h1, h2, h3, h4]; exact h p
    · exact h q
  · intro h q w hmod
    simp only [State.pte_charge, State.vmas_charge] at hmod ⊢
    exact h q w hmod

theorem acc_unmaps (s : State) (t : TraceEv) (p : Nat) (hp : p < s.nprocs) :
    Acc s (s.charge t p pstats_t.incUnmaps 410) :=
  acc_charge s t p _ 410 hp (by intro st; simp only [weight, pstats_t.incUnmaps]; omega)
    (by intro st; exact ⟨rfl, rfl, rfl, rfl⟩)

theorem acc_fouts (s : State) (t : TraceEv) (p : Nat) (hp : p < s.nprocs) :
    Acc s (s.charge t p pstats_t.incFouts 2800) :=
  acc_charge s t p _ 2800 hp (by intro st; simp only [weight, pstats_t.incFouts]; omega)
    (by intro st; exact ⟨rfl, rfl, rfl, rfl⟩)

theorem acc_outs (s : State) (t : TraceEv) (p : Nat) (hp : p < s.nprocs) :
    Acc s (s.charge t p pstats_t.incOuts 2750) :=
  acc_charge s t p _ 2750 hp (by intro st; simp only [weight, pstats_t.incOuts]; omega)
    (by intro st; exact ⟨rfl, rfl, rfl, rfl⟩)

theorem acc_segv (s : State) (t : TraceEv) (p : Nat) (hp : p < s.nprocs) :
    Acc s (s.charge t p pstats_t.incSegv 440) :=
  acc_charge s t p _ 440 hp (by intro st; simp only [weight, pstats_t.incSegv]; omega)
    (by intro st; exact ⟨rfl, rfl, rfl, rfl⟩)

theorem acc_segprot (s : State) (t : TraceEv) (p : Nat) (hp : p < s.nprocs) :
    Acc s (s.charge t p pstats_t.incSegprot 410) :=
  acc_charge s t p _ 410 hp (by intro st; simp only [weight, pstats_t.incSegprot]; omega)
    (by intro st; exact ⟨rfl, rfl, rfl, rfl⟩)

/-- One of IN, FIN, ZERO followed by MAP. -/
theorem acc_source (s : State) (t u : TraceEv) (p : Nat) (f : pstats_t → pstats_t) (c : Nat)
    (hp : p < s.nprocs) (hw : ∀ st, weight (f st) = weight st + c)
    (hm : ∀ st, (f st).maps = st.maps ∧
      (f st).ins + (f st).fins + (f st).zeros = st.ins + st.fins + st.zeros + 1) :
    Acc s ((s.charge t p f c).charge u p pstats_t.incMaps 350) := by
  refine ⟨rfl, ?_, ?_, ?_⟩
  · have h1 := total_charge s t p f c hp (hw _)
    have h2 := total_charge (s.charge t p f c) u p pstats_t.incMaps 350 hp
      (by simp only [weight, pstats_t.incMaps]; omega)
    simp only [State.cost_charge]; omega
  · intro h q
    simp only [State.stats_charge, if_true]
    split
    · obtain ⟨h1, h2⟩ := hm (s.stats p)
      have := h p
      simp only [pstats_t.incMaps]
      omega
    · exact h q
  · intro h q w hmod
    simp only [State.pte_charge, State.vmas_charge] at hmod ⊢
    exact h q w hmod

theorem source_count_acc (s : State) (p v nf : Nat) (fm : Bool) (hp : p < s.nprocs) :
    Acc s (source_count s p v nf fm) := by
  unfold source_count
  simp only
  split
  · exact acc_source s _ _ p _ 3200 hp
      (by intro st; simp only [weight, pstats_t.incIns]; omega)
      (by intro st; exact ⟨rfl, by simp only [pstats_t.incIns]; omega⟩)
  · split
    · exact acc_source s _ _ p _ 2350 hp
        (by intro st; simp only [weight, pstats_t.incFins]; omega)
        (by intro st; exact ⟨rfl, by simp only [pstats_t.incFins]; omega⟩)
    · exact acc_source s _ _ p _ 150 hp
        (by intro st; simp only [weight, pstats_t.incZeros]; omega)
        (by intro st; exact ⟨rfl, by simp only [pstats_t.incZeros]; omega⟩)

theorem Quiet.quiet_refl (s : State) : Quiet s s := ⟨Keeps.keeps_refl s, rfl, rfl, rfl, rfl⟩

theorem Quiet.quiet_trans {s t u : State} (h1 : Quiet s t) (h2 : Quiet t u) : Quiet s u :=
  ⟨h1.keeps.keeps_trans h2.keeps, h2.hand.trans h1.hand, h2.free_pool.trans h1.free_pool,
   h2.rpos.trans h1.rpos, h2.last_reset.trans h1.last_reset⟩

theorem quiet_setPte (s : State) (p v : Nat) (e : pte_t) : Quiet s (s.setPte p v e) :=
  ⟨keeps_setPte _ _ _ _, rfl, rfl, rfl, rfl⟩

theorem quiet_setFrame (s : State) (f : Nat) (fr : frame_t) : Quiet s (s.setFrame f fr) :=
  ⟨keeps_setFrame _ _ _, rfl, rfl, rfl, rfl⟩

theorem quiet_charge (s : State) (t : TraceEv) (p : Nat) (f : pstats_t → pstats_t) (c : Nat) :
    Quiet s (s.charge t p f c) :=
  ⟨keeps_charge _ _ _ _ _, rfl, rfl, rfl, rfl⟩

theorem unmap_old_writeback_quiet (s : State) (nf : Nat) :
    Quiet s (unmap_old_writeback s nf) := by
  unfold unmap_old_writeback
  simp only
  split
  · split
    · exact (quiet_charge _ _ _ _ _).quiet_trans (quiet_charge _ _ _ _ _)
    · exact ((quiet_charge _ _ _ _ _).quiet_trans (quiet_charge _ _ _ _ _)).quiet_trans
        (quiet_setPte _ _ _ _)
  · exact quiet_charge _ _ _ _ _

theorem unmap_old_quiet (s : State) (nf : Nat) : Quiet s (unmap_old s nf) := by
  by_cases hp : (s.frame_table nf).pid = -1
  · rw [unmap_old_free s nf hp]; exact Quiet.quiet_refl s
  · rw [unmap_old_used s nf hp]
    exact (unmap_old_writeback_quiet s nf).quiet_trans (quiet_setPte _ _ _ _)

/-! ### `source_page` -/

theorem source_count_sameMap (s : State) (p v nf : Nat) (fm : Bool) :
    SameMap s (source_count s p v nf fm) := by
  unfold source_count
  simp only
  split
  · exact (sameMap_charge _ _ _ _ _).sameMap_trans (sameMap_charge _ _ _ _ _)
  · split
    · exact (sameMap_charge _ _ _ _ _).sameMap_trans (sameMap_charge _ _ _ _ _)
    · exact (sameMap_charge _ _ _ _ _).sameMap_trans (sameMap_charge _ _ _ _ _)

theorem source_count_quiet (s : State) (p v nf : Nat) (fm : Bool) :
    Quiet s (source_count s p v nf fm) := by
  unfold source_count
  simp only
  split
  · exact (quiet_charge _ _ _ _ _).quiet_trans (quiet_charge _ _ _ _ _)
  · split
    · exact (quiet_charge _ _ _ _ _).quiet_trans (quiet_charge _ _ _ _ _)
    · exact (quiet_charge _ _ _ _ _).quiet_trans (quiet_charge _ _ _ _ _)

theorem source_count_pte (s : State) (p v nf : Nat) (fm : Bool) (q w : Nat) :
    (source_count s p v nf fm).pte q w = s.pte q w := by
  unfold source_count
  simp only
  split
  · simp
  · split <;> simp

theorem source_count_frame_table (s : State) (p v nf : Nat) (fm : Bool) :
    (source_count s p v nf fm).frame_table = s.frame_table := by
  unfold source_count
  simp only
  split
  · rfl
  · split <;> rfl

theorem source_page_quiet (s : State) (p v nf : Nat) (fm : Bool) :
    Quiet s (source_page s p v nf fm) :=
  (quiet_setPte _ _ _ _).quiet_trans (source_count_quiet _ _ _ _ _)

theorem source_page_cons (s : State) (p v nf : Nat) (fm : Bool) (hole : Option Nat)
    (h : Cons hole s) (hp : (s.pte p v).present = false) :
    Cons hole (source_page s p v nf fm) :=
  (h.touch p v _ hp rfl).of_sameMap (source_count_sameMap _ _ _ _ _)

theorem source_page_present (s : State) (p v nf : Nat) (fm : Bool) :
    ((source_page s p v nf fm).pte p v).present = false := by
  unfold source_page
  simp only [source_count_pte, State.pte_setPte, and_self, if_true]

/-! ### `map_new` -/

theorem reset_age_sameMap (s : State) (f : Nat) : SameMap s (reset_age s f) := by
  unfold reset_age
  split
  · exact sameMap_setFrame _ _ _ rfl rfl
  · exact sameMap_setFrame _ _ _ rfl rfl
  · exact SameMap.sameMap_refl s

theorem reset_age_quiet (s : State) (f : Nat) : Quiet s (reset_age s f) := by
  unfold reset_age
  split
  · exact quiet_setFrame _ _ _
  · exact quiet_setFrame _ _ _
  · exact Quiet.quiet_refl s

theorem map_new_quiet (s : State) (p v nf : Nat) (wp : Bool) : Quiet s (map_new s p v nf wp) :=
  ((quiet_setFrame _ _ _).quiet_trans (quiet_setPte _ _ _ _)).quiet_trans (reset_age_quiet _ _)

theorem map_new_cons (s : State) (p v nf : Nat) (wp : Bool) (h : Cons (some nf) s)
    (hp : (s.pte p v).present = false) (hnf : nf < s.num_frames) (hle : s.num_frames ≤ 128)
    (hpc : p = s.current_process) (hpn : p < s.nprocs) (hv : v < 64)
    (hin : (is_valid_vpage (s.vmas p) v).isSome = true) :
    Cons none (map_new s p v nf wp) := by
  unfold map_new
  refine Cons.of_sameMap ?_ (reset_age_sameMap _ _)
  simp only [State.pte_setFrame]
  refine Cons.map nf p v h _ _ hp hnf hpn hv ?_ rfl rfl ?_ hin
  · simp [hpc]
  · exact Nat.mod_eq_of_lt (by omega)

/-! ### Accounting of a page fault -/

theorem unmap_old_writeback_acc (s : State) (nf : Nat)
    (hp : (s.frame_table nf).pid.toNat < s.nprocs) : Acc s (unmap_old_writeback s nf) := by
  unfold unmap_old_writeback
  simp only
  split
  · split
    · exact (acc_unmaps s _ _ hp).acc_trans (acc_fouts _ _ _ hp)
    · exact ((acc_unmaps s _ _ hp).acc_trans (acc_outs _ _ _ hp)).acc_trans
        (acc_setPte _ _ _ _ (fun h => h))
  · exact acc_unmaps s _ _ hp

theorem unmap_old_acc (s : State) (nf : Nat) (h : Cons none s) : Acc s (unmap_old s nf) := by
  by_cases hp : (s.frame_table nf).pid = -1
  · rw [unmap_old_free s nf hp]; exact Acc.acc_refl s
  · rw [unmap_old_used s nf hp]
    obtain ⟨p0, v0, h1, _, h3, _⟩ := h.owner nf (by simp) hp
    have hop : (s.frame_table nf).pid.toNat < s.nprocs := by rw [h1]; simpa using h3
    exact (unmap_old_writeback_acc s nf hop).acc_trans (acc_setPte _ _ _ _ (fun h => h))

theorem source_page_acc (s : State) (p v nf : Nat) (fm : Bool) (hp : p < s.nprocs) :
    Acc s (source_page s p v nf fm) :=
  (acc_setPte _ _ _ _ (fun h => by cases h)).acc_trans (source_count_acc _ _ _ _ _ hp)

theorem reset_age_acc (s : State) (f : Nat) : Acc s (reset_age s f) := by
  unfold reset_age
  split
  · exact acc_setFrame _ _ _
  · exact acc_setFrame _ _ _
  · exact Acc.acc_refl s

theorem map_new_acc (s : State) (p v nf : Nat) (wp : Bool) :
    Acc s (map_new s p v nf wp) := by
  unfold map_new
  apply Acc.acc_trans ?_ (reset_age_acc _ _)
  apply Acc.acc_trans ?_ (acc_setPte _ _ _ _ (by intro h; exact h))
  exact acc_setFrame _ _ _

/-! ### `get_frame` -/

theorem get_frame_ok (s : State) (hh : s.hand < s.num_frames)
    (hf : ∀ f ∈ s.free_pool, f < s.num_frames) :
    ∃ nf t l, get_frame s = some (nf, { t with free_pool := l }) ∧ Same s t ∧
      (∀ f ∈ l, f ∈ s.free_pool) ∧ nf < s.num_frames ∧ t.hand < s.num_frames := by
  unfold get_frame allocate_frame_from_free_list
  cases hfp : s.free_pool with
  | nil =>
    obtain ⟨r, hr, h1, h2, h3⟩ := select_victim_frame_ok s hh
    refine ⟨r.1, r.2, r.2.free_pool, ?_, h1, ?_, h2, h3⟩
    · simp only [hr]
    · intro f hfl
      rw [h1.free_pool, hfp] at hfl
      cases hfl
  | cons f rest =>
    refine ⟨f, s, rest, rfl, Same.same_refl s, ?_, ?_, hh⟩
    · intro g hg
      exact List.mem_cons_of_mem _ hg
    · exact hf f (by rw [hfp]; exact List.mem_cons_self _ _)

theorem handle_page_fault_wf (s : State) (p v : Nat) (wp fm : Bool) (h : Wf s)
    (hpc : p = s.current_process) (hv : v < 64) (hp : (s.pte p v).present = false)
    (hin : (is_valid_vpage (s.vmas p) v).isSome = true) :
    ∃ t, handle_page_fault s p v wp fm = some t ∧ Wf t ∧ Keeps s t ∧ Acc s t := by
  obtain ⟨nf, s', l, hg, hsame, hl, hnf, hhand⟩ := get_frame_ok s h.hand h.free_lt
  unfold handle_page_fault
  rw [hg]
  simp only
  have c0 : Cons none { s' with free_pool := l } :=
    (h.cons.of_sameMap hsame.to_sameMap).of_sameMap (sameMap_free_pool _ _)
  refine ⟨_, rfl, ?_, ?_, ?_⟩
  · have hq0 : Quiet { s' with free_pool := l }
        (map_new (source_page (unmap_old { s' with free_pool := l } nf) p v nf fm) p v nf wp) :=
      ((unmap_old_quiet _ _).quiet_trans (source_page_quiet _ _ _ _ _)).quiet_trans (map_new_quiet _ _ _ _ _)
    have hk : Keeps { s' with free_pool := l }
        (source_page (unmap_old { s' with free_pool := l } nf) p v nf fm) :=
      ((unmap_old_quiet _ _).quiet_trans (source_page_quiet _ _ _ _ _)).keeps
    have hnfeq : ({ s' with free_pool := l } : State).num_frames = s.num_frames :=
      hsame.num_frames
    constructor
    · rw [hq0.keeps.num_frames, hnfeq]; exact h.nf_le
    · rw [hq0.hand, hq0.keeps.num_frames, hnfeq]; exact hhand
    · rw [hq0.keeps.current_process, hq0.keeps.nprocs]
      show s'.current_process < s'.nprocs
      rw [hsame.current_process, hsame.nprocs]; exact h.cur
    · intro f hfm
      rw [hq0.free_pool] at hfm
      rw [hq0.keeps.num_frames, hnfeq]
      exact h.free_lt f (hl f hfm)
    · have hp0 : (({ s' with free_pool := l } : State).pte p v).present = false := by
        show (s'.pte p v).present = false
        rw [hsame.present]; exact hp
      have c1 := unmap_old_cons _ nf c0
      have hp1 := unmap_old_present _ nf p v hp0
      have c2 := source_page_cons _ p v nf fm _ c1 hp1
      have hp2 := source_page_present (unmap_old { s' with free_pool := l } nf) p v nf fm
      apply map_new_cons _ p v nf wp c2 hp2
      · rw [hk.num_frames, hnfeq]; exact hnf
      · rw [hk.num_frames, hnfeq]; exact h.nf_le
      · rw [hk.current_process]
        show p = s'.current_process
        rw [hsame.current_process]; exact hpc
      · rw [hk.nprocs]
        show p < s'.nprocs
        rw [hsame.nprocs, hpc]; exact h.cur
      · exact hv
      · rw [hk.vmas]
        show (is_valid_vpage (s'.vmas p) v).isSome = true
        rw [hsame.vmas]; exact hin
  · exact (hsame.keeps.keeps_trans (keeps_free_pool _ _)).keeps_trans
      (((unmap_old_quiet _ _).quiet_trans (source_page_quiet _ _ _ _ _)).quiet_trans
        (map_new_quiet _ _ _ _ _)).keeps

  · have hpn : p < ({ s' with free_pool := l } : State).nprocs := by
      show p < s'.nprocs
      rw [hsame.nprocs, hpc]; exact h.cur
    have a1 := unmap_old_acc _ nf c0
    have a2 := source_page_acc (unmap_old { s' with free_pool := l } nf) p v nf fm
      (by rw [(unmap_old_quiet _ _).keeps.nprocs]; exact hpn)
    exact (((hsame.acc.acc_trans (acc_free_pool _ _)).acc_trans a1).acc_trans a2).acc_trans
      (map_new_acc _ _ _ _ _)

theorem Wf.wf_of_eq {s t : State} (h : Wf s) (hm : SameMap s t) (hh : t.hand = s.hand)
    (hc : t.current_process = s.current_process) (hf : t.free_pool = s.free_pool) : Wf t := by
  constructor
  · rw [hm.num_frames]; exact h.nf_le
  · rw [hh, hm.num_frames]; exact h.hand
  · rw [hc, hm.nprocs]; exact h.cur
  · rw [hf, hm.num_frames]; exact h.free_lt
  · exact h.cons.of_sameMap hm

theorem Wf.of_quiet {s t : State} (h : Wf s) (hm : SameMap s t) (hq : Quiet s t) : Wf t :=
  h.wf_of_eq hm hq.hand hq.keeps.current_process hq.free_pool

/-! ### Process exit -/

theorem exit_writeback_sameMap (p : Nat) (s : State) (i : Nat) :
    SameMap s (exit_writeback p s i) := by
  unfold exit_writeback
  simp only
  split
  · exact (sameMap_charge _ _ _ _ _).sameMap_trans (sameMap_charge _ _ _ _ _)
  · exact sameMap_charge _ _ _ _ _

theorem exit_writeback_quiet (p : Nat) (s : State) (i : Nat) :
    Quiet s (exit_writeback p s i) := by
  unfold exit_writeback
  simp only
  split
  · exact (quiet_charge _ _ _ _ _).quiet_trans (quiet_charge _ _ _ _ _)
  · exact quiet_charge _ _ _ _ _

theorem exit_writeback_pte (p : Nat) (s : State) (i q w : Nat) :
    (exit_writeback p s i).pte q w = s.pte q w := by
  unfold exit_writeback
  simp only
  split <;> simp

theorem exit_writeback_frame_table (p : Nat) (s : State) (i : Nat) :
    (exit_writeback p s i).frame_table = s.frame_table := by
  unfold exit_writeback
  simp only
  split <;> rfl

theorem exit_page_present (p : Nat) (s : State) (i : Nat)
    (hp : (s.pte p i).present = true) :
    exit_page p s i =
      (((exit_writeback p s i).setFrame (s.pte p i).frame
          (s.frame_table (s.pte p i).frame).release).setPte p i (s.pte p i).clear).pushFree
        (s.pte p i).frame := by
  unfold exit_page exit_unmap
  simp only [hp, if_true, exit_writeback_frame_table, State.pte_pushFree, State.pte_setFrame,
    exit_writeback_pte, State.setPte_pushFree]

theorem exit_page_absent (p : Nat) (s : State) (i : Nat)
    (hp : (s.pte p i).present = false) :
    exit_page p s i = s.setPte p i (s.pte p i).clear := by
  unfold exit_page
  simp [hp]

theorem keeps_pushFree (s : State) (f : Nat) : Keeps s (s.pushFree f) := by
  constructor <;> intros <;> rfl

theorem sameMap_pushFree (s : State) (f : Nat) : SameMap s (s.pushFree f) := by
  constructor <;> intros <;> rfl

theorem exit_page_keeps (p : Nat) (s : State) (i : Nat) : Keeps s (exit_page p s i) := by
  cases hp : (s.pte p i).present with
  | true =>
    rw [exit_page_present p s i hp]
    exact (((exit_writeback_quiet p s i).keeps.keeps_trans (keeps_setFrame _ _ _)).keeps_trans
      (keeps_setPte _ _ _ _)).keeps_trans (keeps_pushFree _ _)
  | false =>
    rw [exit_page_absent p s i hp]
    exact keeps_setPte _ _ _ _

theorem exit_page_hand (p : Nat) (s : State) (i : Nat) : (exit_page p s i).hand = s.hand := by
  cases hp : (s.pte p i).present with
  | true =>
    rw [exit_page_present p s i hp]
    exact (exit_writeback_quiet p s i).hand
  | false =>
    rw [exit_page_absent p s i hp]
    rfl

theorem exit_page_wf (p : Nat) (s : State) (i : Nat) (h : Wf s) : Wf (exit_page p s i) := by
  have hk := exit_page_keeps p s i
  have hh := exit_page_hand p s i
  cases hp : (s.pte p i).present with
  | false =>
    rw [exit_page_absent p s i hp]
    exact h.of_quiet (sameMap_setPte _ _ _ _ hp.symm rfl) (quiet_setPte _ _ _ _)
  | true =>
    constructor
    · rw [hk.num_frames]; exact h.nf_le
    · rw [hh, hk.num_frames]; exact h.hand
    · rw [hk.current_process, hk.nprocs]; exact h.cur
    · rw [hk.num_frames, exit_page_present p s i hp]
      intro f hf
      simp only [State.pushFree, State.free_pool_setPte, State.free_pool_setFrame,
        (exit_writeback_quiet p s i).free_pool, List.mem_append, List.mem_singleton] at hf
      rcases hf with hf | hf
      · exact h.free_lt f hf
      · obtain ⟨g1, _, _⟩ := h.cons.back p i hp
        obtain ⟨_, _, _, _, _, _, g5, _, _⟩ := h.cons.owner (s.pte p i).frame (by simp)
          (by rw [g1]; omega)
        rw [hf]; exact g5
    · rw [exit_page_present p s i hp]
      refine Cons.of_sameMap ?_ (sameMap_pushFree _ _)
      have c1 : Cons none (exit_writeback p s i) := h.cons.of_sameMap (exit_writeback_sameMap p s i)
      have := c1.release p i (s.frame_table (s.pte p i).frame).release (s.pte p i).clear
        (by rw [exit_writeback_pte]; exact hp) rfl rfl
      rw [exit_writeback_pte] at this
      exact this

theorem exit_writeback_acc (p : Nat) (s : State) (i : Nat) (hp : p < s.nprocs) :
    Acc s (exit_writeback p s i) := by
  unfold exit_writeback
  simp only
  split
  · exact (acc_unmaps s _ _ hp).acc_trans (acc_fouts _ _ _ hp)
  · exact acc_unmaps s _ _ hp

theorem exit_page_acc (p : Nat) (s : State) (i : Nat) (hpn : p < s.nprocs) :
    Acc s (exit_page p s i) := by
  cases hp : (s.pte p i).present with
  | false =>
    rw [exit_page_absent p s i hp]
    exact acc_setPte _ _ _ _ (by intro h; cases h)
  | true =>
    rw [exit_page_present p s i hp]
    apply Acc.acc_trans ?_ (acc_pushFree _ _)
    apply Acc.acc_trans ?_ (acc_setPte _ _ _ _ (by intro h; cases h))
    exact (exit_writeback_acc p s i hpn).acc_trans (acc_setFrame _ _ _)

theorem exit_fold_wf (p : Nat) (l : List Nat) :
    ∀ s : State, Wf s → p < s.nprocs →
      Wf (l.foldl (exit_page p) s) ∧ Keeps s (l.foldl (exit_page p) s) ∧
        Acc s (l.foldl (exit_page p) s) := by
  induction l with
  | nil => intro s h _; exact ⟨h, Keeps.keeps_refl s, Acc.acc_refl s⟩
  | cons i rest ih =>
    intro s h hp
    have hk := exit_page_keeps p s i
    obtain ⟨h1, h2, h3⟩ := ih (exit_page p s i) (exit_page_wf p s i h)
      (by rw [hk.nprocs]; exact hp)
    exact ⟨h1, hk.keeps_trans h2, (exit_page_acc p s i hp).acc_trans h3⟩

theorem Static.static_refl (s : State) : Static s s := ⟨rfl, rfl, rfl, rfl, fun _ => rfl⟩

theorem Static.static_trans {s t u : State} (h1 : Static s t) (h2 : Static t u) : Static s u :=
  ⟨h2.nprocs.trans h1.nprocs, h2.num_frames.trans h1.num_frames, h2.kind.trans h1.kind,
   h2.random_numbers.trans h1.random_numbers, fun p => (h2.vmas p).trans (h1.vmas p)⟩

theorem Keeps.static {s t : State} (h : Keeps s t) : Static s t :=
  ⟨h.nprocs, h.num_frames, h.kind, h.random_numbers, h.vmas⟩

theorem process_exit_wf (s : State) (h : Wf s) :
    Wf (process_exit s) ∧
      Keeps (({ s with process_exits := s.process_exits + 1 } : State).addCost 1230)
        (process_exit s) ∧
      Acc (({ s with process_exits := s.process_exits + 1 } : State).addCost 1230)
        (process_exit s) := by
  unfold process_exit
  simp only
  have h0 : Wf (({ s with process_exits := s.process_exits + 1 } : State).addCost 1230) := by
    refine h.wf_of_eq ?_ rfl rfl rfl
    constructor <;> intros <;> rfl
  exact exit_fold_wf s.current_process (List.range MAX_VPAGES) _ h0 h.cur

theorem acc_set_modified (s : State) (p v : Nat) (e : pte_t) (fm : Bool)
    (hv : is_valid_vpage (s.vmas p) v = some (false, fm)) : Acc s (s.setPte p v e) := by
  refine ⟨rfl, ?_, ?_, ?_⟩
  · rw [total_congr s (s.setPte p v e) rfl (by simp)]; rfl
  · intro h q
    simp only [State.stats_setPte]; exact h q
  · intro h q w hm
    simp only [State.pte_setPte, State.vmas_setPte] at hm ⊢
    split at hm
    · rename_i hqw
      rw [hqw.1, hqw.2]; exact ⟨fm, hv⟩
    · exact h q w hm

theorem access_wf (s : State) (op : Char) (v : Nat) (h : Wf s) (hv : v < 64) :
    ∃ t, access s op v = some t ∧ Wf t ∧ Keeps s t ∧ Acc (s.addCost 1) t := by
  unfold access
  simp only
  have h1 : Wf (s.addCost 1) := h.wf_of_eq (by constructor <;> intros <;> rfl) rfl rfl rfl
  have k1 : Keeps s (s.addCost 1) := by constructor <;> intros <;> rfl
  have hcur : s.current_process < (s.addCost 1).nprocs := h.cur
  cases hval : is_valid_vpage ((s.addCost 1).vmas s.current_process) v with
  | none =>
    exact ⟨_, rfl, h1.of_quiet (sameMap_charge _ _ _ _ _) (quiet_charge _ _ _ _ _),
      k1.keeps_trans (keeps_charge _ _ _ _ _), acc_segv _ _ _ hcur⟩
  | some r =>
    obtain ⟨wp, fm⟩ := r
    simp only
    have hfault : ∃ s2, (if ((s.addCost 1).pte s.current_process v).present = false then
        handle_page_fault (s.addCost 1) s.current_process v wp fm else some (s.addCost 1))
          = some s2 ∧ Wf s2 ∧ Keeps (s.addCost 1) s2 ∧ Acc (s.addCost 1) s2 := by
      split
      · rename_i hp
        exact handle_page_fault_wf (s.addCost 1) s.current_process v wp fm h1 rfl hv hp
          (by rw [hval]; rfl)
      · exact ⟨_, rfl, h1, Keeps.keeps_refl _, Acc.acc_refl _⟩
    obtain ⟨s2, hs2, hw2, hk2, ha2⟩ := hfault
    rw [hs2]
    simp only
    have h3 : Wf (s2.setPte s.current_process v
        { s2.pte s.current_process v with referenced := true }) :=
      hw2.of_quiet (sameMap_setPte _ _ _ _ rfl rfl) (quiet_setPte _ _ _ _)
    have k3 : Keeps s (s2.setPte s.current_process v
        { s2.pte s.current_process v with referenced := true }) :=
      (k1.keeps_trans hk2).keeps_trans (keeps_setPte _ _ _ _)
    have a3 : Acc (s.addCost 1) (s2.setPte s.current_process v
        { s2.pte s.current_process v with referenced := true }) :=
      ha2.acc_trans (acc_setPte _ _ _ _ (by intro h; exact h))
    refine ⟨_, rfl, ?_⟩
    unfold touch_page
    simp only
    split
    · split
      · exact ⟨h3.of_quiet (sameMap_charge _ _ _ _ _) (quiet_charge _ _ _ _ _),
          k3.keeps_trans (keeps_charge _ _ _ _ _),
          a3.acc_trans (acc_segprot _ _ _ (by rw [k3.nprocs]; exact h.cur))⟩
      · rename_i hwp
        have hwp' : wp = false := by simpa using hwp
        refine ⟨h3.of_quiet (sameMap_setPte _ _ _ _ ?_ ?_) (quiet_setPte _ _ _ _),
          k3.keeps_trans (keeps_setPte _ _ _ _), a3.acc_trans (acc_set_modified _ _ _ _ fm ?_)⟩
        · rfl
        · rfl
        · rw [k3.vmas, ← hwp']; exact hval
    · exact ⟨h3, k3, a3⟩

theorem simulate_instruction_good (s : State) (i : Instr) (h : Good s)
    (hv : i.valid s.nprocs) :
    ∃ t, simulate_instruction s i.operation i.vpage = some t ∧ Good t ∧ Static s t := by
  unfold simulate_instruction
  simp only
  have h0 : Wf s.tick :=
    h.wf.wf_of_eq (by constructor <;> intros <;> rfl) rfl rfl rfl
  have k0 : Static s s.tick := by
    constructor <;> intros <;> rfl
  have hc1 := h.counters
  have hc2 := h.cost
  by_cases hc : i.operation = 'c'
  · rw [if_pos hc]
    have hlt : i.vpage < s.nprocs := by
      rcases hv with hv | hv | hv
      · exact hv.2
      · rw [hc] at hv; exact absurd hv (by decide)
      · rw [hc] at hv; exact absurd hv.1 (by decide)
    refine ⟨_, rfl, ?_, ?_⟩
    · constructor
      · constructor
        · exact h.wf.nf_le
        · exact h.wf.hand
        · exact hlt
        · exact h.wf.free_lt
        · exact h.wf.cons.of_sameMap (by constructor <;> intros <;> rfl)
      · show s.ctx_switches + 1 + s.process_exits ≤ s.inst_count + 1
        omega
      · show s.cost + 130 + (s.ctx_switches + 1) + s.process_exits =
          s.inst_count + 1 + 130 * (s.ctx_switches + 1) + 1230 * s.process_exits + total s
        omega
      · exact h.maps
      · exact h.wp
    · constructor <;> intros <;> rfl
  · rw [if_neg hc]
    by_cases he : i.operation = 'e'
    · rw [if_pos he]
      obtain ⟨h1, h2, h3⟩ := process_exit_wf _ h0
      refine ⟨_, rfl, ⟨h1, ?_, ?_, h3.maps h.maps, h3.wp h.wp⟩, k0.static_trans ?_⟩
      · rw [h2.ctx_switches, h2.process_exits, h2.inst_count]
        show s.ctx_switches + (s.process_exits + 1) ≤ s.inst_count + 1
        omega
      · have hb : (process_exit s.tick).cost + total s =
            s.cost + 1230 + total (process_exit s.tick) := h3.bal
        rw [h2.ctx_switches, h2.process_exits, h2.inst_count]
        show (process_exit _).cost + s.ctx_switches + (s.process_exits + 1) =
          s.inst_count + 1 + 130 * s.ctx_switches + 1230 * (s.process_exits + 1) +
            total (process_exit _)
        omega
      · exact Static.static_trans (by constructor <;> intros <;> rfl) h2.static
    · rw [if_neg he]
      have hrw : (i.operation = 'r' ∨ i.operation = 'w') ∧ i.vpage < MAX_VPAGES := by
        rcases hv with hv | hv | hv
        · exact absurd hv.1 hc
        · exact absurd hv he
        · exact hv
      rw [if_pos hrw.1]
      obtain ⟨t, ht, hw, hk, ha⟩ := access_wf _ i.operation i.vpage h0 hrw.2
      refine ⟨t, ht, ⟨hw, ?_, ?_, ha.maps h.maps, ha.wp h.wp⟩, k0.static_trans hk.static⟩
      · rw [hk.ctx_switches, hk.process_exits, hk.inst_count]
        show s.ctx_switches + s.process_exits ≤ s.inst_count + 1
        omega
      · have hb : t.cost + total s = s.cost + 1 + total t := ha.bal
        rw [hk.ctx_switches, hk.process_exits, hk.inst_count]
        show t.cost + s.ctx_switches + s.process_exits =
          s.inst_count + 1 + 130 * s.ctx_switches + 1230 * s.process_exits + total t
        omega

theorem runFrom_good (instrs : List Instr) :
    ∀ s : State, Good s → (∀ i ∈ instrs, i.valid s.nprocs) →
      ∃ t, runFrom s instrs = some t ∧ Good t ∧ Static s t := by
  induction instrs with
  | nil => intro s h _; exact ⟨s, rfl, h, Static.static_refl s⟩
  | cons i rest ih =>
    intro s h hv
    obtain ⟨s1, hs1, hw1, hk1⟩ := simulate_instruction_good s i h (hv i (List.mem_cons_self _ _))
    obtain ⟨t, ht, hw, hk⟩ := ih s1 hw1 (by
      intro j hj
      rw [hk1.nprocs]
      exact hv j (List.mem_cons_of_mem _ hj))
    refine ⟨t, ?_, hw, hk1.static_trans hk⟩
    simp only [runFrom, hs1, ht]

theorem init_wf (c : Config) (hc : c.WF) : Wf (init c) := by
  obtain ⟨h1, h2, h3, _⟩ := hc
  constructor
  · exact h2
  · exact h1
  · exact h3
  · intro f hf
    exact List.mem_range.mp hf
  · constructor
    · intro f _ hpid
      exact absurd rfl hpid
    · intro p v hp
      cases hp
    · intro p v hp
      cases hp

theorem total_init (c : Config) : total (init c) = 0 := by
  unfold total
  apply List.sum_eq_zero
  intro x hx
  obtain ⟨p, _, hp⟩ := List.mem_map.mp hx
  rw [← hp]; rfl

theorem init_good (c : Config) (hc : c.WF) : Good (init c) := by
  refine ⟨init_wf c hc, Nat.le_refl _, ?_, ?_, ?_⟩
  · rw [total_init]; rfl
  · intro p; rfl
  · intro p v h; cases h

/-- Every run over valid instructions finishes and ends in a good state. -/
theorem run_good (c : Config) (instrs : List Instr) (hc : c.WF)
    (hv : ∀ i ∈ instrs, i.valid c.procs.length) :
    ∃ s, run c instrs = some s ∧ Good s ∧ Static (init c) s :=
  runFrom_good instrs (init c) (init_good c hc) hv

/-! ### Effects of `handle_page_fault` on single observables -/

theorem unmap_old_writeback_clean (s : State) (nf : Nat)
    (hm : (s.pte (s.frame_table nf).pid.toNat (s.frame_table nf).vpage.toNat).modified
      = false) :
    unmap_old_writeback s nf =
      s.charge (TraceEv.UNMAP (s.frame_table nf).pid (s.frame_table nf).vpage)
        (s.frame_table nf).pid.toNat pstats_t.incUnmaps 410 := by
  unfold unmap_old_writeback
  simp [hm]

theorem unmap_old_writeback_fout (s : State) (nf : Nat)
    (hm : (s.pte (s.frame_table nf).pid.toNat (s.frame_table nf).vpage.toNat).modified = true)
    (hf : s.fileMapped (s.frame_table nf).pid.toNat (s.frame_table nf).vpage.toNat = true) :
    unmap_old_writeback s nf =
      (s.charge (TraceEv.UNMAP (s.frame_table nf).pid (s.frame_table nf).vpage)
        (s.frame_table nf).pid.toNat pstats_t.incUnmaps 410).charge TraceEv.FOUT
        (s.frame_table nf).pid.toNat pstats_t.incFouts 2800 := by
  unfold unmap_old_writeback
  simp [hm, hf]

theorem unmap_old_writeback_out (s : State) (nf : Nat)
    (hm : (s.pte (s.frame_table nf).pid.toNat (s.frame_table nf).vpage.toNat).modified = true)
    (hf : s.fileMapped (s.frame_table nf).pid.toNat (s.frame_table nf).vpage.toNat = false) :
    unmap_old_writeback s nf =
      ((s.charge (TraceEv.UNMAP (s.frame_table nf).pid (s.frame_table nf).vpage)
        (s.frame_table nf).pid.toNat pstats_t.incUnmaps 410).charge TraceEv.OUT
        (s.frame_table nf).pid.toNat pstats_t.incOuts 2750).setPte
        (s.frame_table nf).pid.toNat (s.frame_table nf).vpage.toNat
        { s.pte (s.frame_table nf).pid.toNat (s.frame_table nf).vpage.toNat with
          pagedout := true } := by
  unfold unmap_old_writeback
  simp [hm, hf]

/-- `unmap_old` touches no entry but the one of the old owner. -/
theorem unmap_old_pte_other (s : State) (nf q w : Nat)
    (h : ¬ (q = (s.frame_table nf).pid.toNat ∧ w = (s.frame_table nf).vpage.toNat)) :
    (unmap_old s nf).pte q w = s.pte q w := by
  by_cases hp : (s.frame_table nf).pid = -1
  · rw [unmap_old_free s nf hp]
  · rw [unmap_old_used s nf hp]
    simp only [State.pte_setPte, h, if_false]
    unfold unmap_old_writeback
    simp only
    split
    · split
      · simp
      · simp [h]
    · simp

/-- `unmap_old` touches no statistics but those of the old owner, and there
only `unmaps`, `outs` and `fouts`. -/
theorem unmap_old_stats (s : State) (nf q : Nat) :
    ((unmap_old s nf).stats q).maps = (s.stats q).maps ∧
    ((unmap_old s nf).stats q).ins = (s.stats q).ins ∧
    ((unmap_old s nf).stats q).fins = (s.stats q).fins ∧
    ((unmap_old s nf).stats q).zeros = (s.stats q).zeros ∧
    ((unmap_old s nf).stats q).segv = (s.stats q).segv ∧
    ((unmap_old s nf).stats q).segprot = (s.stats q).segprot := by
  by_cases hp : (s.frame_table nf).pid = -1
  · rw [unmap_old_free s nf hp]
    exact ⟨rfl, rfl, rfl, rfl, rfl, rfl⟩
  · rw [unmap_old_used s nf hp]
    simp only [State.stats_setPte]
    unfold unmap_old_writeback
    simp only
    split
    · split
      · simp only [State.stats_charge]
        split
        · rename_i hq; subst hq; simp [pstats_t.incUnmaps, pstats_t.incFouts]
        · simp
      · simp only [State.stats_charge, State.stats_setPte]
        split
        · rename_i hq; subst hq; simp [pstats_t.incUnmaps, pstats_t.incOuts]
        · simp
    · simp only [State.stats_charge]
      split
      · rename_i hq; subst hq; simp [pstats_t.incUnmaps]
      · simp

/-- What `unmap_old` prints: nothing, or ` UNMAP` possibly followed by ` OUT`
or ` FOUT`. -/
theorem unmap_old_trace (s : State) (nf : Nat) :
    ∃ pre, (unmap_old s nf).trace = s.trace ++ pre ∧
      ∀ e ∈ pre, e ≠ TraceEv.IN ∧ e ≠ TraceEv.FIN ∧ e ≠ TraceEv.ZERO ∧
        (∀ f, e ≠ TraceEv.MAP f) := by
  by_cases hp : (s.frame_table nf).pid = -1
  · rw [unmap_old_free s nf hp]
    exact ⟨[], by simp, by simp⟩
  · rw [unmap_old_used s nf hp]
    simp only [State.trace_setPte]
    unfold unmap_old_writeback
    simp only
    split
    · split
      · refine ⟨[TraceEv.UNMAP (s.frame_table nf).pid (s.frame_table nf).vpage,
          TraceEv.FOUT], by simp, ?_⟩
        intro e he
        simp only [List.mem_cons, List.mem_singleton, List.not_mem_nil, or_false] at he
        rcases he with rfl | rfl <;> simp
      · refine ⟨[TraceEv.UNMAP (s.frame_table nf).pid (s.frame_table nf).vpage,
          TraceEv.OUT], by simp, ?_⟩
        intro e he
        simp only [List.mem_cons, List.mem_singleton, List.not_mem_nil, or_false] at he
        rcases he with rfl | rfl <;> simp
    · refine ⟨[TraceEv.UNMAP (s.frame_table nf).pid (s.frame_table nf).vpage], by simp, ?_⟩
      intro e he
      simp only [List.mem_singleton] at he
      subst he
      simp

theorem source_count_eq (s : State) (p v nf : Nat) (fm : Bool) :
    source_count s p v nf fm =
      (s.charge (source_event (s.pte p v).pagedout fm) p
        (source_counter (s.pte p v).pagedout fm) (source_cost (s.pte p v).pagedout fm)).charge
        (TraceEv.MAP nf) p pstats_t.incMaps 350 := by
  unfold source_count source_event source_counter source_cost
  simp only
  cases (s.pte p v).pagedout <;> cases fm <;> rfl

theorem source_page_trace (s : State) (p v nf : Nat) (fm : Bool) :
    (source_page s p v nf fm).trace =
      s.trace ++ [source_event (s.pte p v).pagedout fm, TraceEv.MAP nf] := by
  unfold source_page
  simp only [source_count_eq, State.trace_charge, State.pte_setPte, and_self, if_true,
    State.trace_setPte, List.append_assoc, List.singleton_append]

theorem source_page_stats (s : State) (p v nf : Nat) (fm : Bool) (q : Nat) :
    (source_page s p v nf fm).stats q =
      if q = p then (source_counter (s.pte p v).pagedout fm (s.stats p)).incMaps
      else s.stats q := by
  unfold source_page
  simp only [source_count_eq, State.stats_charge, State.pte_setPte, and_self, if_true,
    State.stats_setPte]
  split <;> rfl

theorem source_page_pte (s : State) (p v nf : Nat) (fm : Bool) (q w : Nat) :
    (source_page s p v nf fm).pte q w =
      if q = p ∧ w = v then
        { s.pte p v with present := false, referenced := false, modified := false }
      else s.pte q w := by
  unfold source_page
  simp only [source_count_pte, State.pte_setPte]

theorem reset_age_pte (s : State) (f q w : Nat) : (reset_age s f).pte q w = s.pte q w := by
  unfold reset_age
  split <;> rfl

theorem reset_age_stats (s : State) (f q : Nat) : (reset_age s f).stats q = s.stats q := by
  unfold reset_age
  split <;> rfl

theorem reset_age_trace (s : State) (f : Nat) : (reset_age s f).trace = s.trace := by
  unfold reset_age
  split <;> rfl

theorem reset_age_cost (s : State) (f : Nat) : (reset_age s f).cost = s.cost := by
  unfold reset_age
  split <;> rfl

theorem map_new_pte (s : State) (p v nf : Nat) (wp : Bool) (q w : Nat) :
    (map_new s p v nf wp).pte q w =
      if q = p ∧ w = v then
        { s.pte p v with frame := nf % 128, present := true, referenced := true,
                         write_protect := if wp then true else (s.pte p v).write_protect }
      else s.pte q w := by
  unfold map_new
  simp only [reset_age_pte, State.pte_setPte, State.pte_setFrame]

theorem map_new_stats (s : State) (p v nf : Nat) (wp : Bool) (q : Nat) :
    (map_new s p v nf wp).stats q = s.stats q := by
  unfold map_new
  simp only [reset_age_stats, State.stats_setPte, State.stats_setFrame]

theorem map_new_trace (s : State) (p v nf : Nat) (wp : Bool) :
    (map_new s p v nf wp).trace = s.trace := by
  unfold map_new
  simp only [reset_age_trace, State.trace_setPte, State.trace_setFrame]

theorem map_new_cost (s : State) (p v nf : Nat) (wp : Bool) :
    (map_new s p v nf wp).cost = s.cost := by
  unfold map_new
  simp only [reset_age_cost, State.cost_setPte, State.cost_setFrame]

/-- Under the consistency invariant the owner of a frame in use is a present
entry, hence different from an entry that is not present. -/
theorem Cons.owner_ne {s : State} (h : Cons none s) (nf p v : Nat)
    (hu : (s.frame_table nf).pid ≠ -1) (hp : (s.pte p v).present = false) :
    ¬ (p = (s.frame_table nf).pid.toNat ∧ v = (s.frame_table nf).vpage.toNat) := by
  obtain ⟨p0, v0, h1, h2, _, _, _, h6, _⟩ := h.owner nf (by simp) hu
  rintro ⟨rfl, rfl⟩
  rw [h1, h2] at hp
  simp only [Int.toNat_ofNat] at hp
  rw [hp] at h6
  cases h6

theorem unmap_old_pte_faulting (s : State) (nf p v : Nat) (h : Cons none s)
    (hp : (s.pte p v).present = false) : (unmap_old s nf).pte p v = s.pte p v := by
  by_cases hu : (s.frame_table nf).pid = -1
  · rw [unmap_old_free s nf hu]
  · exact unmap_old_pte_other s nf p v (h.owner_ne nf p v hu hp)

theorem simulate_access (s : State) (op : Char) (v : Nat) (hop : op = 'r' ∨ op = 'w') :
    simulate_instruction s op v = access s.tick op v := by
  have hc : op ≠ 'c' := by rcases hop with h | h <;> rw [h] <;> decide
  have he : op ≠ 'e' := by rcases hop with h | h <;> rw [h] <;> decide
  unfold simulate_instruction
  simp only [hc, he, hop, if_false, if_true]

theorem access_present (s : State) (op : Char) (v : Nat) (wp fm : Bool)
    (hvma : is_valid_vpage (s.vmas s.current_process) v = some (wp, fm))
    (hp : (s.pte s.current_process v).present = true) :
    access s op v = some (touch_page (s.addCost 1) s.current_process v op wp) := by
  have hvma' : is_valid_vpage ((s.addCost 1).vmas s.current_process) v = some (wp, fm) := hvma
  have hp' : ((s.addCost 1).pte s.current_process v).present = true := hp
  unfold access
  simp only [hvma', hp', Bool.true_eq_false, if_false]

theorem access_fault (s : State) (op : Char) (v : Nat) (wp fm : Bool) (t : State)
    (hvma : is_valid_vpage (s.vmas s.current_process) v = some (wp, fm))
    (hp : (s.pte s.current_process v).present = false)
    (ht : handle_page_fault (s.addCost 1) s.current_process v wp fm = some t) :
    access s op v = some (touch_page t s.current_process v op wp) := by
  have hvma' : is_valid_vpage ((s.addCost 1).vmas s.current_process) v = some (wp, fm) := hvma
  have hp' : ((s.addCost 1).pte s.current_process v).present = false := hp
  unfold access
  simp only [hvma', hp', if_true, ht]

theorem Alloc.trace {s s0 : State} (h : Alloc s s0) : s0.trace = s.trace := by
  obtain ⟨s', l, h1, h2⟩ := h
  rw [h2]; exact h1.trace

theorem Alloc.cost {s s0 : State} (h : Alloc s s0) : s0.cost = s.cost := by
  obtain ⟨s', l, h1, h2⟩ := h
  rw [h2]; exact h1.cost

theorem Alloc.stats {s s0 : State} (h : Alloc s s0) (q : Nat) : s0.stats q = s.stats q := by
  obtain ⟨s', l, h1, h2⟩ := h
  rw [h2]; exact h1.stats q

theorem Alloc.vmas {s s0 : State} (h : Alloc s s0) (q : Nat) : s0.vmas q = s.vmas q := by
  obtain ⟨s', l, h1, h2⟩ := h
  rw [h2]; exact h1.vmas q

theorem Alloc.present {s s0 : State} (h : Alloc s s0) (q w : Nat) :
    (s0.pte q w).present = (s.pte q w).present := by
  obtain ⟨s', l, h1, h2⟩ := h
  rw [h2]; exact h1.present q w

theorem Alloc.pagedout {s s0 : State} (h : Alloc s s0) (q w : Nat) :
    (s0.pte q w).pagedout = (s.pte q w).pagedout := by
  obtain ⟨s', l, h1, h2⟩ := h
  rw [h2]; exact h1.pagedout q w

theorem Alloc.modified {s s0 : State} (h : Alloc s s0) (q w : Nat) :
    (s0.pte q w).modified = (s.pte q w).modified := by
  obtain ⟨s', l, h1, h2⟩ := h
  rw [h2]; exact h1.modified q w

theorem Alloc.frame_pid {s s0 : State} (h : Alloc s s0) (f : Nat) :
    (s0.frame_table f).pid = (s.frame_table f).pid := by
  obtain ⟨s', l, h1, h2⟩ := h
  rw [h2]; exact h1.frame_pid f

theorem Alloc.frame_vpage {s s0 : State} (h : Alloc s s0) (f : Nat) :
    (s0.frame_table f).vpage = (s.frame_table f).vpage := by
  obtain ⟨s', l, h1, h2⟩ := h
  rw [h2]; exact h1.frame_vpage f

theorem Alloc.cons {s s0 : State} (h : Alloc s s0) (hc : Cons none s) : Cons none s0 := by
  obtain ⟨s', l, h1, h2⟩ := h
  rw [h2]; exact (hc.of_sameMap h1.to_sameMap).of_sameMap (sameMap_free_pool _ _)

/-- The shape of a page fault in a well-formed state: a frame `nf` is obtained,
then the three parts of `handle_page_fault` run. -/
theorem handle_page_fault_shape (s : State) (p v : Nat) (wp fm : Bool) (h : Wf s) :
    ∃ nf s0, get_frame s = some (nf, s0) ∧ Alloc s s0 ∧ nf < s.num_frames ∧
      handle_page_fault s p v wp fm =
        some (map_new (source_page (unmap_old s0 nf) p v nf fm) p v nf wp) := by
  obtain ⟨nf, s', l, hg, hsame, _, hnf, _⟩ := get_frame_ok s h.hand h.free_lt
  refine ⟨nf, { s' with free_pool := l }, hg, ⟨s', l, hsame, rfl⟩, hnf, ?_⟩
  unfold handle_page_fault
  rw [hg]

theorem touch_page_trace (s : State) (p v : Nat) (op : Char) (wp : Bool) :
    (touch_page s p v op wp).trace =
      s.trace ++ (if op = 'w' ∧ wp = true then [TraceEv.SEGPROT] else []) := by
  unfold touch_page
  simp only
  by_cases h1 : op = 'w'
  · by_cases h2 : wp = true
    · simp [h1, h2]
    · simp [h1, h2]
  · simp [h1]

theorem touch_page_stats (s : State) (p v : Nat) (op : Char) (wp : Bool) (q : Nat) :
    (touch_page s p v op wp).stats q =
      if op = 'w' ∧ wp = true ∧ q = p then (s.stats p).incSegprot else s.stats q := by
  unfold touch_page
  simp only
  by_cases h1 : op = 'w'
  · by_cases h2 : wp = true
    · simp [h1, h2]
    · simp [h1, h2]
  · simp [h1]

theorem touch_page_pte (s : State) (p v : Nat) (op : Char) (wp : Bool) (q w : Nat) :
    (touch_page s p v op wp).pte q w =
      if q = p ∧ w = v then
        { s.pte p v with referenced := true,
                         modified := if op = 'w' ∧ wp = false then true
                                     else (s.pte p v).modified }
      else s.pte q w := by
  unfold touch_page
  simp only
  by_cases h1 : op = 'w'
  · by_cases h2 : wp = true
    · by_cases h3 : q = p ∧ w = v <;> simp [h1, h2, h3]
    · by_cases h3 : q = p ∧ w = v <;> simp [h1, h2, h3]
  · by_cases h3 : q = p ∧ w = v <;> simp [h1, h3]

/-- The three shapes of `unmap_old` on a frame in use, in one formula. -/
theorem unmap_old_used_cases (s : State) (nf : Nat) (ofm : Bool)
    (hu : (s.frame_table nf).pid ≠ -1)
    (hv : s.fileMapped (s.frame_table nf).pid.toNat (s.frame_table nf).vpage.toNat = ofm) :
    (unmap_old s nf).trace =
      s.trace ++ [TraceEv.UNMAP (s.frame_table nf).pid (s.frame_table nf).vpage] ++
        (if (s.pte (s.frame_table nf).pid.toNat (s.frame_table nf).vpage.toNat).modified = true
          then [if ofm then TraceEv.FOUT else TraceEv.OUT] else []) ∧
    ((unmap_old s nf).stats (s.frame_table nf).pid.toNat).unmaps =
      (s.stats (s.frame_table nf).pid.toNat).unmaps + 1 ∧
    ((unmap_old s nf).stats (s.frame_table nf).pid.toNat).fouts =
      (s.stats (s.frame_table nf).pid.toNat).fouts +
        (if (s.pte (s.frame_table nf).pid.toNat (s.frame_table nf).vpage.toNat).modified = true
          ∧ ofm = true then 1 else 0) ∧
    ((unmap_old s nf).stats (s.frame_table nf).pid.toNat).outs =
      (s.stats (s.frame_table nf).pid.toNat).outs +
        (if (s.pte (s.frame_table nf).pid.toNat (s.frame_table nf).vpage.toNat).modified = true
          ∧ ofm = false then 1 else 0) ∧
    ((unmap_old s nf).pte (s.frame_table nf).pid.toNat (s.frame_table nf).vpage.toNat).pagedout =
      (if (s.pte (s.frame_table nf).pid.toNat (s.frame_table nf).vpage.toNat).modified = true
          ∧ ofm = false then true
       else (s.pte (s.frame_table nf).pid.toNat (s.frame_table nf).vpage.toNat).pagedout) ∧
    ((unmap_old s nf).pte (s.frame_table nf).pid.toNat (s.frame_table nf).vpage.toNat).present
      = false ∧
    ((unmap_old s nf).pte (s.frame_table nf).pid.toNat (s.frame_table nf).vpage.toNat).referenced
      = false ∧
    ((unmap_old s nf).pte (s.frame_table nf).pid.toNat (s.frame_table nf).vpage.toNat).modified
      = (s.pte (s.frame_table nf).pid.toNat (s.frame_table nf).vpage.toNat).modified := by
  rw [unmap_old_used s nf hu]
  cases hm : (s.pte (s.frame_table nf).pid.toNat (s.frame_table nf).vpage.toNat).modified with
  | false =>
    rw [unmap_old_writeback_clean s nf hm]
    simp [pte_t.unmap, pstats_t.incUnmaps, hm]
  | true =>
    cases ofm with
    | true =>
      rw [unmap_old_writeback_fout s nf hm hv]
      simp [pte_t.unmap, pstats_t.incUnmaps, pstats_t.incFouts, hm]
    | false =>
      rw [unmap_old_writeback_out s nf hm hv]
      simp [pte_t.unmap, pstats_t.incUnmaps, pstats_t.incOuts, hm]

theorem source_counter_keeps (a b : Bool) (st : pstats_t) :
    (source_counter a b st).incMaps.unmaps = st.unmaps ∧
    (source_counter a b st).incMaps.outs = st.outs ∧
    (source_counter a b st).incMaps.fouts = st.fouts ∧
    (source_counter a b st).incMaps.segv = st.segv ∧
    (source_counter a b st).incMaps.segprot = st.segprot := by
  unfold source_counter
  cases a <;> cases b <;>
    simp [pstats_t.incMaps, pstats_t.incIns, pstats_t.incFins, pstats_t.incZeros]

/-- Sourcing and mapping the new page, and touching it afterwards, leave the
`unmaps`, `outs` and `fouts` counters of every process alone. -/
theorem after_unmap_stats (u : State) (p v nf : Nat) (wp fm : Bool) (op : Char) (q : Nat) :
    ((touch_page (map_new (source_page u p v nf fm) p v nf wp) p v op wp).stats q).unmaps
      = (u.stats q).unmaps ∧
    ((touch_page (map_new (source_page u p v nf fm) p v nf wp) p v op wp).stats q).outs
      = (u.stats q).outs ∧
    ((touch_page (map_new (source_page u p v nf fm) p v nf wp) p v op wp).stats q).fouts
      = (u.stats q).fouts := by
  have key : ((map_new (source_page u p v nf fm) p v nf wp).stats q).unmaps = (u.stats q).unmaps ∧
      ((map_new (source_page u p v nf fm) p v nf wp).stats q).outs = (u.stats q).outs ∧
      ((map_new (source_page u p v nf fm) p v nf wp).stats q).fouts = (u.stats q).fouts := by
    rw [map_new_stats, source_page_stats]
    split
    · rename_i hq
      subst hq
      obtain ⟨h1, h2, h3, _, _⟩ := source_counter_keeps (u.pte q v).pagedout fm (u.stats q)
      exact ⟨h1, h2, h3⟩
    · exact ⟨rfl, rfl, rfl⟩
  rw [touch_page_stats]
  split
  · rename_i hq
    obtain ⟨_, _, hq⟩ := hq
    subst hq
    exact key
  · exact key

/-- Sourcing and mapping the new page, and touching it afterwards, leave every
entry but the faulting one alone. -/
theorem after_unmap_pte (u : State) (p v nf : Nat) (wp fm : Bool) (op : Char) (q w : Nat)
    (h : ¬ (q = p ∧ w = v)) :
    (touch_page (map_new (source_page u p v nf fm) p v nf wp) p v op wp).pte q w = u.pte q w := by
  rw [touch_page_pte, if_neg h, map_new_pte, if_neg h, source_page_pte, if_neg h]

theorem presentPages_succ (s : State) (p k : Nat) :
    presentPages s p (k + 1) =
      presentPages s p k ++ (if (s.pte p k).present = true then [k] else []) := by
  unfold presentPages
  rw [List.range_succ, List.filter_append]
  cases h : (s.pte p k).present <;> simp [h]

theorem writtenPages_succ (s : State) (p k : Nat) :
    writtenPages s p (k + 1) =
      writtenPages s p k ++
        (if (s.pte p k).present = true ∧ (s.pte p k).modified = true ∧
            s.fileMapped p k = true then [k] else []) := by
  unfold writtenPages
  rw [List.range_succ, List.filter_append]
  cases h1 : (s.pte p k).present <;> cases h2 : (s.pte p k).modified <;>
    cases h3 : s.fileMapped p k <;> simp [h1, h2, h3]

theorem ExitInv.zero (p : Nat) (s : State) : ExitInv p s s 0 := by
  constructor
  · intro w hw; omega
  · intro q w _; rfl
  · intro w hw; omega
  · intro f _; rfl
  · simp [presentPages]
  · simp [presentPages, writtenPages]
  · intro q _; rfl
  · simp [presentPages, writtenPages]
  · exact Keeps.keeps_refl s
  · rfl
  · rfl
  · rfl

theorem exit_writeback_stats (p : Nat) (s : State) (i q : Nat) :
    (exit_writeback p s i).stats q =
      if q = p then
        (if (s.pte p i).modified = true ∧ s.fileMapped p i = true
          then (s.stats p).incUnmaps.incFouts else (s.stats p).incUnmaps)
      else s.stats q := by
  unfold exit_writeback
  simp only [State.fileMapped_charge]
  split
  · simp only [State.stats_charge, if_true]
    split
    · rfl
    · rfl
  · simp only [State.stats_charge]

theorem exit_writeback_cost (p : Nat) (s : State) (i : Nat) :
    (exit_writeback p s i).cost =
      s.cost + 410 +
        (if (s.pte p i).modified = true ∧ s.fileMapped p i = true then 2800 else 0) := by
  unfold exit_writeback
  simp only [State.fileMapped_charge]
  split <;> simp

theorem release_release (fr : frame_t) : fr.release.release = fr.release := rfl

theorem ExitInv.step (p : Nat) (s e : State) (k : Nat) (h : ExitInv p s e k) :
    ExitInv p s (exit_page p e k) (k + 1) := by
  have hk : e.pte p k = s.pte p k := h.pte_rest p k (by omega)
  have hfm : e.fileMapped p k = s.fileMapped p k :=
    State.fileMapped_congr _ _ _ _ (h.keeps.vmas p)
  cases hp : (s.pte p k).present with
  | false =>
    have hp' : (e.pte p k).present = false := by rw [hk]; exact hp
    rw [exit_page_absent p e k hp']
    have hpp : presentPages s p (k + 1) = presentPages s p k := by
      rw [presentPages_succ]; simp [hp]
    have hwp : writtenPages s p (k + 1) = writtenPages s p k := by
      rw [writtenPages_succ]; simp [hp]
    constructor
    · intro w hw
      simp only [State.pte_setPte]
      by_cases hwk : w = k
      · subst hwk; simp [hk]
      · simp only [hwk, and_false, if_false]
        exact h.pte_done w (by omega)
    · intro q w hqw
      simp only [State.pte_setPte]
      have : ¬ (q = p ∧ w = k) := by
        rintro ⟨rfl, rfl⟩; exact hqw ⟨rfl, by omega⟩
      simp only [this, if_false]
      exact h.pte_rest q w (by rintro ⟨rfl, hw⟩; exact hqw ⟨rfl, by omega⟩)
    · intro w hw hpw
      simp only [State.frame_table_setPte]
      have : w ≠ k := by rintro rfl; rw [hp] at hpw; cases hpw
      exact h.frame_rel w (by omega) hpw
    · intro f hf
      simp only [State.frame_table_setPte]
      exact h.frame_rest f (fun w hw hpw => hf w (by omega) hpw)
    · rw [hpp]; exact h.free_pool
    · rw [hpp, hwp]; simp only [State.stats_setPte]; exact h.stats_p
    · intro q hq; simp only [State.stats_setPte]; exact h.stats_rest q hq
    · rw [hpp, hwp]; exact h.cost
    · exact h.keeps.keeps_trans (keeps_setPte _ _ _ _)
    · exact h.hand
    · exact h.rpos
    · exact h.last_reset
  | true =>
    have hp' : (e.pte p k).present = true := by rw [hk]; exact hp
    rw [exit_page_present p e k hp', hk]
    have hpp : presentPages s p (k + 1) = presentPages s p k ++ [k] := by
      rw [presentPages_succ]; simp [hp]
    have hfr : (e.frame_table (s.pte p k).frame).release =
        (s.frame_table (s.pte p k).frame).release := by
      by_cases hex : ∃ w, w < k ∧ (s.pte p w).present = true ∧
          (s.pte p w).frame = (s.pte p k).frame
      · obtain ⟨w, hw, hpw, hfw⟩ := hex
        have := h.frame_rel w hw hpw
        rw [hfw] at this
        rw [this]; rfl
      · rw [h.frame_rest (s.pte p k).frame (by
          intro w hw hpw hfw
          exact hex ⟨w, hw, hpw, hfw⟩)]
    rw [hfr]
    constructor
    · intro w hw
      simp only [State.pte_pushFree, State.pte_setPte, State.pte_setFrame, exit_writeback_pte]
      by_cases hwk : w = k
      · subst hwk; simp
      · simp only [hwk, and_false, if_false]
        exact h.pte_done w (by omega)
    · intro q w hqw
      simp only [State.pte_pushFree, State.pte_setPte, State.pte_setFrame, exit_writeback_pte]
      have : ¬ (q = p ∧ w = k) := by
        rintro ⟨rfl, rfl⟩; exact hqw ⟨rfl, by omega⟩
      simp only [this, if_false]
      exact h.pte_rest q w (by rintro ⟨rfl, hw⟩; exact hqw ⟨rfl, by omega⟩)
    · intro w hw hpw
      simp only [State.frame_table_pushFree, State.frame_table_setPte,
        State.frame_table_setFrame, exit_writeback_frame_table]
      split
      · rename_i hf; rw [hf]
      · exact h.frame_rel w (by
          by_contra hcon
          have : w = k := by omega
          subst this
          rename_i hf; exact hf rfl) hpw
    · intro f hf
      simp only [State.frame_table_pushFree, State.frame_table_setPte,
        State.frame_table_setFrame, exit_writeback_frame_table]
      have hne : f ≠ (s.pte p k).frame := fun hc => hf k (by omega) hp hc.symm
      simp only [hne, if_false]
      exact h.frame_rest f (fun w hw hpw => hf w (by omega) hpw)
    · simp only [State.free_pool_pushFree, State.free_pool_setPte, State.free_pool_setFrame,
        (exit_writeback_quiet p e k).free_pool, h.free_pool, hpp, List.map_append,
        List.map_cons, List.map_nil, List.append_assoc]
    · simp only [State.stats_pushFree, State.stats_setPte, State.stats_setFrame,
        exit_writeback_stats, if_true, hk, hfm, h.stats_p, hpp, writtenPages_succ, hp,
        List.length_append, List.length_cons, List.length_nil, true_and]
      split
      · simp [pstats_t.incUnmaps, pstats_t.incFouts]; omega
      · simp [pstats_t.incUnmaps]; omega
    · intro q hq
      simp only [State.stats_pushFree, State.stats_setPte, State.stats_setFrame,
        exit_writeback_stats, hq, if_false]
      exact h.stats_rest q hq
    · simp only [State.cost_pushFree, State.cost_setPte, State.cost_setFrame,
        exit_writeback_cost, hk, hfm, h.cost, hpp, writtenPages_succ, hp,
        List.length_append, List.length_cons, List.length_nil, true_and]
      split
      · simp; omega
      · simp; omega
    · exact (((h.keeps.keeps_trans (exit_writeback_quiet p e k).keeps).keeps_trans
        (keeps_setFrame _ _ _)).keeps_trans (keeps_setPte _ _ _ _)).keeps_trans (keeps_pushFree _ _)
    · simp only [State.hand_pushFree, State.hand_setPte, State.hand_setFrame,
        (exit_writeback_quiet p e k).hand, h.hand]
    · simp only [State.rpos_pushFree, State.rpos_setPte, State.rpos_setFrame,
        (exit_writeback_quiet p e k).rpos, h.rpos]
    · simp only [State.last_reset_pushFree, State.last_reset_setPte,
        State.last_reset_setFrame, (exit_writeback_quiet p e k).last_reset, h.last_reset]

theorem exit_fold_inv (p : Nat) (s : State) (k : Nat) :
    ExitInv p s ((List.range k).foldl (exit_page p) s) k := by
  induction k with
  | zero => exact ExitInv.zero p s
  | succ k ih =>
    rw [List.range_succ, List.foldl_append]
    exact ExitInv.step p s _ k ih

/-- C3: starting from the initial state, after every sequence of valid
instructions (hence after each instruction) the run has produced a state in
which every frame with `pid != -1` is owned by exactly one page-table entry,
namely `processes[pid].page_table[vpage]`, which is present and whose `frame`
field is the index of that frame, and every present entry `(p, v)` points to a
frame whose `pid` is `p` and whose `vpage` is `v`. -/
theorem frame_table_page_table_consistent (c : Config) (instrs : List Instr) (hc : c.WF)
    (hv : ∀ i ∈ instrs, i.valid c.procs.length) :
    ∃ s, run c instrs = some s ∧
      (∀ f, (s.frame_table f).pid ≠ -1 →
        ∃ p v : Nat, (s.frame_table f).pid = (p : Int) ∧ (s.frame_table f).vpage = (v : Int) ∧
          (s.pte p v).present = true ∧ (s.pte p v).frame = f ∧
          ∀ q w, (s.pte q w).present = true → (s.pte q w).frame = f → q = p ∧ w = v) ∧
      (∀ p v, (s.pte p v).present = true →
        (s.frame_table (s.pte p v).frame).pid = (p : Int) ∧
        (s.frame_table (s.pte p v).frame).vpage = (v : Int)) := by
  obtain ⟨s, hs, hg, _⟩ := run_good c instrs hc hv
  refine ⟨s, hs, ?_, ?_⟩
  · intro f hf
    obtain ⟨p, v, h1, h2, _, _, _, h6, h7⟩ := hg.wf.cons.owner f (by simp) hf
    refine ⟨p, v, h1, h2, h6, h7, ?_⟩
    intro q w hq hqf
    obtain ⟨g1, g2, _⟩ := hg.wf.cons.back q w hq
    rw [hqf, h1] at g1
    rw [hqf, h2] at g2
    exact ⟨by exact_mod_cast g1.symm, by exact_mod_cast g2.symm⟩
  · intro p v hp
    obtain ⟨g1, g2, _⟩ := hg.wf.cons.back p v hp
    exact ⟨g1, g2⟩

theorem frame_table_page_table_consistent_witness :
    ∃ s, run cfgA insA = some s ∧
      (∀ f, (s.frame_table f).pid ≠ -1 →
        ∃ p v : Nat, (s.frame_table f).pid = (p : Int) ∧ (s.frame_table f).vpage = (v : Int) ∧
          (s.pte p v).present = true ∧ (s.pte p v).frame = f ∧
          ∀ q w, (s.pte q w).present = true → (s.pte q w).frame = f → q = p ∧ w = v) ∧
      (∀ p v, (s.pte p v).present = true →
        (s.frame_table (s.pte p v).frame).pid = (p : Int) ∧
        (s.frame_table (s.pte p v).frame).vpage = (v : Int)) :=
  frame_table_page_table_consistent cfgA insA (by decide) (by decide)

/-- C5: after every sequence of valid instructions the cost accumulator is
`(inst_count - ctx_switches - process_exits) * 1 + 130 * ctx_switches +
1230 * process_exits` plus the sum over all processes of `350 maps + 410 unmaps +
3200 ins + 2750 outs + 2350 fins + 2800 fouts + 150 zeros + 440 segv +
410 segprot`. -/
theorem cost_follows_cost_table (c : Config) (instrs : List Instr) (hc : c.WF)
    (hv : ∀ i ∈ instrs, i.valid c.procs.length) :
    ∃ s, run c instrs = some s ∧
      s.cost = (s.inst_count - s.ctx_switches - s.process_exits) * 1 +
        130 * s.ctx_switches + 1230 * s.process_exits +
        ((List.range s.nprocs).map (fun p =>
          350 * (s.stats p).maps + 410 * (s.stats p).unmaps + 3200 * (s.stats p).ins +
          2750 * (s.stats p).outs + 2350 * (s.stats p).fins + 2800 * (s.stats p).fouts +
          150 * (s.stats p).zeros + 440 * (s.stats p).segv +
          410 * (s.stats p).segprot)).sum := by
  obtain ⟨s, hs, hg, _⟩ := run_good c instrs hc hv
  refine ⟨s, hs, ?_⟩
  have h1 := hg.counters
  have h2 := hg.cost
  have h3 : total s = ((List.range s.nprocs).map (fun p =>
      350 * (s.stats p).maps + 410 * (s.stats p).unmaps + 3200 * (s.stats p).ins +
      2750 * (s.stats p).outs + 2350 * (s.stats p).fins + 2800 * (s.stats p).fouts +
      150 * (s.stats p).zeros + 440 * (s.stats p).segv + 410 * (s.stats p).segprot)).sum := rfl
  rw [← h3]
  omega

theorem cost_follows_cost_table_witness :
    ∃ s, run cfgA insA = some s ∧
      s.cost = (s.inst_count - s.ctx_switches - s.process_exits) * 1 +
        130 * s.ctx_switches + 1230 * s.process_exits +
        ((List.range s.nprocs).map (fun p =>
          350 * (s.stats p).maps + 410 * (s.stats p).unmaps + 3200 * (s.stats p).ins +
          2750 * (s.stats p).outs + 2350 * (s.stats p).fins + 2800 * (s.stats p).fouts +
          150 * (s.stats p).zeros + 440 * (s.stats p).segv +
          410 * (s.stats p).segprot)).sum :=
  cost_follows_cost_table cfgA insA (by decide) (by decide)

/-- C9: an `r` or `w` instruction whose page lies in no VMA of the current
process only records a SEGV: the instruction is executed, ` SEGV` is printed,
`inst_count` grows by 1, `cost` by 441, the `segv` counter of the current
process by 1, and every page-table entry, every frame, the free list, the pager
state, the random cursor, the current process and all other counters are
unchanged. -/
theorem segv_changes_nothing_else (s : State) (op : Char) (v : Nat)
    (hop : op = 'r' ∨ op = 'w')
    (hv : is_valid_vpage (s.vmas s.current_process) v = none) :
    ∃ t, simulate_instruction s op v = some t ∧
      t.inst_count = s.inst_count + 1 ∧ t.cost = s.cost + 441 ∧
      t.trace = s.trace ++ [TraceEv.SEGV] ∧
      t.stats s.current_process = (s.stats s.current_process).incSegv ∧
      (∀ q, q ≠ s.current_process → t.stats q = s.stats q) ∧
      (∀ q w, t.pte q w = s.pte q w) ∧
      t.frame_table = s.frame_table ∧ t.free_pool = s.free_pool ∧
      t.hand = s.hand ∧ t.last_reset = s.last_reset ∧ t.rpos = s.rpos ∧
      t.kind = s.kind ∧ t.num_frames = s.num_frames ∧
      t.current_process = s.current_process ∧ t.ctx_switches = s.ctx_switches ∧
      t.process_exits = s.process_exits ∧ t.nprocs = s.nprocs := by
  have hc : op ≠ 'c' := by rcases hop with h | h <;> rw [h] <;> decide
  have he : op ≠ 'e' := by rcases hop with h | h <;> rw [h] <;> decide
  have hv' : is_valid_vpage
      ((s.tick.addCost 1).vmas s.current_process) v
      = none := hv
  refine ⟨(s.tick.addCost 1).charge TraceEv.SEGV
    s.current_process pstats_t.incSegv 440, ?_, ?_⟩
  · unfold simulate_instruction
    simp only [hc, he, hop, if_false, if_true]
    unfold access
    simp only [State.current_process_tick, hv']
  · refine ⟨rfl, rfl, rfl, ?_, ?_, ?_, rfl, rfl, rfl, rfl, rfl, rfl, rfl, rfl, rfl, rfl, rfl⟩
    · simp only [State.stats_charge, if_true]; rfl
    · intro q hq
      simp only [State.stats_charge, hq, if_false]; rfl
    · intro q w
      simp only [State.pte_charge]; rfl

theorem segv_changes_nothing_else_witness :
    ∃ t, simulate_instruction (init cfgA) 'r' 9 = some t ∧
      t.inst_count = (init cfgA).inst_count + 1 ∧ t.cost = (init cfgA).cost + 441 ∧
      t.trace = (init cfgA).trace ++ [TraceEv.SEGV] ∧
      t.stats (init cfgA).current_process =
        ((init cfgA).stats (init cfgA).current_process).incSegv ∧
      (∀ q, q ≠ (init cfgA).current_process → t.stats q = (init cfgA).stats q) ∧
      (∀ q w, t.pte q w = (init cfgA).pte q w) ∧
      t.frame_table = (init cfgA).frame_table ∧ t.free_pool = (init cfgA).free_pool ∧
      t.hand = (init cfgA).hand ∧ t.last_reset = (init cfgA).last_reset ∧
      t.rpos = (init cfgA).rpos ∧
      t.kind = (init cfgA).kind ∧ t.num_frames = (init cfgA).num_frames ∧
      t.current_process = (init cfgA).current_process ∧
      t.ctx_switches = (init cfgA).ctx_switches ∧
      t.process_exits = (init cfgA).process_exits ∧ t.nprocs = (init cfgA).nprocs :=
  segv_changes_nothing_else (init cfgA) 'r' 9 (by decide) (by decide)

theorem reachable_good (c : Config) (instrs : List Instr) (s : State) (hc : c.WF)
    (hv : ∀ i ∈ instrs, i.valid c.procs.length) (hs : run c instrs = some s) : Good s := by
  obtain ⟨s', hs', hg, _⟩ := run_good c instrs hc hv
  rw [hs] at hs'
  injection hs' with hs'
  rw [hs']; exact hg

/-- C6: in a state reached by valid instructions, an `r`/`w` on a page of a VMA
that is not present (a page fault) prints, after the lines of the unmapping,
exactly one of IN, FIN, ZERO followed by one MAP and nothing else of that kind:
IN if the faulting entry has `pagedout` set, otherwise FIN if the VMA is
file-mapped, otherwise ZERO; the counters `maps` and the chosen one of `ins`,
`fins`, `zeros` grow by 1.  And in every reached state every process has
`maps = ins + fins + zeros`. -/
theorem page_fault_sources_page_once (c : Config) (instrs : List Instr) (s : State)
    (hc : c.WF) (hv : ∀ i ∈ instrs, i.valid c.procs.length) (hs : run c instrs = some s)
    (op : Char) (v : Nat) (wp fm : Bool) (hop : op = 'r' ∨ op = 'w') (_hv64 : v < MAX_VPAGES)
    (hvma : is_valid_vpage (s.vmas s.current_process) v = some (wp, fm))
    (hnp : (s.pte s.current_process v).present = false) :
    (∃ t pre nf post, simulate_instruction s op v = some t ∧
      t.trace = s.trace ++ pre ++
        [if (s.pte s.current_process v).pagedout then TraceEv.IN
         else if fm then TraceEv.FIN else TraceEv.ZERO, TraceEv.MAP nf] ++ post ∧
      (∀ e ∈ pre ++ post, e ≠ TraceEv.IN ∧ e ≠ TraceEv.FIN ∧ e ≠ TraceEv.ZERO ∧
        ∀ f, e ≠ TraceEv.MAP f) ∧
      (t.stats s.current_process).maps = (s.stats s.current_process).maps + 1 ∧
      (t.stats s.current_process).ins = (s.stats s.current_process).ins +
        (if (s.pte s.current_process v).pagedout then 1 else 0) ∧
      (t.stats s.current_process).fins = (s.stats s.current_process).fins +
        (if (s.pte s.current_process v).pagedout = false ∧ fm = true then 1 else 0) ∧
      (t.stats s.current_process).zeros = (s.stats s.current_process).zeros +
        (if (s.pte s.current_process v).pagedout = false ∧ fm = false then 1 else 0)) ∧
    (∀ p, (s.stats p).maps = (s.stats p).ins + (s.stats p).fins + (s.stats p).zeros) := by
  have hg := reachable_good c instrs s hc hv hs
  refine ⟨?_, hg.maps⟩
  have h1 : Wf (s.tick.addCost 1) :=
    hg.wf.wf_of_eq (by constructor <;> intros <;> rfl) rfl rfl rfl
  obtain ⟨nf, s0, _, hal, _, hpf⟩ := handle_page_fault_shape _ s.current_process v wp fm h1
  have hacc := access_fault s.tick op v wp fm _ hvma hnp hpf
  have hnp0 : (s0.pte s.current_process v).present = false := by
    rw [hal.present]; exact hnp
  have hpte := unmap_old_pte_faulting s0 nf s.current_process v (hal.cons h1.cons) hnp0
  have hpg : ((unmap_old s0 nf).pte s.current_process v).pagedout
      = (s.pte s.current_process v).pagedout := by
    rw [hpte, hal.pagedout]; rfl
  obtain ⟨pre, hpre, hpre2⟩ := unmap_old_trace s0 nf
  have htr0 : s0.trace = s.trace := hal.trace
  refine ⟨touch_page (map_new (source_page (unmap_old s0 nf)
      s.current_process v nf fm) s.current_process v nf wp) s.current_process v op wp,
    pre, nf, (if op = 'w' ∧ wp = true then [TraceEv.SEGPROT] else []), ?_, ?_, ?_, ?_⟩
  · rw [simulate_access s op v hop]; exact hacc
  · rw [touch_page_trace, map_new_trace, source_page_trace, hpre, htr0, hpg]
    rfl
  · intro e he
    rw [List.mem_append] at he
    rcases he with he | he
    · exact hpre2 e he
    · split at he
      · simp only [List.mem_singleton] at he
        subst he; simp
      · cases he
  · have hst : ∀ q, s0.stats q = s.stats q := fun q => hal.stats q
    obtain ⟨u1, u2, u3, u4, _, _⟩ := unmap_old_stats s0 nf s.current_process
    rw [hst] at u1 u2 u3 u4
    have hsrc := source_page_stats (unmap_old s0 nf) s.current_process v nf fm
      s.current_process
    rw [if_pos rfl, hpg] at hsrc
    have key : ∀ st : pstats_t,
        (source_counter (s.pte s.current_process v).pagedout fm st).incMaps.maps = st.maps + 1 ∧
        (source_counter (s.pte s.current_process v).pagedout fm st).incMaps.ins = st.ins +
          (if (s.pte s.current_process v).pagedout then 1 else 0) ∧
        (source_counter (s.pte s.current_process v).pagedout fm st).incMaps.fins = st.fins +
          (if (s.pte s.current_process v).pagedout = false ∧ fm = true then 1 else 0) ∧
        (source_counter (s.pte s.current_process v).pagedout fm st).incMaps.zeros = st.zeros +
          (if (s.pte s.current_process v).pagedout = false ∧ fm = false then 1 else 0) := by
      intro st
      unfold source_counter
      cases (s.pte s.current_process v).pagedout <;> cases fm <;>
        simp [pstats_t.incMaps, pstats_t.incIns, pstats_t.incFins, pstats_t.incZeros]
    obtain ⟨k1, k2, k3, k4⟩ := key ((unmap_old s0 nf).stats s.current_process)
    rw [u1] at k1; rw [u2] at k2; rw [u3] at k3; rw [u4] at k4
    rw [touch_page_stats, map_new_stats, hsrc]
    split
    · exact ⟨k1, k2, k3, k4⟩
    · exact ⟨k1, k2, k3, k4⟩

theorem page_fault_sources_page_once_witness :
    (∃ t pre nf post, simulate_instruction (init cfgA) 'r' 0 = some t ∧
      t.trace = (init cfgA).trace ++ pre ++
        [if ((init cfgA).pte (init cfgA).current_process 0).pagedout then TraceEv.IN
         else if false then TraceEv.FIN else TraceEv.ZERO, TraceEv.MAP nf] ++ post ∧
      (∀ e ∈ pre ++ post, e ≠ TraceEv.IN ∧ e ≠ TraceEv.FIN ∧ e ≠ TraceEv.ZERO ∧
        ∀ f, e ≠ TraceEv.MAP f) ∧
      (t.stats (init cfgA).current_process).maps =
        ((init cfgA).stats (init cfgA).current_process).maps + 1 ∧
      (t.stats (init cfgA).current_process).ins =
        ((init cfgA).stats (init cfgA).current_process).ins +
        (if ((init cfgA).pte (init cfgA).current_process 0).pagedout then 1 else 0) ∧
      (t.stats (init cfgA).current_process).fins =
        ((init cfgA).stats (init cfgA).current_process).fins +
        (if ((init cfgA).pte (init cfgA).current_process 0).pagedout = false ∧ false = true
          then 1 else 0) ∧
      (t.stats (init cfgA).current_process).zeros =
        ((init cfgA).stats (init cfgA).current_process).zeros +
        (if ((init cfgA).pte (init cfgA).current_process 0).pagedout = false ∧ false = false
          then 1 else 0)) ∧
    (∀ p, ((init cfgA).stats p).maps =
      ((init cfgA).stats p).ins + ((init cfgA).stats p).fins + ((init cfgA).stats p).zeros) :=
  page_fault_sources_page_once cfgA [] (init cfgA) (by decide) (by decide) rfl 'r' 0 false false
    (by decide) (by decide) (by decide) (by decide)

/-- C7: in a state reached by valid instructions, when the page fault of an
`r`/`w` instruction obtains (from `get_frame`) a frame `nf` that is in use by
the entry `(p0, v0)`, that owner is unmapped: ` UNMAP p0:v0` is printed and the
`unmaps` counter of `p0` grows by 1; if the old entry is modified exactly one of
FOUT (old VMA file-mapped, `fouts + 1`) or OUT (otherwise, `outs + 1` and the old
entry's `pagedout` set) follows, if it is not modified neither follows and
`pagedout` is unchanged; in every case the old entry ends with `present = 0`
and `referenced = 0`. -/
theorem victim_owner_unmapped (c : Config) (instrs : List Instr) (s : State)
    (hc : c.WF) (hv : ∀ i ∈ instrs, i.valid c.procs.length) (hs : run c instrs = some s)
    (op : Char) (v : Nat) (wp fm : Bool) (hop : op = 'r' ∨ op = 'w')
    (hvma : is_valid_vpage (s.vmas s.current_process) v = some (wp, fm))
    (hnp : (s.pte s.current_process v).present = false)
    (nf : Nat) (s0 : State) (hg : get_frame (s.tick.addCost 1) = some (nf, s0))
    (hused : (s0.frame_table nf).pid ≠ -1) :
    ∃ (t : State) (p0 v0 : Nat) (owp ofm : Bool),
      simulate_instruction s op v = some t ∧
      (s0.frame_table nf).pid = (p0 : Int) ∧ (s0.frame_table nf).vpage = (v0 : Int) ∧
      is_valid_vpage (s.vmas p0) v0 = some (owp, ofm) ∧
      (t.stats p0).unmaps = (s.stats p0).unmaps + 1 ∧
      (t.stats p0).fouts = (s.stats p0).fouts +
        (if (s.pte p0 v0).modified = true ∧ ofm = true then 1 else 0) ∧
      (t.stats p0).outs = (s.stats p0).outs +
        (if (s.pte p0 v0).modified = true ∧ ofm = false then 1 else 0) ∧
      (t.pte p0 v0).pagedout =
        (if (s.pte p0 v0).modified = true ∧ ofm = false then true
         else (s.pte p0 v0).pagedout) ∧
      (t.pte p0 v0).present = false ∧ (t.pte p0 v0).referenced = false ∧
      t.trace = s.trace ++ [TraceEv.UNMAP (p0 : Int) (v0 : Int)] ++
        (if (s.pte p0 v0).modified = true then [if ofm then TraceEv.FOUT else TraceEv.OUT]
         else []) ++
        [if (s.pte s.current_process v).pagedout then TraceEv.IN
         else if fm then TraceEv.FIN else TraceEv.ZERO, TraceEv.MAP nf] ++
        (if op = 'w' ∧ wp = true then [TraceEv.SEGPROT] else []) := by
  have hg0 := reachable_good c instrs s hc hv hs
  have h1 : Wf (s.tick.addCost 1) :=
    hg0.wf.wf_of_eq (by constructor <;> intros <;> rfl) rfl rfl rfl
  obtain ⟨nf', s0', hg', hal, _, hpf⟩ := handle_page_fault_shape (s.tick.addCost 1)
    s.current_process v wp fm h1
  rw [hg] at hg'
  injection hg' with hg'
  injection hg' with e1 e2
  subst e1
  subst e2
  have hacc := access_fault s.tick op v wp fm _ hvma hnp hpf
  have hcons : Cons none s0 := hal.cons h1.cons
  obtain ⟨p0, v0, o1, o2, _, _, _, o6, _⟩ := hcons.owner nf (by simp) hused
  have hp0 : (s0.frame_table nf).pid.toNat = p0 := by rw [o1]; simp
  have hv0 : (s0.frame_table nf).vpage.toNat = v0 := by rw [o2]; simp
  have hin := hcons.inVma p0 v0 o6
  obtain ⟨r, hr⟩ := Option.isSome_iff_exists.mp hin
  obtain ⟨owp, ofm⟩ := r
  have hnp0 : (s0.pte s.current_process v).present = false := by
    rw [hal.present]; exact hnp
  have hne : ¬ (p0 = s.current_process ∧ v0 = v) := by
    rintro ⟨rfl, rfl⟩
    rw [hnp0] at o6; cases o6
  have hmod : (s0.pte p0 v0).modified = (s.pte p0 v0).modified := hal.modified p0 v0
  have hpgo : (s0.pte p0 v0).pagedout = (s.pte p0 v0).pagedout := hal.pagedout p0 v0
  have hcases := unmap_old_used_cases s0 nf ofm hused
    (by rw [hp0, hv0]; unfold State.fileMapped; rw [hr])
  rw [hp0, hv0, hmod, hpgo, hal.trace, hal.stats, o1, o2] at hcases
  obtain ⟨c1, c2, c3, c4, c5, c6, c7, _⟩ := hcases
  have hpte := unmap_old_pte_faulting s0 nf s.current_process v hcons hnp0
  have hpg : ((unmap_old s0 nf).pte s.current_process v).pagedout
      = (s.pte s.current_process v).pagedout := by
    rw [hpte, hal.pagedout]; rfl
  obtain ⟨a1, a2, a3⟩ := after_unmap_stats (unmap_old s0 nf) s.current_process v nf wp fm op p0
  have apte := after_unmap_pte (unmap_old s0 nf) s.current_process v nf wp fm op p0 v0 hne
  refine ⟨touch_page (map_new (source_page (unmap_old s0 nf) s.current_process v nf fm)
      s.current_process v nf wp) s.current_process v op wp, p0, v0, owp, ofm, ?_, o1, o2, ?_,
    ?_, ?_, ?_, ?_, ?_, ?_, ?_⟩
  · rw [simulate_access s op v hop]; exact hacc
  · have := hal.vmas p0
    rw [this] at hr; exact hr
  · rw [a1]; exact c2
  · rw [a3]; exact c3
  · rw [a2]; exact c4
  · rw [apte]; exact c5
  · rw [apte]; exact c6
  · rw [apte]; exact c7
  · rw [touch_page_trace, map_new_trace, source_page_trace, c1, hpg]
    rfl

theorem run_some_of_isSome (c : Config) (instrs : List Instr) (d : State)
    (h : (run c instrs).isSome = true) : run c instrs = some ((run c instrs).getD d) := by
  cases hr : run c instrs with
  | none => rw [hr] at h; cases h
  | some s => rfl

/-- C8: in a state reached by valid instructions, an `e` instruction leaves
every entry of the exiting process with `present = referenced = modified =
pagedout = 0`; every frame the process held has `pid = -1` and `vpage = -1`, and
these frames have been appended to the free list in ascending page order; the
process's `unmaps` counter grew by the number of its present pages and its
`fouts` counter by the number of those that were modified and file-mapped, its
other counters (in particular `outs`) are unchanged; statistics, entries and
frames of other processes are unchanged. -/
theorem process_exit_releases_pages (c : Config) (instrs : List Instr) (s : State)
    (hc : c.WF) (hv : ∀ i ∈ instrs, i.valid c.procs.length) (hs : run c instrs = some s)
    (x : Nat) :
    ∃ t, simulate_instruction s 'e' x = some t ∧
      (∀ v, v < MAX_VPAGES →
        (t.pte s.current_process v).present = false ∧
        (t.pte s.current_process v).referenced = false ∧
        (t.pte s.current_process v).modified = false ∧
        (t.pte s.current_process v).pagedout = false) ∧
      (∀ f, (s.frame_table f).pid = (s.current_process : Int) →
        (t.frame_table f).pid = -1 ∧ (t.frame_table f).vpage = -1) ∧
      t.free_pool = s.free_pool ++
        (presentPages s s.current_process MAX_VPAGES).map
          (fun w => (s.pte s.current_process w).frame) ∧
      t.stats s.current_process =
        { s.stats s.current_process with
          unmaps := (s.stats s.current_process).unmaps +
            (presentPages s s.current_process MAX_VPAGES).length,
          fouts := (s.stats s.current_process).fouts +
            (writtenPages s s.current_process MAX_VPAGES).length } ∧
      (∀ q, q ≠ s.current_process → t.stats q = s.stats q) ∧
      (∀ q w, q ≠ s.current_process → t.pte q w = s.pte q w) ∧
      (∀ f, (s.frame_table f).pid ≠ (s.current_process : Int) →
        t.frame_table f = s.frame_table f) := by
  have hg := reachable_good c instrs s hc hv hs
  have hcons := hg.wf.cons
  have hinv := exit_fold_inv s.current_process
    (({ s.tick with process_exits := s.tick.process_exits + 1 } : State).addCost 1230)
    MAX_VPAGES
  refine ⟨process_exit s.tick, ?_, ?_, ?_, ?_, ?_, ?_, ?_, ?_⟩
  · unfold simulate_instruction
    simp
  · intro v hv
    have := hinv.pte_done v hv
    have e : (process_exit s.tick).pte s.current_process v = (s.pte s.current_process v).clear :=
      this
    rw [e]
    exact ⟨rfl, rfl, rfl, rfl⟩
  · intro f hf
    obtain ⟨p0, v0, o1, _, _, o4, _, o6, o7⟩ := hcons.owner f (by simp) (by rw [hf]; omega)
    have hp0 : p0 = s.current_process := by
      rw [o1] at hf; exact_mod_cast hf
    subst hp0
    have := hinv.frame_rel v0 o4 o6
    have e : (process_exit s.tick).frame_table (s.pte s.current_process v0).frame =
        (s.frame_table (s.pte s.current_process v0).frame).release := this
    rw [o7] at e
    rw [e]
    exact ⟨rfl, rfl⟩
  · exact hinv.free_pool
  · exact hinv.stats_p
  · intro q hq
    exact hinv.stats_rest q hq
  · intro q w hq
    exact hinv.pte_rest q w (by rintro ⟨h, _⟩; exact hq h)
  · intro f hf
    apply hinv.frame_rest f
    intro w _ hpw hfw
    obtain ⟨b1, _, _⟩ := hcons.back s.current_process w hpw
    apply hf
    have e : (s.pte s.current_process w).frame = f := hfw
    rw [e] at b1
    exact b1

theorem process_exit_releases_pages_witness :
    stE.current_process = 0 ∧
    presentPages stE stE.current_process MAX_VPAGES = [0, 1, 4] ∧
    writtenPages stE stE.current_process MAX_VPAGES = [1] ∧
    stE.free_pool = [] ∧
    (stE.frame_table 0).pid = 1 ∧ (stE.frame_table 1).pid = 0 ∧
    (stE.frame_table 2).pid = 0 ∧ (stE.frame_table 3).pid = 0 ∧
    (stE.pte 0 4).modified = true ∧ stE.fileMapped 0 4 = false ∧
    (simulate_instruction stE 'e' 0).map (fun t => t.free_pool) = some [1, 2, 3] ∧
    (simulate_instruction stE 'e' 0).map (fun t => (t.stats 0).unmaps) = some 3 ∧
    (simulate_instruction stE 'e' 0).map (fun t => (t.stats 0).fouts) = some 1 ∧
    (simulate_instruction stE 'e' 0).map (fun t => (t.stats 0).outs) = some 0 ∧
    ∃ t, simulate_instruction stE 'e' 0 = some t ∧
      (∀ v, v < MAX_VPAGES →
        (t.pte stE.current_process v).present = false ∧
        (t.pte stE.current_process v).referenced = false ∧
        (t.pte stE.current_process v).modified = false ∧
        (t.pte stE.current_process v).pagedout = false) ∧
      (∀ f, (stE.frame_table f).pid = (stE.current_process : Int) →
        (t.frame_table f).pid = -1 ∧ (t.frame_table f).vpage = -1) ∧
      t.free_pool = stE.free_pool ++
        (presentPages stE stE.current_process MAX_VPAGES).map
          (fun w => (stE.pte stE.current_process w).frame) ∧
      t.stats stE.current_process =
        { stE.stats stE.current_process with
          unmaps := (stE.stats stE.current_process).unmaps +
            (presentPages stE stE.current_process MAX_VPAGES).length,
          fouts := (stE.stats stE.current_process).fouts +
            (writtenPages stE stE.current_process MAX_VPAGES).length } ∧
      (∀ q, q ≠ stE.current_process → t.stats q = stE.stats q) ∧
      (∀ q w, q ≠ stE.current_process → t.pte q w = stE.pte q w) ∧
      (∀ f, (stE.frame_table f).pid ≠ (stE.current_process : Int) →
        t.frame_table f = stE.frame_table f) :=
  ⟨by decide!, by decide!, by decide!, by decide!, by decide!, by decide!, by decide!,
    by decide!, by decide!, by decide!, by decide!, by decide!, by decide!, by decide!,
    process_exit_releases_pages cfgE insE stE (by decide) (by decide)
      (run_some_of_isSome cfgE insE (init cfgE) (by decide!)) 0⟩

/-- In a good state an `r`/`w` on a page of a VMA runs to the final
`touch_page`, applied to a state `s2` that does not depend on the operation. -/
theorem access_core (s : State) (hg : Good s) (v : Nat) (wp fm : Bool) (_hv64 : v < MAX_VPAGES)
    (hvma : is_valid_vpage (s.vmas s.current_process) v = some (wp, fm)) :
    ∃ s2, (∀ op, op = 'r' ∨ op = 'w' →
        simulate_instruction s op v = some (touch_page s2 s.current_process v op wp)) ∧
      (∀ q, (s2.stats q).segprot = (s.stats q).segprot) ∧
      (wp = true → (s2.pte s.current_process v).modified = false) := by
  have h1 : Wf (s.tick.addCost 1) :=
    hg.wf.wf_of_eq (by constructor <;> intros <;> rfl) rfl rfl rfl
  cases hp : (s.pte s.current_process v).present with
  | true =>
    refine ⟨s.tick.addCost 1, ?_, fun q => rfl, ?_⟩
    · intro op hop
      rw [simulate_access s op v hop]
      exact access_present s.tick op v wp fm hvma hp
    · intro hwp
      cases hm : (s.pte s.current_process v).modified with
      | false => exact hm
      | true =>
        obtain ⟨fm', hfm'⟩ := hg.wp s.current_process v hm
        rw [hvma, hwp] at hfm'
        cases hfm'
  | false =>
    obtain ⟨nf, s0, _, hal, _, hpf⟩ := handle_page_fault_shape (s.tick.addCost 1)
      s.current_process v wp fm h1
    refine ⟨map_new (source_page (unmap_old s0 nf) s.current_process v nf fm)
      s.current_process v nf wp, ?_, ?_, ?_⟩
    · intro op hop
      rw [simulate_access s op v hop]
      exact access_fault s.tick op v wp fm _ hvma hp hpf
    · intro q
      rw [map_new_stats, source_page_stats]
      obtain ⟨_, _, _, _, _, u6⟩ := unmap_old_stats s0 nf q
      have hst : s0.stats q = s.stats q := hal.stats q
      split
      · rename_i hq
        subst hq
        obtain ⟨_, _, _, _, k5⟩ := source_counter_keeps
          ((unmap_old s0 nf).pte s.current_process v).pagedout fm
          ((unmap_old s0 nf).stats s.current_process)
        rw [k5, u6, hst]
      · rw [u6, hst]
    · intro _
      rw [map_new_pte, if_pos ⟨rfl, rfl⟩, source_page_pte, if_pos ⟨rfl, rfl⟩]

/-- C10: in a state reached by valid instructions, a `w` on a page of a VMA
behaves like the `r` of the same page followed by: for a write-protected VMA,
` SEGPROT` with `segprot + 1` and `cost + 410`, the entry referenced and its
modified bit still clear; for a VMA that is not write-protected, `modified = 1`
and no SEGPROT.  Hence in every reached state a page of a write-protected VMA
has `modified = 0`, so that neither `unmap_old_writeback` (page fault) nor
`exit_writeback` (process exit), the only places printing OUT and FOUT, print
them for such a page: each only counts the UNMAP. -/
theorem write_protected_page_never_modified (c : Config) (instrs : List Instr) (s : State)
    (hc : c.WF) (hv : ∀ i ∈ instrs, i.valid c.procs.length) (hs : run c instrs = some s) :
    (∀ v wp fm, v < MAX_VPAGES →
      is_valid_vpage (s.vmas s.current_process) v = some (wp, fm) →
      ∃ tr tw, simulate_instruction s 'r' v = some tr ∧
        simulate_instruction s 'w' v = some tw ∧
        (tw.pte s.current_process v).referenced = true ∧
        (wp = true →
          tw = tr.charge TraceEv.SEGPROT s.current_process pstats_t.incSegprot 410 ∧
          (tw.stats s.current_process).segprot = (s.stats s.current_process).segprot + 1 ∧
          tw.cost = tr.cost + 410 ∧
          (tw.pte s.current_process v).modified = false) ∧
        (wp = false →
          tw = tr.setPte s.current_process v
            { tr.pte s.current_process v with modified := true } ∧
          (tw.pte s.current_process v).modified = true ∧
          (∀ q, (tw.stats q).segprot = (s.stats q).segprot) ∧
          tw.trace = tr.trace ∧ tw.cost = tr.cost)) ∧
    (∀ p v fm, is_valid_vpage (s.vmas p) v = some (true, fm) →
      (s.pte p v).modified = false ∧
      (∀ (u : State) (nf : Nat), (u.frame_table nf).pid = (p : Int) →
        (u.frame_table nf).vpage = (v : Int) → (u.pte p v).modified = (s.pte p v).modified →
        unmap_old_writeback u nf = u.charge (TraceEv.UNMAP p v) p pstats_t.incUnmaps 410) ∧
      (∀ u : State, (u.pte p v).modified = (s.pte p v).modified →
        exit_writeback p u v =
          u.charge (TraceEv.UNMAP (u.frame_table (u.pte p v).frame).pid
            (u.frame_table (u.pte p v).frame).vpage) p pstats_t.incUnmaps 410)) := by
  have hg := reachable_good c instrs s hc hv hs
  constructor
  · intro v wp fm hv64 hvma
    obtain ⟨s2, hsim, hseg, hmod⟩ := access_core s hg v wp fm hv64 hvma
    refine ⟨_, _, hsim 'r' (Or.inl rfl), hsim 'w' (Or.inr rfl), ?_, ?_, ?_⟩
    · rw [touch_page_pte, if_pos ⟨rfl, rfl⟩]
    · intro hwp
      subst hwp
      refine ⟨?_, ?_, ?_, ?_⟩
      · unfold touch_page
        simp
      · rw [touch_page_stats, if_pos ⟨rfl, rfl, rfl⟩]
        show (s2.stats s.current_process).segprot + 1 = _
        rw [hseg]
      · unfold touch_page
        simp
      · rw [touch_page_pte, if_pos ⟨rfl, rfl⟩]
        simp only [Bool.true_eq_false, and_false, if_false]
        exact hmod rfl
    · intro hwp
      subst hwp
      refine ⟨?_, ?_, ?_, ?_, ?_⟩
      · unfold touch_page
        simp
      · rw [touch_page_pte, if_pos ⟨rfl, rfl⟩]
        simp
      · intro q
        rw [touch_page_stats, if_neg (by simp)]
        exact hseg q
      · rw [touch_page_trace, touch_page_trace]
        simp
      · unfold touch_page
        simp
  · intro p v fm hvalid
    have hm : (s.pte p v).modified = false := by
      cases hm : (s.pte p v).modified with
      | false => rfl
      | true =>
        obtain ⟨fm', hfm'⟩ := hg.wp p v hm
        rw [hvalid] at hfm'
        cases hfm'
    refine ⟨hm, ?_, ?_⟩
    · intro u nf h1 h2 h3
      have hp : (u.frame_table nf).pid.toNat = p := by rw [h1]; simp
      have hv' : (u.frame_table nf).vpage.toNat = v := by rw [h2]; simp
      have := unmap_old_writeback_clean u nf (by rw [hp, hv', h3]; exact hm)
      rw [hp, h1, h2] at this
      exact this
    · intro u h3
      unfold exit_writeback
      simp [h3, hm]

theorem write_protected_page_never_modified_witness :
    stP.current_process = 0 ∧
    is_valid_vpage (stP.vmas stP.current_process) 0 = some (true, false) ∧
    is_valid_vpage (stP.vmas stP.current_process) 1 = some (true, false) ∧
    is_valid_vpage (stP.vmas stP.current_process) 4 = some (false, false) ∧
    stP.free_pool = [] ∧ (stP.frame_table 0).pid = 0 ∧ (stP.frame_table 0).vpage = 0 ∧
    (stP.pte 0 0).present = true ∧ (stP.pte 0 0).referenced = true ∧
    (stP.pte 0 4).modified = true ∧ (stP.stats 0).segprot = 1 ∧
    (simulate_instruction stP 'w' 1).map (fun t => (t.stats 0).segprot) = some 2 ∧
    (simulate_instruction stP 'w' 1).map (fun t => (t.stats 0).unmaps) = some 1 ∧
    (simulate_instruction stP 'w' 1).map (fun t => (t.stats 0).outs) = some 0 ∧
    (simulate_instruction stP 'w' 1).map (fun t => (t.stats 0).fouts) = some 0 ∧
    (simulate_instruction stP 'w' 1).map (fun t => (t.pte 0 0).pagedout) = some false ∧
    (simulate_instruction stP 'w' 1).map (fun t => (t.pte 0 1).modified) = some false ∧
    (∀ v wp fm, v < MAX_VPAGES →
      is_valid_vpage (stP.vmas stP.current_process) v = some (wp, fm) →
      ∃ tr tw, simulate_instruction stP 'r' v = some tr ∧
        simulate_instruction stP 'w' v = some tw ∧
        (tw.pte stP.current_process v).referenced = true ∧
        (wp = true →
          tw = tr.charge TraceEv.SEGPROT stP.current_process pstats_t.incSegprot 410 ∧
          (tw.stats stP.current_process).segprot =
            (stP.stats stP.current_process).segprot + 1 ∧
          tw.cost = tr.cost + 410 ∧
          (tw.pte stP.current_process v).modified = false) ∧
        (wp = false →
          tw = tr.setPte stP.current_process v
            { tr.pte stP.current_process v with modified := true } ∧
          (tw.pte stP.current_process v).modified = true ∧
          (∀ q, (tw.stats q).segprot = (stP.stats q).segprot) ∧
          tw.trace = tr.trace ∧ tw.cost = tr.cost)) ∧
    (∀ p v fm, is_valid_vpage (stP.vmas p) v = some (true, fm) →
      (stP.pte p v).modified = false ∧
      (∀ (u : State) (nf : Nat), (u.frame_table nf).pid = (p : Int) →
        (u.frame_table nf).vpage = (v : Int) →
        (u.pte p v).modified = (stP.pte p v).modified →
        unmap_old_writeback u nf = u.charge (TraceEv.UNMAP p v) p pstats_t.incUnmaps 410) ∧
      (∀ u : State, (u.pte p v).modified = (stP.pte p v).modified →
        exit_writeback p u v =
          u.charge (TraceEv.UNMAP (u.frame_table (u.pte p v).frame).pid
            (u.frame_table (u.pte p v).frame).vpage) p pstats_t.incUnmaps 410)) :=
  ⟨by decide!, by decide!, by decide!, by decide!, by decide!, by decide!, by decide!,
    by decide!, by decide!, by decide!, by decide!, by decide!, by decide!, by decide!,
    by decide!, by decide!, by decide!,
    write_protected_page_never_modified cfgP insP stP (by decide) (by decide)
      (run_some_of_isSome cfgP insP (init cfgP) (by decide!))⟩

theorem get_frame_eq_of_fst (s d : State) (nf : Nat)
    (h : (get_frame s).map Prod.fst = some nf) :
    get_frame s = some (nf, ((get_frame s).map Prod.snd).getD d) := by
  cases hr : get_frame s with
  | none => rw [hr] at h; cases h
  | some r =>
    rw [hr] at h
    simp only [Option.map_some', Option.some.injEq] at h
    simp [← h]

theorem victim_owner_unmapped_witness :
    ∃ (t : State) (p0 v0 : Nat) (owp ofm : Bool),
      simulate_instruction stB 'r' 1 = some t ∧
      (stB0.frame_table 0).pid = (p0 : Int) ∧ (stB0.frame_table 0).vpage = (v0 : Int) ∧
      is_valid_vpage (stB.vmas p0) v0 = some (owp, ofm) ∧
      (t.stats p0).unmaps = (stB.stats p0).unmaps + 1 ∧
      (t.stats p0).fouts = (stB.stats p0).fouts +
        (if (stB.pte p0 v0).modified = true ∧ ofm = true then 1 else 0) ∧
      (t.stats p0).outs = (stB.stats p0).outs +
        (if (stB.pte p0 v0).modified = true ∧ ofm = false then 1 else 0) ∧
      (t.pte p0 v0).pagedout =
        (if (stB.pte p0 v0).modified = true ∧ ofm = false then true
         else (stB.pte p0 v0).pagedout) ∧
      (t.pte p0 v0).present = false ∧ (t.pte p0 v0).referenced = false ∧
      t.trace = stB.trace ++ [TraceEv.UNMAP (p0 : Int) (v0 : Int)] ++
        (if (stB.pte p0 v0).modified = true then [if ofm then TraceEv.FOUT else TraceEv.OUT]
         else []) ++
        [if (stB.pte stB.current_process 1).pagedout then TraceEv.IN
         else if false then TraceEv.FIN else TraceEv.ZERO, TraceEv.MAP 0] ++
        (if 'r' = 'w' ∧ false = true then [TraceEv.SEGPROT] else []) :=
  victim_owner_unmapped cfgB [⟨'w', 0⟩] stB (by decide) (by decide)
    (run_some_of_isSome cfgB [⟨'w', 0⟩] (init cfgB) (by decide)) 'r' 1 false false
    (by decide) (by decide) (by decide) 0 stB0
    (get_frame_eq_of_fst (stB.tick.addCost 1) stB 0 (by decide)) (by decide)

/-- C17: `FIFOPager::select_victim_frame`.  Let `σ k` be the state in which the
call number `k` (counted from 0) is made, the pager starting with `hand = 0` and
nothing but the pager writing `hand` and `num_frames ≥ 1`; whatever else the
states hold, call `k` returns frame `k mod num_frames`, a frame of the table.  And with 3 frames, one
process with the VMA `[0,7]` and the references `r 0; r 1; r 2; r 3` the output
is ZERO, MAP 0, ZERO, MAP 1, ZERO, MAP 2 (frames of the free list) and then
UNMAP 0:0, ZERO, MAP 0. -/
theorem fifo_returns_call_number_mod_frames (σ : Nat → State)
    (hn : 1 ≤ (σ 0).num_frames) (h0 : (σ 0).hand = 0)
    (hstep : ∀ k, (σ (k + 1)).hand = (FIFOPager_select_victim_frame (σ k)).2.hand ∧
      (σ (k + 1)).num_frames = (σ k).num_frames) (k : Nat) :
    (FIFOPager_select_victim_frame (σ k)).1 = k % (σ 0).num_frames ∧
    (FIFOPager_select_victim_frame (σ k)).1 < (σ 0).num_frames ∧
    (run cfgA insF).map (fun s => s.trace) =
      some [TraceEv.ZERO, TraceEv.MAP 0, TraceEv.ZERO, TraceEv.MAP 1, TraceEv.ZERO,
        TraceEv.MAP 2, TraceEv.UNMAP 0 0, TraceEv.ZERO, TraceEv.MAP 0] := by
  have key : ∀ j, (σ j).hand = j % (σ 0).num_frames ∧ (σ j).num_frames = (σ 0).num_frames := by
    intro j
    induction j with
    | zero => exact ⟨by rw [h0, Nat.zero_mod], rfl⟩
    | succ j ih =>
      obtain ⟨h1, h2⟩ := hstep j
      refine ⟨?_, h2.trans ih.2⟩
      rw [h1]
      show ((σ j).hand + 1) % (σ j).num_frames = _
      rw [ih.1, ih.2, Nat.mod_add_mod]
  refine ⟨(key k).1, ?_, by decide!⟩
  show (σ k).hand < _
  rw [(key k).1]
  exact Nat.mod_lt _ (by omega)

theorem fifo_returns_call_number_mod_frames_witness :
    (FIFOPager_select_victim_frame ((init cfgA).setHand (4 % 3))).1 = 4 % (init cfgA).num_frames ∧
    (FIFOPager_select_victim_frame ((init cfgA).setHand (4 % 3))).1 < (init cfgA).num_frames ∧
    (run cfgA insF).map (fun s => s.trace) =
      some [TraceEv.ZERO, TraceEv.MAP 0, TraceEv.ZERO, TraceEv.MAP 1, TraceEv.ZERO,
        TraceEv.MAP 2, TraceEv.UNMAP 0 0, TraceEv.ZERO, TraceEv.MAP 0] :=
  fifo_returns_call_number_mod_frames (fun k => (init cfgA).setHand (k % 3)) (by decide) rfl
    (fun k => ⟨(Nat.mod_add_mod k 3 1).symm, rfl⟩) 4

theorem AllMapped.owners_distinct {s : State} (h : AllMapped s) : OwnersDistinct s := by
  intro f g hf hg h1 h2
  have e1 := (h f hf).2.2.2
  have e2 := (h g hg).2.2.2
  unfold State.framePte at e1 e2
  rw [h1, h2] at e1
  exact e1.symm.trans e2

theorem framePte_setFrameRef (s : State) (f g : Nat) (b : Bool) (hd : OwnersDistinct s)
    (hf : f < s.num_frames) (hg : g < s.num_frames) :
    (s.setFrameRef f b).framePte g =
      if g = f then { s.framePte f with referenced := b } else s.framePte g := by
  simp only [State.setFrameRef, State.framePte, State.pte_setPte, State.frame_table_setPte]
  by_cases hgf : g = f
  · subst hgf; simp
  · rw [if_neg hgf, if_neg]
    intro hc
    exact hgf (hd g f hg hf hc.1 hc.2)

theorem clearRefs_append (s : State) (fs : List Nat) (f : Nat) :
    clearRefs s (fs ++ [f]) = (clearRefs s fs).setFrameRef f false := by
  unfold clearRefs
  rw [List.foldl_append]
  rfl

theorem clearRefs_frame_table (s : State) (fs : List Nat) :
    (clearRefs s fs).frame_table = s.frame_table := by
  induction fs generalizing s with
  | nil => rfl
  | cons g rest ih =>
    show (clearRefs (s.setFrameRef g false) rest).frame_table = _
    rw [ih]; rfl

theorem clearRefs_num_frames (s : State) (fs : List Nat) :
    (clearRefs s fs).num_frames = s.num_frames := by
  induction fs generalizing s with
  | nil => rfl
  | cons g rest ih =>
    show (clearRefs (s.setFrameRef g false) rest).num_frames = _
    rw [ih]; rfl

theorem clearRefs_hand (s : State) (fs : List Nat) : (clearRefs s fs).hand = s.hand := by
  induction fs generalizing s with
  | nil => rfl
  | cons g rest ih =>
    show (clearRefs (s.setFrameRef g false) rest).hand = _
    rw [ih]; rfl

theorem clearRefs_distinct (s : State) (fs : List Nat) (hd : OwnersDistinct s) :
    OwnersDistinct (clearRefs s fs) := by
  intro f g hf hg h1 h2
  rw [clearRefs_num_frames] at hf hg
  rw [clearRefs_frame_table] at h1 h2
  exact hd f g hf hg h1 h2

theorem framePte_clearRefs (s : State) (fs : List Nat) (f : Nat) (hd : OwnersDistinct s)
    (hf : f < s.num_frames) (hfs : ∀ g, g ∈ fs → g < s.num_frames) :
    (clearRefs s fs).framePte f =
      if f ∈ fs then { s.framePte f with referenced := false } else s.framePte f := by
  induction fs using List.reverseRecOn with
  | nil => simp [clearRefs]
  | append_singleton rest g ih =>
    have hg : g < s.num_frames := hfs g (by simp)
    have ih2 := ih (fun x hx => hfs x (by simp [hx]))
    rw [clearRefs_append, framePte_setFrameRef _ _ _ _ (clearRefs_distinct s rest hd)
      (by rw [clearRefs_num_frames]; exact hg) (by rw [clearRefs_num_frames]; exact hf)]
    by_cases hfg : f = g
    · subst hfg
      rw [if_pos rfl, if_pos (by simp), ih2]
      split <;> rfl
    · rw [if_neg hfg, ih2]
      have : f ∈ rest ++ [g] ↔ f ∈ rest := by simp [hfg]
      simp only [this]

theorem circ_succ (hand n j : Nat) : circ hand n (j + 1) = circ hand n j ++ [(hand + j) % n] := by
  unfold circ
  rw [List.range_succ, List.map_append]
  rfl

theorem mem_circ (hand n j f : Nat) : f ∈ circ hand n j ↔ ∃ i, i < j ∧ f = (hand + i) % n := by
  unfold circ
  simp only [List.mem_map, List.mem_range]
  constructor
  · rintro ⟨i, hi, rfl⟩; exact ⟨i, hi, rfl⟩
  · rintro ⟨i, hi, rfl⟩; exact ⟨i, hi, rfl⟩

theorem circ_lt (hand n j f : Nat) (hn : 0 < n) (h : f ∈ circ hand n j) : f < n := by
  obtain ⟨i, _, rfl⟩ := (mem_circ hand n j f).mp h
  exact Nat.mod_lt _ hn

theorem circ_inj (hand n i j : Nat) (hi : i < n) (hj : j < n)
    (h : (hand + i) % n = (hand + j) % n) : i = j := by
  have h1 : (hand + i) % n = (hand + j) % n := h
  have := Nat.ModEq.add_left_cancel' hand h1
  unfold Nat.ModEq at this
  rw [Nat.mod_eq_of_lt hi, Nat.mod_eq_of_lt hj] at this
  exact this

theorem not_mem_circ (hand n j : Nat) (hj : j < n) : (hand + j) % n ∉ circ hand n j := by
  intro h
  obtain ⟨i, hi, he⟩ := (mem_circ hand n j _).mp h
  have := circ_inj hand n j i hj (by omega) he
  omega

theorem ClockPager_body_setHand (x : State) (h : Nat) :
    ClockPager_body (x.setHand h) =
      if (x.framePte h).referenced = false then
        LoopStep.brk (h, x.setHand ((h + 1) % x.num_frames))
      else LoopStep.next ((x.setFrameRef h false).setHand ((h + 1) % x.num_frames)) := rfl

theorem ClockPager_loop_exact (s : State) (hh : s.hand < s.num_frames) (hd : OwnersDistinct s) :
    ∀ (d i : Nat), i + d = s.num_frames →
      (∀ k, k < i → (s.framePte ((s.hand + k) % s.num_frames)).referenced = true) →
      ∃ j, i ≤ j ∧ j ≤ s.num_frames ∧
        (∀ k, k < j → (s.framePte ((s.hand + k) % s.num_frames)).referenced = true) ∧
        (j < s.num_frames →
          (s.framePte ((s.hand + j) % s.num_frames)).referenced = false) ∧
        ∀ fuel, j - i < fuel →
          doWhile ClockPager_body (fun _ => true) fuel
            ((clearRefs s (circ s.hand s.num_frames i)).setHand
              ((s.hand + i) % s.num_frames)) =
          some (LoopStep.brk ((s.hand + j) % s.num_frames,
            (clearRefs s (circ s.hand s.num_frames j)).setHand
              (((s.hand + j) % s.num_frames + 1) % s.num_frames))) := by
  have hn : 0 < s.num_frames := by omega
  intro d
  induction d with
  | zero =>
    intro i hi hall
    have hin : i = s.num_frames := by omega
    subst hin
    refine ⟨s.num_frames, le_refl _, le_refl _, hall, fun h => absurd h (lt_irrefl _), ?_⟩
    intro fuel hfuel
    obtain ⟨k, rfl⟩ : ∃ k, fuel = k + 1 := ⟨fuel - 1, by omega⟩
    have hfr : (State.framePte (clearRefs s (circ s.hand s.num_frames s.num_frames))
        ((s.hand + s.num_frames) % s.num_frames)).referenced = false := by
      rw [framePte_clearRefs s _ _ hd (Nat.mod_lt _ hn) (fun g hg => circ_lt _ _ _ _ hn hg)]
      rw [if_pos]
      rw [mem_circ]
      exact ⟨0, hn, by simp⟩
    unfold doWhile
    have hbody : ClockPager_body ((clearRefs s (circ s.hand s.num_frames s.num_frames)).setHand
        ((s.hand + s.num_frames) % s.num_frames)) =
        LoopStep.brk ((s.hand + s.num_frames) % s.num_frames,
          (clearRefs s (circ s.hand s.num_frames s.num_frames)).setHand
            (((s.hand + s.num_frames) % s.num_frames + 1) % s.num_frames)) := by
      rw [ClockPager_body_setHand, if_pos hfr, clearRefs_num_frames]
    rw [hbody]
  | succ d ih =>
    intro i hi hall
    have hilt : i < s.num_frames := by omega
    have hcur' : State.framePte (clearRefs s (circ s.hand s.num_frames i))
        ((s.hand + i) % s.num_frames) = s.framePte ((s.hand + i) % s.num_frames) := by
      rw [framePte_clearRefs s _ _ hd (Nat.mod_lt _ hn) (fun g hg => circ_lt _ _ _ _ hn hg)]
      rw [if_neg (not_mem_circ _ _ _ hilt)]
    by_cases href : (s.framePte ((s.hand + i) % s.num_frames)).referenced = false
    · refine ⟨i, le_refl _, by omega, hall, fun _ => href, ?_⟩
      intro fuel hfuel
      obtain ⟨k, rfl⟩ : ∃ k, fuel = k + 1 := ⟨fuel - 1, by omega⟩
      unfold doWhile
      have hbody : ClockPager_body ((clearRefs s (circ s.hand s.num_frames i)).setHand
          ((s.hand + i) % s.num_frames)) =
          LoopStep.brk ((s.hand + i) % s.num_frames,
            (clearRefs s (circ s.hand s.num_frames i)).setHand
              (((s.hand + i) % s.num_frames + 1) % s.num_frames)) := by
        rw [ClockPager_body_setHand, if_pos (by rw [hcur']; exact href), clearRefs_num_frames]
      rw [hbody]
    · have href' : (s.framePte ((s.hand + i) % s.num_frames)).referenced = true := by
        simpa using href
      obtain ⟨j, h1, h2, h3, h4, h5⟩ := ih (i + 1) (by omega) (by
        intro k hk
        by_cases hki : k = i
        · rw [hki]; exact href'
        · exact hall k (by omega))
      refine ⟨j, by omega, h2, h3, h4, ?_⟩
      intro fuel hfuel
      obtain ⟨k, rfl⟩ : ∃ k, fuel = k + 1 := ⟨fuel - 1, by omega⟩
      unfold doWhile
      have hbody : ClockPager_body ((clearRefs s (circ s.hand s.num_frames i)).setHand
          ((s.hand + i) % s.num_frames)) =
          LoopStep.next ((clearRefs s (circ s.hand s.num_frames (i + 1))).setHand
            ((s.hand + (i + 1)) % s.num_frames)) := by
        rw [ClockPager_body_setHand, if_neg (by rw [hcur']; exact href), clearRefs_num_frames,
          circ_succ, clearRefs_append, Nat.mod_add_mod, Nat.add_assoc]
      rw [hbody]
      simp only [if_true]
      exact h5 k (by omega)

/-- C18: `ClockPager::select_victim_frame` in a state in which all frames are
mapped.  There is a number `j ≤ num_frames` of frames, the first `j` in
circular order from the hand, whose entries are all referenced; the loop leaves
after `j + 1` probes (any bound above `j` gives the result, so the bound
`num_frames + 1` of `select_victim_frame` does); the victim is frame `(hand + j) mod num_frames`, which is not referenced
when `j < num_frames` and is the frame of the hand when `j = num_frames`; the
final state is the initial one with the referenced bit cleared for the `j`
frames probed before the victim and the hand one past the victim, so the entry
of every other frame is unchanged. -/
theorem clock_returns_first_unreferenced_frame (s : State) (hh : s.hand < s.num_frames)
    (hm : AllMapped s) :
    ∃ j v t, j ≤ s.num_frames ∧
      (∀ fuel, j < fuel → ClockPager_select_victim_frame fuel s = some (v, t)) ∧
      (s.kind = PagerKind.Clock → select_victim_frame s = some (v, t)) ∧
      v = (s.hand + j) % s.num_frames ∧
      (∀ k, k < j → (s.framePte ((s.hand + k) % s.num_frames)).referenced = true) ∧
      (j < s.num_frames → (s.framePte v).referenced = false) ∧
      (j = s.num_frames → v = s.hand) ∧
      t = (clearRefs s (circ s.hand s.num_frames j)).setHand ((v + 1) % s.num_frames) ∧
      t.hand = (v + 1) % s.num_frames ∧
      (∀ f, f < s.num_frames → t.framePte f =
        if f ∈ circ s.hand s.num_frames j then { s.framePte f with referenced := false }
        else s.framePte f) := by
  have hn : 0 < s.num_frames := by omega
  obtain ⟨j, _, h2, h3, h4, h5⟩ := ClockPager_loop_exact s hh hm.owners_distinct s.num_frames 0
    (by omega) (by intro k hk; omega)
  have hrun : ∀ fuel, j < fuel → ClockPager_select_victim_frame fuel s =
      some ((s.hand + j) % s.num_frames, (clearRefs s (circ s.hand s.num_frames j)).setHand
        (((s.hand + j) % s.num_frames + 1) % s.num_frames)) := by
    intro fuel hfuel
    have h0 : (clearRefs s (circ s.hand s.num_frames 0)).setHand ((s.hand + 0) % s.num_frames)
        = s := by
      rw [Nat.add_zero, Nat.mod_eq_of_lt hh]
      rfl
    have := h5 fuel (by omega)
    rw [h0] at this
    unfold ClockPager_select_victim_frame
    rw [this]
  refine ⟨j, (s.hand + j) % s.num_frames,
    (clearRefs s (circ s.hand s.num_frames j)).setHand
      (((s.hand + j) % s.num_frames + 1) % s.num_frames), h2, ?_, ?_, rfl, h3, h4, ?_, rfl, rfl, ?_⟩
  · exact hrun
  · intro hk
    unfold select_victim_frame
    rw [if_neg (show ¬ s.num_frames = 0 by omega), hk]
    exact hrun _ (by omega)
  · intro hj
    rw [hj, Nat.add_mod_right, Nat.mod_eq_of_lt hh]
  · intro f hf
    show State.framePte (clearRefs s (circ s.hand s.num_frames j)) f = _
    exact framePte_clearRefs s _ f hm.owners_distinct hf (fun g hg => circ_lt _ _ _ _ hn hg)

theorem clock_returns_first_unreferenced_frame_witness :
    stC.hand < stC.num_frames ∧ AllMapped stC ∧
    ∃ j v t, j ≤ stC.num_frames ∧
      (stC.kind = PagerKind.Clock → select_victim_frame stC = some (v, t)) ∧
      v = (stC.hand + j) % stC.num_frames ∧
      (j < stC.num_frames → (stC.framePte v).referenced = false) ∧
      t.hand = (v + 1) % stC.num_frames :=
  ⟨by decide!, by decide!,
    match clock_returns_first_unreferenced_frame stC (by decide!) (by decide!) with
    | ⟨j, v, t, h1, _, h3, h4, _, h6, _, _, h9, _⟩ => ⟨j, v, t, h1, h3, h4, h6, h9⟩⟩

theorem doWhile_indexed {ρ σ : Type} (body : σ → LoopStep ρ σ) (cond : σ → Bool)
    (I : Nat → σ → Prop) (Q : ρ → Prop) (pos : σ → Nat) (n start : Nat)
    (hnext : ∀ j x y, j < n → I j x → body x = LoopStep.next y → I (j + 1) y)
    (hbrk : ∀ j x r, j < n → I j x → body x = LoopStep.brk r → Q r)
    (hpos : ∀ j x, j ≤ n → I j x → pos x = (start + j) % n)
    (hcond : ∀ y, cond y = (pos y != start)) (hstart : start < n) :
    ∀ (fuel j : Nat) (x : σ), j < n → n - j ≤ fuel → I j x →
      (∃ r, doWhile body cond fuel x = some (LoopStep.brk r) ∧ Q r) ∨
      (∃ y, doWhile body cond fuel x = some (LoopStep.next y) ∧ I n y) := by
  intro fuel
  induction fuel with
  | zero => intro j x hj hf; omega
  | succ k ih =>
    intro j x hj hf hI
    unfold doWhile
    cases hb : body x with
    | brk r => exact Or.inl ⟨r, rfl, hbrk j x r hj hI hb⟩
    | next y =>
      have hIy := hnext j x y hj hI hb
      have hpy := hpos (j + 1) y (by omega) hIy
      by_cases hj1 : j + 1 = n
      · have : pos y = start := by
          rw [hpy, hj1, Nat.add_mod_right, Nat.mod_eq_of_lt hstart]
        right
        refine ⟨y, ?_, hj1 ▸ hIy⟩
        simp [hcond, this]
      · have hne : pos y ≠ start := by
          intro hc
          rw [hpy] at hc
          have h0 : (start + (j + 1)) % n = (start + 0) % n := by
            rw [hc, Nat.add_zero, Nat.mod_eq_of_lt hstart]
          have := circ_inj start n (j + 1) 0 (by omega) (by omega) h0
          omega
        have hc : cond y = true := by simp [hcond, hne]
        simp only [hc, if_true]
        exact ih (j + 1) y (by omega) (by omega) hIy

theorem firstIdx_none (p : Nat → Bool) (j : Nat) (h : firstIdx p j = none) :
    ∀ k, k < j → p k = false := by
  induction j with
  | zero => intro k hk; omega
  | succ j ih =>
    unfold firstIdx at h
    cases h1 : firstIdx p j with
    | some i => rw [h1] at h; cases h
    | none =>
      rw [h1] at h
      simp only at h
      split at h
      · cases h
      · rename_i hpj
        intro k hk
        by_cases hkj : k = j
        · rw [hkj]; simpa using hpj
        · exact ih h1 k (by omega)

theorem firstIdx_some (p : Nat → Bool) (j i : Nat) (h : firstIdx p j = some i) :
    i < j ∧ p i = true ∧ ∀ k, k < i → p k = false := by
  induction j with
  | zero => simp [firstIdx] at h
  | succ j ih =>
    unfold firstIdx at h
    cases h1 : firstIdx p j with
    | some i' =>
      rw [h1] at h
      simp only [Option.some.injEq] at h
      subst h
      obtain ⟨a, b, c⟩ := ih h1
      exact ⟨by omega, b, c⟩
    | none =>
      rw [h1] at h
      simp only at h
      split at h
      · rename_i hp
        simp only [Option.some.injEq] at h
        subst h
        exact ⟨by omega, hp, firstIdx_none p j h1⟩
      · cases h

theorem firstIdx_succ (p : Nat → Bool) (j : Nat) :
    firstIdx p (j + 1) =
      if (firstIdx p j).isNone ∧ p j = true then some j else firstIdx p j := by
  show (match firstIdx p j with
    | some i => some i
    | none => if p j then some j else none) = _
  cases firstIdx p j with
  | some i => simp
  | none => simp

theorem circ_surj (hand n f : Nat) (hh : hand < n) (hf : f < n) :
    ∃ i, i < n ∧ f = (hand + i) % n := by
  by_cases h : hand ≤ f
  · exact ⟨f - hand, by omega, by rw [Nat.add_sub_cancel' h, Nat.mod_eq_of_lt hf]⟩
  · refine ⟨f + n - hand, by omega, ?_⟩
    have : hand + (f + n - hand) = f + n := by omega
    rw [this, Nat.add_mod_right, Nat.mod_eq_of_lt hf]

theorem clearRefs_inst_count (s : State) (fs : List Nat) :
    (clearRefs s fs).inst_count = s.inst_count := by
  induction fs generalizing s with
  | nil => rfl
  | cons g rest ih =>
    show (clearRefs (s.setFrameRef g false) rest).inst_count = _
    rw [ih]; rfl

theorem NRU_scanned_num_frames (s : State) (nr : Bool) (j : Nat) :
    (NRU_scanned s nr j).num_frames = s.num_frames := by
  unfold NRU_scanned
  cases nr
  · rfl
  · exact clearRefs_num_frames _ _

theorem NRU_scanned_framePte (s : State) (nr : Bool) (j : Nat)
    (hd : OwnersDistinct s) (hj : j < s.num_frames) :
    (NRU_scanned s nr j).framePte ((s.hand + j) % s.num_frames) =
      s.framePte ((s.hand + j) % s.num_frames) := by
  have hn : 0 < s.num_frames := by omega
  unfold NRU_scanned
  cases nr
  · rfl
  · show State.framePte (clearRefs s (circ s.hand s.num_frames j)) _ = _
    rw [framePte_clearRefs s _ _ hd (Nat.mod_lt _ hn) (fun g hg => circ_lt _ _ _ _ hn hg),
      if_neg (not_mem_circ _ _ _ hj)]

theorem NRU_scanned_succ (s : State) (nr : Bool) (j : Nat) :
    ((if nr then (NRU_scanned s nr j).setFrameRef ((s.hand + j) % s.num_frames) false
      else NRU_scanned s nr j).setHand
        (((s.hand + j) % s.num_frames + 1) % s.num_frames)) = NRU_scanned s nr (j + 1) := by
  unfold NRU_scanned
  cases nr
  · simp only [Bool.false_eq_true, if_false]
    rw [Nat.mod_add_mod, Nat.add_assoc]
    rfl
  · simp only [if_true]
    rw [circ_succ, clearRefs_append, Nat.mod_add_mod, Nat.add_assoc]
    rfl

theorem NRU_victims_succ (s : State) (j : Nat) :
    NRU_victims s (j + 1) =
      if (NRU_victims s j (NRU_class s ((s.hand + j) % s.num_frames))).isNone then
        Function.update (NRU_victims s j) (NRU_class s ((s.hand + j) % s.num_frames))
          (some ((s.hand + j) % s.num_frames))
      else NRU_victims s j := by
  funext c
  unfold NRU_victims
  rw [firstIdx_succ]
  by_cases hc : c = NRU_class s ((s.hand + j) % s.num_frames)
  · subst hc
    cases h : firstIdx (fun i => decide (NRU_class s ((s.hand + i) % s.num_frames) =
        NRU_class s ((s.hand + j) % s.num_frames))) j with
    | none => simp
    | some i => simp [h]
  · have hp : decide (NRU_class s ((s.hand + j) % s.num_frames) = c) = false := by
      simp only [decide_eq_false_iff_not]
      exact fun h => hc h.symm
    simp only [hp, Bool.false_eq_true, and_false, if_false]
    split
    · rw [Function.update_noteq hc]
    · rfl

theorem NRUPager_body_scanned (s : State) (nr : Bool) (j : Nat)
    (hd : OwnersDistinct s) (hj : j < s.num_frames) :
    NRUPager_body nr { st := NRU_scanned s nr j, class_victims := NRU_victims s j } =
      if (NRU_victims s j (NRU_class s ((s.hand + j) % s.num_frames))).isNone = true ∧
          NRU_class s ((s.hand + j) % s.num_frames) = 0 ∧ nr = false then
        LoopStep.brk ((s.hand + j) % s.num_frames,
          { st := NRU_scanned s nr j, class_victims := NRU_victims s (j + 1) })
      else
        LoopStep.next { st := NRU_scanned s nr (j + 1), class_victims := NRU_victims s (j + 1) } := by
  have hhand : (NRU_scanned s nr j).hand = (s.hand + j) % s.num_frames := rfl
  have hpte := NRU_scanned_framePte s nr j hd hj
  unfold NRUPager_body
  simp only [hhand, hpte]
  rw [NRU_victims_succ, ← NRU_scanned_succ]
  have hcls : 2 * (s.framePte ((s.hand + j) % s.num_frames)).referenced.toNat +
      (s.framePte ((s.hand + j) % s.num_frames)).modified.toNat =
      NRU_class s ((s.hand + j) % s.num_frames) := rfl
  simp only [hcls]
  have e1 : (if nr = true then
      (NRU_scanned s nr j).setFrameRef ((s.hand + j) % s.num_frames) false
      else NRU_scanned s nr j).hand = (s.hand + j) % s.num_frames := by
    split <;> rfl
  have e2 : (if nr = true then
      (NRU_scanned s nr j).setFrameRef ((s.hand + j) % s.num_frames) false
      else NRU_scanned s nr j).num_frames = s.num_frames := by
    split
    · exact NRU_scanned_num_frames s nr j
    · exact NRU_scanned_num_frames s nr j
  rw [e1, e2]

theorem NRU_scanned_zero (s : State) (nr : Bool) (hh : s.hand < s.num_frames) :
    NRU_scanned s nr 0 = s := by
  unfold NRU_scanned
  rw [Nat.add_zero, Nat.mod_eq_of_lt hh]
  cases nr <;> rfl

theorem NRUPager_lowest_cases (cv : Nat → Option Nat) :
    (NRUPager_lowest cv = none ∧ ∀ c, c < 4 → cv c = none) ∨
    (∃ c v, c < 4 ∧ NRUPager_lowest cv = some v ∧ cv c = some v ∧ ∀ d, d < c → cv d = none) := by
  have hr : List.range 4 = [0, 1, 2, 3] := rfl
  unfold NRUPager_lowest
  rw [hr]
  cases h0 : cv 0 with
  | some a =>
    right
    exact ⟨0, a, by omega, by simp [List.filterMap_cons, h0], h0, fun d hd => by omega⟩
  | none =>
    cases h1 : cv 1 with
    | some a =>
      right
      refine ⟨1, a, by omega, by simp [List.filterMap_cons, h0, h1], h1, ?_⟩
      intro d hd
      have : d = 0 := by omega
      rw [this]; exact h0
    | none =>
      cases h2 : cv 2 with
      | some a =>
        right
        refine ⟨2, a, by omega, by simp [List.filterMap_cons, h0, h1, h2], h2, ?_⟩
        intro d hd
        have : d = 0 ∨ d = 1 := by omega
        rcases this with rfl | rfl
        · exact h0
        · exact h1
      | none =>
        cases h3 : cv 3 with
        | some a =>
          right
          refine ⟨3, a, by omega, by simp [List.filterMap_cons, h0, h1, h2, h3], h3, ?_⟩
          intro d hd
          have : d = 0 ∨ d = 1 ∨ d = 2 := by omega
          rcases this with rfl | rfl | rfl
          · exact h0
          · exact h1
          · exact h2
        | none =>
          left
          refine ⟨by simp [List.filterMap_cons, h0, h1, h2, h3], ?_⟩
          intro c hc
          have : c = 0 ∨ c = 1 ∨ c = 2 ∨ c = 3 := by omega
          rcases this with rfl | rfl | rfl | rfl
          · exact h0
          · exact h1
          · exact h2
          · exact h3

theorem NRU_victims_some (s : State) (j c v : Nat) (h : NRU_victims s j c = some v) :
    ∃ i, i < j ∧ v = (s.hand + i) % s.num_frames ∧ NRU_class s v = c ∧
      ∀ k, k < i → NRU_class s ((s.hand + k) % s.num_frames) ≠ c := by
  unfold NRU_victims at h
  cases hf : firstIdx (fun i => decide (NRU_class s ((s.hand + i) % s.num_frames) = c)) j with
  | none => rw [hf] at h; cases h
  | some i =>
    rw [hf] at h
    simp only [Option.map_some', Option.some.injEq] at h
    obtain ⟨h1, h2, h3⟩ := firstIdx_some _ _ _ hf
    refine ⟨i, h1, h.symm, ?_, ?_⟩
    · rw [← h]; simpa using h2
    · intro k hk
      simpa using h3 k hk

theorem NRU_victims_none (s : State) (j c : Nat) (h : NRU_victims s j c = none) :
    ∀ k, k < j → NRU_class s ((s.hand + k) % s.num_frames) ≠ c := by
  unfold NRU_victims at h
  cases hf : firstIdx (fun i => decide (NRU_class s ((s.hand + i) % s.num_frames) = c)) j with
  | some i => rw [hf] at h; cases h
  | none =>
    intro k hk
    simpa using firstIdx_none _ _ hf k hk

/-- C19: `NRUPager::select_victim_frame` in a state in which all frames are
mapped returns a frame `v = (hand + j) mod num_frames` whose class
`2 * referenced + modified`, read from the bits at the start of the call, is the
least class of all frames, and every frame met before `v` in circular order
from the hand has a larger class; the hand ends one past the victim.  When
fewer than 48 instructions have passed since the last reset nothing else
changes; otherwise `last_reset` becomes `inst_count` and the referenced bit of
every frame's entry is cleared. -/
theorem nru_returns_first_frame_of_lowest_class (s : State) (hh : s.hand < s.num_frames)
    (hm : AllMapped s) :
    ∃ j v t, NRUPager_select_victim_frame (s.num_frames + 1) s = some (v, t) ∧
      (s.kind = PagerKind.NRU → select_victim_frame s = some (v, t)) ∧
      j < s.num_frames ∧ v = (s.hand + j) % s.num_frames ∧
      (∀ f, f < s.num_frames → NRU_class s v ≤ NRU_class s f) ∧
      (∀ k, k < j → NRU_class s v < NRU_class s ((s.hand + k) % s.num_frames)) ∧
      t.hand = (v + 1) % s.num_frames ∧
      (¬ (s.inst_count - s.last_reset ≥ 48) → t = s.setHand ((v + 1) % s.num_frames)) ∧
      (s.inst_count - s.last_reset ≥ 48 → t.last_reset = s.inst_count % 2 ^ 32 ∧
        ∀ f, f < s.num_frames → t.framePte f = { s.framePte f with referenced := false }) := by
  have hn : 0 < s.num_frames := by omega
  have hd := hm.owners_distinct
  have key := doWhile_indexed
    (NRUPager_body (decide (s.inst_count - s.last_reset ≥ 48)))
    (fun x => x.st.hand != s.hand)
    (fun j x => x = { st := NRU_scanned s (decide (s.inst_count - s.last_reset ≥ 48)) j,
                      class_victims := NRU_victims s j })
    (fun r => ∃ j, j < s.num_frames ∧ r.1 = (s.hand + j) % s.num_frames ∧
      r.2.st = NRU_scanned s (decide (s.inst_count - s.last_reset ≥ 48)) j ∧
      NRU_victims s j 0 = none ∧ NRU_class s ((s.hand + j) % s.num_frames) = 0 ∧
      decide (s.inst_count - s.last_reset ≥ 48) = false)
    (fun x => x.st.hand) s.num_frames s.hand
    (by
      intro j x y hj hI hb
      subst hI
      rw [NRUPager_body_scanned s _ j hd hj] at hb
      split at hb
      · cases hb
      · injection hb with hb
        exact hb.symm)
    (by
      intro j x r hj hI hb
      subst hI
      rw [NRUPager_body_scanned s _ j hd hj] at hb
      split at hb
      · rename_i hc
        injection hb with hb
        subst hb
        refine ⟨j, hj, rfl, rfl, ?_, hc.2.1, hc.2.2⟩
        have := hc.1
        rw [hc.2.1] at this
        simpa using this
      · cases hb)
    (by
      intro j x _ hI
      subst hI
      rfl)
    (by intro y; rfl)
    hh (s.num_frames + 1) 0 { st := s, class_victims := fun _ => none } hn (by omega)
    (by
      show _ = _
      rw [NRU_scanned_zero s _ hh]
      rfl)
  have hkind : ∀ r, NRUPager_select_victim_frame (s.num_frames + 1) s = some r →
      (s.kind = PagerKind.NRU → select_victim_frame s = some r) := by
    intro r hr hk
    unfold select_victim_frame
    rw [if_neg (show ¬ s.num_frames = 0 by omega), hk]
    exact hr
  unfold NRUPager_select_victim_frame at hkind ⊢
  simp only at hkind ⊢
  rcases key with ⟨r, hr, j, hj, hv, hst, hfresh, hcls, hnr⟩ | ⟨y, hy, hI⟩
  · obtain ⟨v, x⟩ := r
    simp only at hv hst
    rw [hr] at hkind ⊢
    simp only [hnr, Bool.false_eq_true, if_false] at hkind ⊢
    have hnr' : ¬ (s.inst_count - s.last_reset ≥ 48) := by simpa using hnr
    have hx : x.st = s.setHand ((s.hand + j) % s.num_frames) := by
      rw [hst, hnr]; rfl
    refine ⟨j, v, _, rfl, hkind _ rfl, hj, hv, ?_, ?_, ?_, ?_, ?_⟩
    · intro f _
      rw [hv, hcls]; exact Nat.zero_le _
    · intro k hk
      rw [hv, hcls]
      have := NRU_victims_none s j 0 hfresh k hk
      omega
    · rw [hx]; rfl
    · intro _
      rw [hx]; rfl
    · intro h; exact absurd h hnr'
  · subst hI
    rw [hy] at hkind ⊢
    simp only at hkind ⊢
    rcases NRUPager_lowest_cases (NRU_victims s s.num_frames) with ⟨_, hnone⟩ | ⟨c, v, hc, hlow, hcv, hlt⟩
    · exfalso
      have h0 := NRU_victims_none s s.num_frames _
        (hnone (NRU_class s ((s.hand + 0) % s.num_frames)) (NRU_class_lt _)) 0 hn
      exact h0 rfl
    · obtain ⟨i, hi, hvi, hvc, hbefore⟩ := NRU_victims_some s _ c v hcv
      have hmin : ∀ f, f < s.num_frames → NRU_class s v ≤ NRU_class s f := by
        intro f hf
        obtain ⟨k, hk, rfl⟩ := circ_surj s.hand s.num_frames f hh hf
        by_contra hcon
        have hlt2 : NRU_class s ((s.hand + k) % s.num_frames) < c := by omega
        exact NRU_victims_none s s.num_frames _ (hlt _ hlt2) k hk rfl
      rw [hlow] at hkind ⊢
      simp only at hkind ⊢
      refine ⟨i, v, _, rfl, hkind _ rfl, hi, hvi, hmin, ?_, ?_, ?_, ?_⟩
      · intro k hk
        have h1 := hbefore k hk
        have h2 := hmin _ (Nat.mod_lt (s.hand + k) hn)
        omega
      · simp only [State.hand_setHand]
        split
        · show _ % (NRU_scanned s _ s.num_frames).num_frames = _
          rw [NRU_scanned_num_frames]
        · rw [NRU_scanned_num_frames]
      · intro hnr
        have hnr' : decide (s.inst_count - s.last_reset ≥ 48) = false := by simpa using hnr
        rw [hnr']
        simp only [Bool.false_eq_true, if_false]
        have hz : NRU_scanned s false s.num_frames = s.setHand s.hand := by
          unfold NRU_scanned
          rw [Nat.add_mod_right, Nat.mod_eq_of_lt hh]
          rfl
        rw [hz]
        rfl
      · intro hnr
        have hnr' : decide (s.inst_count - s.last_reset ≥ 48) = true := by simpa using hnr
        rw [hnr']
        simp only [if_true]
        refine ⟨?_, ?_⟩
        · show (clearRefs s (circ s.hand s.num_frames s.num_frames)).inst_count % 2 ^ 32 = _
          rw [clearRefs_inst_count]
        · intro f hf
          show State.framePte (clearRefs s (circ s.hand s.num_frames s.num_frames)) f = _
          rw [framePte_clearRefs s _ f hd hf (fun g hg => circ_lt _ _ _ _ hn hg), if_pos]
          obtain ⟨k, hk, hfk⟩ := circ_surj s.hand s.num_frames f hh hf
          exact (mem_circ _ _ _ _).mpr ⟨k, hk, hfk⟩

theorem nru_returns_first_frame_of_lowest_class_witness :
    stC.hand < stC.num_frames ∧ AllMapped stC ∧
    ∃ j v t, NRUPager_select_victim_frame (stC.num_frames + 1) stC = some (v, t) ∧
      j < stC.num_frames ∧ v = (stC.hand + j) % stC.num_frames ∧
      (∀ f, f < stC.num_frames → NRU_class stC v ≤ NRU_class stC f) ∧
      t.hand = (v + 1) % stC.num_frames :=
  ⟨by decide!, by decide!,
    match nru_returns_first_frame_of_lowest_class stC (by decide!) (by decide!) with
    | ⟨j, v, t, h1, _, h3, h4, h5, _, h7, _⟩ => ⟨j, v, t, h1, h3, h4, h5, h7⟩⟩

theorem Same.distinct_of_same {s t : State} (h : Same s t) (hd : OwnersDistinct s) :
    OwnersDistinct t := by
  intro f g hf hg h1 h2
  rw [h.num_frames] at hf hg
  rw [h.frame_pid, h.frame_pid] at h1
  rw [h.frame_vpage, h.frame_vpage] at h2
  exact hd f g hf hg h1 h2

theorem framePte_setFrame (s : State) (c f : Nat) (fr : frame_t)
    (h1 : fr.pid = (s.frame_table c).pid) (h2 : fr.vpage = (s.frame_table c).vpage) :
    (s.setFrame c fr).framePte f = s.framePte f := by
  unfold State.framePte
  simp only [State.frame_table_setFrame, State.pte_setFrame]
  split
  · rename_i h; subst h; rw [h1, h2]
  · rfl

theorem AgingPager_age_body_eq (x : AgingScan) :
    AgingPager_age_body x =
      LoopStep.next { x with st := AgingPager_aged x.st x.current,
                             current := (x.current + 1) % x.st.num_frames } := rfl

theorem AgingPager_aged_same (s : State) (c : Nat) : Same s (AgingPager_aged s c) := by
  unfold AgingPager_aged
  simp only
  have h1 : Same s (s.setFrame c { s.frame_table c with age := (s.frame_table c).age / 2 }) :=
    same_setFrame _ _ _ rfl rfl rfl
  split
  · refine Same.same_trans (Same.same_trans h1 ?_) (same_setFrameRef _ _ _)
    exact same_setFrame _ _ _ rfl rfl rfl
  · exact h1

theorem AgingPager_aged_hand (s : State) (c : Nat) : (AgingPager_aged s c).hand = s.hand := by
  unfold AgingPager_aged
  simp only
  split <;> rfl

theorem AgingPager_aged_age (s : State) (c f : Nat) :
    ((AgingPager_aged s c).frame_table f).age =
      if f = c then AgingPager_new_age s c else (s.frame_table f).age := by
  unfold AgingPager_aged AgingPager_new_age
  simp only
  by_cases hr : (s.framePte c).referenced = true
  · simp only [hr, if_true]
    simp only [State.setFrameRef, State.frame_table_setPte, State.frame_table_setFrame]
    split <;> simp
  · simp only [hr, Bool.false_eq_true, if_false]
    simp only [State.frame_table_setFrame]
    split <;> rfl

theorem AgingPager_aged_referenced (s : State) (c f : Nat) (hd : OwnersDistinct s)
    (hc : c < s.num_frames) (hf : f < s.num_frames) :
    ((AgingPager_aged s c).framePte f).referenced =
      if f = c then false else (s.framePte f).referenced := by
  have key : ∀ (S1 : State), Same s S1 → (∀ g, S1.framePte g = s.framePte g) →
      ∀ fr2 : frame_t, fr2.pid = (S1.frame_table c).pid → fr2.vpage = (S1.frame_table c).vpage →
      fr2.mapped = (S1.frame_table c).mapped →
      (State.framePte ((S1.setFrame c fr2).setFrameRef c false) f).referenced =
        if f = c then false else (s.framePte f).referenced := by
    intro S1 hs hp fr2 e1 e2 e3
    have hs2 : Same s (S1.setFrame c fr2) := hs.same_trans (same_setFrame _ _ _ e1 e2 e3)
    rw [framePte_setFrameRef (S1.setFrame c fr2) c f false (hs2.distinct_of_same hd)
      (by rw [hs2.num_frames]; exact hc) (by rw [hs2.num_frames]; exact hf)]
    split
    · rfl
    · rw [framePte_setFrame S1 c f fr2 e1 e2, hp]
  unfold AgingPager_aged
  simp only
  by_cases hr : (s.framePte c).referenced = true
  · rw [if_pos hr]
    refine key _ ?_ ?_ _ ?_ ?_ ?_
    · exact same_setFrame _ _ _ rfl rfl rfl
    · intro g; exact framePte_setFrame s c g _ rfl rfl
    · rfl
    · rfl
    · rfl
  · rw [if_neg hr]
    have hr' : (s.framePte c).referenced = false := by simpa using hr
    have e := framePte_setFrame s c f
      { s.frame_table c with age := (s.frame_table c).age / 2 } rfl rfl
    rw [e]
    split
    · rename_i h; rw [h, hr']
    · rfl

theorem AgingPager_min_body_eq (x : AgingScan) :
    AgingPager_min_body x = LoopStep.next
      (if (x.st.frame_table x.current).age < x.min_age then
        { st := x.st.setHand ((x.current + 1) % x.st.num_frames),
          current := (x.current + 1) % x.st.num_frames,
          min_age := (x.st.frame_table x.current).age, victim := some x.current }
      else { x with current := (x.current + 1) % x.st.num_frames }) := by
  unfold AgingPager_min_body
  simp only
  split <;> rfl

theorem mem_circ_succ (hand n j f : Nat) :
    f ∈ circ hand n (j + 1) ↔ f ∈ circ hand n j ∨ f = (hand + j) % n := by
  rw [circ_succ, List.mem_append, List.mem_singleton]

theorem AgingInv1_step (s : State) (hd : OwnersDistinct s) (j : Nat) (x y : AgingScan)
    (hj : j < s.num_frames) (hI : AgingInv1 s j x)
    (hb : AgingPager_age_body x = LoopStep.next y) : AgingInv1 s (j + 1) y := by
  obtain ⟨h1, h2, h3, h4, h5, h6, h7⟩ := hI
  rw [AgingPager_age_body_eq] at hb
  injection hb with hb
  subst hb
  have hn : 0 < s.num_frames := by omega
  have hnf : x.st.num_frames = s.num_frames := h1.num_frames
  have hc : x.current < s.num_frames := by rw [h3]; exact Nat.mod_lt _ hn
  have hnot : x.current ∉ circ s.hand s.num_frames j := by
    rw [h3]; exact not_mem_circ _ _ _ hj
  have hage : (x.st.frame_table x.current).age = (s.frame_table x.current).age := by
    rw [h6 _ hc, if_neg hnot]
  have href : (x.st.framePte x.current).referenced = (s.framePte x.current).referenced := by
    rw [h7 _ hc, if_neg hnot]
  have hnew : AgingPager_new_age x.st x.current = AgingPager_new_age s x.current := by
    unfold AgingPager_new_age
    rw [hage, href]
  refine ⟨h1.same_trans (AgingPager_aged_same _ _), ?_, ?_, h4, h5, ?_, ?_⟩
  · show (AgingPager_aged x.st x.current).hand = _
    rw [AgingPager_aged_hand, h2]
  · show (x.current + 1) % x.st.num_frames = _
    rw [hnf, h3, Nat.mod_add_mod, Nat.add_assoc]
  · intro f hf
    show ((AgingPager_aged x.st x.current).frame_table f).age = _
    have hmem : f ∈ circ s.hand s.num_frames (j + 1) ↔
        f ∈ circ s.hand s.num_frames j ∨ f = x.current := by rw [mem_circ_succ, h3]
    rw [AgingPager_aged_age, hnew]
    by_cases hfc : f = x.current
    · rw [if_pos hfc, if_pos (hmem.mpr (Or.inr hfc)), hfc]
    · rw [if_neg hfc, h6 f hf]
      by_cases hm : f ∈ circ s.hand s.num_frames j
      · rw [if_pos hm, if_pos (hmem.mpr (Or.inl hm))]
      · rw [if_neg hm, if_neg (fun h => by rcases hmem.mp h with h | h <;> contradiction)]
  · intro f hf
    show ((AgingPager_aged x.st x.current).framePte f).referenced = _
    have hmem : f ∈ circ s.hand s.num_frames (j + 1) ↔
        f ∈ circ s.hand s.num_frames j ∨ f = x.current := by rw [mem_circ_succ, h3]
    rw [AgingPager_aged_referenced _ _ _ (h1.distinct_of_same hd) (by rw [hnf]; exact hc)
      (by rw [hnf]; exact hf)]
    by_cases hfc : f = x.current
    · rw [if_pos hfc, if_pos (hmem.mpr (Or.inr hfc))]
    · rw [if_neg hfc, h7 f hf]
      by_cases hm : f ∈ circ s.hand s.num_frames j
      · rw [if_pos hm, if_pos (hmem.mpr (Or.inl hm))]
      · rw [if_neg hm, if_neg (fun h => by rcases hmem.mp h with h | h <;> contradiction)]

theorem AgingInv2_step (s1 : State) (hand j : Nat) (x y : AgingScan)
    (hI : AgingInv2 s1 hand j x)
    (hb : AgingPager_min_body x = LoopStep.next y) : AgingInv2 s1 hand (j + 1) y := by
  obtain ⟨h1, h2, h3, h4⟩ := hI
  rw [AgingPager_min_body_eq] at hb
  injection hb with hb
  have hnf : x.st.num_frames = s1.num_frames := by rw [h1]; rfl
  have hft : x.st.frame_table = s1.frame_table := by rw [h1]; rfl
  have hcur : (x.current + 1) % x.st.num_frames = (hand + (j + 1)) % s1.num_frames := by
    rw [hnf, h2, Nat.mod_add_mod, Nat.add_assoc]
  rw [hft, hnf] at hb
  by_cases hlt : (s1.frame_table x.current).age < x.min_age
  · rw [if_pos hlt] at hb
    subst hb
    refine ⟨?_, by rw [← hcur, hnf], fun h => (by cases h), ?_⟩
    · show x.st.setHand _ = s1.setHand _
      rw [h1]; rfl
    · intro v hv
      simp only [Option.some.injEq] at hv
      subst hv
      have hle : ∀ k, k < j →
          (s1.frame_table x.current).age < (s1.frame_table ((hand + k) % s1.num_frames)).age := by
        intro k hk
        cases hvic : x.victim with
        | none =>
          obtain ⟨e1, _, e3⟩ := h3 hvic
          have := e3 k hk
          omega
        | some w =>
          obtain ⟨i, _, _, e3, _, e5, _⟩ := h4 w hvic
          have := e5 k hk
          omega
      refine ⟨j, by omega, h2, rfl, rfl, ?_, ?_⟩
      · intro k hk
        by_cases hkj : k = j
        · rw [hkj, ← h2]
        · exact le_of_lt (hle k (by omega))
      · exact hle
  · rw [if_neg hlt] at hb
    subst hb
    refine ⟨h1, by rw [← hcur, hnf], ?_, ?_⟩
    · intro hv
      obtain ⟨e1, e2, e3⟩ := h3 hv
      refine ⟨e1, e2, ?_⟩
      intro k hk
      by_cases hkj : k = j
      · rw [hkj, ← h2]; omega
      · exact e3 k (by omega)
    · intro v hv
      obtain ⟨i, e1, e2, e3, e4, e5, e6⟩ := h4 v hv
      refine ⟨i, by omega, e2, e3, e4, ?_, e6⟩
      intro k hk
      by_cases hkj : k = j
      · rw [hkj, ← h2]; omega
      · exact e5 k (by omega)

theorem AgingPager_new_age_eq (s : State) (f : Nat) (ha : (s.frame_table f).age < 2 ^ 32) :
    AgingPager_new_age s f =
      (s.frame_table f).age / 2 + (if (s.framePte f).referenced then 2 ^ 31 else 0) := by
  unfold AgingPager_new_age
  split
  · have hlt : (s.frame_table f).age / 2 < 2 ^ 31 := by omega
    have := Nat.mul_add_lt_is_or hlt 1
    rw [Nat.or_comm]
    simp only [Nat.mul_one] at this
    rw [Nat.add_comm]
    exact this.symm
  · rfl

theorem AgingInv1_zero (s : State) (hh : s.hand < s.num_frames) :
    AgingInv1 s 0 { st := s, current := s.hand, min_age := 4294967295, victim := none } := by
  refine ⟨Same.same_refl s, rfl, ?_, rfl, rfl, ?_, ?_⟩
  · show s.hand = _
    rw [Nat.add_zero, Nat.mod_eq_of_lt hh]
  · intro f _
    rw [if_neg (by simp [circ])]
  · intro f _
    rw [if_neg (by simp [circ])]

/-- C20: `AgingPager::select_victim_frame` in a state in which all frames are
mapped (ages being 32-bit values).  Every frame gets the age `age >> 1`, plus
`2^31` (bit 31) exactly when its owning entry was referenced, and every frame's
entry ends with `referenced = 0`.  The victim `v = (hand + j) mod num_frames`
has the least updated age of all frames, and every frame met before it in
circular order from the hand has a strictly larger updated age (so among equal
minima the first from the hand is taken, also when all ages are `0xFFFFFFFF`);
the hand ends one past the victim and nothing but ages, referenced bits and the
hand changes.  `reset_age` sets the age of a frame to 0. -/
theorem aging_returns_first_frame_of_least_age (s : State) (hh : s.hand < s.num_frames)
    (hm : AllMapped s) (ha : ∀ f, f < s.num_frames → (s.frame_table f).age < 2 ^ 32) :
    ∃ j v t, AgingPager_select_victim_frame (s.num_frames + 1) s = some (v, t) ∧
      (s.kind = PagerKind.Aging → select_victim_frame s = some (v, t)) ∧
      (∀ f, f < s.num_frames → (t.frame_table f).age =
        (s.frame_table f).age / 2 + (if (s.framePte f).referenced then 2 ^ 31 else 0)) ∧
      (∀ f, f < s.num_frames → (t.framePte f).referenced = false) ∧
      j < s.num_frames ∧ v = (s.hand + j) % s.num_frames ∧
      (∀ f, f < s.num_frames → (t.frame_table v).age ≤ (t.frame_table f).age) ∧
      (∀ k, k < j →
        (t.frame_table v).age < (t.frame_table ((s.hand + k) % s.num_frames)).age) ∧
      t.hand = (v + 1) % s.num_frames ∧ Same s t ∧
      (∀ (u : State) (g : Nat), u.kind = PagerKind.Aging →
        ((reset_age u g).frame_table g).age = 0) := by
  have hn : 0 < s.num_frames := by omega
  have hd := hm.owners_distinct
  have key1 := doWhile_indexed AgingPager_age_body (fun x => x.current != s.hand)
    (AgingInv1 s) (fun _ => False) (fun x => x.current) s.num_frames s.hand
    (fun j x y hj hI hb => AgingInv1_step s hd j x y hj hI hb)
    (by
      intro j x r _ _ hb
      rw [AgingPager_age_body_eq] at hb
      cases hb)
    (fun j x _ hI => hI.2.2.1)
    (by intro y; rfl)
    hh (s.num_frames + 1) 0
    { st := s, current := s.hand, min_age := 4294967295, victim := none }
    hn (by omega) (AgingInv1_zero s hh)
  rcases key1 with ⟨r, _, hF⟩ | ⟨x1, hx1, hs1, hh1, hc1, hm1, hv1, hage1, href1⟩
  · exact hF.elim
  have hnf1 : x1.st.num_frames = s.num_frames := hs1.num_frames
  have key2 := doWhile_indexed AgingPager_min_body (fun x => x.current != s.hand)
    (AgingInv2 x1.st s.hand) (fun _ => False) (fun x => x.current) s.num_frames s.hand
    (fun j x y _ hI hb => AgingInv2_step x1.st s.hand j x y hI hb)
    (by
      intro j x r _ _ hb
      rw [AgingPager_min_body_eq] at hb
      cases hb)
    (fun j x _ hI => by rw [← hnf1]; exact hI.2.1)
    (by intro y; rfl)
    hh (s.num_frames + 1) 0 { x1 with current := x1.st.hand } hn (by omega)
    ⟨rfl, by
        show x1.st.hand = _
        rw [hh1, hnf1, Nat.add_zero, Nat.mod_eq_of_lt hh],
      fun _ => ⟨hm1, hh1, fun k hk => by omega⟩,
      fun v hv => by
        have hv' : x1.victim = some v := hv
        rw [hv1] at hv'
        cases hv'⟩
  rcases key2 with ⟨r, _, hF⟩ | ⟨x2, hx2, hst2, hc2, hnone2, hsome2⟩
  · exact hF.elim
  have hallin : ∀ f, f < s.num_frames → f ∈ circ s.hand s.num_frames s.num_frames := by
    intro f hf
    obtain ⟨k, hk, hfk⟩ := circ_surj s.hand s.num_frames f hh hf
    exact (mem_circ _ _ _ _).mpr ⟨k, hk, hfk⟩
  have hage : ∀ f, f < s.num_frames → (x1.st.frame_table f).age =
      (s.frame_table f).age / 2 + (if (s.framePte f).referenced then 2 ^ 31 else 0) := by
    intro f hf
    rw [hage1 f hf, if_pos (hallin f hf), AgingPager_new_age_eq s f (ha f hf)]
  have href : ∀ f, f < s.num_frames → (x1.st.framePte f).referenced = false := by
    intro f hf
    rw [href1 f hf, if_pos (hallin f hf)]
  have hreset : ∀ (u : State) (g : Nat), u.kind = PagerKind.Aging →
      ((reset_age u g).frame_table g).age = 0 := by
    intro u g hk
    unfold reset_age
    rw [hk]
    simp
  have hkind : ∀ r, AgingPager_select_victim_frame (s.num_frames + 1) s = some r →
      (s.kind = PagerKind.Aging → select_victim_frame s = some r) := by
    intro r hr hk
    unfold select_victim_frame
    rw [if_neg (show ¬ s.num_frames = 0 by omega), hk]
    exact hr
  have hx2' : doWhile AgingPager_min_body (fun x => x.current != s.hand) (s.num_frames + 1)
      { st := x1.st, current := x1.st.hand, min_age := x1.min_age, victim := x1.victim } =
      some (LoopStep.next x2) := hx2
  have hres : AgingPager_select_victim_frame (s.num_frames + 1) s =
      match x2.victim with
      | some v => some (v, x2.st)
      | none => some (x2.st.hand, x2.st.setHand ((x2.st.hand + 1) % x2.st.num_frames)) := by
    unfold AgingPager_select_victim_frame
    simp only [hx1, hx2']
  have hnf2 : x2.st.num_frames = s.num_frames := by rw [hst2]; exact hnf1
  have hft2 : x2.st.frame_table = x1.st.frame_table := by rw [hst2]; rfl
  have hpte2 : ∀ f, x2.st.framePte f = x1.st.framePte f := by
    intro f; rw [hst2]; rfl
  have hsame2 : Same s x2.st := by
    rw [hst2]; exact hs1.same_trans (same_setHand _ _)
  cases hv : x2.victim with
  | some v =>
    rw [hv] at hres
    obtain ⟨i, hi, hvi, _, hhand, hle, hlt⟩ := hsome2 v hv
    rw [hnf1] at hvi hhand hle hlt
    refine ⟨i, v, x2.st, hres, hkind _ hres, ?_, ?_, hi, hvi, ?_, ?_, hhand, hsame2, hreset⟩
    · intro f hf; rw [hft2]; exact hage f hf
    · intro f hf; rw [hpte2]; exact href f hf
    · intro f hf
      rw [hft2]
      obtain ⟨k, hk, rfl⟩ := circ_surj s.hand s.num_frames f hh hf
      exact hle k hk
    · intro k hk
      rw [hft2]
      exact hlt k hk
  | none =>
    rw [hv] at hres
    obtain ⟨_, hhand, hge⟩ := hnone2 hv
    rw [hnf1] at hge
    rw [hhand, hnf2] at hres
    have hall : ∀ f, f < s.num_frames → (x1.st.frame_table f).age = 4294967295 := by
      intro f hf
      obtain ⟨k, hk, hfk⟩ := circ_surj s.hand s.num_frames f hh hf
      have h1 := hge k hk
      rw [← hfk] at h1
      have h2 := hage f hf
      have h3 := ha f hf
      have h4 : (if (s.framePte f).referenced = true then 2 ^ 31 else 0) ≤ 2 ^ 31 := by
        split <;> omega
      omega
    refine ⟨0, s.hand, _, hres, hkind _ hres, ?_, ?_, hn, ?_, ?_, ?_, rfl,
      hsame2.same_trans (same_setHand _ _), hreset⟩
    · intro f hf
      show (x2.st.frame_table f).age = _
      rw [hft2]; exact hage f hf
    · intro f hf
      show (x2.st.framePte f).referenced = _
      rw [hpte2]; exact href f hf
    · rw [Nat.add_zero, Nat.mod_eq_of_lt hh]
    · intro f hf
      show (x2.st.frame_table s.hand).age ≤ (x2.st.frame_table f).age
      rw [hft2, hall f hf, hall s.hand hh]
    · intro k hk; omega

theorem aging_returns_first_frame_of_least_age_witness :
    stC.hand < stC.num_frames ∧ AllMapped stC ∧
    ∃ j v t, AgingPager_select_victim_frame (stC.num_frames + 1) stC = some (v, t) ∧
      (∀ f, f < stC.num_frames → (t.frame_table f).age =
        (stC.frame_table f).age / 2 + (if (stC.framePte f).referenced then 2 ^ 31 else 0)) ∧
      j < stC.num_frames ∧ v = (stC.hand + j) % stC.num_frames ∧
      (∀ f, f < stC.num_frames → (t.frame_table v).age ≤ (t.frame_table f).age) ∧
      t.hand = (v + 1) % stC.num_frames :=
  ⟨by decide!, by decide!,
    match aging_returns_first_frame_of_least_age stC (by decide!) (by decide!) (by decide!) with
    | ⟨j, v, t, h1, _, h3, _, h5, h6, h7, _, h9, _⟩ => ⟨j, v, t, h1, h3, h5, h6, h7, h9⟩⟩

theorem RandomPager_victims_eq (k : Nat) : ∀ (s : State), s.random_numbers ≠ [] →
    s.rpos ≤ s.random_numbers.length →
    RandomPager_victims k s = (List.range k).map (fun i =>
      s.random_numbers.getD ((s.rpos + i) % s.random_numbers.length) 0 % s.num_frames) := by
  induction k with
  | zero => intro s _ _; rfl
  | succ k ih =>
    intro s hr hp
    have hlen : 0 < s.random_numbers.length := List.length_pos.mpr hr
    have hidx : (if s.rpos ≥ s.random_numbers.length then 0 else s.rpos) =
        s.rpos % s.random_numbers.length := by
      split
      · rename_i hge
        have : s.rpos = s.random_numbers.length := by omega
        rw [this, Nat.mod_self]
      · rename_i hlt
        rw [Nat.mod_eq_of_lt (by omega)]
    have hlt : s.rpos % s.random_numbers.length < s.random_numbers.length :=
      Nat.mod_lt _ hlen
    have hp2 : (RandomPager_select_victim_frame s).2.rpos ≤
        (RandomPager_select_victim_frame s).2.random_numbers.length := by
      show (if s.rpos ≥ s.random_numbers.length then 0 else s.rpos) + 1 ≤
        s.random_numbers.length
      rw [hidx]; omega
    unfold RandomPager_victims
    rw [ih (RandomPager_select_victim_frame s).2 hr hp2]
    rw [List.range_succ_eq_map, List.map_cons, List.map_map]
    congr 1
    · show s.random_numbers.getD (if s.rpos ≥ s.random_numbers.length then 0 else s.rpos) 0 %
        s.num_frames = _
      rw [hidx, Nat.add_zero]
    · apply List.map_congr_left
      intro i _
      show s.random_numbers.getD
        (((if s.rpos ≥ s.random_numbers.length then 0 else s.rpos) + 1 + i) %
          s.random_numbers.length) 0 % s.num_frames = _
      rw [hidx]
      have : (s.rpos % s.random_numbers.length + 1 + i) % s.random_numbers.length =
          (s.rpos + (i + 1)) % s.random_numbers.length := by
        rw [Nat.add_assoc, Nat.add_mod, Nat.mod_mod, ← Nat.add_mod, Nat.add_comm 1 i]
      simp only [Function.comp, this, Nat.succ_eq_add_one]

/-- C22 (amended): `RandomPager::select_victim_frame` selects the frame
`v % num_frames` (without the `1 +` of the CPU scheduler's draw), where `v` is
the random number at the cursor, the cursor being taken as 0 when it stands at
the end of the sequence; the cursor is left one past the number read.  The
index is below `num_frames`, and the `i`-th of successive calls reads the
number at position `(cursor + i) mod length`. -/
theorem random_pager_returns_value_mod_frames (s : State) (hr : s.random_numbers ≠ [])
    (hn : 0 < s.num_frames) (hp : s.rpos ≤ s.random_numbers.length) :
    ∃ v, s.random_numbers[s.rpos % s.random_numbers.length]? = some v ∧
      (RandomPager_select_victim_frame s).1 = v % s.num_frames ∧
      (RandomPager_select_victim_frame s).1 < s.num_frames ∧
      (RandomPager_select_victim_frame s).2 =
        { s with rpos := s.rpos % s.random_numbers.length + 1 } ∧
      (RandomPager_select_victim_frame s).2.rpos ≤ s.random_numbers.length ∧
      ∀ k, RandomPager_victims k s = (List.range k).map (fun i =>
        s.random_numbers.getD ((s.rpos + i) % s.random_numbers.length) 0 % s.num_frames) := by
  have hlen : 0 < s.random_numbers.length := List.length_pos.mpr hr
  have hidx : (if s.rpos ≥ s.random_numbers.length then 0 else s.rpos) =
      s.rpos % s.random_numbers.length := by
    split
    · rename_i hge
      have : s.rpos = s.random_numbers.length := by omega
      rw [this, Nat.mod_self]
    · rename_i hlt
      rw [Nat.mod_eq_of_lt (by omega)]
  have hlt : s.rpos % s.random_numbers.length < s.random_numbers.length :=
    Nat.mod_lt _ hlen
  have h1 : (RandomPager_select_victim_frame s).1 =
      s.random_numbers.getD (s.rpos % s.random_numbers.length) 0 % s.num_frames := by
    show s.random_numbers.getD (if s.rpos ≥ s.random_numbers.length then 0 else s.rpos) 0 %
      s.num_frames = _
    rw [hidx]
  have h2 : (RandomPager_select_victim_frame s).2 =
      { s with rpos := s.rpos % s.random_numbers.length + 1 } := by
    show { s with rpos := (if s.rpos ≥ s.random_numbers.length then 0 else s.rpos) + 1 } = _
    rw [hidx]
  refine ⟨s.random_numbers.getD (s.rpos % s.random_numbers.length) 0, ?_, h1, ?_, h2, ?_,
    fun k => RandomPager_victims_eq k s hr hp⟩
  · rw [List.getD_eq_getElem?_getD, List.getElem?_eq_getElem hlt]
    rfl
  · rw [h1]; exact Nat.mod_lt _ hn
  · rw [h2]; show s.rpos % s.random_numbers.length + 1 ≤ _; omega

theorem random_pager_returns_value_mod_frames_witness :
    (init cfgR).random_numbers ≠ [] ∧ 0 < (init cfgR).num_frames ∧
    (init cfgR).rpos ≤ (init cfgR).random_numbers.length ∧
    RandomPager_victims 3 (init cfgR) = [0, 1, 0] ∧
    ∃ v, (init cfgR).random_numbers[(init cfgR).rpos % (init cfgR).random_numbers.length]? =
        some v ∧
      (RandomPager_select_victim_frame (init cfgR)).1 = v % (init cfgR).num_frames ∧
      (RandomPager_select_victim_frame (init cfgR)).1 < (init cfgR).num_frames ∧
      (RandomPager_select_victim_frame (init cfgR)).2 =
        { init cfgR with
          rpos := (init cfgR).rpos % (init cfgR).random_numbers.length + 1 } ∧
      (RandomPager_select_victim_frame (init cfgR)).2.rpos ≤
        (init cfgR).random_numbers.length ∧
      ∀ k, RandomPager_victims k (init cfgR) = (List.range k).map (fun i =>
        (init cfgR).random_numbers.getD
          (((init cfgR).rpos + i) % (init cfgR).random_numbers.length) 0 %
          (init cfgR).num_frames) :=
  ⟨by decide, by decide, by decide, by decide,
    random_pager_returns_value_mod_frames (init cfgR) (by decide) (by decide) (by decide)⟩

/-- C22 (counterexample to the `1 +`): with three frames and the random number
3 at the cursor the frame selected is 0, not `1 + 3 mod 3 = 1`; in the run
`r 0; r 1; r 2; r 3` the fault on page 3 accordingly evicts page 0, the page of
frame 0. -/
theorem random_pager_is_not_one_plus :
    (init cfgR).random_numbers[(init cfgR).rpos]? = some 3 ∧
    (RandomPager_select_victim_frame (init cfgR)).1 = 0 ∧
    (RandomPager_select_victim_frame (init cfgR)).1 ≠ 1 + 3 % (init cfgR).num_frames ∧
    (run cfgR [⟨'r', 0⟩, ⟨'r', 1⟩, ⟨'r', 2⟩, ⟨'r', 3⟩]).map (fun s => s.trace) =
      some [TraceEv.ZERO, TraceEv.MAP 0, TraceEv.ZERO, TraceEv.MAP 1, TraceEv.ZERO,
        TraceEv.MAP 2, TraceEv.UNMAP 0 0, TraceEv.ZERO, TraceEv.MAP 0] := by
  refine ⟨by decide, by decide, by decide, ?_⟩
  decide!

theorem WS_passed_same (s : State) (c : Nat) : Same s (WS_passed s c) := by
  unfold WS_passed
  split
  · exact Same.same_trans (same_setFrame s c (WS_touch s c) rfl rfl rfl)
      (same_setFrameRef _ _ _)
  · exact Same.same_refl s

theorem WS_passed_hand (s : State) (c : Nat) : (WS_passed s c).hand = s.hand := by
  unfold WS_passed
  split <;> rfl

theorem WS_passed_frame_table (s : State) (c f : Nat) :
    (WS_passed s c).frame_table f =
      if f = c ∧ (s.framePte c).referenced = true then WS_touch s c
      else s.frame_table f := by
  unfold WS_passed
  by_cases hr : (s.framePte c).referenced = true
  · rw [if_pos hr]
    simp only [State.setFrameRef, State.frame_table_setPte, State.frame_table_setFrame, hr,
      and_true]
  · rw [if_neg hr, if_neg (fun h => hr h.2)]

theorem WS_passed_framePte (s : State) (c f : Nat) (hd : OwnersDistinct s)
    (hc : c < s.num_frames) (hf : f < s.num_frames) :
    (WS_passed s c).framePte f =
      if f = c then { s.framePte c with referenced := false } else s.framePte f := by
  unfold WS_passed
  by_cases hr : (s.framePte c).referenced = true
  · rw [if_pos hr]
    have hs2 : Same s (s.setFrame c (WS_touch s c)) := same_setFrame _ _ _ rfl rfl rfl
    rw [framePte_setFrameRef _ c f false (hs2.distinct_of_same hd)
      (by rw [hs2.num_frames]; exact hc) (by rw [hs2.num_frames]; exact hf)]
    rw [framePte_setFrame s c c (WS_touch s c) rfl rfl,
      framePte_setFrame s c f (WS_touch s c) rfl rfl]
  · rw [if_neg hr]
    have hr2 : (s.framePte c).referenced = false := by simpa using hr
    split
    · rename_i hfc
      rw [hfc, ← hr2]
    · rfl

theorem WorkingSetPager_body_eq (x : WSScan) :
    WorkingSetPager_body x =
      if WS_old x.st x.st.hand = true then
        LoopStep.brk { x with victim := some x.st.hand,
                              st := x.st.setHand ((x.st.hand + 1) % x.st.num_frames) }
      else
        LoopStep.next
          { st := (WS_passed x.st x.st.hand).setHand ((x.st.hand + 1) % x.st.num_frames),
            max_age := if (x.st.framePte x.st.hand).referenced = false ∧
                WS_age x.st x.st.hand > x.max_age then WS_age x.st x.st.hand else x.max_age,
            victim := if (x.st.framePte x.st.hand).referenced = false ∧
                WS_age x.st x.st.hand > x.max_age then some x.st.hand else x.victim } := by
  unfold WorkingSetPager_body WS_old WS_passed WS_age WS_touch
  simp only
  by_cases hr : (x.st.framePte x.st.hand).referenced = true
  · simp [hr]
    rfl
  · have hr2 : (x.st.framePte x.st.hand).referenced = false := by simpa using hr
    by_cases h49 : x.st.inst_count - (x.st.frame_table x.st.hand).last_used_time > 49
    · simp [hr2, h49]
    · by_cases hm : x.st.inst_count - (x.st.frame_table x.st.hand).last_used_time > x.max_age
      · simp [hr2, h49, hm]
      · simp [hr2, h49, hm]

/-- The frame under the hand after `j` frames is as in the state `s` of the
call. -/
theorem WSInv_current (s : State) (j : Nat) (x : WSScan) (hj : j < s.num_frames)
    (hI : WSInv s j x) :
    x.st.hand < s.num_frames ∧ x.st.framePte x.st.hand = s.framePte x.st.hand ∧
      WS_age x.st x.st.hand = WS_age s x.st.hand ∧
      WS_old x.st x.st.hand = WS_old s x.st.hand := by
  obtain ⟨h1, h2, h3, h4, _⟩ := hI
  have hn : 0 < s.num_frames := by omega
  have hc : x.st.hand < s.num_frames := by rw [h2]; exact Nat.mod_lt _ hn
  have hnot : x.st.hand ∉ circ s.hand s.num_frames j := by
    rw [h2]; exact not_mem_circ _ _ _ hj
  have hp : x.st.framePte x.st.hand = s.framePte x.st.hand := by
    rw [h4 _ hc, if_neg hnot]
  have hf : x.st.frame_table x.st.hand = s.frame_table x.st.hand := by
    rw [h3 _ hc, if_neg (fun h => hnot h.1)]
  have ha : WS_age x.st x.st.hand = WS_age s x.st.hand := by
    unfold WS_age
    rw [hf, h1.inst_count]
  refine ⟨hc, hp, ha, ?_⟩
  unfold WS_old
  rw [hp, ha]

theorem WSInv_step (s : State) (hd : OwnersDistinct s) (j : Nat) (x y : WSScan)
    (hj : j < s.num_frames) (hI : WSInv s j x)
    (hb : WorkingSetPager_body x = LoopStep.next y) : WSInv s (j + 1) y := by
  obtain ⟨hc, hp, hage, hold⟩ := WSInv_current s j x hj hI
  obtain ⟨h1, h2, h3, h4, h5, h6, h7⟩ := hI
  have hn : 0 < s.num_frames := by omega
  have hnf : x.st.num_frames = s.num_frames := h1.num_frames
  have hnot : x.st.hand ∉ circ s.hand s.num_frames j := by
    rw [h2]; exact not_mem_circ _ _ _ hj
  have hft : x.st.frame_table x.st.hand = s.frame_table x.st.hand := by
    rw [h3 _ hc, if_neg (fun h => hnot h.1)]
  have htouch : WS_touch x.st x.st.hand = WS_touch s x.st.hand := by
    unfold WS_touch
    rw [hft, h1.inst_count]
  rw [WorkingSetPager_body_eq] at hb
  by_cases ho : WS_old x.st x.st.hand = true
  · rw [if_pos ho] at hb; cases hb
  rw [if_neg ho] at hb
  injection hb with hb
  subst hb
  have ho2 : WS_old s x.st.hand = false := by
    rw [← hold]; simpa using ho
  have hmem : ∀ f, f ∈ circ s.hand s.num_frames (j + 1) ↔
      f ∈ circ s.hand s.num_frames j ∨ f = x.st.hand := by
    intro f; rw [mem_circ_succ, h2]
  refine ⟨?_, ?_, ?_, ?_, ?_, ?_, ?_⟩
  · exact (h1.same_trans (WS_passed_same _ _)).same_trans (same_setHand _ _)
  · show (x.st.hand + 1) % x.st.num_frames = _
    rw [hnf, h2, Nat.mod_add_mod, Nat.add_assoc]
  · intro f hf
    show (WS_passed x.st x.st.hand).frame_table f = _
    rw [WS_passed_frame_table, hp, htouch]
    by_cases hfc : f = x.st.hand
    · subst hfc
      by_cases hr : (s.framePte x.st.hand).referenced = true
      · rw [if_pos ⟨rfl, hr⟩, if_pos ⟨(hmem _).mpr (Or.inr rfl), hr⟩]
      · rw [if_neg (fun h => hr h.2), if_neg (fun h => hr h.2), hft]
    · rw [if_neg (fun h => hfc h.1), h3 f hf]
      by_cases hm : f ∈ circ s.hand s.num_frames j ∧ (s.framePte f).referenced = true
      · rw [if_pos hm, if_pos ⟨(hmem f).mpr (Or.inl hm.1), hm.2⟩]
      · rw [if_neg hm, if_neg]
        intro h
        rcases (hmem f).mp h.1 with h' | h'
        · exact hm ⟨h', h.2⟩
        · exact hfc h'
  · intro f hf
    show (WS_passed x.st x.st.hand).framePte f = _
    rw [WS_passed_framePte _ _ _ (h1.distinct_of_same hd) (by rw [hnf]; exact hc)
      (by rw [hnf]; exact hf), hp]
    by_cases hfc : f = x.st.hand
    · rw [if_pos hfc, if_pos ((hmem f).mpr (Or.inr hfc)), hfc]
    · rw [if_neg hfc, h4 f hf]
      by_cases hm : f ∈ circ s.hand s.num_frames j
      · rw [if_pos hm, if_pos ((hmem f).mpr (Or.inl hm))]
      · rw [if_neg hm, if_neg (fun h => by rcases (hmem f).mp h with h | h <;> contradiction)]
  · intro k hk
    by_cases hkj : k = j
    · rw [hkj, ← h2]; exact ho2
    · exact h5 k (by omega)
  · intro hv
    simp only at hv
    rw [hp, hage] at hv
    by_cases hcond : (s.framePte x.st.hand).referenced = false ∧ WS_age s x.st.hand > x.max_age
    · rw [if_pos hcond] at hv; cases hv
    · rw [if_neg hcond] at hv
      obtain ⟨e1, e2⟩ := h6 hv
      constructor
      · show (if _ then _ else _) = 0
        rw [hp, hage, if_neg hcond]; exact e1
      · intro k hk hr
        by_cases hkj : k = j
        · rw [hkj, ← h2] at hr ⊢
          by_contra hne
          exact hcond ⟨hr, by omega⟩
        · exact e2 k (by omega) hr
  · intro v hv
    simp only at hv
    rw [hp, hage] at hv
    show ∃ i, i < j + 1 ∧ v = _ ∧ _ ∧ (if (x.st.framePte x.st.hand).referenced = false ∧
        WS_age x.st x.st.hand > x.max_age then WS_age x.st x.st.hand else x.max_age) = _ ∧ _ ∧ _
    rw [hp, hage]
    by_cases hcond : (s.framePte x.st.hand).referenced = false ∧ WS_age s x.st.hand > x.max_age
    · rw [if_pos hcond] at hv
      rw [if_pos hcond]
      simp only [Option.some.injEq] at hv
      subst hv
      have hlt : ∀ k, k < j → (s.framePte ((s.hand + k) % s.num_frames)).referenced = false →
          WS_age s ((s.hand + k) % s.num_frames) < WS_age s x.st.hand := by
        intro k hk hr
        cases hvic : x.victim with
        | none =>
          obtain ⟨e1, e2⟩ := h6 hvic
          have := e2 k hk hr
          omega
        | some w =>
          obtain ⟨i, _, _, _, e4, e5, _⟩ := h7 w hvic
          have := e5 k hk hr
          omega
      refine ⟨j, by omega, h2, hcond.1, rfl, ?_, hlt⟩
      intro k hk hr
      by_cases hkj : k = j
      · rw [hkj, ← h2]
      · exact le_of_lt (hlt k (by omega) hr)
    · rw [if_neg hcond] at hv
      rw [if_neg hcond]
      obtain ⟨i, e1, e2, e3, e4, e5, e6⟩ := h7 v hv
      refine ⟨i, by omega, e2, e3, e4, ?_, e6⟩
      intro k hk hr
      by_cases hkj : k = j
      · rw [hkj, ← h2] at hr ⊢
        by_contra hne
        exact hcond ⟨hr, by omega⟩
      · exact e5 k (by omega) hr

theorem WSInv_zero (s : State) (hh : s.hand < s.num_frames) :
    WSInv s 0 { st := s, max_age := 0, victim := none } := by
  refine ⟨Same.same_refl s, ?_, ?_, ?_, ?_, ?_, ?_⟩
  · show s.hand = _
    rw [Nat.add_zero, Nat.mod_eq_of_lt hh]
  · intro f _
    rw [if_neg (by simp [circ])]
  · intro f _
    rw [if_neg (by simp [circ])]
  · intro k hk; omega
  · intro _
    exact ⟨rfl, fun k hk => by omega⟩
  · intro v hv; cases hv

/-- The loop of `WorkingSetPager::select_victim_frame`: it leaves by the
`break` at the first frame that passes the test, or ends after all frames. -/
theorem WorkingSetPager_loop (s : State) (hh : s.hand < s.num_frames) (hd : OwnersDistinct s) :
    (∃ j x, j < s.num_frames ∧ WSInv s j x ∧ WS_old s ((s.hand + j) % s.num_frames) = true ∧
      doWhile WorkingSetPager_body (fun x => x.st.hand != s.hand) (s.num_frames + 1)
        { st := s, max_age := 0, victim := none } =
        some (LoopStep.brk { x with victim := some x.st.hand,
                                    st := x.st.setHand ((x.st.hand + 1) % x.st.num_frames) })) ∨
    (∃ y, WSInv s s.num_frames y ∧
      doWhile WorkingSetPager_body (fun x => x.st.hand != s.hand) (s.num_frames + 1)
        { st := s, max_age := 0, victim := none } = some (LoopStep.next y)) := by
  have hn : 0 < s.num_frames := by omega
  have key := doWhile_indexed WorkingSetPager_body (fun x => x.st.hand != s.hand)
    (WSInv s)
    (fun r => ∃ j x, j < s.num_frames ∧ WSInv s j x ∧
      WS_old s ((s.hand + j) % s.num_frames) = true ∧
      r = { x with victim := some x.st.hand,
                   st := x.st.setHand ((x.st.hand + 1) % x.st.num_frames) })
    (fun x => x.st.hand) s.num_frames s.hand
    (fun j x y hj hI hb => WSInv_step s hd j x y hj hI hb)
    (by
      intro j x r hj hI hb
      obtain ⟨_, _, _, hold⟩ := WSInv_current s j x hj hI
      rw [WorkingSetPager_body_eq] at hb
      by_cases ho : WS_old x.st x.st.hand = true
      · rw [if_pos ho] at hb
        injection hb with hb
        refine ⟨j, x, hj, hI, ?_, hb.symm⟩
        rw [← hI.2.1, ← hold]; exact ho
      · rw [if_neg ho] at hb; cases hb)
    (fun j x _ hI => hI.2.1)
    (by intro y; rfl)
    hh (s.num_frames + 1) 0 { st := s, max_age := 0, victim := none } hn (by omega)
    (WSInv_zero s hh)
  rcases key with ⟨r, hr, j, x, hj, hI, ho, hrx⟩ | ⟨y, hy, hI⟩
  · left
    exact ⟨j, x, hj, hI, ho, by rw [hr, hrx]⟩
  · right
    exact ⟨y, hI, hy⟩

/-- C21: `WorkingSetPager::select_victim_frame` in a state in which all frames
are mapped and were last used before the current instruction.  With
`age = inst_count - last_used_time`, the victim `v = (hand + j) mod num_frames`
is the first frame from the hand whose entry is not referenced and whose age is
strictly greater than 49 (an age of exactly 49 does not pass), when there is
one; the frames passed before it, when referenced, get
`last_used_time = inst_count` (as an `unsigned int`) and `referenced = 0`, and
nothing else changes.  When no frame passes the test, every frame is passed,
and the victim is the first of the non-referenced frames of greatest age, or
the frame under the hand when every frame is referenced.  The hand ends one
past the victim. -/
theorem workingset_returns_first_old_unreferenced_frame (s : State)
    (hh : s.hand < s.num_frames) (hm : AllMapped s)
    (ha : ∀ f, f < s.num_frames → (s.frame_table f).last_used_time < s.inst_count) :
    ∃ j v t, WorkingSetPager_select_victim_frame (s.num_frames + 1) s = some (v, t) ∧
      (s.kind = PagerKind.WorkingSet → select_victim_frame s = some (v, t)) ∧
      j < s.num_frames ∧ v = (s.hand + j) % s.num_frames ∧
      t.hand = (v + 1) % s.num_frames ∧ Same s t ∧
      (∀ f, f < s.num_frames → (s.framePte f).referenced = false →
        (s.frame_table f).last_used_time + 49 = s.inst_count → WS_old s f = false) ∧
      (∀ f, f < s.num_frames → (WS_old s f = true ↔ ((s.framePte f).referenced = false ∧
        s.inst_count - (s.frame_table f).last_used_time > 49))) ∧
      (∀ k, k < j → WS_old s ((s.hand + k) % s.num_frames) = false) ∧
      (WS_old s v = true →
        (∀ f, f < s.num_frames → t.frame_table f =
          if f ∈ circ s.hand s.num_frames j ∧ (s.framePte f).referenced = true then
            { s.frame_table f with last_used_time := s.inst_count % 2 ^ 32 }
          else s.frame_table f) ∧
        (∀ f, f < s.num_frames → t.framePte f =
          if f ∈ circ s.hand s.num_frames j then { s.framePte f with referenced := false }
          else s.framePte f)) ∧
      (WS_old s v = false →
        (∀ f, f < s.num_frames → WS_old s f = false) ∧
        (∀ f, f < s.num_frames → t.frame_table f =
          if (s.framePte f).referenced = true then
            { s.frame_table f with last_used_time := s.inst_count % 2 ^ 32 }
          else s.frame_table f) ∧
        (∀ f, f < s.num_frames → t.framePte f = { s.framePte f with referenced := false }) ∧
        ((s.framePte v).referenced = false →
          (∀ f, f < s.num_frames → (s.framePte f).referenced = false →
            WS_age s f ≤ WS_age s v) ∧
          (∀ k, k < j → (s.framePte ((s.hand + k) % s.num_frames)).referenced = false →
            WS_age s ((s.hand + k) % s.num_frames) < WS_age s v)) ∧
        ((s.framePte v).referenced = true →
          j = 0 ∧ ∀ f, f < s.num_frames → (s.framePte f).referenced = true)) := by
  have hn : 0 < s.num_frames := by omega
  have hd := hm.owners_distinct
  have h49 : ∀ f, f < s.num_frames → (s.framePte f).referenced = false →
      (s.frame_table f).last_used_time + 49 = s.inst_count → WS_old s f = false := by
    intro f _ _ he
    unfold WS_old WS_age
    have : ¬ (s.inst_count - (s.frame_table f).last_used_time > 49) := by omega
    simp [this]
  have hiff : ∀ f, f < s.num_frames → (WS_old s f = true ↔
      ((s.framePte f).referenced = false ∧
        s.inst_count - (s.frame_table f).last_used_time > 49)) := by
    intro f _
    unfold WS_old WS_age
    simp
  have hkind : ∀ v t, WorkingSetPager_select_victim_frame (s.num_frames + 1) s = some (v, t) →
      s.kind = PagerKind.WorkingSet → select_victim_frame s = some (v, t) := by
    intro v t h hk
    unfold select_victim_frame
    rw [if_neg (show ¬ s.num_frames = 0 by omega), hk]
    exact h
  rcases WorkingSetPager_loop s hh hd with ⟨j, x, hj, hI, ho, hrun⟩ | ⟨y, hI, hrun⟩
  · -- the loop leaves by the `break` at frame `(hand + j) mod num_frames`
    have hres : WorkingSetPager_select_victim_frame (s.num_frames + 1) s =
        some (x.st.hand, (x.st.setHand ((x.st.hand + 1) % x.st.num_frames)).setHand
          ((x.st.hand + 1) % x.st.num_frames)) := by
      unfold WorkingSetPager_select_victim_frame
      simp only [hrun]
      rfl
    obtain ⟨h1, h2, h3, h4, h5, _, _⟩ := hI
    have hnf : x.st.num_frames = s.num_frames := h1.num_frames
    rw [hnf, h2] at hres
    refine ⟨j, _, _, hres, hkind _ _ hres, hj, rfl, ?_, ?_, h49, hiff, h5, ?_, ?_⟩
    · rfl
    · exact (h1.same_trans (same_setHand _ _)).same_trans (same_setHand _ _)
    · intro _
      exact ⟨fun f hf => h3 f hf, fun f hf => h4 f hf⟩
    · intro hf
      rw [ho] at hf; cases hf
  · -- the loop ends after all frames
    obtain ⟨h1, h2, h3, h4, h5, h6, h7⟩ := hI
    have hnf : y.st.num_frames = s.num_frames := h1.num_frames
    have hall : ∀ f, f < s.num_frames → f ∈ circ s.hand s.num_frames s.num_frames := by
      intro f hf
      exact (mem_circ _ _ _ _).mpr (circ_surj s.hand s.num_frames f hh hf)
    have hnold : ∀ f, f < s.num_frames → WS_old s f = false := by
      intro f hf
      obtain ⟨i, hi, hfi⟩ := circ_surj s.hand s.num_frames f hh hf
      rw [hfi]; exact h5 i hi
    have hft : ∀ f, f < s.num_frames → y.st.frame_table f =
        if (s.framePte f).referenced = true then
          { s.frame_table f with last_used_time := s.inst_count % 2 ^ 32 }
        else s.frame_table f := by
      intro f hf
      rw [h3 f hf]
      by_cases hr : (s.framePte f).referenced = true
      · rw [if_pos ⟨hall f hf, hr⟩, if_pos hr]; rfl
      · rw [if_neg (fun h => hr h.2), if_neg hr]
    have hpte : ∀ f, f < s.num_frames → y.st.framePte f =
        { s.framePte f with referenced := false } := by
      intro f hf
      rw [h4 f hf, if_pos (hall f hf)]
    have hpos : ∀ f, f < s.num_frames → 0 < WS_age s f := by
      intro f hf
      have := ha f hf
      unfold WS_age
      omega
    cases hv : y.victim with
    | none =>
      have hres : WorkingSetPager_select_victim_frame (s.num_frames + 1) s =
          some (s.hand, y.st.setHand ((s.hand + 1) % y.st.num_frames)) := by
        unfold WorkingSetPager_select_victim_frame
        simp only [hrun, hv]
      rw [hnf] at hres
      obtain ⟨_, e2⟩ := h6 hv
      have hallref : ∀ f, f < s.num_frames → (s.framePte f).referenced = true := by
        intro f hf
        obtain ⟨i, hi, hfi⟩ := circ_surj s.hand s.num_frames f hh hf
        cases hr : (s.framePte f).referenced with
        | true => rfl
        | false =>
          have := e2 i hi (by rw [← hfi]; exact hr)
          have := hpos f hf
          rw [← hfi] at *
          omega
      refine ⟨0, _, _, hres, hkind _ _ hres, hn, ?_, rfl,
        h1.same_trans (same_setHand _ _), h49, hiff, fun k hk => by omega, ?_, ?_⟩
      · rw [Nat.add_zero, Nat.mod_eq_of_lt hh]
      · intro hf
        rw [hnold _ hh] at hf; cases hf
      · intro _
        refine ⟨hnold, hft, hpte, ?_, fun _ => ⟨rfl, hallref⟩⟩
        intro hr
        rw [hallref _ hh] at hr; cases hr
    | some w =>
      have hres : WorkingSetPager_select_victim_frame (s.num_frames + 1) s =
          some (w, y.st.setHand ((w + 1) % y.st.num_frames)) := by
        unfold WorkingSetPager_select_victim_frame
        simp only [hrun, hv]
      rw [hnf] at hres
      obtain ⟨i, hi, hwi, e3, _, e5, e6⟩ := h7 w hv
      have hw : w < s.num_frames := by rw [hwi]; exact Nat.mod_lt _ hn
      refine ⟨i, w, _, hres, hkind _ _ hres, hi, hwi, rfl,
        h1.same_trans (same_setHand _ _), h49, hiff, fun k hk => h5 k (by omega), ?_, ?_⟩
      · intro hf
        rw [hnold _ hw] at hf; cases hf
      · intro _
        refine ⟨hnold, hft, hpte, fun _ => ⟨?_, e6⟩, ?_⟩
        · intro f hf hr
          obtain ⟨k, hk, hfk⟩ := circ_surj s.hand s.num_frames f hh hf
          rw [hfk] at hr ⊢
          exact e5 k hk hr
        · intro hr
          rw [e3] at hr; cases hr

theorem workingset_returns_first_old_unreferenced_frame_witness :
    stW.hand < stW.num_frames ∧ AllMapped stW ∧
    (∀ f, f < stW.num_frames → (stW.frame_table f).last_used_time < stW.inst_count) ∧
    stW.inst_count = 71 ∧
    (List.range 3).map (fun f => ((stW.frame_table f).vpage, (stW.frame_table f).last_used_time,
      (stW.framePte f).referenced)) = [(0, 1, true), (1, 11, true), (2, 21, true)] ∧
    (WorkingSetPager_select_victim_frame (stW.num_frames + 1) stW).map Prod.fst = some 0 ∧
    (run cfgW (insW ++ [⟨'r', 3⟩])).map (fun s => s.trace) =
      some [TraceEv.ZERO, TraceEv.MAP 0, TraceEv.ZERO, TraceEv.MAP 1, TraceEv.ZERO,
        TraceEv.MAP 2, TraceEv.UNMAP 0 0, TraceEv.ZERO, TraceEv.MAP 0] ∧
    ∃ j v t, WorkingSetPager_select_victim_frame (stW.num_frames + 1) stW = some (v, t) ∧
      j < stW.num_frames ∧ v = (stW.hand + j) % stW.num_frames ∧
      t.hand = (v + 1) % stW.num_frames ∧
      (∀ k, k < j → WS_old stW ((stW.hand + k) % stW.num_frames) = false) :=
  ⟨by decide!, by decide!, by decide!, by decide!, by decide!, by decide!, by decide!,
    match workingset_returns_first_old_unreferenced_frame stW (by decide!) (by decide!)
      (by decide!) with
    | ⟨j, v, t, h1, _, h3, h4, h5, _, _, _, h9, _⟩ => ⟨j, v, t, h1, h3, h4, h5, h9⟩⟩

theorem Used.used_refl (s : State) : Used s s := ⟨rfl, fun _ => Or.inl rfl⟩

theorem Used.used_trans {s t u : State} (h1 : Used s t) (h2 : Used t u) : Used s u := by
  refine ⟨h2.inst_count.trans h1.inst_count, ?_⟩
  intro f
  rcases h2.last f with h | h
  · rw [h]; exact h1.last f
  · right; rw [h, h1.inst_count]

theorem Used.used_of_eq {s t : State} (h1 : t.inst_count = s.inst_count)
    (h2 : t.frame_table = s.frame_table) : Used s t :=
  ⟨h1, fun f => Or.inl (by rw [h2])⟩

theorem Used.lastUsedLe {s t : State} (h : Used s t) (hs : LastUsedLe s) : LastUsedLe t := by
  intro f
  rw [h.inst_count]
  rcases h.last f with e | e
  · rw [e]; exact hs f
  · rw [e]; exact Nat.mod_le _ _

theorem used_setFrame (s : State) (f : Nat) (fr : frame_t)
    (h : fr.last_used_time = (s.frame_table f).last_used_time ∨
      fr.last_used_time = s.inst_count % 2 ^ 32) : Used s (s.setFrame f fr) := by
  refine ⟨rfl, ?_⟩
  intro g
  rw [State.frame_table_setFrame]
  split
  · rename_i hg; rw [hg]; exact h
  · exact Or.inl rfl

theorem used_setPte (s : State) (p v : Nat) (e : pte_t) : Used s (s.setPte p v e) :=
  Used.used_of_eq rfl rfl

theorem used_setFrameRef (s : State) (f : Nat) (b : Bool) : Used s (s.setFrameRef f b) :=
  Used.used_of_eq rfl rfl

theorem used_setHand (s : State) (h : Nat) : Used s (s.setHand h) := Used.used_of_eq rfl rfl

theorem used_charge (s : State) (t : TraceEv) (p : Nat) (f : pstats_t → pstats_t) (c : Nat) :
    Used s (s.charge t p f c) := Used.used_of_eq rfl rfl

theorem used_addCost (s : State) (c : Nat) : Used s (s.addCost c) := Used.used_of_eq rfl rfl

theorem used_pushFree (s : State) (f : Nat) : Used s (s.pushFree f) := Used.used_of_eq rfl rfl

/-- What a loop preserves: a property kept by every pass of the body holds when
the loop is left. -/
theorem doWhile_preserves {ρ σ : Type} (body : σ → LoopStep ρ σ) (cond : σ → Bool)
    (P : σ → Prop) (Q : ρ → Prop)
    (hnext : ∀ x y, P x → body x = LoopStep.next y → P y)
    (hbrk : ∀ x r, P x → body x = LoopStep.brk r → Q r) :
    ∀ (fuel : Nat) (x : σ), P x →
      (∀ r, doWhile body cond fuel x = some (LoopStep.brk r) → Q r) ∧
      (∀ y, doWhile body cond fuel x = some (LoopStep.next y) → P y) := by
  intro fuel
  induction fuel with
  | zero =>
    intro x _
    exact ⟨fun r h => (by cases h), fun y h => (by cases h)⟩
  | succ k ih =>
    intro x hx
    unfold doWhile
    cases hb : body x with
    | brk r =>
      refine ⟨fun r2 h => ?_, fun y h => (by cases h)⟩
      simp only [Option.some.injEq, LoopStep.brk.injEq] at h
      rw [← h]; exact hbrk x r hx hb
    | next y =>
      have hy := hnext x y hx hb
      simp only
      by_cases hc : cond y = true
      · rw [if_pos hc]
        exact ih y hy
      · rw [if_neg hc]
        refine ⟨fun r h => (by cases h), fun y2 h => ?_⟩
        simp only [Option.some.injEq, LoopStep.next.injEq] at h
        rw [← h]; exact hy

theorem FIFOPager_used (s : State) : Used s (FIFOPager_select_victim_frame s).2 :=
  used_setHand _ _

theorem RandomPager_used (s : State) : Used s (RandomPager_select_victim_frame s).2 :=
  Used.used_of_eq rfl rfl

theorem ClockPager_used (fuel : Nat) (s : State) (r : Nat × State)
    (h : ClockPager_select_victim_frame fuel s = some r) : Used s r.2 := by
  have key := doWhile_preserves ClockPager_body (fun _ => true) (fun x => Used s x)
    (fun r => Used s r.2)
    (by
      intro x y hx hb
      unfold ClockPager_body at hb
      split at hb
      · cases hb
      · injection hb with hb
        rw [← hb]
        exact (hx.used_trans (used_setFrameRef _ _ _)).used_trans (used_setHand _ _))
    (by
      intro x r hx hb
      unfold ClockPager_body at hb
      split at hb
      · injection hb with hb
        rw [← hb]
        exact hx.used_trans (used_setHand _ _)
      · cases hb)
    fuel s (Used.used_refl s)
  unfold ClockPager_select_victim_frame at h
  cases hd : doWhile ClockPager_body (fun _ => true) fuel s with
  | none => rw [hd] at h; cases h
  | some q =>
    rw [hd] at h
    cases q with
    | brk r2 =>
      simp only [Option.some.injEq] at h
      rw [← h]
      exact key.1 r2 hd
    | next y => cases h

theorem NRUPager_used (fuel : Nat) (s : State) (r : Nat × State)
    (h : NRUPager_select_victim_frame fuel s = some r) : Used s r.2 := by
  have key := doWhile_preserves (NRUPager_body (decide (s.inst_count - s.last_reset ≥ 48)))
    (fun x => x.st.hand != s.hand) (fun x => Used s x.st) (fun r => Used s r.2.st)
    (by
      intro x y hx hb
      unfold NRUPager_body at hb
      simp only at hb
      split at hb
      · cases hb
      · injection hb with hb
        rw [← hb]
        show Used s (State.setHand _ _)
        refine Used.used_trans ?_ (used_setHand _ _)
        split
        · exact hx.used_trans (used_setFrameRef _ _ _)
        · exact hx)
    (by
      intro x r hx hb
      unfold NRUPager_body at hb
      simp only at hb
      split at hb
      · injection hb with hb
        rw [← hb]
        exact hx
      · cases hb)
    fuel { st := s, class_victims := fun _ => none } (Used.used_refl s)
  unfold NRUPager_select_victim_frame at h
  simp only at h
  cases hd : doWhile (NRUPager_body (decide (s.inst_count - s.last_reset ≥ 48)))
      (fun x => x.st.hand != s.hand) fuel { st := s, class_victims := fun _ => none } with
  | none => rw [hd] at h; cases h
  | some q =>
    rw [hd] at h
    simp only at h
    have hfin : ∀ (s1 : State), Used s s1 → ∀ v,
        Used s ((if decide (s.inst_count - s.last_reset ≥ 48) = true then
          { s1 with last_reset := s1.inst_count % 2 ^ 32 } else s1).setHand
            ((v + 1) % (if decide (s.inst_count - s.last_reset ≥ 48) = true then
          { s1 with last_reset := s1.inst_count % 2 ^ 32 } else s1).num_frames)) := by
      intro s1 h1 v
      refine Used.used_trans ?_ (used_setHand _ _)
      split
      · exact h1.used_trans (Used.used_of_eq rfl rfl)
      · exact h1
    cases q with
    | brk r2 =>
      obtain ⟨v, x⟩ := r2
      simp only [Option.some.injEq] at h
      rw [← h]
      exact hfin x.st (key.1 (v, x) hd) v
    | next y =>
      simp only at h
      cases hl : NRUPager_lowest y.class_victims with
      | none => rw [hl] at h; cases h
      | some v =>
        rw [hl] at h
        simp only [Option.some.injEq] at h
        rw [← h]
        exact hfin y.st (key.2 y hd) v

theorem used_AgingPager_aged (s : State) (c : Nat) : Used s (AgingPager_aged s c) := by
  unfold AgingPager_aged
  simp only
  have h1 : Used s (s.setFrame c { s.frame_table c with age := (s.frame_table c).age / 2 }) :=
    used_setFrame _ _ _ (Or.inl rfl)
  split
  · refine Used.used_trans (Used.used_trans h1 ?_) (used_setFrameRef _ _ _)
    exact used_setFrame _ _ _ (Or.inl rfl)
  · exact h1

theorem used_AgingPager (fuel : Nat) (s : State) (r : Nat × State)
    (h : AgingPager_select_victim_frame fuel s = some r) : Used s r.2 := by
  have key1 := doWhile_preserves AgingPager_age_body (fun x => x.current != s.hand)
    (fun x => Used s x.st) (fun _ => True)
    (by
      intro x y hx hb
      rw [AgingPager_age_body_eq] at hb
      injection hb with hb
      rw [← hb]
      exact hx.used_trans (used_AgingPager_aged _ _))
    (fun _ _ _ _ => trivial)
    fuel { st := s, current := s.hand, min_age := 4294967295, victim := none }
    (Used.used_refl s)
  have key2 := fun (x1 : AgingScan) =>
    doWhile_preserves AgingPager_min_body (fun x => x.current != s.hand)
    (fun x => Used s x.st) (fun _ => True)
    (by
      intro x y hx hb
      rw [AgingPager_min_body_eq] at hb
      injection hb with hb
      rw [← hb]
      split
      · exact hx.used_trans (used_setHand _ _)
      · exact hx)
    (fun _ _ _ _ => trivial)
    fuel { x1 with current := x1.st.hand }
  unfold AgingPager_select_victim_frame at h
  simp only at h
  cases hd1 : doWhile AgingPager_age_body (fun x => x.current != s.hand) fuel
      { st := s, current := s.hand, min_age := 4294967295, victim := none } with
  | none => rw [hd1] at h; cases h
  | some q1 =>
    rw [hd1] at h
    cases q1 with
    | brk u => cases h
    | next x1 =>
      simp only at h
      have hx1 : Used s x1.st := key1.2 x1 hd1
      cases hd2 : doWhile AgingPager_min_body (fun x => x.current != s.hand) fuel
          { x1 with current := x1.st.hand } with
      | none => rw [hd2] at h; cases h
      | some q2 =>
        rw [hd2] at h
        cases q2 with
        | brk u => cases h
        | next x2 =>
          simp only at h
          have hx2 : Used s x2.st := (key2 x1 hx1).2 x2 hd2
          cases hv : x2.victim with
          | none =>
            rw [hv] at h
            simp only [Option.some.injEq] at h
            rw [← h]
            exact hx2.used_trans (used_setHand _ _)
          | some v =>
            rw [hv] at h
            simp only [Option.some.injEq] at h
            rw [← h]
            exact hx2

theorem used_WS_passed (s : State) (c : Nat) : Used s (WS_passed s c) := by
  unfold WS_passed
  split
  · exact Used.used_trans (used_setFrame s c (WS_touch s c) (Or.inr rfl))
      (used_setFrameRef _ _ _)
  · exact Used.used_refl s

theorem used_WorkingSetPager (fuel : Nat) (s : State) (r : Nat × State)
    (h : WorkingSetPager_select_victim_frame fuel s = some r) : Used s r.2 := by
  have key := doWhile_preserves WorkingSetPager_body (fun x => x.st.hand != s.hand)
    (fun x => Used s x.st) (fun x => Used s x.st)
    (by
      intro x y hx hb
      rw [WorkingSetPager_body_eq] at hb
      split at hb
      · cases hb
      · injection hb with hb
        rw [← hb]
        exact (hx.used_trans (used_WS_passed _ _)).used_trans (used_setHand _ _))
    (by
      intro x r hx hb
      rw [WorkingSetPager_body_eq] at hb
      split at hb
      · injection hb with hb
        rw [← hb]
        exact hx.used_trans (used_setHand _ _)
      · cases hb)
    fuel { st := s, max_age := 0, victim := none } (Used.used_refl s)
  unfold WorkingSetPager_select_victim_frame at h
  simp only at h
  cases hd : doWhile WorkingSetPager_body (fun x => x.st.hand != s.hand) fuel
      { st := s, max_age := 0, victim := none } with
  | none => rw [hd] at h; cases h
  | some q =>
    rw [hd] at h
    simp only [Option.some.injEq] at h
    rw [← h]
    cases q with
    | brk x => exact (key.1 x hd).used_trans (used_setHand _ _)
    | next y => exact (key.2 y hd).used_trans (used_setHand _ _)

theorem used_select_victim_frame (s : State) (r : Nat × State)
    (h : select_victim_frame s = some r) : Used s r.2 := by
  unfold select_victim_frame at h
  by_cases hz : s.num_frames = 0
  · rw [if_pos hz] at h; cases h
  rw [if_neg hz] at h
  cases hk : s.kind with
  | FIFO =>
    rw [hk] at h
    simp only [Option.some.injEq] at h
    rw [← h]; exact FIFOPager_used s
  | Random =>
    rw [hk] at h
    simp only [Option.some.injEq] at h
    rw [← h]; exact RandomPager_used s
  | Clock => rw [hk] at h; exact ClockPager_used _ s r h
  | NRU => rw [hk] at h; exact NRUPager_used _ s r h
  | Aging => rw [hk] at h; exact used_AgingPager _ s r h
  | WorkingSet => rw [hk] at h; exact used_WorkingSetPager _ s r h

theorem used_get_frame (s : State) (r : Nat × State) (h : get_frame s = some r) :
    Used s r.2 := by
  unfold get_frame at h
  cases ha : allocate_frame_from_free_list s with
  | some q =>
    rw [ha] at h
    simp only [Option.some.injEq] at h
    rw [← h]
    unfold allocate_frame_from_free_list at ha
    cases hf : s.free_pool with
    | nil => rw [hf] at ha; cases ha
    | cons f rest =>
      rw [hf] at ha
      simp only [Option.some.injEq] at ha
      rw [← ha]
      exact Used.used_of_eq rfl rfl
  | none =>
    rw [ha] at h
    exact used_select_victim_frame s r h

theorem used_unmap_old_writeback (s : State) (nf : Nat) :
    Used s (unmap_old_writeback s nf) := by
  unfold unmap_old_writeback
  simp only
  split
  · split
    · exact (used_charge _ _ _ _ _).used_trans (used_charge _ _ _ _ _)
    · exact ((used_charge _ _ _ _ _).used_trans (used_charge _ _ _ _ _)).used_trans
        (used_setPte _ _ _ _)
  · exact used_charge _ _ _ _ _

theorem used_unmap_old (s : State) (nf : Nat) : Used s (unmap_old s nf) := by
  unfold unmap_old
  split
  · exact (used_unmap_old_writeback s nf).used_trans (used_setPte _ _ _ _)
  · exact Used.used_refl s

theorem used_source_count (s : State) (p v nf : Nat) (fm : Bool) :
    Used s (source_count s p v nf fm) := by
  unfold source_count
  simp only
  refine Used.used_trans ?_ (used_charge _ _ _ _ _)
  split
  · exact used_charge _ _ _ _ _
  · split
    · exact used_charge _ _ _ _ _
    · exact used_charge _ _ _ _ _

theorem used_source_page (s : State) (p v nf : Nat) (fm : Bool) :
    Used s (source_page s p v nf fm) :=
  (used_setPte _ _ _ _).used_trans (used_source_count _ _ _ _ _)

theorem used_reset_age (s : State) (f : Nat) : Used s (reset_age s f) := by
  unfold reset_age
  cases s.kind with
  | Aging => exact used_setFrame _ _ _ (Or.inl rfl)
  | WorkingSet => exact used_setFrame _ _ _ (Or.inr rfl)
  | FIFO => exact Used.used_refl s
  | Random => exact Used.used_refl s
  | Clock => exact Used.used_refl s
  | NRU => exact Used.used_refl s

theorem used_map_new (s : State) (p v nf : Nat) (wp : Bool) :
    Used s (map_new s p v nf wp) := by
  unfold map_new
  simp only
  refine Used.used_trans (Used.used_trans ?_ (used_setPte _ _ _ _)) (used_reset_age _ _)
  exact used_setFrame _ _ _ (Or.inl rfl)

theorem used_handle_page_fault (s : State) (p v : Nat) (wp fm : Bool) (t : State)
    (h : handle_page_fault s p v wp fm = some t) : Used s t := by
  unfold handle_page_fault at h
  cases hg : get_frame s with
  | none => rw [hg] at h; cases h
  | some r =>
    rw [hg] at h
    obtain ⟨nf, s0⟩ := r
    simp only [Option.some.injEq] at h
    rw [← h]
    have h1 : Used s s0 := used_get_frame s _ hg
    exact ((h1.used_trans (used_unmap_old s0 nf)).used_trans
      (used_source_page _ _ _ _ _)).used_trans (used_map_new _ _ _ _ _)

theorem used_exit_page (p : Nat) (s : State) (i : Nat) : Used s (exit_page p s i) := by
  unfold exit_page
  simp only
  refine Used.used_trans ?_ (used_setPte _ _ _ _)
  split
  · unfold exit_unmap
    simp only
    have hw : Used s (exit_writeback p s i) := by
      unfold exit_writeback
      simp only
      split
      · exact (used_charge _ _ _ _ _).used_trans (used_charge _ _ _ _ _)
      · exact used_charge _ _ _ _ _
    refine Used.used_trans (hw.used_trans ?_) (used_pushFree _ _)
    exact used_setFrame _ _ _ (Or.inl rfl)
  · exact Used.used_refl s

theorem used_process_exit (s : State) : Used s (process_exit s) := by
  unfold process_exit
  simp only
  have key : ∀ (l : List Nat) (p : Nat) (t : State), Used t (l.foldl (exit_page p) t) := by
    intro l p
    induction l with
    | nil => intro t; exact Used.used_refl t
    | cons i rest ih =>
      intro t
      exact (used_exit_page p t i).used_trans (ih _)
  refine Used.used_trans ?_ (key _ _ _)
  exact Used.used_of_eq rfl rfl

theorem used_touch_page (s : State) (p v : Nat) (op : Char) (wp : Bool) :
    Used s (touch_page s p v op wp) := by
  unfold touch_page
  simp only
  split
  · split
    · exact (used_setPte _ _ _ _).used_trans (used_charge _ _ _ _ _)
    · exact (used_setPte _ _ _ _).used_trans (used_setPte _ _ _ _)
  · exact used_setPte _ _ _ _

theorem used_access (s : State) (op : Char) (v : Nat) (t : State)
    (h : access s op v = some t) : Used s t := by
  unfold access at h
  simp only at h
  cases hval : is_valid_vpage ((s.addCost 1).vmas s.current_process) v with
  | none =>
    rw [hval] at h
    simp only [Option.some.injEq] at h
    rw [← h]
    exact (used_addCost _ _).used_trans (used_charge _ _ _ _ _)
  | some r =>
    rw [hval] at h
    obtain ⟨wp, fm⟩ := r
    simp only at h
    cases hf : (if ((s.addCost 1).pte s.current_process v).present = false then
        handle_page_fault (s.addCost 1) s.current_process v wp fm else some (s.addCost 1)) with
    | none => rw [hf] at h; cases h
    | some s2 =>
      rw [hf] at h
      simp only [Option.some.injEq] at h
      rw [← h]
      have h2 : Used (s.addCost 1) s2 := by
        split at hf
        · exact used_handle_page_fault _ _ _ _ _ _ hf
        · simp only [Option.some.injEq] at hf
          rw [← hf]; exact Used.used_refl _
      exact ((used_addCost _ _).used_trans h2).used_trans (used_touch_page _ _ _ _ _)

theorem used_simulate_instruction (s : State) (op : Char) (v : Nat) (t : State)
    (h : simulate_instruction s op v = some t) : Used s.tick t := by
  unfold simulate_instruction at h
  simp only at h
  split at h
  · simp only [Option.some.injEq] at h
    rw [← h]
    exact Used.used_of_eq rfl rfl
  · split at h
    · simp only [Option.some.injEq] at h
      rw [← h]
      exact used_process_exit _
    · split at h
      · exact used_access _ _ _ _ h
      · cases h

theorem lastUsedLe_tick (s : State) (h : LastUsedLe s) :
    ∀ f, (s.tick.frame_table f).last_used_time < s.tick.inst_count := by
  intro f
  have := h f
  show (s.frame_table f).last_used_time < s.inst_count + 1
  omega

theorem runFrom_lastUsedLe (instrs : List Instr) :
    ∀ (s t : State), runFrom s instrs = some t → LastUsedLe s → LastUsedLe t := by
  induction instrs with
  | nil =>
    intro s t h hs
    simp only [runFrom, Option.some.injEq] at h
    rw [← h]; exact hs
  | cons i rest ih =>
    intro s t h hs
    unfold runFrom at h
    cases h1 : simulate_instruction s i.operation i.vpage with
    | none => rw [h1] at h; cases h
    | some s1 =>
      rw [h1] at h
      refine ih s1 t h ((used_simulate_instruction s _ _ s1 h1).lastUsedLe ?_)
      intro f
      exact le_of_lt (lastUsedLe_tick s hs f)

/-- At every call of `select_victim_frame` in a run, every frame was last used
before the current instruction: after any run, `last_used_time <= inst_count`
for every frame, and the next instruction increments `inst_count` first. -/
theorem run_lastUsedLe (c : Config) (instrs : List Instr) (s : State)
    (h : run c instrs = some s) :
    LastUsedLe s ∧
    ∀ f, ((s.tick.addCost 1).frame_table f).last_used_time < (s.tick.addCost 1).inst_count := by
  have h0 : LastUsedLe (init c) := fun f => Nat.zero_le _
  have h1 := runFrom_lastUsedLe instrs (init c) s h h0
  exact ⟨h1, lastUsedLe_tick s h1⟩

/-- C37: `NRUPager::select_victim_frame` in a state in which all frames are
mapped returns a victim, and it clears referenced bits if and only if
`inst_count - last_reset >= 48` at the call.  When this holds, the loop runs
the full circle (it ends by its `while` test with the hand back at the start,
also when the first frame met is of class 0), afterwards the entry of every
frame has `referenced = 0` and is otherwise unchanged, and `last_reset` is
`inst_count` (stored in an `unsigned int`: `inst_count mod 2^32`, which is
`inst_count` below `2^32`).  When it does not hold, the call changes only the
hand: `last_reset`, every page-table entry and everything else is as before, so
a referenced bit that the call clears implies the condition. -/
theorem nru_resets_iff_48_instructions (s : State) (hh : s.hand < s.num_frames)
    (hm : AllMapped s) :
    ∃ v t, NRUPager_select_victim_frame (s.num_frames + 1) s = some (v, t) ∧
      (s.kind = PagerKind.NRU → select_victim_frame s = some (v, t)) ∧
      (s.inst_count - s.last_reset ≥ 48 →
        (∃ y, doWhile (NRUPager_body true) (fun x => x.st.hand != s.hand) (s.num_frames + 1)
            { st := s, class_victims := fun _ => none } = some (LoopStep.next y) ∧
          y.st.hand = s.hand) ∧
        (∀ f, f < s.num_frames → (t.framePte f).referenced = false) ∧
        (∀ f, f < s.num_frames → t.framePte f = { s.framePte f with referenced := false }) ∧
        t.last_reset = s.inst_count % 2 ^ 32 ∧
        (s.inst_count < 2 ^ 32 → t.last_reset = s.inst_count)) ∧
      (¬ (s.inst_count - s.last_reset ≥ 48) →
        t = s.setHand ((v + 1) % s.num_frames) ∧
        t.last_reset = s.last_reset ∧ t.processes = s.processes ∧
        ∀ p w, (t.pte p w).referenced = (s.pte p w).referenced) ∧
      ((∃ p w, (t.pte p w).referenced ≠ (s.pte p w).referenced) →
        s.inst_count - s.last_reset ≥ 48) := by
  have hn : 0 < s.num_frames := by omega
  have hd := hm.owners_distinct
  have key := doWhile_indexed
    (NRUPager_body (decide (s.inst_count - s.last_reset ≥ 48)))
    (fun x => x.st.hand != s.hand)
    (fun j x => x = { st := NRU_scanned s (decide (s.inst_count - s.last_reset ≥ 48)) j,
                      class_victims := NRU_victims s j })
    (fun r => ∃ j, j < s.num_frames ∧ r.1 = (s.hand + j) % s.num_frames ∧
      r.2.st = NRU_scanned s (decide (s.inst_count - s.last_reset ≥ 48)) j ∧
      decide (s.inst_count - s.last_reset ≥ 48) = false)
    (fun x => x.st.hand) s.num_frames s.hand
    (by
      intro j x y hj hI hb
      subst hI
      rw [NRUPager_body_scanned s _ j hd hj] at hb
      split at hb
      · cases hb
      · injection hb with hb
        exact hb.symm)
    (by
      intro j x r hj hI hb
      subst hI
      rw [NRUPager_body_scanned s _ j hd hj] at hb
      split at hb
      · rename_i hc
        injection hb with hb
        subst hb
        exact ⟨j, hj, rfl, rfl, hc.2.2⟩
      · cases hb)
    (by
      intro j x _ hI
      subst hI
      rfl)
    (by intro y; rfl)
    hh (s.num_frames + 1) 0 { st := s, class_victims := fun _ => none } hn (by omega)
    (by
      show _ = _
      rw [NRU_scanned_zero s _ hh]
      rfl)
  have hkind : ∀ r, NRUPager_select_victim_frame (s.num_frames + 1) s = some r →
      (s.kind = PagerKind.NRU → select_victim_frame s = some r) := by
    intro r hr hk
    unfold select_victim_frame
    rw [if_neg (show ¬ s.num_frames = 0 by omega), hk]
    exact hr
  have hmain : ∃ v t, NRUPager_select_victim_frame (s.num_frames + 1) s = some (v, t) ∧
      (s.inst_count - s.last_reset ≥ 48 →
        (∃ y, doWhile (NRUPager_body true) (fun x => x.st.hand != s.hand) (s.num_frames + 1)
            { st := s, class_victims := fun _ => none } = some (LoopStep.next y) ∧
          y.st.hand = s.hand) ∧
        (∀ f, f < s.num_frames → t.framePte f = { s.framePte f with referenced := false }) ∧
        t.last_reset = s.inst_count % 2 ^ 32) ∧
      (¬ (s.inst_count - s.last_reset ≥ 48) → t = s.setHand ((v + 1) % s.num_frames)) := by
    unfold NRUPager_select_victim_frame
    simp only
    rcases key with ⟨r, hr, j, hj, hv, hst, hnr⟩ | ⟨y, hy, hI⟩
    · obtain ⟨v, x⟩ := r
      simp only at hv hst
      rw [hr]
      simp only [hnr, Bool.false_eq_true, if_false]
      have hnr' : ¬ (s.inst_count - s.last_reset ≥ 48) := by simpa using hnr
      have hx : x.st = s.setHand ((s.hand + j) % s.num_frames) := by
        rw [hst, hnr]; rfl
      refine ⟨v, _, rfl, fun h => absurd h hnr', ?_⟩
      intro _
      rw [hx]; rfl
    · subst hI
      rw [hy]
      simp only
      rcases NRUPager_lowest_cases (NRU_victims s s.num_frames) with
        ⟨_, hnone⟩ | ⟨c, v, hc, hlow, hcv, hlt⟩
      · exfalso
        have h0 := NRU_victims_none s s.num_frames _
          (hnone (NRU_class s ((s.hand + 0) % s.num_frames)) (NRU_class_lt _)) 0 hn
        exact h0 rfl
      · rw [hlow]
        simp only
        refine ⟨v, _, rfl, ?_, ?_⟩
        · intro hnr
          have hnr' : decide (s.inst_count - s.last_reset ≥ 48) = true := by simpa using hnr
          rw [hnr'] at hy ⊢
          simp only [if_true]
          refine ⟨⟨_, hy, ?_⟩, ?_, ?_⟩
          · show (s.hand + s.num_frames) % s.num_frames = s.hand
            rw [Nat.add_mod_right, Nat.mod_eq_of_lt hh]
          · intro f hf
            show State.framePte (clearRefs s (circ s.hand s.num_frames s.num_frames)) f = _
            rw [framePte_clearRefs s _ f hd hf (fun g hg => circ_lt _ _ _ _ hn hg), if_pos]
            obtain ⟨k, hk, hfk⟩ := circ_surj s.hand s.num_frames f hh hf
            exact (mem_circ _ _ _ _).mpr ⟨k, hk, hfk⟩
          · show (clearRefs s (circ s.hand s.num_frames s.num_frames)).inst_count % 2 ^ 32 = _
            rw [clearRefs_inst_count]
        · intro hnr
          have hnr' : decide (s.inst_count - s.last_reset ≥ 48) = false := by simpa using hnr
          rw [hnr']
          simp only [Bool.false_eq_true, if_false]
          have hz : NRU_scanned s false s.num_frames = s.setHand s.hand := by
            unfold NRU_scanned
            rw [Nat.add_mod_right, Nat.mod_eq_of_lt hh]
            rfl
          rw [hz]
          rfl
  obtain ⟨v, t, h1, h2, h3⟩ := hmain
  refine ⟨v, t, h1, hkind _ h1, ?_, ?_, ?_⟩
  · intro hc
    obtain ⟨a, b, c⟩ := h2 hc
    refine ⟨a, ?_, b, c, ?_⟩
    · intro f hf
      rw [b f hf]
    · intro hlt
      rw [c, Nat.mod_eq_of_lt hlt]
  · intro hc
    have e := h3 hc
    refine ⟨e, ?_, ?_, ?_⟩
    · rw [e]; rfl
    · rw [e]; rfl
    · intro p w
      rw [e]; rfl
  · rintro ⟨p, w, hpw⟩
    by_contra hc
    apply hpw
    rw [h3 hc]
    rfl

theorem nru_resets_iff_48_instructions_witness :
    stN.hand < stN.num_frames ∧ AllMapped stN ∧
    stN.inst_count = 51 ∧ stN.last_reset = 0 ∧
    (∀ f, f < stN.num_frames → (stN.framePte f).referenced = true) ∧
    ∃ v t, NRUPager_select_victim_frame (stN.num_frames + 1) stN = some (v, t) ∧
      (∀ f, f < stN.num_frames → (t.framePte f).referenced = false) ∧
      t.last_reset = 51 :=
  ⟨by decide!, by decide!, by decide!, by decide!, by decide!,
    match nru_resets_iff_48_instructions stN (by decide!) (by decide!) with
    | ⟨v, t, h1, _, h3, _, _⟩ =>
      ⟨v, t, h1, (h3 (by decide!)).2.1,
        ((h3 (by decide!)).2.2.2.2 (by decide!)).trans (by decide!)⟩⟩

theorem FullBut.full_of_eq {hole : Option Nat} {s t : State} (h : FullBut hole s)
    (hn : t.num_frames = s.num_frames)
    (hp : ∀ f, (t.frame_table f).pid = (s.frame_table f).pid)
    (hf : t.free_pool = s.free_pool) : FullBut hole t := by
  intro f hlt hne
  rw [hn] at hlt
  rw [hf, hp]
  exact h f hlt hne

theorem FullBut.of_same {s t : State} (h : FullBut none s) (hs : Same s t) : FullBut none t :=
  h.full_of_eq hs.num_frames hs.frame_pid hs.free_pool

theorem get_frame_full (s : State) (h : FullBut none s) (hh : s.hand < s.num_frames)
    (r : Nat × State) (hg : get_frame s = some r) :
    FullBut (some r.1) r.2 ∧ r.2.num_frames = s.num_frames := by
  unfold get_frame allocate_frame_from_free_list at hg
  cases hfp : s.free_pool with
  | nil =>
    rw [hfp] at hg
    simp only at hg
    obtain ⟨r2, hr2, hsame, _, _⟩ := select_victim_frame_ok s hh
    rw [hr2] at hg
    injection hg with hg
    subst hg
    refine ⟨?_, hsame.num_frames⟩
    intro f hlt _
    exact h.of_same hsame f hlt (by simp)
  | cons g rest =>
    rw [hfp] at hg
    simp only [Option.some.injEq] at hg
    subst hg
    refine ⟨?_, rfl⟩
    intro f hlt hne
    have hfg : f ≠ g := fun e => hne (by rw [e])
    rcases h f hlt (by simp) with h1 | h1
    · rw [hfp] at h1
      rcases List.mem_cons.mp h1 with h2 | h2
      · exact absurd h2 hfg
      · exact Or.inl h2
    · exact Or.inr h1

theorem unmap_old_writeback_frame_table (s : State) (nf : Nat) :
    (unmap_old_writeback s nf).frame_table = s.frame_table := by
  unfold unmap_old_writeback
  simp only
  split
  · split <;> rfl
  · rfl

theorem unmap_old_frame_table (s : State) (nf : Nat) :
    (unmap_old s nf).frame_table = s.frame_table := by
  unfold unmap_old
  split
  · show (unmap_old_writeback s nf).frame_table = _
    exact unmap_old_writeback_frame_table s nf
  · rfl

theorem source_page_frame_table (s : State) (p v nf : Nat) (fm : Bool) :
    (source_page s p v nf fm).frame_table = s.frame_table := by
  unfold source_page
  simp only
  rw [source_count_frame_table]
  rfl

theorem reset_age_pid (s : State) (f g : Nat) :
    ((reset_age s f).frame_table g).pid = (s.frame_table g).pid := by
  unfold reset_age
  split
  · simp only [State.frame_table_setFrame]
    split
    · rename_i e; rw [e]
    · rfl
  · simp only [State.frame_table_setFrame]
    split
    · rename_i e; rw [e]
    · rfl
  · rfl

theorem map_new_pid (s : State) (p v nf : Nat) (wp : Bool) (g : Nat) :
    ((map_new s p v nf wp).frame_table g).pid =
      if g = nf then (s.current_process : Int) else (s.frame_table g).pid := by
  unfold map_new
  simp only [reset_age_pid, State.frame_table_setPte, State.frame_table_setFrame]
  split <;> rfl

theorem handle_page_fault_full (s : State) (p v : Nat) (wp fm : Bool) (t : State)
    (h : FullBut none s) (hh : s.hand < s.num_frames)
    (ht : handle_page_fault s p v wp fm = some t) : FullBut none t := by
  unfold handle_page_fault at ht
  cases hg : get_frame s with
  | none => rw [hg] at ht; cases ht
  | some r =>
    obtain ⟨nf, s0⟩ := r
    rw [hg] at ht
    simp only [Option.some.injEq] at ht
    obtain ⟨h0, hn0⟩ := get_frame_full s h hh _ hg
    simp only at h0 hn0
    have hq : Quiet s0 (map_new (source_page (unmap_old s0 nf) p v nf fm) p v nf wp) :=
      ((unmap_old_quiet _ _).quiet_trans (source_page_quiet _ _ _ _ _)).quiet_trans
        (map_new_quiet _ _ _ _ _)
    rw [← ht]
    intro f hlt _
    rw [hq.keeps.num_frames] at hlt
    rw [hq.free_pool, map_new_pid]
    by_cases hf : f = nf
    · rw [if_pos hf]
      right
      omega
    · rw [if_neg hf, source_page_frame_table, unmap_old_frame_table]
      exact h0 f hlt (by simpa using hf)

theorem exit_page_full (p : Nat) (s : State) (i : Nat) (h : FullBut none s) :
    FullBut none (exit_page p s i) := by
  have hk := exit_page_keeps p s i
  cases hp : (s.pte p i).present with
  | false =>
    rw [exit_page_absent p s i hp]
    exact h.full_of_eq rfl (fun _ => rfl) rfl
  | true =>
    intro f hlt _
    rw [hk.num_frames] at hlt
    have hlt2 : f < s.num_frames := hlt
    rw [exit_page_present p s i hp]
    by_cases hf : f = (s.pte p i).frame
    · left
      show f ∈ _ ++ [_]
      rw [hf]
      exact List.mem_append_right _ (List.mem_singleton_self _)
    · rcases h f hlt2 (by simp) with h1 | h1
      · left
        show f ∈ (exit_writeback p s i).free_pool ++ [_]
        rw [(exit_writeback_quiet p s i).free_pool]
        exact List.mem_append_left _ h1
      · right
        show ((State.setFrame (exit_writeback p s i) _ _).frame_table f).pid ≠ -1
        rw [State.frame_table_setFrame, if_neg hf, exit_writeback_frame_table]
        exact h1

theorem exit_fold_full (p : Nat) (l : List Nat) :
    ∀ s : State, FullBut none s → FullBut none (l.foldl (exit_page p) s) := by
  induction l with
  | nil => intro s h; exact h
  | cons i rest ih =>
    intro s h
    exact ih _ (exit_page_full p s i h)

theorem process_exit_full (s : State) (h : FullBut none s) : FullBut none (process_exit s) := by
  unfold process_exit
  simp only
  exact exit_fold_full _ _ _ (h.full_of_eq rfl (fun _ => rfl) rfl)

theorem touch_page_full (s : State) (p v : Nat) (op : Char) (wp : Bool) (h : FullBut none s) :
    FullBut none (touch_page s p v op wp) := by
  unfold touch_page
  simp only
  split
  · split
    · exact h.full_of_eq rfl (fun _ => rfl) rfl
    · exact h.full_of_eq rfl (fun _ => rfl) rfl
  · exact h.full_of_eq rfl (fun _ => rfl) rfl

theorem access_full (s : State) (op : Char) (v : Nat) (t : State) (h : FullBut none s)
    (hh : s.hand < s.num_frames) (ht : access s op v = some t) : FullBut none t := by
  unfold access at ht
  simp only at ht
  have h1 : FullBut none (s.addCost 1) := h.full_of_eq rfl (fun _ => rfl) rfl
  cases hval : is_valid_vpage ((s.addCost 1).vmas s.current_process) v with
  | none =>
    rw [hval] at ht
    simp only [Option.some.injEq] at ht
    rw [← ht]
    exact h1.full_of_eq rfl (fun _ => rfl) rfl
  | some r =>
    obtain ⟨wp, fm⟩ := r
    rw [hval] at ht
    simp only at ht
    by_cases hp : ((s.addCost 1).pte s.current_process v).present = false
    · rw [if_pos hp] at ht
      cases hf : handle_page_fault (s.addCost 1) s.current_process v wp fm with
      | none => rw [hf] at ht; cases ht
      | some s2 =>
        rw [hf] at ht
        simp only [Option.some.injEq] at ht
        rw [← ht]
        exact touch_page_full _ _ _ _ _ (handle_page_fault_full _ _ _ _ _ _ h1 hh hf)
    · rw [if_neg hp] at ht
      simp only [Option.some.injEq] at ht
      rw [← ht]
      exact touch_page_full _ _ _ _ _ h1

theorem simulate_instruction_full (s : State) (op : Char) (v : Nat) (t : State)
    (h : FullBut none s) (hh : s.hand < s.num_frames)
    (ht : simulate_instruction s op v = some t) : FullBut none t := by
  unfold simulate_instruction at ht
  simp only at ht
  have h0 : FullBut none s.tick := h.full_of_eq rfl (fun _ => rfl) rfl
  by_cases hc : op = 'c'
  · rw [if_pos hc] at ht
    simp only [Option.some.injEq] at ht
    rw [← ht]
    exact h0.full_of_eq rfl (fun _ => rfl) rfl
  · rw [if_neg hc] at ht
    by_cases he : op = 'e'
    · rw [if_pos he] at ht
      simp only [Option.some.injEq] at ht
      rw [← ht]
      exact process_exit_full _ h0
    · rw [if_neg he] at ht
      by_cases hrw : op = 'r' ∨ op = 'w'
      · rw [if_pos hrw] at ht
        exact access_full _ _ _ _ h0 hh ht
      · rw [if_neg hrw] at ht
        cases ht

theorem runFrom_full (instrs : List Instr) :
    ∀ s t : State, Good s → FullBut none s → (∀ i ∈ instrs, i.valid s.nprocs) →
      runFrom s instrs = some t → FullBut none t := by
  induction instrs with
  | nil =>
    intro s t _ h _ ht
    simp only [runFrom, Option.some.injEq] at ht
    rw [← ht]; exact h
  | cons i rest ih =>
    intro s t hg h hv ht
    obtain ⟨s1, hs1, hg1, hk1⟩ := simulate_instruction_good s i hg (hv i (List.mem_cons_self _ _))
    simp only [runFrom, hs1] at ht
    exact ih s1 t hg1 (simulate_instruction_full s _ _ s1 h hg.wf.hand hs1)
      (by
        intro j hj
        rw [hk1.nprocs]
        exact hv j (List.mem_cons_of_mem _ hj)) ht

theorem init_full (c : Config) : FullBut none (init c) := by
  intro f hlt _
  left
  show f ∈ List.range c.num_frames
  exact List.mem_range.mpr hlt

theorem reachable_full (c : Config) (instrs : List Instr) (s : State) (hc : c.WF)
    (hv : ∀ i ∈ instrs, i.valid c.procs.length) (hs : run c instrs = some s) :
    FullBut none s :=
  runFrom_full instrs (init c) s (init_good c hc) (init_full c) hv hs

theorem allMapped_of_full (s : State) (hw : Wf s) (hf : FullBut none s)
    (he : s.free_pool = []) :
    AllMapped s ∧
    ∀ f, f < s.num_frames → ∃ p v : Nat, (s.frame_table f).pid = (p : Int) ∧
      (s.frame_table f).vpage = (v : Int) ∧ p < s.nprocs ∧ v < 64 ∧
      (s.pte p v).present = true ∧ (s.pte p v).frame = f := by
  have key : ∀ f, f < s.num_frames → ∃ p v : Nat, (s.frame_table f).pid = (p : Int) ∧
      (s.frame_table f).vpage = (v : Int) ∧ p < s.nprocs ∧ v < 64 ∧
      (s.pte p v).present = true ∧ (s.pte p v).frame = f := by
    intro f hlt
    have hpid : (s.frame_table f).pid ≠ -1 := by
      rcases hf f hlt (by simp) with h1 | h1
      · rw [he] at h1; cases h1
      · exact h1
    obtain ⟨p, v, h1, h2, h3, h4, _, h6, h7⟩ := hw.cons.owner f (by simp) hpid
    exact ⟨p, v, h1, h2, h3, h4, h6, h7⟩
  refine ⟨?_, key⟩
  intro f hlt
  obtain ⟨p, v, h1, h2, _, _, h5, h6⟩ := key f hlt
  have e : s.framePte f = s.pte p v := by
    unfold State.framePte
    rw [h1, h2]
    rfl
  refine ⟨by rw [h1]; omega, by rw [h2]; omega, ?_, ?_⟩
  · rw [e]; exact h5
  · rw [e]; exact h6

/-- C39 (failing input): the command line `-f0` with any of the six pagers, one
process owning pages 0..7 and the instruction `r 0`.  `main` never calls
`validate_frame_number`, so the run starts with `num_frames = 0` and an empty
free list.  The first instruction faults on a valid page, `get_frame` finds no
free frame and calls `select_victim_frame` although frame 0 is not mapped
(`pid = -1`) and no frame index lies below `num_frames`; the pager divides by
zero in `% num_frames`, no frame is returned and the run ends abnormally. -/
theorem victim_selection_fails_without_frames :
    ¬ cfgZ.WF ∧ (∀ i ∈ [(⟨'r', 0⟩ : Instr)], i.valid cfgZ.procs.length) ∧
    ∀ k : PagerKind,
      (init { cfgZ with kind := k }).num_frames = 0 ∧
      (init { cfgZ with kind := k }).free_pool = [] ∧
      ((init { cfgZ with kind := k }).frame_table 0).pid = -1 ∧
      is_valid_vpage ((init { cfgZ with kind := k }).vmas 0) 0 = some (false, false) ∧
      ((init { cfgZ with kind := k }).pte 0 0).present = false ∧
      get_frame ((init { cfgZ with kind := k }).tick.addCost 1) =
        select_victim_frame ((init { cfgZ with kind := k }).tick.addCost 1) ∧
      select_victim_frame ((init { cfgZ with kind := k }).tick.addCost 1) = none ∧
      run { cfgZ with kind := k } [⟨'r', 0⟩] = none :=
  ⟨by decide, by decide, fun k => by cases k <;> exact ⟨rfl, rfl, rfl, rfl, rfl, rfl, rfl, rfl⟩⟩

/-- Victim selection with between 1 and 128 frames (`Config.WF`, the range that
`validate_frame_number` names): in a state `s` reached by valid instructions,
let `s1` be the state in which an `r`/`w` instruction looks up its page and, on
a fault, calls `get_frame` (`inst_count` and `cost` counted).  If the free list is empty, so
that `get_frame` calls `select_victim_frame`, then every frame below
`num_frames` is in use: its `pid` is a process number below the number of
processes, its `vpage` is below 64, and the owning page-table entry is present
and points back to the frame, so the entry
`processes[frame.pid].page_table[frame.vpage]` read by Clock, NRU, Aging and
WorkingSet exists for every frame.  For every pager `select_victim_frame`
returns, the returned frame and the hand before and after the call are below
`num_frames` (`num_frames <= 128`), and the call changes neither the owner of a
frame nor a present bit.  The random values are natural numbers in this
development. -/
theorem victim_selection_is_in_bounds (c : Config) (instrs : List Instr) (s : State)
    (hc : c.WF) (hv : ∀ i ∈ instrs, i.valid c.procs.length) (hs : run c instrs = some s)
    (hfree : s.free_pool = []) :
    (s.tick.addCost 1).free_pool = [] ∧
    get_frame (s.tick.addCost 1) = select_victim_frame (s.tick.addCost 1) ∧
    AllMapped (s.tick.addCost 1) ∧
    (∀ f, f < s.num_frames → ∃ p v : Nat,
      ((s.tick.addCost 1).frame_table f).pid = (p : Int) ∧
      ((s.tick.addCost 1).frame_table f).vpage = (v : Int) ∧ p < s.nprocs ∧ v < 64 ∧
      ((s.tick.addCost 1).pte p v).present = true ∧ ((s.tick.addCost 1).pte p v).frame = f) ∧
    s.hand < s.num_frames ∧ s.num_frames ≤ 128 ∧
    ∃ r, select_victim_frame (s.tick.addCost 1) = some r ∧
      r.1 < s.num_frames ∧ r.2.hand < s.num_frames ∧ r.2.num_frames = s.num_frames ∧
      (∀ f, (r.2.frame_table f).pid = (s.frame_table f).pid ∧
        (r.2.frame_table f).vpage = (s.frame_table f).vpage) ∧
      ∀ p v, (r.2.pte p v).present = (s.pte p v).present := by
  have hg := reachable_good c instrs s hc hv hs
  have hfull := reachable_full c instrs s hc hv hs
  have hw1 : Wf (s.tick.addCost 1) :=
    hg.wf.wf_of_eq (by constructor <;> intros <;> rfl) rfl rfl rfl
  have hf1 : FullBut none (s.tick.addCost 1) := hfull.full_of_eq rfl (fun _ => rfl) rfl
  have he1 : (s.tick.addCost 1).free_pool = [] := hfree
  obtain ⟨ha, hb⟩ := allMapped_of_full _ hw1 hf1 he1
  obtain ⟨r, hr, hsame, h2, h3⟩ := select_victim_frame_ok (s.tick.addCost 1) hw1.hand
  refine ⟨he1, ?_, ha, hb, hg.wf.hand, hg.wf.nf_le, r, hr, h2, h3, hsame.num_frames, ?_, ?_⟩
  · unfold get_frame allocate_frame_from_free_list
    rw [he1]
  · intro f
    exact ⟨hsame.frame_pid f, hsame.frame_vpage f⟩
  · intro p v
    exact hsame.present p v

theorem victim_selection_is_in_bounds_witness :
    stC.free_pool = [] ∧ stC.num_frames = 3 ∧
    AllMapped (stC.tick.addCost 1) ∧
    get_frame (stC.tick.addCost 1) = select_victim_frame (stC.tick.addCost 1) ∧
    ∃ r, select_victim_frame (stC.tick.addCost 1) = some r ∧
      r.1 < stC.num_frames ∧ r.2.hand < stC.num_frames :=
  ⟨by decide!, by decide!,
    match victim_selection_is_in_bounds cfgC
      [⟨'r', 0⟩, ⟨'r', 1⟩, ⟨'w', 2⟩, ⟨'r', 3⟩, ⟨'r', 1⟩] stC (by decide) (by decide)
      (run_some_of_isSome cfgC [⟨'r', 0⟩, ⟨'r', 1⟩, ⟨'w', 2⟩, ⟨'r', 3⟩, ⟨'r', 1⟩] (init cfgC)
        (by decide!)) (by decide!) with
    | ⟨_, h2, h3, _, _, _, r, h7, h8, h9, _⟩ => ⟨h3, h2, r, h7, h8, h9⟩⟩

theorem Untouched.untouched_of_eq {q : Nat} {s t : State} (h : Untouched q s)
    (h1 : t.stats q = s.stats q) (h2 : ∀ v, (t.pte q v).present = (s.pte q v).present)
    (h3 : ∀ f, (t.frame_table f).pid = (s.frame_table f).pid) : Untouched q t :=
  ⟨by rw [h1]; exact h.stats, fun v => by rw [h2]; exact h.absent v,
    fun f => by rw [h3]; exact h.frames f⟩

theorem Untouched.of_alloc {q : Nat} {s s0 : State} (h : Untouched q s) (ha : Alloc s s0) :
    Untouched q s0 :=
  h.untouched_of_eq (ha.stats q) (ha.present q) ha.frame_pid

theorem unmap_old_writeback_stats_other (s : State) (nf q : Nat)
    (h : (s.frame_table nf).pid.toNat ≠ q) :
    (unmap_old_writeback s nf).stats q = s.stats q := by
  have hq : ¬ q = (s.frame_table nf).pid.toNat := fun e => h e.symm
  unfold unmap_old_writeback
  simp only
  split
  · split
    · simp only [State.stats_charge, if_neg hq]
    · simp only [State.stats_charge, State.stats_setPte, if_neg hq]
  · simp only [State.stats_charge, if_neg hq]

theorem unmap_old_untouched (s : State) (nf q : Nat) (h : Untouched q s) :
    Untouched q (unmap_old s nf) := by
  refine ⟨?_, fun v => unmap_old_present s nf q v (h.absent v), ?_⟩
  · by_cases hp : (s.frame_table nf).pid = -1
    · rw [unmap_old_free s nf hp]; exact h.stats
    · rw [unmap_old_used s nf hp]
      simp only [State.stats_setPte]
      rw [unmap_old_writeback_stats_other s nf q (h.frames nf hp)]
      exact h.stats
  · intro f
    rw [unmap_old_frame_table]
    exact h.frames f

theorem source_page_untouched (s : State) (p v nf q : Nat) (fm : Bool) (h : Untouched q s)
    (hp : q ≠ p) : Untouched q (source_page s p v nf fm) := by
  refine h.untouched_of_eq ?_ ?_ ?_
  · rw [source_page_stats, if_neg hp]
  · intro w
    rw [source_page_pte, if_neg (fun e => hp e.1)]
  · intro f
    rw [source_page_frame_table]

theorem map_new_untouched (s : State) (p v nf q : Nat) (wp : Bool) (h : Untouched q s)
    (hp : q ≠ p) (hc : s.current_process ≠ q) : Untouched q (map_new s p v nf wp) := by
  refine ⟨?_, ?_, ?_⟩
  · rw [map_new_stats]; exact h.stats
  · intro w
    rw [map_new_pte, if_neg (fun e => hp e.1)]
    exact h.absent w
  · intro f
    rw [map_new_pid]
    split
    · intro _
      simpa using hc
    · exact h.frames f

theorem touch_page_untouched (s : State) (p v q : Nat) (op : Char) (wp : Bool)
    (h : Untouched q s) (hp : q ≠ p) : Untouched q (touch_page s p v op wp) := by
  refine h.untouched_of_eq ?_ ?_ ?_
  · rw [touch_page_stats, if_neg (fun e => hp e.2.2)]
  · intro w
    rw [touch_page_pte, if_neg (fun e => hp e.1)]
  · intro f
    unfold touch_page
    simp only
    split
    · split <;> rfl
    · rfl

theorem handle_page_fault_untouched (s : State) (v q : Nat) (wp fm : Bool) (t : State)
    (hw : Wf s) (h : Untouched q s) (hc : s.current_process ≠ q)
    (ht : handle_page_fault s s.current_process v wp fm = some t) : Untouched q t := by
  obtain ⟨nf, s0, _, ha, _, he⟩ := handle_page_fault_shape s s.current_process v wp fm hw
  rw [he] at ht
  simp only [Option.some.injEq] at ht
  rw [← ht]
  have h0 := h.of_alloc ha
  have hcur : (source_page (unmap_old s0 nf) s.current_process v nf fm).current_process =
      s.current_process := by
    obtain ⟨s', l, hs', e⟩ := ha
    rw [((unmap_old_quiet s0 nf).quiet_trans
      (source_page_quiet _ _ _ _ _)).keeps.current_process, e]
    exact hs'.current_process
  exact map_new_untouched _ _ _ _ _ _
    (source_page_untouched _ _ _ _ _ _ (unmap_old_untouched _ _ _ h0) (fun e => hc e.symm))
    (fun e => hc e.symm) (by rw [hcur]; exact hc)

theorem access_untouched (s : State) (op : Char) (v q : Nat) (t : State) (hw : Wf s)
    (h : Untouched q s) (hc : s.current_process ≠ q) (ht : access s op v = some t) :
    Untouched q t := by
  unfold access at ht
  simp only at ht
  have hw1 : Wf (s.addCost 1) := hw.wf_of_eq (by constructor <;> intros <;> rfl) rfl rfl rfl
  have h1 : Untouched q (s.addCost 1) := h.untouched_of_eq rfl (fun _ => rfl) (fun _ => rfl)
  have hq : ¬ q = s.current_process := fun e => hc e.symm
  cases hval : is_valid_vpage ((s.addCost 1).vmas s.current_process) v with
  | none =>
    rw [hval] at ht
    simp only [Option.some.injEq] at ht
    rw [← ht]
    refine h1.untouched_of_eq ?_ (fun w => by rw [State.pte_charge]) (fun _ => rfl)
    rw [State.stats_charge, if_neg hq]
  | some r =>
    obtain ⟨wp, fm⟩ := r
    rw [hval] at ht
    simp only at ht
    by_cases hp : ((s.addCost 1).pte s.current_process v).present = false
    · rw [if_pos hp] at ht
      cases hf : handle_page_fault (s.addCost 1) s.current_process v wp fm with
      | none => rw [hf] at ht; cases ht
      | some s2 =>
        rw [hf] at ht
        simp only [Option.some.injEq] at ht
        rw [← ht]
        exact touch_page_untouched _ _ _ _ _ _
          (handle_page_fault_untouched (s.addCost 1) v q wp fm s2 hw1 h1 hc hf) hq
    · rw [if_neg hp] at ht
      simp only [Option.some.injEq] at ht
      rw [← ht]
      exact touch_page_untouched _ _ _ _ _ _ h1 hq

theorem presentPages_nil (s : State) (p k : Nat) (h : ∀ v, (s.pte p v).present = false) :
    presentPages s p k = [] := by
  unfold presentPages
  rw [List.filter_eq_nil_iff]
  intro w _
  rw [h w]
  simp

theorem writtenPages_nil (s : State) (p k : Nat) (h : ∀ v, (s.pte p v).present = false) :
    writtenPages s p k = [] := by
  unfold writtenPages
  rw [List.filter_eq_nil_iff]
  intro w _
  rw [h w]
  simp

theorem process_exit_untouched (s : State) (q : Nat) (h : Untouched q s) :
    Untouched q (process_exit s) := by
  have h2 : Untouched q (({ s with process_exits := s.process_exits + 1 } : State).addCost 1230) :=
    h.untouched_of_eq rfl (fun _ => rfl) (fun _ => rfl)
  have hinv := exit_fold_inv s.current_process
    (({ s with process_exits := s.process_exits + 1 } : State).addCost 1230) MAX_VPAGES
  have hfold : process_exit s = (List.range MAX_VPAGES).foldl (exit_page s.current_process)
      (({ s with process_exits := s.process_exits + 1 } : State).addCost 1230) := rfl
  rw [hfold]
  generalize (({ s with process_exits := s.process_exits + 1 } : State).addCost 1230) = s2
    at h2 hinv ⊢
  generalize (List.range MAX_VPAGES).foldl (exit_page s.current_process) s2 = e at hinv ⊢
  generalize s.current_process = p at hinv ⊢
  by_cases hp : q = p
  · subst hp
    refine ⟨?_, ?_, ?_⟩
    · rw [hinv.stats_p, presentPages_nil s2 q _ h2.absent, writtenPages_nil s2 q _ h2.absent,
        h2.stats]
      rfl
    · intro v
      by_cases hv : v < MAX_VPAGES
      · rw [hinv.pte_done v hv]; rfl
      · rw [hinv.pte_rest q v (fun e => hv e.2)]
        exact h2.absent v
    · intro f
      rw [hinv.frame_rest f (fun w _ hw => by rw [h2.absent w] at hw; cases hw)]
      exact h2.frames f
  · refine ⟨?_, ?_, ?_⟩
    · rw [hinv.stats_rest q hp]; exact h2.stats
    · intro v
      rw [hinv.pte_rest q v (fun e => hp e.1)]
      exact h2.absent v
    · intro f
      by_cases hf : ∃ w, w < MAX_VPAGES ∧ (s2.pte p w).present = true ∧ (s2.pte p w).frame = f
      · obtain ⟨w, hw1, hw2, hw3⟩ := hf
        rw [← hw3, hinv.frame_rel w hw1 hw2]
        intro hne
        exact absurd rfl hne
      · rw [hinv.frame_rest f (fun w hw1 hw2 hw3 => hf ⟨w, hw1, hw2, hw3⟩)]
        exact h2.frames f

theorem simulate_instruction_untouched (s : State) (i : Instr) (q : Nat) (t : State)
    (hw : Wf s) (h : Untouched q s)
    (hc : i.operation = 'r' ∨ i.operation = 'w' → s.current_process ≠ q)
    (ht : simulate_instruction s i.operation i.vpage = some t) : Untouched q t := by
  unfold simulate_instruction at ht
  simp only at ht
  have h0 : Untouched q s.tick := h.untouched_of_eq rfl (fun _ => rfl) (fun _ => rfl)
  have hw0 : Wf s.tick := hw.wf_of_eq (by constructor <;> intros <;> rfl) rfl rfl rfl
  by_cases hc1 : i.operation = 'c'
  · rw [if_pos hc1] at ht
    simp only [Option.some.injEq] at ht
    rw [← ht]
    exact h0.untouched_of_eq rfl (fun _ => rfl) (fun _ => rfl)
  · rw [if_neg hc1] at ht
    by_cases he : i.operation = 'e'
    · rw [if_pos he] at ht
      simp only [Option.some.injEq] at ht
      rw [← ht]
      exact process_exit_untouched _ q h0
    · rw [if_neg he] at ht
      by_cases hrw : i.operation = 'r' ∨ i.operation = 'w'
      · rw [if_pos hrw] at ht
        exact access_untouched _ _ _ q t hw0 h0 (hc hrw) ht
      · rw [if_neg hrw] at ht
        cases ht

theorem simulate_instruction_current (s : State) (i : Instr) (t : State) (hw : Wf s)
    (hv : i.valid s.nprocs) (ht : simulate_instruction s i.operation i.vpage = some t) :
    t.current_process = if i.operation = 'c' then i.vpage else s.current_process := by
  by_cases hc1 : i.operation = 'c'
  · rw [if_pos hc1]
    unfold simulate_instruction at ht
    simp only at ht
    rw [if_pos hc1] at ht
    simp only [Option.some.injEq] at ht
    rw [← ht]
    rfl
  · rw [if_neg hc1]
    unfold simulate_instruction at ht
    simp only at ht
    rw [if_neg hc1] at ht
    have hw0 : Wf s.tick := hw.wf_of_eq (by constructor <;> intros <;> rfl) rfl rfl rfl
    by_cases he : i.operation = 'e'
    · rw [if_pos he] at ht
      simp only [Option.some.injEq] at ht
      rw [← ht]
      exact (process_exit_wf _ hw0).2.1.current_process
    · rw [if_neg he] at ht
      have hrw : (i.operation = 'r' ∨ i.operation = 'w') ∧ i.vpage < MAX_VPAGES := by
        rcases hv with hv | hv | hv
        · exact absurd hv.1 hc1
        · exact absurd hv he
        · exact hv
      rw [if_pos hrw.1] at ht
      obtain ⟨t2, ht2, _, hk, _⟩ := access_wf _ i.operation i.vpage hw0 hrw.2
      rw [ht2] at ht
      simp only [Option.some.injEq] at ht
      rw [← ht]
      exact hk.current_process

theorem runFrom_untouched (instrs : List Instr) (q : Nat) :
    ∀ s t : State, Good s → Untouched q s → (∀ i ∈ instrs, i.valid s.nprocs) →
      q ∉ referencing s.current_process instrs →
      runFrom s instrs = some t → Untouched q t := by
  induction instrs with
  | nil =>
    intro s t _ h _ _ ht
    simp only [runFrom, Option.some.injEq] at ht
    rw [← ht]; exact h
  | cons i rest ih =>
    intro s t hg h hv hq ht
    obtain ⟨s1, hs1, hg1, hk1⟩ := simulate_instruction_good s i hg (hv i (List.mem_cons_self _ _))
    simp only [runFrom, hs1] at ht
    have hcur := simulate_instruction_current s i s1 hg.wf (hv i (List.mem_cons_self _ _)) hs1
    have hstep : Untouched q s1 := by
      refine simulate_instruction_untouched s i q s1 hg.wf h ?_ hs1
      intro hrw heq
      apply hq
      unfold referencing
      have hc1 : ¬ i.operation = 'c' := by
        rcases hrw with e | e <;> rw [e] <;> decide
      rw [if_neg hc1, if_pos hrw, heq]
      exact List.mem_cons_self _ _
    refine ih s1 t hg1 hstep ?_ ?_ ht
    · intro j hj
      rw [hk1.nprocs]
      exact hv j (List.mem_cons_of_mem _ hj)
    · rw [hcur]
      intro hmem
      apply hq
      unfold referencing
      by_cases hc1 : i.operation = 'c'
      · rw [if_pos hc1]
        rw [if_pos hc1] at hmem
        exact hmem
      · rw [if_neg hc1]
        rw [if_neg hc1] at hmem
        split
        · exact List.mem_cons_of_mem _ hmem
        · exact hmem

theorem init_untouched (c : Config) (q : Nat) : Untouched q (init c) :=
  ⟨rfl, fun _ => rfl, fun _ h => absurd rfl h⟩

/-- C32: for every valid instruction sequence, a process `q` that is never the
current process of an `r` or `w` instruction (`current_process` is 0 before the
first instruction and is set by `c`) ends with all nine statistics equal to 0:
unmaps, maps, ins, outs, fins, fouts, zeros, segv and segprot.  The instructions
`c q` and `e` with `q` current are allowed; moreover none of the pages of `q` is
present at the end and no frame belongs to it. -/
theorem unreferencing_process_has_zero_statistics (c : Config) (instrs : List Instr) (s : State)
    (hc : c.WF) (hv : ∀ i ∈ instrs, i.valid c.procs.length) (hs : run c instrs = some s)
    (q : Nat) (hq : q ∉ referencing 0 instrs) :
    s.stats q = pstats_zero ∧
    (s.stats q).unmaps = 0 ∧ (s.stats q).maps = 0 ∧ (s.stats q).ins = 0 ∧
    (s.stats q).outs = 0 ∧ (s.stats q).fins = 0 ∧ (s.stats q).fouts = 0 ∧
    (s.stats q).zeros = 0 ∧ (s.stats q).segv = 0 ∧ (s.stats q).segprot = 0 ∧
    (∀ v, (s.pte q v).present = false) ∧
    ∀ f, (s.frame_table f).pid ≠ (q : Int) := by
  have h := runFrom_untouched instrs q (init c) s (init_good c hc) (init_untouched c q) hv hq hs
  have e := h.stats
  refine ⟨e, ?_, ?_, ?_, ?_, ?_, ?_, ?_, ?_, ?_, h.absent, ?_⟩
  all_goals first
    | (rw [e]; rfl)
    | (intro f hf
       have h1 := h.frames f (by rw [hf]; omega)
       rw [hf] at h1
       exact h1 (Int.toNat_ofNat q))

theorem unreferencing_process_has_zero_statistics_witness :
    (⟨'c', 1⟩ : Instr) ∈ insI ∧ (⟨'e', 1⟩ : Instr) ∈ insI ∧ 1 ∉ referencing 0 insI ∧
    ∃ s, run cfgI insI = some s ∧ s.stats 1 = pstats_zero ∧ (s.stats 0).maps = 3 :=
  ⟨by decide, by decide, by decide, (run cfgI insI).getD (init cfgI),
    run_some_of_isSome cfgI insI (init cfgI) (by decide!),
    (unreferencing_process_has_zero_statistics cfgI insI ((run cfgI insI).getD (init cfgI))
      (by decide) (by decide) (run_some_of_isSome cfgI insI (init cfgI) (by decide!)) 1
      (by decide)).1, by decide!⟩

end MMU

namespace Disk

theorem getElem?_updateAt (f : IORequest → IORequest) (l : List IORequest) (i j : Nat) :
    (updateAt f l i)[j]? = if j = i then l[j]?.map f else l[j]? := by
  induction l generalizing i j with
  | nil => simp [updateAt]
  | cons r rest ih =>
    cases i with
    | zero =>
      cases j with
      | zero => simp [updateAt]
      | succ j => simp [updateAt]
    | succ i =>
      cases j with
      | zero => simp [updateAt]
      | succ j => simp [updateAt, ih]

theorem length_updateAt (f : IORequest → IORequest) (l : List IORequest) (i : Nat) :
    (updateAt f l i).length = l.length := by
  induction l generalizing i with
  | nil => rfl
  | cons r rest ih =>
    cases i with
    | zero => rfl
    | succ i => simp [updateAt, ih]

theorem members_addRequest (sch : Scheduler) (i j : Nat) :
    j ∈ members (addRequest sch i) ↔ j ∈ members sch ∨ j = i := by
  unfold members addRequest
  cases hk : sch.kind <;> simp [hk, or_assoc]

theorem members_of_isEmpty (sch : Scheduler) (h : isEmpty sch = true) : members sch = [] := by
  unfold isEmpty at h
  unfold members
  cases hk : sch.kind <;> simp [hk] at h ⊢ <;> simp_all

theorem takeAt_spec (q : List Nat) (pos : Nat) :
    (∀ i, (takeAt q pos).1 = some i → i ∈ q) ∧
    (∀ j, j ∈ q → (takeAt q pos).1 = some j ∨ j ∈ (takeAt q pos).2) ∧
    (∀ j, j ∈ (takeAt q pos).2 → j ∈ q) := by
  unfold takeAt
  refine ⟨?_, ?_, ?_⟩
  · intro i hi
    exact List.getElem?_mem hi
  · intro j hj
    obtain ⟨k, hk⟩ := List.getElem?_of_mem hj
    by_cases hkp : k = pos
    · left; rw [← hkp]; exact hk
    · right
      exact List.mem_eraseIdx_iff_getElem?.mpr ⟨k, hkp, hk⟩
  · intro j hj
    exact List.mem_of_mem_eraseIdx hj

theorem nextOK_of_takeAt (sch : Scheduler) (pos : Nat) (d : Bool) (hk : sch.kind ≠ SchedKind.FLOOK) :
    NextOK sch ((takeAt sch.queue pos).1,
      { sch with queue := (takeAt sch.queue pos).2, direction := d }) := by
  obtain ⟨h1, h2, h3⟩ := takeAt_spec sch.queue pos
  have hm : members sch = sch.queue := by
    unfold members; cases hk' : sch.kind <;> simp_all
  have hm' : members { sch with queue := (takeAt sch.queue pos).2, direction := d } =
      (takeAt sch.queue pos).2 := by
    unfold members; cases hk' : sch.kind <;> simp_all
  refine ⟨?_, ?_, ?_, rfl⟩
  · rw [hm]; exact h1
  · rw [hm, hm']; exact h2
  · rw [hm, hm']; exact h3

theorem nextOK_none (sch : Scheduler) (d : Bool) :
    NextOK sch (none, { sch with direction := d }) := by
  have hm : members { sch with direction := d } = members sch := by
    unfold members; cases hk' : sch.kind <;> simp_all
  refine ⟨?_, ?_, ?_, rfl⟩
  · intro i hi; cases hi
  · intro j hj; right; rw [hm]; exact hj
  · intro j hj; rw [hm] at hj; exact hj

theorem sch_eta (sch : Scheduler) : { sch with direction := sch.direction } = sch := rfl

theorem FIFO_nextOK (sch : Scheduler) (hk : sch.kind = SchedKind.FIFO) :
    NextOK sch (FIFO_getNextRequest sch) := by
  unfold FIFO_getNextRequest
  cases hq : sch.queue with
  | nil => exact nextOK_none sch sch.direction
  | cons i rest =>
    have := nextOK_of_takeAt sch 0 sch.direction (by rw [hk]; decide)
    simp only [takeAt, hq, List.getElem?_cons_zero, List.eraseIdx_cons_zero] at this
    exact this

theorem SSTF_nextOK (reqs : List IORequest) (cur : Int) (sch : Scheduler)
    (hk : sch.kind = SchedKind.SSTF) : NextOK sch (SSTF_getNextRequest reqs cur sch) := by
  unfold SSTF_getNextRequest
  cases hq : sch.queue with
  | nil => exact nextOK_none sch sch.direction
  | cons i rest =>
    simp only
    rw [← hq]
    exact nextOK_of_takeAt sch _ sch.direction (by rw [hk]; decide)

theorem CLOOK_nextOK (reqs : List IORequest) (cur : Int) (sch : Scheduler)
    (hk : sch.kind = SchedKind.CLOOK) : NextOK sch (CLOOK_getNextRequest reqs cur sch) := by
  unfold CLOOK_getNextRequest
  cases hq : sch.queue with
  | nil => exact nextOK_none sch sch.direction
  | cons i rest =>
    simp only
    rw [← hq]
    exact nextOK_of_takeAt sch _ sch.direction (by rw [hk]; decide)

theorem LOOK_nextOK (reqs : List IORequest) (cur : Int) (sch : Scheduler)
    (hk : sch.kind = SchedKind.LOOK) : NextOK sch (LOOK_getNextRequest reqs cur sch) := by
  unfold LOOK_getNextRequest
  split
  · exact nextOK_none sch sch.direction
  · simp only
    cases hf : List.findIdx? (fun r => inDirection sch.direction cur (trackOf reqs r)) sch.queue with
    | some n =>
      simp only
      exact nextOK_of_takeAt sch _ sch.direction (by rw [hk]; decide)
    | none =>
      simp only
      cases hf2 : List.findIdx? (fun r => inDirection (!sch.direction) cur (trackOf reqs r))
          sch.queue with
      | some n =>
        simp only
        exact nextOK_of_takeAt sch _ (!sch.direction) (by rw [hk]; decide)
      | none =>
        simp only
        exact nextOK_none sch (!sch.direction)

theorem nextOK_flook_none (sch : Scheduler) (hk : sch.kind = SchedKind.FLOOK) (a b : List Nat)
    (d : Bool) (hab : ∀ j, j ∈ a ++ b ↔ j ∈ members sch) :
    NextOK sch (none, { sch with active_queue := a, add_queue := b, direction := d }) := by
  refine ⟨?_, ?_, ?_, rfl⟩
  · intro i hi; cases hi
  · intro j hj; right
    unfold members; simp only [hk]
    exact (hab j).mpr hj
  · intro j hj
    unfold members at hj; simp only [hk] at hj
    exact (hab j).mp hj

theorem nextOK_flook_some (sch : Scheduler) (hk : sch.kind = SchedKind.FLOOK) (a b : List Nat)
    (d : Bool) (hab : ∀ j, j ∈ a ++ b ↔ j ∈ members sch) (n : Nat) :
    NextOK sch ((takeAt a n).1,
      { sch with active_queue := (takeAt a n).2, add_queue := b, direction := d }) := by
  refine ⟨?_, ?_, ?_, rfl⟩
  · intro i hi
    exact (hab i).mp (List.mem_append_left _ ((takeAt_spec a n).1 i hi))
  · intro j hj
    have := (hab j).mpr hj
    rw [List.mem_append] at this
    unfold members; simp only [hk]
    rcases this with h | h
    · rcases (takeAt_spec a n).2.1 j h with h' | h'
      · left; exact h'
      · right; exact List.mem_append_left _ h'
    · right; exact List.mem_append_right _ h
  · intro j hj
    unfold members at hj; simp only [hk] at hj
    rw [List.mem_append] at hj
    apply (hab j).mp
    rcases hj with h | h
    · exact List.mem_append_left _ ((takeAt_spec a n).2.2 j h)
    · exact List.mem_append_right _ h

theorem FLOOK_nextOK (reqs : List IORequest) (cur : Int) (sch : Scheduler)
    (hk : sch.kind = SchedKind.FLOOK) : NextOK sch (FLOOK_getNextRequest reqs cur sch) := by
  have hm : members sch = sch.active_queue ++ sch.add_queue := by
    unfold members; simp only [hk]
  unfold FLOOK_getNextRequest
  split
  · exact nextOK_none sch sch.direction
  · by_cases he : sch.active_queue.isEmpty = true
    · have ha : sch.active_queue = [] := List.isEmpty_iff.mp he
      have hab : ∀ j, j ∈ sch.add_queue ++ sch.active_queue ↔ j ∈ members sch := by
        intro j; rw [hm, ha]; simp
      simp only [he, if_true]
      cases hf : flook_scan sch.direction cur (trackOf reqs) sch.add_queue 0 none INT_MAX with
      | some n =>
        simp only
        exact nextOK_flook_some sch hk _ _ sch.direction hab n
      | none =>
        simp only
        cases hf2 : flook_scan (!sch.direction) cur (trackOf reqs) sch.add_queue 0 none
            INT_MAX with
        | some n =>
          simp only
          exact nextOK_flook_some sch hk _ _ (!sch.direction) hab n
        | none =>
          simp only
          exact nextOK_flook_none sch hk _ _ (!sch.direction) hab
    · have hab : ∀ j, j ∈ sch.active_queue ++ sch.add_queue ↔ j ∈ members sch := by
        intro j; rw [hm]
      have he' : sch.active_queue.isEmpty = false := by simpa using he
      simp only [he', Bool.false_eq_true, if_false]
      cases hf : flook_scan sch.direction cur (trackOf reqs) sch.active_queue 0 none INT_MAX with
      | some n =>
        simp only
        exact nextOK_flook_some sch hk _ _ sch.direction hab n
      | none =>
        simp only
        cases hf2 : flook_scan (!sch.direction) cur (trackOf reqs) sch.active_queue 0 none
            INT_MAX with
        | some n =>
          simp only
          exact nextOK_flook_some sch hk _ _ (!sch.direction) hab n
        | none =>
          simp only
          exact nextOK_flook_none sch hk _ _ (!sch.direction) hab

theorem getNextRequest_nextOK (reqs : List IORequest) (cur : Int) (sch : Scheduler) :
    NextOK sch (getNextRequest reqs cur sch) := by
  unfold getNextRequest
  cases hk : sch.kind with
  | FIFO => exact FIFO_nextOK sch hk
  | SSTF => exact SSTF_nextOK reqs cur sch hk
  | LOOK => exact LOOK_nextOK reqs cur sch hk
  | CLOOK => exact CLOOK_nextOK reqs cur sch hk
  | FLOOK => exact FLOOK_nextOK reqs cur sch hk

theorem map_key_updateAt (f : IORequest → IORequest) (hf : ∀ r, (f r).key = r.key)
    (l : List IORequest) (i : Nat) :
    (updateAt f l i).map IORequest.key = l.map IORequest.key := by
  induction l generalizing i with
  | nil => rfl
  | cons r rest ih =>
    cases i with
    | zero => simp [updateAt, hf]
    | succ i => simp [updateAt, ih]

theorem inv_new (k : SchedKind) (reqs : List IORequest) : Inv (Sim.new k reqs) := by
  refine ⟨?_, ?_, ?_⟩
  · intro i r hi
    have : members (Sim.new k reqs).scheduler = [] := by
      unfold members Sim.new Scheduler.new; cases k <;> rfl
    rw [this] at hi; cases hi
  · intro i r hi; cases hi
  · intro i r _; left; exact Nat.zero_le i

theorem arrivals_spec (n : Nat) (s : Sim) (h : Inv s) :
    Inv (arrivals n s) ∧ (arrivals n s).all_requests = s.all_requests ∧
      (arrivals n s).current_time = s.current_time ∧
      (arrivals n s).current_track = s.current_track ∧
      (arrivals n s).active_request = s.active_request := by
  induction n generalizing s with
  | zero => exact ⟨h, rfl, rfl, rfl, rfl⟩
  | succ n ih =>
    unfold arrivals
    cases hr : s.all_requests[s.next_req]? with
    | none => exact ⟨h, rfl, rfl, rfl, rfl⟩
    | some r =>
      simp only
      split
      · rename_i hle
        have h' : Inv { s with scheduler := addRequest s.scheduler s.next_req,
                               next_req := s.next_req + 1 } := by
          refine ⟨?_, ?_, ?_⟩
          · intro i q hi hq
            rcases (members_addRequest _ _ _).mp hi with hi | hi
            · exact h.arrived i q hi hq
            · subst hi
              have hq' : s.all_requests[s.next_req]? = some q := hq
              rw [hr] at hq'; cases hq'; exact hle
          · intro i q hi hq
            exact h.act i q hi hq
          · intro i q hq
            rcases h.status i q hq with h1 | h1 | h1 | h1
            · by_cases hi : i = s.next_req
              · right; left
                exact (members_addRequest _ _ _).mpr (Or.inr hi)
              · left
                show s.next_req + 1 ≤ i
                omega
            · right; left
              exact (members_addRequest _ _ _).mpr (Or.inl h1)
            · right; right; left; exact h1
            · right; right; right; exact h1
        exact ih _ h'
      · exact ⟨h, rfl, rfl, rfl, rfl⟩

theorem issue_inv (s : Sim) (h : Inv s) : Inv (issue s) := by
  unfold issue
  cases ha : s.active_request with
  | some a => simpa using h
  | none =>
    simp only
    have hn := getNextRequest_nextOK s.all_requests s.current_track s.scheduler
    obtain ⟨n1, n2, n3, _⟩ := hn
    cases hres : (getNextRequest s.all_requests s.current_track s.scheduler).1 with
    | none =>
      simp only
      refine ⟨?_, ?_, ?_⟩
      · intro i r hi hr
        exact h.arrived i r (n3 i hi) hr
      · intro i r hi; cases hi
      · intro i r hr
        rcases h.status i r hr with h1 | h1 | h1 | h1
        · left; exact h1
        · rcases n2 i h1 with h2 | h2
          · rw [hres] at h2; cases h2
          · right; left; exact h2
        · rw [ha] at h1; cases h1
        · right; right; right; exact h1
    | some a =>
      simp only [Sim.modifyRequest]
      have hmem := n1 a hres
      refine ⟨?_, ?_, ?_⟩
      · intro i r hi hr
        have hr' : (updateAt _ s.all_requests a)[i]? = some r := hr
        rw [getElem?_updateAt] at hr'
        split at hr'
        · obtain ⟨q, hq, rfl⟩ := Option.map_eq_some'.mp hr'
          exact h.arrived i q (n3 i hi) hq
        · exact h.arrived i r (n3 i hi) hr'
      · intro i r hi hr
        have hi' : a = i := by
          have : some a = some i := hi
          exact Option.some.inj this
        subst hi'
        have hr' : (updateAt _ s.all_requests a)[a]? = some r := hr
        rw [getElem?_updateAt, if_pos rfl] at hr'
        obtain ⟨q, hq, rfl⟩ := Option.map_eq_some'.mp hr'
        have harr := h.arrived a q hmem hq
        refine ⟨?_, ?_, ?_⟩
        · exact le_max_right _ _
        · show max s.current_time q.arrival_time ≤ s.current_time
          exact max_le (le_refl _) harr
        · show (s.current_time : Int) + |(q.track : Int) - s.current_track| =
            ((max s.current_time q.arrival_time : Nat) : Int) + |(q.track : Int) - s.current_track|
          rw [max_eq_left harr]
      · intro i r hr
        have hr' : (updateAt _ s.all_requests a)[i]? = some r := hr
        rw [getElem?_updateAt] at hr'
        by_cases hia : i = a
        · right; right; left
          show some a = some i
          rw [hia]
        · rw [if_neg hia] at hr'
          rcases h.status i r hr' with h1 | h1 | h1 | h1
          · left; exact h1
          · rcases n2 i h1 with h2 | h2
            · rw [hres] at h2
              exact absurd (Option.some.inj h2).symm hia
            · right; left; exact h2
          · rw [ha] at h1; cases h1
          · right; right; right; exact h1

theorem finishRequest_inv (s : Sim) (i : Nat) (h : Inv s) (ha : s.active_request = some i)
    (ht : s.current_track = trackOf s.all_requests i) : Inv (finishRequest s i) := by
  have key : ∀ s1 : Sim, s1.scheduler = s.scheduler → s1.current_time = s.current_time →
      s1.next_req = s.next_req → s1.active_request = none →
      s1.all_requests = updateAt (fun q => { q with end_time := s.current_time })
        s.all_requests i → Inv s1 := by
    intro s1 e1 e2 e3 e4 e5
    refine ⟨?_, ?_, ?_⟩
    · intro j r hj hr
      rw [e1] at hj
      rw [e5, getElem?_updateAt] at hr
      rw [e2]
      split at hr
      · obtain ⟨q, hq, rfl⟩ := Option.map_eq_some'.mp hr
        exact h.arrived j q hj hq
      · exact h.arrived j r hj hr
    · intro j r hj; rw [e4] at hj; cases hj
    · intro j r hr
      rw [e5, getElem?_updateAt] at hr
      rw [e1, e3, e4]
      by_cases hji : j = i
      · rw [if_pos hji] at hr
        obtain ⟨q, hq, rfl⟩ := Option.map_eq_some'.mp hr
        subst hji
        obtain ⟨f1, f2, f3⟩ := h.act j q ha hq
        have htr : s.current_track = (q.track : Int) := by
          rw [ht]; unfold trackOf; rw [hq]
        right; right; right
        refine ⟨f1, f2, ?_⟩
        show (s.current_time : Int) - (q.start_time : Int) = |(q.track : Int) - q.issue_track|
        rw [htr] at f3
        simp only [sub_self, abs_zero, add_zero] at f3
        omega
      · rw [if_neg hji] at hr
        rcases h.status j r hr with h1 | h1 | h1 | h1
        · left; exact h1
        · right; left; exact h1
        · rw [ha] at h1; exact absurd (Option.some.inj h1).symm hji
        · right; right; right; exact h1
  unfold finishRequest
  simp only [Sim.modifyRequest]
  split
  · exact key _ rfl rfl rfl rfl rfl
  · exact key _ rfl rfl rfl rfl rfl

theorem moveHead_inv (s : Sim) (i : Nat) (h : Inv s) (ha : s.active_request = some i)
    (ht : s.current_track ≠ trackOf s.all_requests i) : Inv (moveHead s i) := by
  unfold moveHead
  refine ⟨?_, ?_, ?_⟩
  · intro j r hj hr
    exact Nat.le_succ_of_le (h.arrived j r hj hr)
  · intro j r hj hr
    have hj' : s.active_request = some j := hj
    have hr' : s.all_requests[j]? = some r := hr
    have hij : i = j := by rw [ha] at hj'; exact Option.some.inj hj'
    subst hij
    obtain ⟨f1, f2, f3⟩ := h.act i r ha hr'
    have htr : trackOf s.all_requests i = (r.track : Int) := by
      unfold trackOf; rw [hr']
    rw [htr] at ht
    refine ⟨f1, Nat.le_succ_of_le f2, ?_⟩
    show ((s.current_time + 1 : Nat) : Int) + |(r.track : Int) - (s.current_track +
      (if trackOf s.all_requests i > s.current_track then 1 else -1))| =
      (r.start_time : Int) + |(r.track : Int) - r.issue_track|
    rw [htr]
    rw [← f3]
    push_cast
    split
    · rename_i hgt
      rw [abs_of_nonneg (by omega), abs_of_nonneg (by omega)]
      omega
    · rename_i hgt
      rw [abs_of_nonpos (by omega), abs_of_nonpos (by omega)]
      omega
  · intro j r hr
    exact h.status j r hr

theorem idle_inv (s : Sim) (h : Inv s) (ha : s.active_request = none) :
    Inv { s with current_time := s.current_time + 1 } := by
  refine ⟨?_, ?_, ?_⟩
  · intro j r hj hr
    exact Nat.le_succ_of_le (h.arrived j r hj hr)
  · intro j r hj
    have hj' : s.active_request = some j := hj
    rw [ha] at hj'; cases hj'
  · intro j r hr
    exact h.status j r hr

theorem iteration_inv (s : Sim) (h : Inv s) : Inv (iteration s).2 := by
  unfold iteration
  have h1 := (arrivals_spec (s.all_requests.length - s.next_req) s h).1
  have h2 := issue_inv _ h1
  simp only
  split
  · rename_i i hi
    split
    · rename_i ht
      exact finishRequest_inv _ i h2 hi ht
    · rename_i ht
      exact moveHead_inv _ i h2 hi ht
  · rename_i hi
    split
    · exact h2
    · exact idle_inv _ h2 hi

theorem iteration_break (s : Sim) (h : Inv s) (hb : (iteration s).1 = true) :
    ∀ r ∈ (iteration s).2.all_requests, ReqOK r := by
  have hinv := iteration_inv s h
  revert hb hinv
  unfold iteration
  simp only
  split
  · rename_i i hi
    split <;> intro hb <;> cases hb
  · rename_i hi
    split
    · rename_i hc
      intro _ hinv r hr
      obtain ⟨j, hj⟩ := List.getElem?_of_mem hr
      have hlt : j < (issue (arrivals (s.all_requests.length - s.next_req) s)).all_requests.length :=
        (List.getElem?_eq_some_iff.mp hj).1
      rcases hinv.status j r hj with h1 | h1 | h1 | h1
      · have := hc.1
        have h1' : (issue (arrivals (s.all_requests.length - s.next_req) s)).next_req ≤ j := h1
        omega
      · have h1' : j ∈ members (issue (arrivals (s.all_requests.length - s.next_req) s)).scheduler :=
          h1
        rw [members_of_isEmpty _ hc.2] at h1'; cases h1'
      · have h1' : (issue (arrivals (s.all_requests.length - s.next_req) s)).active_request =
          some j := h1
        rw [hi] at h1'; cases h1'
      · exact h1
    · intro hb; cases hb

theorem arrivals_keys (n : Nat) (s : Sim) : (arrivals n s).all_requests = s.all_requests := by
  induction n generalizing s with
  | zero => rfl
  | succ n ih =>
    unfold arrivals
    split
    · rfl
    · split
      · rw [ih]
      · rfl

theorem issue_keys (s : Sim) :
    (issue s).all_requests.map IORequest.key = s.all_requests.map IORequest.key := by
  unfold issue
  split
  · rfl
  · simp only
    split
    · rfl
    · refine map_key_updateAt _ ?_ _ _
      intro q; rfl

theorem finishRequest_keys (s : Sim) (i : Nat) :
    (finishRequest s i).all_requests.map IORequest.key = s.all_requests.map IORequest.key := by
  unfold finishRequest
  simp only [Sim.modifyRequest]
  split
  · refine map_key_updateAt _ ?_ _ _
    intro q; rfl
  · refine map_key_updateAt _ ?_ _ _
    intro q; rfl

theorem iteration_keys (s : Sim) :
    (iteration s).2.all_requests.map IORequest.key = s.all_requests.map IORequest.key := by
  have e : (issue (arrivals (s.all_requests.length - s.next_req) s)).all_requests.map IORequest.key
      = s.all_requests.map IORequest.key := by
    rw [issue_keys, arrivals_keys]
  unfold iteration
  simp only
  split
  · split
    · rw [finishRequest_keys]; exact e
    · exact e
  · split
    · exact e
    · exact e

theorem loop_spec (fuel : Nat) (s t : Sim) (h : Inv s) (hl : loop fuel s = some t) :
    t.all_requests.map IORequest.key = s.all_requests.map IORequest.key ∧
      ∀ r ∈ t.all_requests, ReqOK r := by
  induction fuel generalizing s with
  | zero => cases hl
  | succ fuel ih =>
    unfold loop at hl
    have hk := iteration_keys s
    have hi := iteration_inv s h
    have hb := iteration_break s h
    cases hit : iteration s with
    | mk b s1 =>
      rw [hit] at hl hk hi hb
      cases b with
      | true =>
        simp only at hl
        cases hl
        exact ⟨hk, hb rfl⟩
      | false =>
        simp only at hl
        obtain ⟨k1, k2⟩ := ih s1 hi hl
        exact ⟨k1.trans hk, k2⟩

theorem simulationFrom_some_of_isSome (k : SchedKind) (reqs : List IORequest) (fuel : Nat)
    (d : Sim) (h : (simulationFrom k reqs fuel).isSome = true) :
    simulationFrom k reqs fuel = some ((simulationFrom k reqs fuel).getD d) := by
  cases hr : simulationFrom k reqs fuel with
  | none => rw [hr] at h; cases h
  | some s => rfl

/-- C4: for every policy and every request list, when the loop of
`simulation` ends the requests are those of the input and every request has
`arrival_time ≤ start_time ≤ end_time` and `end_time − start_time = |track − T|`,
where `T` (`issue_track`) is `current_track` at the moment the request was
issued. -/
theorem disk_request_times (k : SchedKind) (reqs : List IORequest) (fuel : Nat) (s : Sim)
    (h : simulationFrom k reqs fuel = some s) :
    s.all_requests.map IORequest.key = reqs.map IORequest.key ∧
    ∀ r ∈ s.all_requests, r.arrival_time ≤ r.start_time ∧ r.start_time ≤ r.end_time ∧
      (r.end_time : Int) - (r.start_time : Int) = |(r.track : Int) - r.issue_track| :=
  loop_spec fuel (Sim.new k reqs) s (inv_new k reqs) h

theorem disk_request_times_witness :
    simulationFrom SchedKind.LOOK reqsW 50 = some simW ∧
    simW.all_requests.map IORequest.key = reqsW.map IORequest.key ∧
    ∀ r ∈ simW.all_requests, r.arrival_time ≤ r.start_time ∧ r.start_time ≤ r.end_time ∧
      (r.end_time : Int) - (r.start_time : Int) = |(r.track : Int) - r.issue_track| :=
  ⟨simulationFrom_some_of_isSome SchedKind.LOOK reqsW 50 (Sim.new SchedKind.LOOK reqsW)
      (by decide),
    disk_request_times SchedKind.LOOK reqsW 50 simW
      (simulationFrom_some_of_isSome SchedKind.LOOK reqsW 50 (Sim.new SchedKind.LOOK reqsW)
        (by decide))⟩

theorem FirstLeast.unique_pos {q : List Nat} {p : Nat → Bool} {key : Nat → Int} {a b : Nat}
    (ha : FirstLeast q p key a) (hb : FirstLeast q p key b) : a = b := by
  obtain ⟨r, hr, hpr, hr1, hr2⟩ := ha
  obtain ⟨t, ht, hpt, ht1, ht2⟩ := hb
  rcases Nat.lt_trichotomy a b with h | h | h
  · have h1 := ht2 a r h hr hpr
    have h2 := hr1 b t ht hpt
    omega
  · exact h
  · have h1 := hr2 b t h ht hpt
    have h2 := ht1 a r hr hpr
    omega

theorem getElem?_snoc_cases (pre : List Nat) (r x : Nat) (j : Nat)
    (h : (pre ++ [r])[j]? = some x) : pre[j]? = some x ∨ (j = pre.length ∧ x = r) := by
  by_cases hj : j < pre.length
  · left
    rw [List.getElem?_append_left hj] at h
    exact h
  · right
    rw [List.getElem?_append_right (by omega)] at h
    have hj0 : j - pre.length = 0 := by
      by_contra hne
      obtain ⟨m, hm⟩ : ∃ m, j - pre.length = m + 1 := ⟨j - pre.length - 1, by omega⟩
      rw [hm] at h
      simp at h
    rw [hj0] at h
    simp only [List.getElem?_cons_zero, Option.some.injEq] at h
    exact ⟨by omega, h.symm⟩

/-- The scan has met a new best request `r` after the prefix `pre`. -/
theorem FirstLeast.snoc_new (pre : List Nat) (p : Nat → Bool) (key : Nat → Int) (r : Nat)
    (hp : p r = true) (hbest : ∀ (j x : Nat), pre[j]? = some x → p x = true → key r < key x) :
    FirstLeast (pre ++ [r]) p key pre.length := by
  refine ⟨r, by simp, hp, ?_, ?_⟩
  · intro j x hx hpx
    rcases getElem?_snoc_cases pre r x j hx with h | ⟨_, h⟩
    · exact le_of_lt (hbest j x h hpx)
    · rw [h]
  · intro j x hj hx hpx
    rcases getElem?_snoc_cases pre r x j hx with h | ⟨h, _⟩
    · exact hbest j x h hpx
    · omega

/-- The scan keeps its best request at `c` when the next request `r` is not
better. -/
theorem FirstLeast.snoc_keep (pre : List Nat) (p : Nat → Bool) (key : Nat → Int) (c r b : Nat)
    (h : FirstLeast pre p key c) (hb : pre[c]? = some b)
    (hr : p r = true → key b ≤ key r) : FirstLeast (pre ++ [r]) p key c := by
  obtain ⟨t, ht, hpt, h1, h2⟩ := h
  rw [hb] at ht
  cases ht
  have hc : c < pre.length := by
    by_contra hcon
    rw [List.getElem?_eq_none (by omega)] at hb
    cases hb
  refine ⟨b, by rw [List.getElem?_append_left hc]; exact hb, hpt, ?_, ?_⟩
  · intro j x hx hpx
    rcases getElem?_snoc_cases pre r x j hx with h | ⟨_, h⟩
    · exact h1 j x h hpx
    · rw [h]; exact hr (h ▸ hpx)
  · intro j x hj hx hpx
    rcases getElem?_snoc_cases pre r x j hx with h | ⟨h, _⟩
    · exact h2 j x hj h hpx
    · omega

theorem sstf_scan_spec (d : Nat → Nat) (l pre : List Nat) (c b : Nat)
    (h : FirstLeast pre (fun _ => true) (fun x => (d x : Int)) c) (hb : pre[c]? = some b) :
    FirstLeast (pre ++ l) (fun _ => true) (fun x => (d x : Int))
      (sstf_scan d l pre.length c (d b)) := by
  induction l generalizing pre c b with
  | nil => simpa [sstf_scan] using h
  | cons r rest ih =>
    unfold sstf_scan
    have happ : pre ++ r :: rest = (pre ++ [r]) ++ rest := by simp
    have hlen : pre.length + 1 = (pre ++ [r]).length := by simp
    obtain ⟨t, ht, _, h1, _⟩ := h
    have htb : t = b := by rw [hb] at ht; cases ht; rfl
    subst htb
    split
    · rename_i hlt
      rw [happ, hlen]
      refine ih (pre ++ [r]) pre.length r (FirstLeast.snoc_new pre _ _ r rfl ?_) (by simp)
      intro j x hx _
      have := h1 j x hx rfl
      simp only at this ⊢
      omega
    · rename_i hlt
      rw [happ, hlen]
      have hc : c < pre.length := by
        by_contra hcon
        rw [List.getElem?_eq_none (by omega)] at hb
        cases hb
      refine ih (pre ++ [r]) c t (FirstLeast.snoc_keep pre _ _ c r t ⟨t, hb, rfl, h1, ‹_›⟩ hb ?_)
        (by rw [List.getElem?_append_left hc]; exact hb)
      intro _
      show (d t : Int) ≤ (d r : Int)
      omega

theorem FirstLeast.congr_key {q : List Nat} {p : Nat → Bool} {key key2 : Nat → Int} {pos : Nat}
    (h : FirstLeast q p key pos) (hk : ∀ x, key2 x = key x) : FirstLeast q p key2 pos := by
  have : key2 = key := funext hk
  rw [this]; exact h

theorem FirstLeast.first_zero (r : Nat) (p : Nat → Bool) (key : Nat → Int) (hp : p r = true) :
    FirstLeast [r] p key 0 := by
  have := FirstLeast.snoc_new [] p key r hp (by intro j x hx; simp at hx)
  simpa using this

/-- C23: `SSTFScheduler::getNextRequest` on a non-empty queue returns the
request at a position `pos` whose distance `|track - current_track|` is the
least of the queue, every request before `pos` being strictly farther; the new
queue is the old one without position `pos` (the other requests keep their
order) and nothing else changes. -/
theorem sstf_returns_first_closest_request (reqs : List IORequest) (cur : Int)
    (sch : Scheduler) (hq : sch.queue ≠ []) :
    ∃ pos r, sch.queue[pos]? = some r ∧
      SSTF_getNextRequest reqs cur sch =
        (some r, { sch with queue := sch.queue.eraseIdx pos }) ∧
      (∀ x, x ∈ sch.queue → |trackOf reqs r - cur| ≤ |trackOf reqs x - cur|) ∧
      (∀ (j x : Nat), j < pos → sch.queue[j]? = some x →
        |trackOf reqs r - cur| < |trackOf reqs x - cur|) := by
  cases hsq : sch.queue with
  | nil => exact absurd hsq hq
  | cons i rest =>
    have hfirst : sstf_scan (fun r => (trackOf reqs r - cur).natAbs) (i :: rest) 0 0
        ((trackOf reqs i - cur).natAbs) =
        sstf_scan (fun r => (trackOf reqs r - cur).natAbs) rest 1 0
          ((trackOf reqs i - cur).natAbs) := by
      show (if _ then _ else _) = _
      rw [if_neg (lt_irrefl _)]
    have hspec := sstf_scan_spec (fun r => (trackOf reqs r - cur).natAbs) rest [i] 0 i
      (FirstLeast.first_zero i _ _ rfl) rfl
    have hspec2 : FirstLeast ([i] ++ rest) (fun _ => true) (fun x => |trackOf reqs x - cur|)
        (sstf_scan (fun r => (trackOf reqs r - cur).natAbs) rest [i].length 0
          ((trackOf reqs i - cur).natAbs)) :=
      hspec.congr_key (fun x => (Int.natCast_natAbs _).symm)
    obtain ⟨r, hr, _, h1, h2⟩ := hspec2
    refine ⟨_, r, hr, ?_, ?_, ?_⟩
    · unfold SSTF_getNextRequest
      rw [hsq]
      simp only
      rw [hfirst]
      unfold takeAt
      simp only
      have hr' : (i :: rest)[sstf_scan (fun r => (trackOf reqs r - cur).natAbs) rest 1 0
          ((trackOf reqs i - cur).natAbs)]? = some r := hr
      rw [hr']
      rfl
    · intro x hx
      obtain ⟨j, hj⟩ := List.getElem?_of_mem hx
      exact h1 j x hj rfl
    · intro j x hj hx
      exact h2 j x hj hx rfl

theorem sstf_returns_first_closest_request_witness :
    schS.queue ≠ [] ∧
    SSTF_getNextRequest reqsQ 11 schS = (some 1, { schS with queue := [0, 2, 3] }) ∧
    ∃ pos r, schS.queue[pos]? = some r ∧
      SSTF_getNextRequest reqsQ 11 schS =
        (some r, { schS with queue := schS.queue.eraseIdx pos }) ∧
      (∀ x, x ∈ schS.queue → |trackOf reqsQ r - 11| ≤ |trackOf reqsQ x - 11|) ∧
      (∀ (j x : Nat), j < pos → schS.queue[j]? = some x →
        |trackOf reqsQ r - 11| < |trackOf reqsQ x - 11|) :=
  ⟨by decide, by decide, sstf_returns_first_closest_request reqsQ 11 schS (by decide)⟩

theorem findIdx?_some_spec (q : List Nat) (p : Nat → Bool) (n : Nat)
    (h : q.findIdx? p = some n) :
    ∃ r, q[n]? = some r ∧ p r = true ∧ ∀ (j x : Nat), j < n → q[j]? = some x → p x = false := by
  obtain ⟨hn, hp, hlt⟩ := List.findIdx?_eq_some_iff_getElem.mp h
  refine ⟨q[n], List.getElem?_eq_getElem hn, hp, ?_⟩
  intro j x hj hx
  have hjl : j < q.length := by omega
  rw [List.getElem?_eq_getElem hjl] at hx
  cases hx
  simpa using hlt j hj

theorem inDirection_lt (d : Bool) (cur tr tb : Int) (hb : inDirection d cur tb = true) :
    ((d && decide (tr ≥ cur) && decide (tr < tb)) ||
      (!d && decide (tr ≤ cur) && decide (tr > tb))) = true ↔
    (inDirection d cur tr = true ∧ |tr - cur| < |tb - cur|) := by
  unfold inDirection at *
  cases d
  · simp only [Bool.false_and, Bool.not_false, Bool.true_and, Bool.false_or,
      Bool.and_eq_true, decide_eq_true_eq] at hb ⊢
    constructor
    · rintro ⟨h1, h2⟩
      refine ⟨h1, ?_⟩
      rw [abs_of_nonpos (by omega), abs_of_nonpos (by omega)]
      omega
    · rintro ⟨h1, h2⟩
      refine ⟨h1, ?_⟩
      rw [abs_of_nonpos (by omega), abs_of_nonpos (by omega)] at h2
      omega
  · simp only [Bool.true_and, Bool.not_true, Bool.false_and, Bool.or_false,
      Bool.and_eq_true, decide_eq_true_eq] at hb ⊢
    constructor
    · rintro ⟨h1, h2⟩
      refine ⟨h1, ?_⟩
      rw [abs_of_nonneg (by omega), abs_of_nonneg (by omega)]
      omega
    · rintro ⟨h1, h2⟩
      refine ⟨h1, ?_⟩
      rw [abs_of_nonneg (by omega), abs_of_nonneg (by omega)] at h2
      omega

theorem look_scan_spec (d : Bool) (cur : Int) (trk : Nat → Int) (l pre : List Nat) (c b : Nat)
    (h : FirstLeast pre (fun x => inDirection d cur (trk x)) (fun x => |trk x - cur|) c)
    (hb : pre[c]? = some b) :
    FirstLeast (pre ++ l) (fun x => inDirection d cur (trk x)) (fun x => |trk x - cur|)
      (look_scan d cur trk l pre.length c (trk b)) := by
  induction l generalizing pre c b with
  | nil => simpa [look_scan] using h
  | cons r rest ih =>
    unfold look_scan
    have happ : pre ++ r :: rest = (pre ++ [r]) ++ rest := by simp
    have hlen : pre.length + 1 = (pre ++ [r]).length := by simp
    obtain ⟨t, ht, hpt, h1, h2⟩ := h
    have htb : t = b := by rw [hb] at ht; cases ht; rfl
    subst htb
    have hc : c < pre.length := by
      by_contra hcon
      rw [List.getElem?_eq_none (by omega)] at hb
      cases hb
    have hiff := inDirection_lt d cur (trk r) (trk t) hpt
    split
    · rename_i hcond
      obtain ⟨hpr, hlt⟩ := hiff.mp hcond
      rw [happ, hlen]
      refine ih (pre ++ [r]) pre.length r (FirstLeast.snoc_new pre _ _ r hpr ?_) (by simp)
      intro j x hx hpx
      have := h1 j x hx hpx
      simp only at this ⊢
      omega
    · rename_i hcond
      rw [happ, hlen]
      refine ih (pre ++ [r]) c t
        (FirstLeast.snoc_keep pre _ _ c r t ⟨t, hb, hpt, h1, h2⟩ hb ?_)
        (by rw [List.getElem?_append_left hc]; exact hb)
      intro hpr
      by_contra hcon
      have hcon2 : |trk r - cur| < |trk t - cur| := by
        have : ¬ (|trk t - cur| ≤ |trk r - cur|) := hcon
        omega
      exact hcond (hiff.mpr ⟨hpr, hcon2⟩)

theorem look_from (d : Bool) (cur : Int) (trk : Nat → Int) (q : List Nat) (n : Nat)
    (hf : q.findIdx? (fun r => inDirection d cur (trk r)) = some n) :
    FirstLeast q (fun x => inDirection d cur (trk x)) (fun x => |trk x - cur|)
      (look_scan d cur trk (q.drop n) n n (trk (q.getD n 0))) := by
  obtain ⟨r, hr, hpr, hbefore⟩ := findIdx?_some_spec q _ n hf
  have hn : n < q.length := by
    by_contra hcon
    rw [List.getElem?_eq_none (by omega)] at hr
    cases hr
  have hgetD : q.getD n 0 = r := by
    rw [List.getD_eq_getElem?_getD, hr]; rfl
  have hdrop : q.drop n = r :: q.drop (n + 1) := by
    rw [List.drop_eq_getElem_cons hn]
    congr 1
    rw [List.getElem?_eq_getElem hn] at hr
    exact Option.some.inj hr
  have htake : q.take (n + 1) = q.take n ++ [r] := by
    rw [List.take_succ, hr]; rfl
  have hlen : (q.take n).length = n := by
    rw [List.length_take]; omega
  have hfirst : FirstLeast (q.take n ++ [r]) (fun x => inDirection d cur (trk x))
      (fun x => |trk x - cur|) n := by
    have := FirstLeast.snoc_new (q.take n) (fun x => inDirection d cur (trk x))
      (fun x => |trk x - cur|) r hpr (by
        intro j x hx hpx
        have hj : j < n := by
          by_contra hcon
          rw [List.getElem?_eq_none (by rw [hlen]; omega)] at hx
          cases hx
        rw [List.getElem?_take_of_lt hj] at hx
        have := hbefore j x hj hx
        simp only at hpx
        rw [this] at hpx
        cases hpx)
    rw [hlen] at this
    exact this
  rw [hgetD, hdrop]
  have hstep : look_scan d cur trk (r :: q.drop (n + 1)) n n (trk r) =
      look_scan d cur trk (q.drop (n + 1)) (n + 1) n (trk r) := by
    show (if _ then _ else _) = _
    rw [if_neg]
    cases d <;> simp
  rw [hstep]
  have hspec := look_scan_spec d cur trk (q.drop (n + 1)) (q.take n ++ [r]) n r hfirst
    (by rw [List.getElem?_append_right (by omega), hlen]; simp)
  have hq : q.take n ++ [r] ++ q.drop (n + 1) = q := by
    rw [← htake, List.take_append_drop]
  have hl2 : (q.take n ++ [r]).length = n + 1 := by simp [hlen]
  rw [hq, hl2] at hspec
  exact hspec

theorem inDirection_flip (d : Bool) (cur t : Int) (h : inDirection d cur t = false) :
    inDirection (!d) cur t = true := by
  unfold inDirection at *
  cases d
  · simp only [Bool.false_and, Bool.not_false, Bool.true_and, Bool.false_or,
      decide_eq_false_iff_not] at h
    simp only [Bool.not_false, Bool.true_and, Bool.not_true, Bool.false_and, Bool.or_false,
      decide_eq_true_eq]
    omega
  · simp only [Bool.true_and, Bool.not_true, Bool.false_and, Bool.or_false,
      decide_eq_false_iff_not] at h
    simp only [Bool.not_true, Bool.false_and, Bool.not_false, Bool.true_and, Bool.false_or,
      decide_eq_true_eq]
    omega

theorem LOOK_getNextRequest_keep (reqs : List IORequest) (cur : Int) (sch : Scheduler) (n : Nat)
    (hf : sch.queue.findIdx? (fun r => inDirection sch.direction cur (trackOf reqs r)) = some n) :
    LOOK_getNextRequest reqs cur sch =
      ((takeAt sch.queue (look_scan sch.direction cur (trackOf reqs) (sch.queue.drop n) n n
          (trackOf reqs (sch.queue.getD n 0)))).1,
        { sch with queue := (takeAt sch.queue (look_scan sch.direction cur (trackOf reqs)
            (sch.queue.drop n) n n (trackOf reqs (sch.queue.getD n 0)))).2 }) := by
  have hne : sch.queue.isEmpty = false := by
    cases hq : sch.queue with
    | nil => rw [hq] at hf; simp at hf
    | cons a l => rfl
  unfold LOOK_getNextRequest
  simp only [hne, Bool.false_eq_true, if_false, hf]

theorem LOOK_getNextRequest_flip (reqs : List IORequest) (cur : Int) (sch : Scheduler) (n : Nat)
    (hf : sch.queue.findIdx? (fun r => inDirection sch.direction cur (trackOf reqs r)) = none)
    (hf2 : sch.queue.findIdx? (fun r => inDirection (!sch.direction) cur (trackOf reqs r)) =
      some n) :
    LOOK_getNextRequest reqs cur sch =
      ((takeAt sch.queue (look_scan (!sch.direction) cur (trackOf reqs) (sch.queue.drop n) n n
          (trackOf reqs (sch.queue.getD n 0)))).1,
        { sch with direction := !sch.direction,
                   queue := (takeAt sch.queue (look_scan (!sch.direction) cur (trackOf reqs)
                     (sch.queue.drop n) n n (trackOf reqs (sch.queue.getD n 0)))).2 }) := by
  have hne : sch.queue.isEmpty = false := by
    cases hq : sch.queue with
    | nil => rw [hq] at hf2; simp at hf2
    | cons a l => rfl
  unfold LOOK_getNextRequest
  simp only [hne, Bool.false_eq_true, if_false, hf, hf2]

/-- `LOOKScheduler::getNextRequest` when a request lies in the direction. -/
theorem LOOK_spec_keep (reqs : List IORequest) (cur : Int) (sch : Scheduler)
    (hex : ∃ x, x ∈ sch.queue ∧ inDirection sch.direction cur (trackOf reqs x) = true) :
    ∃ pos r, sch.queue[pos]? = some r ∧
      LOOK_getNextRequest reqs cur sch =
        (some r, { sch with queue := sch.queue.eraseIdx pos }) ∧
      FirstLeast sch.queue (fun x => inDirection sch.direction cur (trackOf reqs x))
        (fun x => |trackOf reqs x - cur|) pos := by
  have hf := List.findIdx?_eq_some_of_exists
    (p := fun r => inDirection sch.direction cur (trackOf reqs r)) hex
  have hfl := look_from sch.direction cur (trackOf reqs) sch.queue _ hf
  obtain ⟨r, hr, hrest⟩ := hfl
  refine ⟨_, r, hr, ?_, ⟨r, hr, hrest⟩⟩
  rw [LOOK_getNextRequest_keep reqs cur sch _ hf]
  unfold takeAt
  simp only [hr]

/-- `LOOKScheduler::getNextRequest` when no request lies in the direction. -/
theorem LOOK_spec_flip (reqs : List IORequest) (cur : Int) (sch : Scheduler)
    (hq : sch.queue ≠ [])
    (hall : ∀ x, x ∈ sch.queue → inDirection sch.direction cur (trackOf reqs x) = false) :
    ∃ pos r, sch.queue[pos]? = some r ∧
      LOOK_getNextRequest reqs cur sch =
        (some r, { sch with direction := !sch.direction,
                            queue := sch.queue.eraseIdx pos }) ∧
      FirstLeast sch.queue (fun x => inDirection (!sch.direction) cur (trackOf reqs x))
        (fun x => |trackOf reqs x - cur|) pos := by
  have hf : sch.queue.findIdx? (fun r => inDirection sch.direction cur (trackOf reqs r)) =
      none := List.findIdx?_eq_none_iff.mpr hall
  obtain ⟨a, ha⟩ := List.exists_mem_of_ne_nil sch.queue hq
  have hf2 := List.findIdx?_eq_some_of_exists
    (p := fun r => inDirection (!sch.direction) cur (trackOf reqs r))
    ⟨a, ha, inDirection_flip _ _ _ (hall a ha)⟩
  have hfl := look_from (!sch.direction) cur (trackOf reqs) sch.queue _ hf2
  obtain ⟨r, hr, hrest⟩ := hfl
  refine ⟨_, r, hr, ?_, ⟨r, hr, hrest⟩⟩
  rw [LOOK_getNextRequest_flip reqs cur sch _ hf hf2]
  unfold takeAt
  simp only [hr]

/-- Whether some request of `q` lies in the direction, or none. -/
theorem inDirection_cases (d : Bool) (cur : Int) (trk : Nat → Int) (q : List Nat) :
    (∃ x, x ∈ q ∧ inDirection d cur (trk x) = true) ∨
      (∀ x, x ∈ q → inDirection d cur (trk x) = false) := by
  by_cases hex : ∃ x, x ∈ q ∧ inDirection d cur (trk x) = true
  · exact Or.inl hex
  · right
    intro x hx
    cases hb : inDirection d cur (trk x) with
    | false => rfl
    | true => exact absurd ⟨x, hx, hb⟩ hex

/-- C24: `LOOKScheduler::getNextRequest` on a non-empty queue.  If some queued
request lies in the current direction (`track ≥ current_track` when up,
`track ≤ current_track` when down), the request returned is the first of those
at the least distance from `current_track`, it is removed from the queue and the
direction is kept.  Otherwise the direction is flipped and the request returned
is the first at the least distance among those in the new direction.  The
result is never `none`, and a new scheduler starts with the direction up. -/
theorem look_returns_closest_in_direction (reqs : List IORequest) (cur : Int)
    (sch : Scheduler) (hq : sch.queue ≠ []) :
    ((∃ x, x ∈ sch.queue ∧ inDirection sch.direction cur (trackOf reqs x) = true) →
      ∃ pos r, sch.queue[pos]? = some r ∧
        LOOK_getNextRequest reqs cur sch =
          (some r, { sch with queue := sch.queue.eraseIdx pos }) ∧
        FirstLeast sch.queue (fun x => inDirection sch.direction cur (trackOf reqs x))
          (fun x => |trackOf reqs x - cur|) pos) ∧
    ((∀ x, x ∈ sch.queue → inDirection sch.direction cur (trackOf reqs x) = false) →
      ∃ pos r, sch.queue[pos]? = some r ∧
        LOOK_getNextRequest reqs cur sch =
          (some r, { sch with direction := !sch.direction,
                              queue := sch.queue.eraseIdx pos }) ∧
        FirstLeast sch.queue (fun x => inDirection (!sch.direction) cur (trackOf reqs x))
          (fun x => |trackOf reqs x - cur|) pos) ∧
    (LOOK_getNextRequest reqs cur sch).1 ≠ none ∧
    (Scheduler.new SchedKind.LOOK).direction = true := by
  refine ⟨LOOK_spec_keep reqs cur sch, LOOK_spec_flip reqs cur sch hq, ?_, rfl⟩
  rcases inDirection_cases sch.direction cur (trackOf reqs) sch.queue with hex | hall
  · obtain ⟨pos, r, _, he, _⟩ := LOOK_spec_keep reqs cur sch hex
    rw [he]; simp
  · obtain ⟨pos, r, _, he, _⟩ := LOOK_spec_flip reqs cur sch hq hall
    rw [he]; simp

theorem look_returns_closest_in_direction_witness :
    schL.queue ≠ [] ∧
    LOOK_getNextRequest reqsQ 11 schL = (some 3, { schL with queue := [0, 1, 2] }) ∧
    LOOK_getNextRequest reqsQ 60 schL =
      (some 2, { schL with direction := false, queue := [0, 1, 3] }) ∧
    (((∃ x, x ∈ schL.queue ∧ inDirection schL.direction 11 (trackOf reqsQ x) = true) →
      ∃ pos r, schL.queue[pos]? = some r ∧
        LOOK_getNextRequest reqsQ 11 schL =
          (some r, { schL with queue := schL.queue.eraseIdx pos }) ∧
        FirstLeast schL.queue (fun x => inDirection schL.direction 11 (trackOf reqsQ x))
          (fun x => |trackOf reqsQ x - 11|) pos) ∧
    ((∀ x, x ∈ schL.queue → inDirection schL.direction 11 (trackOf reqsQ x) = false) →
      ∃ pos r, schL.queue[pos]? = some r ∧
        LOOK_getNextRequest reqsQ 11 schL =
          (some r, { schL with direction := !schL.direction,
                               queue := schL.queue.eraseIdx pos }) ∧
        FirstLeast schL.queue (fun x => inDirection (!schL.direction) 11 (trackOf reqsQ x))
          (fun x => |trackOf reqsQ x - 11|) pos) ∧
    (LOOK_getNextRequest reqsQ 11 schL).1 ≠ none ∧
    (Scheduler.new SchedKind.LOOK).direction = true) :=
  ⟨by decide, by decide, by decide,
    look_returns_closest_in_direction reqsQ 11 schL (by decide)⟩

theorem clook_scan_spec (cur : Int) (trk : Nat → Int) (l pre : List Nat) (lo b : Nat)
    (next : Option (Nat × Int))
    (h : FirstLeast pre (fun _ => true) trk lo) (hb : pre[lo]? = some b)
    (hn : ClookNext cur trk pre next) :
    FirstLeast (pre ++ l) (fun _ => true) trk
      (clook_scan cur trk l pre.length lo (trk b) next).1 ∧
    ClookNext cur trk (pre ++ l) (clook_scan cur trk l pre.length lo (trk b) next).2 := by
  induction l generalizing pre lo b next with
  | nil => simpa [clook_scan] using ⟨h, hn⟩
  | cons r rest ih =>
    unfold clook_scan
    have happ : pre ++ r :: rest = (pre ++ [r]) ++ rest := by simp
    have hlen : pre.length + 1 = (pre ++ [r]).length := by simp
    obtain ⟨t, ht, hpt, h1, h2⟩ := h
    have htb : t = b := by rw [hb] at ht; cases ht; rfl
    subst htb
    have hc : lo < pre.length := by
      by_contra hcon
      rw [List.getElem?_eq_none (by omega)] at hb
      cases hb
    have finish : ∀ nxt : Option (Nat × Int), ClookNext cur trk (pre ++ [r]) nxt →
        FirstLeast (pre ++ r :: rest) (fun _ => true) trk
          (clook_scan cur trk rest (pre.length + 1)
            (if trk r < trk t then (pre.length, trk r) else (lo, trk t)).1
            (if trk r < trk t then (pre.length, trk r) else (lo, trk t)).2 nxt).1 ∧
        ClookNext cur trk (pre ++ r :: rest)
          (clook_scan cur trk rest (pre.length + 1)
            (if trk r < trk t then (pre.length, trk r) else (lo, trk t)).1
            (if trk r < trk t then (pre.length, trk r) else (lo, trk t)).2 nxt).2 := by
      intro nxt hnext
      by_cases hlt : trk r < trk t
      · simp only [hlt, if_true]
        rw [happ, hlen]
        refine ih (pre ++ [r]) pre.length r _ (FirstLeast.snoc_new pre _ _ r rfl ?_) (by simp)
          hnext
        intro j x hx _
        have := h1 j x hx rfl
        omega
      · simp only [hlt, if_false]
        rw [happ, hlen]
        refine ih (pre ++ [r]) lo t _
          (FirstLeast.snoc_keep pre _ _ lo r t ⟨t, hb, hpt, h1, h2⟩ hb ?_)
          (by rw [List.getElem?_append_left hc]; exact hb) hnext
        intro _
        omega
    cases next with
    | none =>
      simp only [Bool.and_true]
      apply finish
      split
      · rename_i hge
        refine ⟨FirstLeast.snoc_new pre _ _ r hge ?_, r, by simp, rfl⟩
        intro j x hx hpx
        have := hn x (List.getElem?_mem hx)
        simp only at hpx
        rw [this] at hpx; cases hpx
      · rename_i hge
        intro x hx
        rcases List.mem_append.mp hx with hx | hx
        · exact hn x hx
        · rw [List.mem_singleton.mp hx]; simpa using hge
    | some n =>
      obtain ⟨hfl, x, hx, hnx⟩ := hn
      simp only
      apply finish
      split
      · rename_i hcond
        simp only [Bool.and_eq_true, decide_eq_true_eq] at hcond
        refine ⟨FirstLeast.snoc_new pre _ _ r (by simpa using hcond.1) ?_, r, by simp, rfl⟩
        intro j y hy hpy
        obtain ⟨z, hz, _, hz1, _⟩ := hfl
        have hzx : z = x := by rw [hx] at hz; cases hz; rfl
        have := hz1 j y hy hpy
        rw [hzx, ← hnx] at this
        omega
      · rename_i hcond
        have hnl : n.1 < pre.length := by
          by_contra hcon
          rw [List.getElem?_eq_none (by omega)] at hx
          cases hx
        refine ⟨FirstLeast.snoc_keep pre _ _ n.1 r x hfl hx ?_, x,
          by rw [List.getElem?_append_left hnl]; exact hx, hnx⟩
        intro hpr
        by_contra hcon
        apply hcond
        simp only [Bool.and_eq_true, decide_eq_true_eq]
        refine ⟨by simpa using hpr, ?_⟩
        rw [hnx]; omega

/-- C25: `CLOOKScheduler::getNextRequest` on a non-empty queue: when some
queued request has `track >= current_track`, the request returned is the first
of least track among those; when none has, it is the first of least track of
the whole queue.  The request is removed from the queue and nothing else
changes. -/
theorem clook_returns_lowest_at_or_above (reqs : List IORequest) (cur : Int)
    (sch : Scheduler) (hq : sch.queue ≠ []) :
    ((∃ x, x ∈ sch.queue ∧ trackOf reqs x ≥ cur) →
      ∃ pos r, sch.queue[pos]? = some r ∧
        CLOOK_getNextRequest reqs cur sch =
          (some r, { sch with queue := sch.queue.eraseIdx pos }) ∧
        FirstLeast sch.queue (fun x => decide (trackOf reqs x ≥ cur)) (trackOf reqs) pos) ∧
    ((∀ x, x ∈ sch.queue → trackOf reqs x < cur) →
      ∃ pos r, sch.queue[pos]? = some r ∧
        CLOOK_getNextRequest reqs cur sch =
          (some r, { sch with queue := sch.queue.eraseIdx pos }) ∧
        FirstLeast sch.queue (fun _ => true) (trackOf reqs) pos) := by
  cases hsq : sch.queue with
  | nil => exact absurd hsq hq
  | cons i rest =>
    -- the first iteration of the loop
    have hn0 : ClookNext cur (trackOf reqs) [i]
        (if decide (trackOf reqs i ≥ cur) = true then some (0, trackOf reqs i) else none) := by
      split
      · rename_i hge
        exact ⟨FirstLeast.first_zero i _ _ hge, i, rfl, rfl⟩
      · rename_i hge
        intro x hx
        rw [List.mem_singleton.mp hx]
        simpa using hge
    have hfirst : clook_scan cur (trackOf reqs) (i :: rest) 0 0 (trackOf reqs i) none =
        clook_scan cur (trackOf reqs) rest 1 0 (trackOf reqs i)
          (if decide (trackOf reqs i ≥ cur) = true then some (0, trackOf reqs i) else none) := by
      rw [clook_scan]
      simp only [lt_irrefl, if_false, Bool.and_true, Nat.zero_add]
    have hspec := clook_scan_spec cur (trackOf reqs) rest [i] 0 i _
      (FirstLeast.first_zero i _ _ rfl) rfl hn0
    have hunf : CLOOK_getNextRequest reqs cur sch =
        ((takeAt (i :: rest)
            (match (clook_scan cur (trackOf reqs) (i :: rest) 0 0 (trackOf reqs i) none).2 with
             | some n => n.1
             | none => (clook_scan cur (trackOf reqs) (i :: rest) 0 0 (trackOf reqs i) none).1)).1,
          { sch with queue := (takeAt (i :: rest)
            (match (clook_scan cur (trackOf reqs) (i :: rest) 0 0 (trackOf reqs i) none).2 with
             | some n => n.1
             | none => (clook_scan cur (trackOf reqs) (i :: rest) 0 0 (trackOf reqs i) none).1)).2 }) := by
      unfold CLOOK_getNextRequest
      rw [hsq]
    rw [hfirst] at hunf
    obtain ⟨hlow, hnext⟩ := hspec
    simp only [List.singleton_append, List.length_singleton] at hlow hnext
    constructor
    · intro hex
      cases hr2 : (clook_scan cur (trackOf reqs) rest 1 0 (trackOf reqs i)
          (if decide (trackOf reqs i ≥ cur) = true then some (0, trackOf reqs i) else none)).2 with
      | none =>
        rw [hr2] at hnext
        obtain ⟨x, hx, hge⟩ := hex
        have := hnext x hx
        simp only [decide_eq_false_iff_not] at this
        exact absurd hge this
      | some n =>
        rw [hr2] at hnext hunf
        obtain ⟨hfl, x, hx, _⟩ := hnext
        refine ⟨n.1, x, hx, ?_, hfl⟩
        rw [hunf]
        unfold takeAt
        simp only [hx]
    · intro hall
      cases hr2 : (clook_scan cur (trackOf reqs) rest 1 0 (trackOf reqs i)
          (if decide (trackOf reqs i ≥ cur) = true then some (0, trackOf reqs i) else none)).2 with
      | some n =>
        rw [hr2] at hnext
        obtain ⟨⟨x, hx, hge, _⟩, _⟩ := hnext
        have := hall x (List.getElem?_mem hx)
        simp only [decide_eq_true_eq] at hge
        omega
      | none =>
        rw [hr2] at hunf
        obtain ⟨x, hx, hrest⟩ := hlow
        refine ⟨_, x, hx, ?_, ⟨x, hx, hrest⟩⟩
        rw [hunf]
        unfold takeAt
        simp only [hx]

theorem clook_returns_lowest_at_or_above_witness :
    schC.queue ≠ [] ∧
    CLOOK_getNextRequest reqsQ 11 schC = (some 3, { schC with queue := [0, 1, 2] }) ∧
    CLOOK_getNextRequest reqsQ 60 schC = (some 1, { schC with queue := [0, 2, 3] }) ∧
    (((∃ x, x ∈ schC.queue ∧ trackOf reqsQ x ≥ 11) →
      ∃ pos r, schC.queue[pos]? = some r ∧
        CLOOK_getNextRequest reqsQ 11 schC =
          (some r, { schC with queue := schC.queue.eraseIdx pos }) ∧
        FirstLeast schC.queue (fun x => decide (trackOf reqsQ x ≥ 11)) (trackOf reqsQ) pos) ∧
    ((∀ x, x ∈ schC.queue → trackOf reqsQ x < 11) →
      ∃ pos r, schC.queue[pos]? = some r ∧
        CLOOK_getNextRequest reqsQ 11 schC =
          (some r, { schC with queue := schC.queue.eraseIdx pos }) ∧
        FirstLeast schC.queue (fun _ => true) (trackOf reqsQ) pos)) :=
  ⟨by decide, by decide, by decide,
    clook_returns_lowest_at_or_above reqsQ 11 schC (by decide)⟩

theorem flook_scan_spec (d : Bool) (cur : Int) (trk : Nat → Int) (l pre : List Nat)
    (best : Option Nat) (md : Int)
    (hl : ∀ x, x ∈ l → |trk x - cur| < INT_MAX) (h : FlookBest d cur trk pre best md) :
    ∃ md2, FlookBest d cur trk (pre ++ l) (flook_scan d cur trk l pre.length best md) md2 := by
  induction l generalizing pre best md with
  | nil => exact ⟨md, by simpa [flook_scan] using h⟩
  | cons r rest ih =>
    unfold flook_scan
    have happ : pre ++ r :: rest = (pre ++ [r]) ++ rest := by simp
    have hlen : pre.length + 1 = (pre ++ [r]).length := by simp
    have hrest : ∀ x, x ∈ rest → |trk x - cur| < INT_MAX :=
      fun x hx => hl x (List.mem_cons_of_mem _ hx)
    have hr := hl r (List.mem_cons_self _ _)
    split
    · rename_i hcond
      rw [happ, hlen]
      apply ih _ _ _ hrest
      refine ⟨FirstLeast.snoc_new pre _ _ r hcond.1 ?_, r, by simp, rfl⟩
      intro j x hx hpx
      cases best with
      | none =>
        have := h.2 x (List.getElem?_mem hx)
        simp only at hpx
        rw [this] at hpx; cases hpx
      | some c =>
        obtain ⟨⟨b, hb, _, h1, _⟩, b2, hb2, hmd⟩ := h
        have hbb : b = b2 := by rw [hb] at hb2; cases hb2; rfl
        subst hbb
        have h3 := h1 j x hx hpx
        have h4 := hcond.2
        show |trk r - cur| < |trk x - cur|
        have h5 : |trk b - cur| ≤ |trk x - cur| := h3
        omega
    · rename_i hcond
      rw [happ, hlen]
      apply ih _ _ _ hrest
      cases best with
      | none =>
        refine ⟨h.1, ?_⟩
        intro x hx
        rcases List.mem_append.mp hx with hx | hx
        · exact h.2 x hx
        · rw [List.mem_singleton.mp hx]
          cases hd : inDirection d cur (trk r) with
          | false => rfl
          | true =>
            exfalso
            apply hcond
            refine ⟨hd, ?_⟩
            rw [h.1]; exact hr
      | some c =>
        obtain ⟨hfl, b, hb, hmd⟩ := h
        have hcl : c < pre.length := by
          by_contra hcon
          rw [List.getElem?_eq_none (by omega)] at hb
          cases hb
        refine ⟨FirstLeast.snoc_keep pre _ _ c r b hfl hb ?_, b,
          by rw [List.getElem?_append_left hcl]; exact hb, hmd⟩
        intro hpr
        by_contra hcon
        apply hcond
        refine ⟨hpr, ?_⟩
        have hcon2 : |trk r - cur| < |trk b - cur| := by
          have : ¬ (|trk b - cur| ≤ |trk r - cur|) := hcon
          omega
        omega

/-- The position returned by `findNextRequest` is in the list. -/
theorem flook_scan_lt (d : Bool) (cur : Int) (trk : Nat → Int) (l : List Nat) (pos : Nat)
    (best : Option Nat) (md : Int) (n : Nat)
    (hb : ∀ c, best = some c → c < pos)
    (h : flook_scan d cur trk l pos best md = some n) : n < pos + l.length := by
  induction l generalizing pos best md with
  | nil =>
    simp only [flook_scan] at h
    simpa using hb n h
  | cons r rest ih =>
    unfold flook_scan at h
    split at h
    · have := ih (pos + 1) _ _ (by intro c hc; cases hc; omega) h
      simp only [List.length_cons]; omega
    · have := ih (pos + 1) _ _ (by intro c hc; have := hb c hc; omega) h
      simp only [List.length_cons]; omega

theorem FLOOK_getNextRequest_first (reqs : List IORequest) (cur : Int) (sch : Scheduler)
    (n : Nat) (ha : sch.active_queue ≠ [])
    (hs : flook_scan sch.direction cur (trackOf reqs) sch.active_queue 0 none INT_MAX = some n) :
    FLOOK_getNextRequest reqs cur sch =
      ((takeAt sch.active_queue n).1,
        { sch with active_queue := (takeAt sch.active_queue n).2 }) := by
  have hne : sch.active_queue.isEmpty = false := by
    cases hq : sch.active_queue with
    | nil => exact absurd hq ha
    | cons a l => rfl
  unfold FLOOK_getNextRequest
  simp only [hne, Bool.false_eq_true, if_false, false_and, hs]

theorem FLOOK_getNextRequest_second (reqs : List IORequest) (cur : Int) (sch : Scheduler)
    (n : Nat) (ha : sch.active_queue ≠ [])
    (hs : flook_scan sch.direction cur (trackOf reqs) sch.active_queue 0 none INT_MAX = none)
    (hs2 : flook_scan (!sch.direction) cur (trackOf reqs) sch.active_queue 0 none INT_MAX =
      some n) :
    FLOOK_getNextRequest reqs cur sch =
      ((takeAt sch.active_queue n).1,
        { sch with direction := !sch.direction,
                   active_queue := (takeAt sch.active_queue n).2 }) := by
  have hne : sch.active_queue.isEmpty = false := by
    cases hq : sch.active_queue with
    | nil => exact absurd hq ha
    | cons a l => rfl
  unfold FLOOK_getNextRequest
  simp only [hne, Bool.false_eq_true, if_false, false_and, hs, hs2]

theorem FLOOK_getNextRequest_neither (reqs : List IORequest) (cur : Int) (sch : Scheduler)
    (ha : sch.active_queue ≠ [])
    (hs : flook_scan sch.direction cur (trackOf reqs) sch.active_queue 0 none INT_MAX = none)
    (hs2 : flook_scan (!sch.direction) cur (trackOf reqs) sch.active_queue 0 none INT_MAX =
      none) :
    FLOOK_getNextRequest reqs cur sch = (none, { sch with direction := !sch.direction }) := by
  have hne : sch.active_queue.isEmpty = false := by
    cases hq : sch.active_queue with
    | nil => exact absurd hq ha
    | cons a l => rfl
  unfold FLOOK_getNextRequest
  simp only [hne, Bool.false_eq_true, if_false, false_and, hs, hs2]

/-- The swap of `FLOOKScheduler::getNextRequest`: with an empty active queue the
call behaves as on the scheduler whose active queue is the add queue, with the
same direction. -/
theorem FLOOK_getNextRequest_swap (reqs : List IORequest) (cur : Int) (sch : Scheduler)
    (ha : sch.active_queue = []) :
    FLOOK_getNextRequest reqs cur sch =
      FLOOK_getNextRequest reqs cur
        { sch with active_queue := sch.add_queue, add_queue := [] } := by
  obtain ⟨k, q, a, ad, d⟩ := sch
  simp only at ha
  subst ha
  cases ad with
  | nil => rfl
  | cons x l => rfl

theorem flookBest_nil (d : Bool) (cur : Int) (trk : Nat → Int) :
    FlookBest d cur trk [] none INT_MAX :=
  ⟨rfl, fun _ hx => absurd hx (List.not_mem_nil _)⟩

/-- `FLOOKScheduler::getNextRequest` when a request of the active queue lies in
the direction (all distances below `INT_MAX`). -/
theorem FLOOK_spec_keep (reqs : List IORequest) (cur : Int) (sch : Scheduler)
    (hb : ∀ x, x ∈ sch.active_queue → |trackOf reqs x - cur| < INT_MAX)
    (hex : ∃ x, x ∈ sch.active_queue ∧ inDirection sch.direction cur (trackOf reqs x) = true) :
    ∃ pos r, sch.active_queue[pos]? = some r ∧
      FLOOK_getNextRequest reqs cur sch =
        (some r, { sch with active_queue := sch.active_queue.eraseIdx pos }) ∧
      FirstLeast sch.active_queue (fun x => inDirection sch.direction cur (trackOf reqs x))
        (fun x => |trackOf reqs x - cur|) pos := by
  have ha : sch.active_queue ≠ [] := by
    obtain ⟨x, hx, _⟩ := hex
    exact List.ne_nil_of_mem hx
  obtain ⟨md2, hspec⟩ := flook_scan_spec sch.direction cur (trackOf reqs) sch.active_queue []
    none INT_MAX hb (flookBest_nil _ _ _)
  simp only [List.nil_append, List.length_nil] at hspec
  cases hs : flook_scan sch.direction cur (trackOf reqs) sch.active_queue 0 none INT_MAX with
  | none =>
    rw [hs] at hspec
    obtain ⟨x, hx, hd⟩ := hex
    have := hspec.2 x hx
    rw [hd] at this; cases this
  | some c =>
    rw [hs] at hspec
    obtain ⟨hfl, b, hcb, _⟩ := hspec
    refine ⟨c, b, hcb, ?_, hfl⟩
    rw [FLOOK_getNextRequest_first reqs cur sch c ha hs]
    unfold takeAt
    simp only [hcb]

/-- `FLOOKScheduler::getNextRequest` when no request of the active queue lies in
the direction (all distances below `INT_MAX`). -/
theorem FLOOK_spec_flip (reqs : List IORequest) (cur : Int) (sch : Scheduler)
    (ha : sch.active_queue ≠ [])
    (hb : ∀ x, x ∈ sch.active_queue → |trackOf reqs x - cur| < INT_MAX)
    (hall : ∀ x, x ∈ sch.active_queue →
      inDirection sch.direction cur (trackOf reqs x) = false) :
    ∃ pos r, sch.active_queue[pos]? = some r ∧
      FLOOK_getNextRequest reqs cur sch =
        (some r, { sch with direction := !sch.direction,
                            active_queue := sch.active_queue.eraseIdx pos }) ∧
      FirstLeast sch.active_queue (fun x => inDirection (!sch.direction) cur (trackOf reqs x))
        (fun x => |trackOf reqs x - cur|) pos := by
  obtain ⟨md1, hspec1⟩ := flook_scan_spec sch.direction cur (trackOf reqs) sch.active_queue []
    none INT_MAX hb (flookBest_nil _ _ _)
  obtain ⟨md2, hspec2⟩ := flook_scan_spec (!sch.direction) cur (trackOf reqs) sch.active_queue []
    none INT_MAX hb (flookBest_nil _ _ _)
  simp only [List.nil_append, List.length_nil] at hspec1 hspec2
  cases hs : flook_scan sch.direction cur (trackOf reqs) sch.active_queue 0 none INT_MAX with
  | some c =>
    rw [hs] at hspec1
    obtain ⟨⟨b, hcb, hp, _⟩, _⟩ := hspec1
    have := hall b (List.getElem?_mem hcb)
    simp only at hp
    rw [this] at hp; cases hp
  | none =>
    cases hs2 : flook_scan (!sch.direction) cur (trackOf reqs) sch.active_queue 0 none
        INT_MAX with
    | none =>
      rw [hs2] at hspec2
      obtain ⟨a, ha2⟩ := List.exists_mem_of_ne_nil sch.active_queue ha
      have h1 := hspec2.2 a ha2
      have h2 := inDirection_flip _ _ _ (hall a ha2)
      rw [h1] at h2; cases h2
    | some c =>
      rw [hs2] at hspec2
      obtain ⟨hfl, b, hcb, _⟩ := hspec2
      refine ⟨c, b, hcb, ?_, hfl⟩
      rw [FLOOK_getNextRequest_second reqs cur sch c ha hs hs2]
      unfold takeAt
      simp only [hcb]

/-- FLOOK selects like LOOK below the sentinel of `findNextRequest`: when every
request of the list is at a distance below
`INT_MAX` from `current_track`, `FLOOKScheduler::getNextRequest` with a
non-empty active queue returns the same request, and leaves the same direction
and the same remaining list, as `LOOKScheduler::getNextRequest` with that list
as queue and the same direction. -/
theorem flook_selects_like_look (reqs : List IORequest) (cur : Int) (fs ls : Scheduler)
    (hq : ls.queue ≠ []) (hsame : fs.active_queue = ls.queue)
    (hd : fs.direction = ls.direction)
    (hb : ∀ x, x ∈ ls.queue → |trackOf reqs x - cur| < INT_MAX) :
    (FLOOK_getNextRequest reqs cur fs).1 = (LOOK_getNextRequest reqs cur ls).1 ∧
    (FLOOK_getNextRequest reqs cur fs).2.direction =
      (LOOK_getNextRequest reqs cur ls).2.direction ∧
    (FLOOK_getNextRequest reqs cur fs).2.active_queue =
      (LOOK_getNextRequest reqs cur ls).2.queue := by
  rcases inDirection_cases ls.direction cur (trackOf reqs) ls.queue with hex | hall
  · obtain ⟨p1, r1, h1, he1, hf1⟩ := LOOK_spec_keep reqs cur ls hex
    obtain ⟨p2, r2, h2, he2, hf2⟩ := FLOOK_spec_keep reqs cur fs (by rw [hsame]; exact hb)
      (by rw [hsame, hd]; exact hex)
    rw [hsame, hd] at hf2
    have hp : p2 = p1 := hf2.unique_pos hf1
    subst hp
    rw [hsame, h1] at h2
    rw [he1, he2]
    exact ⟨h2.symm, hd, by rw [hsame]⟩
  · obtain ⟨p1, r1, h1, he1, hf1⟩ := LOOK_spec_flip reqs cur ls hq hall
    obtain ⟨p2, r2, h2, he2, hf2⟩ := FLOOK_spec_flip reqs cur fs (by rw [hsame]; exact hq)
      (by rw [hsame]; exact hb) (by rw [hsame, hd]; exact hall)
    rw [hsame, hd] at hf2
    have hp : p2 = p1 := hf2.unique_pos hf1
    subst hp
    rw [hsame, h1] at h2
    rw [he1, he2]
    exact ⟨h2.symm, by rw [hd], by rw [hsame]⟩

theorem flook_selects_like_look_witness :
    schL.queue ≠ [] ∧ schFL.active_queue = schL.queue ∧ schFL.direction = schL.direction ∧
    (∀ x, x ∈ schL.queue → |trackOf reqsQ x - 60| < INT_MAX) ∧
    (FLOOK_getNextRequest reqsQ 60 schFL).1 = some 2 ∧
    ((FLOOK_getNextRequest reqsQ 60 schFL).1 = (LOOK_getNextRequest reqsQ 60 schL).1 ∧
    (FLOOK_getNextRequest reqsQ 60 schFL).2.direction =
      (LOOK_getNextRequest reqsQ 60 schL).2.direction ∧
    (FLOOK_getNextRequest reqsQ 60 schFL).2.active_queue =
      (LOOK_getNextRequest reqsQ 60 schL).2.queue) :=
  ⟨by decide, by decide, by decide, by decide, by decide,
    flook_selects_like_look reqsQ 60 schFL schL (by decide) (by decide) (by decide)
      (by decide)⟩

/-- C27 (failing input): with the head at track 0, direction up and the single
request for track `INT_MAX` (a track that `parseInputFile` accepts),
`FLOOKScheduler::getNextRequest` returns no request and flips the direction,
whereas `LOOKScheduler::getNextRequest` returns the request and keeps the
direction.  `findNextRequest` starts with `min_distance = INT_MAX` and accepts
only a strictly smaller distance, so a request at distance `INT_MAX` is never
the best one; the loop of LOOK compares the tracks and has no such sentinel. -/
theorem flook_differs_from_look_at_int_max :
    parseInputFile [(0, 2147483647)] ≠ none ∧
    (0 : Int) ≤ 0 ∧
    FLOOK_getNextRequest reqsM 0 { Scheduler.new SchedKind.FLOOK with active_queue := [0] } =
      (none, { Scheduler.new SchedKind.FLOOK with active_queue := [0], direction := false }) ∧
    LOOK_getNextRequest reqsM 0 { Scheduler.new SchedKind.LOOK with queue := [0] } =
      (some 0, Scheduler.new SchedKind.LOOK) := by
  decide

/-- The result of `FLOOKScheduler::getNextRequest` with a non-empty active queue:
`nullptr` with only the direction changed, or a request of the active queue,
removed from it; the add queue is untouched. -/
theorem FLOOK_getNextRequest_shape (reqs : List IORequest) (cur : Int) (sch : Scheduler)
    (ha : sch.active_queue ≠ []) :
    (∃ d, FLOOK_getNextRequest reqs cur sch = (none, { sch with direction := d })) ∨
    (∃ d pos r, sch.active_queue[pos]? = some r ∧
      FLOOK_getNextRequest reqs cur sch =
        (some r, { sch with direction := d,
                            active_queue := sch.active_queue.eraseIdx pos })) := by
  cases hs : flook_scan sch.direction cur (trackOf reqs) sch.active_queue 0 none INT_MAX with
  | some c =>
    right
    have hlt := flook_scan_lt _ _ _ _ _ _ _ _ (by intro c hc; cases hc) hs
    simp only [Nat.zero_add] at hlt
    refine ⟨sch.direction, c, sch.active_queue[c], List.getElem?_eq_getElem hlt, ?_⟩
    rw [FLOOK_getNextRequest_first reqs cur sch c ha hs]
    unfold takeAt
    simp only [List.getElem?_eq_getElem hlt]
  | none =>
    cases hs2 : flook_scan (!sch.direction) cur (trackOf reqs) sch.active_queue 0 none
        INT_MAX with
    | none =>
      left
      exact ⟨!sch.direction, FLOOK_getNextRequest_neither reqs cur sch ha hs hs2⟩
    | some c =>
      right
      have hlt := flook_scan_lt _ _ _ _ _ _ _ _ (by intro c hc; cases hc) hs2
      simp only [Nat.zero_add] at hlt
      refine ⟨!sch.direction, c, sch.active_queue[c], List.getElem?_eq_getElem hlt, ?_⟩
      rw [FLOOK_getNextRequest_second reqs cur sch c ha hs hs2]
      unfold takeAt
      simp only [List.getElem?_eq_getElem hlt]

theorem getNextRequest_FLOOK (reqs : List IORequest) (cur : Int) (sch : Scheduler)
    (hk : sch.kind = SchedKind.FLOOK) :
    getNextRequest reqs cur sch = FLOOK_getNextRequest reqs cur sch := by
  unfold getNextRequest
  rw [hk]

theorem addRequest_FLOOK (sch : Scheduler) (r : Nat) (hk : sch.kind = SchedKind.FLOOK) :
    addRequest sch r = { sch with add_queue := sch.add_queue ++ [r] } := by
  unfold addRequest
  rw [hk]

/-- A request of the active queue is returned before any request that is not in
the active queue. -/
theorem flookCalls_active_first (reqs : List IORequest) (a r : Nat) (ops : List FlookOp) :
    ∀ (sch : Scheduler), sch.kind = SchedKind.FLOOK → a ∈ sch.active_queue →
      r ∉ sch.active_queue → ∀ k : Nat, (flookCalls reqs sch ops)[k]? = some (some r) →
      ∃ j, j < k ∧ (flookCalls reqs sch ops)[j]? = some (some a) := by
  induction ops with
  | nil =>
    intro sch _ _ _ k hk
    simp [flookCalls] at hk
  | cons op ops ih =>
    intro sch hkind ha hr k hk
    -- a call that returns nothing and leaves the active queue as it is
    have quiet : ∀ s2 : Scheduler, flookCall reqs sch op = (none, s2) →
        s2.kind = SchedKind.FLOOK → s2.active_queue = sch.active_queue →
        ∃ j, j < k ∧ (flookCalls reqs sch (op :: ops))[j]? = some (some a) := by
      intro s2 hcall hk2 ha2
      unfold flookCalls at hk ⊢
      rw [hcall] at hk ⊢
      cases k with
      | zero => simp at hk
      | succ k2 =>
        simp only [List.getElem?_cons_succ] at hk
        obtain ⟨j, hj, hja⟩ := ih s2 hk2 (by rw [ha2]; exact ha) (by rw [ha2]; exact hr) k2 hk
        exact ⟨j + 1, by omega, by simpa using hja⟩
    cases op with
    | add x =>
      refine quiet (addRequest sch x) rfl ?_ ?_
      · rw [addRequest_FLOOK sch x hkind]; exact hkind
      · rw [addRequest_FLOOK sch x hkind]
    | get t =>
      have hne : sch.active_queue ≠ [] := List.ne_nil_of_mem ha
      have hcall : flookCall reqs sch (FlookOp.get t) = FLOOK_getNextRequest reqs t sch :=
        getNextRequest_FLOOK reqs t sch hkind
      rcases FLOOK_getNextRequest_shape reqs t sch hne with ⟨d, he⟩ | ⟨d, pos, x, hx, he⟩
      · exact quiet _ (hcall.trans he) hkind rfl
      · unfold flookCalls at hk ⊢
        rw [hcall, he] at hk ⊢
        have hxa : x ∈ sch.active_queue := List.getElem?_mem hx
        cases k with
        | zero =>
          simp only [List.getElem?_cons_zero, Option.some.injEq] at hk
          rw [hk] at hxa
          exact absurd hxa hr
        | succ k2 =>
          by_cases hax : x = a
          · exact ⟨0, by omega, by simp [hax]⟩
          · simp only [List.getElem?_cons_succ] at hk
            have ha2 : a ∈ sch.active_queue.eraseIdx pos := by
              rw [List.mem_eraseIdx_iff_getElem?]
              obtain ⟨i, hi⟩ := List.getElem?_of_mem ha
              refine ⟨i, ?_, hi⟩
              intro hip
              rw [hip, hx] at hi
              cases hi
              exact hax rfl
            have hr2 : r ∉ sch.active_queue.eraseIdx pos :=
              fun h => hr (List.mem_of_mem_eraseIdx h)
            obtain ⟨j, hj, hja⟩ := ih
              { sch with direction := d, active_queue := sch.active_queue.eraseIdx pos }
              hkind ha2 hr2 k2 hk
            exact ⟨j + 1, by omega, by simpa using hja⟩

/-- C26: the two queues of FLOOK.  `addRequest` appends to the add queue and
changes nothing else.  `getNextRequest` with a non-empty active queue returns
`nullptr` or a request of the active queue, which it removes, and leaves the
add queue as it is (no swap).  With an empty active queue it behaves as on the
scheduler whose active queue is the former add queue and whose add queue is
empty, with the same direction.  Hence, in any sequence of calls that follows
the `addRequest` of a request `r`, the request `r` is not returned before a
request `a` that was in the active queue at that moment. -/
theorem flook_two_queue_discipline (reqs : List IORequest) (sch : Scheduler)
    (hk : sch.kind = SchedKind.FLOOK) :
    (∀ r, addRequest sch r = { sch with add_queue := sch.add_queue ++ [r] }) ∧
    (∀ cur, sch.active_queue ≠ [] →
      (∃ d, getNextRequest reqs cur sch = (none, { sch with direction := d })) ∨
      (∃ d pos r, sch.active_queue[pos]? = some r ∧
        getNextRequest reqs cur sch =
          (some r, { sch with direction := d,
                              active_queue := sch.active_queue.eraseIdx pos }))) ∧
    (∀ cur, sch.active_queue = [] →
      getNextRequest reqs cur sch =
        getNextRequest reqs cur { sch with active_queue := sch.add_queue, add_queue := [] }) ∧
    (∀ (a r : Nat) (ops : List FlookOp) (k : Nat), a ∈ sch.active_queue →
      r ∉ sch.active_queue →
      (flookCalls reqs (addRequest sch r) ops)[k]? = some (some r) →
      ∃ j, j < k ∧ (flookCalls reqs (addRequest sch r) ops)[j]? = some (some a)) := by
  refine ⟨fun r => addRequest_FLOOK sch r hk, ?_, ?_, ?_⟩
  · intro cur ha
    rw [getNextRequest_FLOOK reqs cur sch hk]
    exact FLOOK_getNextRequest_shape reqs cur sch ha
  · intro cur ha
    rw [getNextRequest_FLOOK reqs cur sch hk,
      getNextRequest_FLOOK reqs cur
        { sch with active_queue := sch.add_queue, add_queue := [] } hk]
    exact FLOOK_getNextRequest_swap reqs cur sch ha
  · intro a r ops k ha hr hout
    refine flookCalls_active_first reqs a r ops (addRequest sch r) ?_ ?_ ?_ k hout
    · rw [addRequest_FLOOK sch r hk]; exact hk
    · rw [addRequest_FLOOK sch r hk]; exact ha
    · rw [addRequest_FLOOK sch r hk]; exact hr

theorem flook_two_queue_discipline_witness :
    schF2.kind = SchedKind.FLOOK ∧
    flookCalls reqsQ (addRequest schF2 3)
      [FlookOp.get 11, FlookOp.add 2, FlookOp.get 30, FlookOp.get 10, FlookOp.get 12] =
      [some 0, none, some 1, some 3, some 2] ∧
    ((∀ r, addRequest schF2 r = { schF2 with add_queue := schF2.add_queue ++ [r] }) ∧
    (∀ cur, schF2.active_queue ≠ [] →
      (∃ d, getNextRequest reqsQ cur schF2 = (none, { schF2 with direction := d })) ∨
      (∃ d pos r, schF2.active_queue[pos]? = some r ∧
        getNextRequest reqsQ cur schF2 =
          (some r, { schF2 with direction := d,
                                active_queue := schF2.active_queue.eraseIdx pos }))) ∧
    (∀ cur, schF2.active_queue = [] →
      getNextRequest reqsQ cur schF2 =
        getNextRequest reqsQ cur
          { schF2 with active_queue := schF2.add_queue, add_queue := [] }) ∧
    (∀ (a r : Nat) (ops : List FlookOp) (k : Nat), a ∈ schF2.active_queue →
      r ∉ schF2.active_queue →
      (flookCalls reqsQ (addRequest schF2 r) ops)[k]? = some (some r) →
      ∃ j, j < k ∧ (flookCalls reqsQ (addRequest schF2 r) ops)[j]? = some (some a))) :=
  ⟨by decide, by decide, flook_two_queue_discipline reqsQ schF2 (by decide)⟩

theorem loop_mono (fuel k : Nat) (s t : Sim) (h : loop fuel s = some t) :
    loop (fuel + k) s = some t := by
  induction fuel generalizing s with
  | zero => cases h
  | succ n ih =>
    rw [Nat.add_right_comm]
    unfold loop at h ⊢
    cases hi : iteration s with
    | mk b s1 =>
      rw [hi] at h
      cases b with
      | true => exact h
      | false => exact ih s1 h

theorem loop_det (f g : Nat) (s t u : Sim) (h1 : loop f s = some t) (h2 : loop g s = some u) :
    t = u := by
  have a := loop_mono f g s t h1
  have b := loop_mono g f s u h2
  rw [Nat.add_comm] at b
  rw [a] at b
  cases b
  rfl

theorem getNextRequest_stuck (d : Bool) :
    getNextRequest reqsM 0
        { Scheduler.new SchedKind.FLOOK with active_queue := [0], direction := d } =
      (none, { Scheduler.new SchedKind.FLOOK with active_queue := [0], direction := !d }) := by
  cases d <;> decide

theorem iteration_stuck (d : Bool) (t : Nat) :
    iteration (stuck d t) = (false, stuck (!d) (t + 1)) := by
  have ha : arrivals ((stuck d t).all_requests.length - (stuck d t).next_req) (stuck d t) =
      stuck d t := rfl
  have hi : issue (stuck d t) = stuck (!d) t := by
    unfold issue
    have h1 : (stuck d t).active_request = none := rfl
    have h2 : getNextRequest (stuck d t).all_requests (stuck d t).current_track
        (stuck d t).scheduler =
        (none, { Scheduler.new SchedKind.FLOOK with active_queue := [0], direction := !d }) :=
      getNextRequest_stuck d
    simp only [h1, h2]
    rfl
  unfold iteration
  simp only [ha, hi]
  rfl

theorem loop_stuck (fuel : Nat) : ∀ (d : Bool) (t : Nat), loop fuel (stuck d t) = none := by
  induction fuel with
  | zero => intro d t; rfl
  | succ n ih =>
    intro d t
    unfold loop
    rw [iteration_stuck]
    exact ih _ _

/-- C30 (amended): under LOOK, with the head starting at track 0 moving up and
the requests (arrival 0, track 20), (arrival 1, track 5), (arrival 2,
track 15), the loop ends, and the requests are finished in the order track 20
(at time 20), track 15 (at time 25), track 5 (at time 35): the request for
track 20 is issued at time 0, before the other two arrive. -/
theorem look_scenario_serves_20_15_5 :
    ∃ s, simulation SchedKind.LOOK [(0, 20), (1, 5), (2, 15)] 50 = some s ∧
      s.all_requests.map (fun r => (r.track, r.start_time, r.end_time)) =
        [(20, 0, 20), (5, 25, 35), (15, 20, 25)] ∧
      finishOrder s = [20, 15, 5] ∧
      ∀ fuel s2, simulation SchedKind.LOOK [(0, 20), (1, 5), (2, 15)] fuel = some s2 →
        finishOrder s2 = [20, 15, 5] := by
  have h : (simulation SchedKind.LOOK [(0, 20), (1, 5), (2, 15)] 50).isSome = true := by
    decide
  obtain ⟨s, hs⟩ := Option.isSome_iff_exists.mp h
  have h2 : (simulation SchedKind.LOOK [(0, 20), (1, 5), (2, 15)] 50).map
      (fun s => (s.all_requests.map (fun r => (r.track, r.start_time, r.end_time)),
        finishOrder s)) = some ([(20, 0, 20), (5, 25, 35), (15, 20, 25)], [20, 15, 5]) := by
    decide
  rw [hs] at h2
  simp only [Option.map_some', Option.some.injEq, Prod.mk.injEq] at h2
  refine ⟨s, hs, h2.1, h2.2, ?_⟩
  intro fuel s2 hs2
  have : s2 = s := loop_det fuel 50 _ s2 s hs2 hs
  rw [this]
  exact h2.2

/-- C30 (counterexample to the order of the claim): in that run the request for
track 20 is finished before the request for track 15, so the order is not
15, 20, 5. -/
theorem look_scenario_not_15_20_5 :
    ∃ s, simulation SchedKind.LOOK [(0, 20), (1, 5), (2, 15)] 50 = some s ∧
      finishOrder s ≠ [15, 20, 5] := by
  have h : (simulation SchedKind.LOOK [(0, 20), (1, 5), (2, 15)] 50).isSome = true := by
    decide
  obtain ⟨s, hs⟩ := Option.isSome_iff_exists.mp h
  have h2 : (simulation SchedKind.LOOK [(0, 20), (1, 5), (2, 15)] 50).map finishOrder =
      some [20, 15, 5] := by
    decide
  rw [hs] at h2
  simp only [Option.map_some', Option.some.injEq] at h2
  refine ⟨s, hs, ?_⟩
  rw [h2]
  decide

/-- C28 (failing input): with the policy FLOOK and the single request
`0 2147483647` (track `INT_MAX`, accepted by `parseInputFile`) the loop of
`simulation` never reaches its `break`: no bound on the number of iterations
is enough.  `findNextRequest` starts with `min_distance = INT_MAX` and only
accepts a strictly smaller distance, so the request is never issued. -/
theorem flook_loops_forever_at_int_max :
    parseInputFile [(0, 2147483647)] ≠ none ∧
    ∀ fuel, simulation SchedKind.FLOOK [(0, 2147483647)] fuel = none := by
  refine ⟨by decide, ?_⟩
  intro fuel
  cases fuel with
  | zero => rfl
  | succ n =>
    have h1 : simulation SchedKind.FLOOK [(0, 2147483647)] (n + 1) =
        loop (n + 1) (Sim.new SchedKind.FLOOK reqsM) := rfl
    have h2 : iteration (Sim.new SchedKind.FLOOK reqsM) = (false, stuck false 1) := rfl
    rw [h1]
    unfold loop
    rw [h2]
    exact loop_stuck n false 1

theorem members_queue (sch : Scheduler) (hk : sch.kind ≠ SchedKind.FLOOK) :
    members sch = sch.queue := by
  unfold members; cases hk' : sch.kind <;> simp_all

theorem members_flook (sch : Scheduler) (hk : sch.kind = SchedKind.FLOOK) :
    members sch = sch.active_queue ++ sch.add_queue := by
  unfold members; rw [hk]

theorem live_of_eraseIdx (sch : Scheduler) (pos r : Nat) (d : Bool)
    (hk : sch.kind ≠ SchedKind.FLOOK) (hr : sch.queue[pos]? = some r) :
    Live sch (some r, { sch with direction := d, queue := sch.queue.eraseIdx pos }) := by
  have hlt : pos < sch.queue.length := by
    by_contra hcon
    rw [List.getElem?_eq_none (by omega)] at hr
    cases hr
  refine ⟨rfl, Or.inl ⟨r, rfl, ?_⟩⟩
  rw [members_queue sch hk, members_queue _ (by exact hk)]
  show (sch.queue.eraseIdx pos).length + 1 = _
  rw [List.length_eraseIdx, if_pos hlt]
  omega

theorem live_none (sch : Scheduler) (hm : members sch = []) : Live sch (none, sch) :=
  ⟨rfl, Or.inr ⟨rfl, hm, hm⟩⟩

theorem sstf_scan_lt (d : Nat → Nat) (l : List Nat) (pos c cd : Nat) (hc : c < pos + l.length) :
    sstf_scan d l pos c cd < pos + l.length := by
  induction l generalizing pos c cd with
  | nil => simpa [sstf_scan] using hc
  | cons r rest ih =>
    unfold sstf_scan
    simp only [List.length_cons] at hc ⊢
    split
    · have := ih (pos + 1) pos (d r) (by omega)
      omega
    · have := ih (pos + 1) c cd (by omega)
      omega

theorem clook_scan_lt (cur : Int) (trk : Nat → Int) (l : List Nat) (pos lo : Nat) (lt : Int)
    (next : Option (Nat × Int)) (hlo : lo < pos + l.length)
    (hn : ∀ n, next = some n → n.1 < pos + l.length) :
    (clook_scan cur trk l pos lo lt next).1 < pos + l.length ∧
    ∀ n, (clook_scan cur trk l pos lo lt next).2 = some n → n.1 < pos + l.length := by
  induction l generalizing pos lo lt next with
  | nil => exact ⟨by simpa [clook_scan] using hlo, by simpa [clook_scan] using hn⟩
  | cons r rest ih =>
    unfold clook_scan
    simp only [List.length_cons] at hlo hn ⊢
    have hlo2 : (if trk r < lt then (pos, trk r) else (lo, lt)).1 < pos + 1 + rest.length := by
      split <;> simp only <;> omega
    have finish : ∀ nxt : Option (Nat × Int),
        (∀ n, nxt = some n → n.1 < pos + 1 + rest.length) →
        (clook_scan cur trk rest (pos + 1) (if trk r < lt then (pos, trk r) else (lo, lt)).1
          (if trk r < lt then (pos, trk r) else (lo, lt)).2 nxt).1 < pos + (rest.length + 1) ∧
        ∀ n, (clook_scan cur trk rest (pos + 1) (if trk r < lt then (pos, trk r) else (lo, lt)).1
          (if trk r < lt then (pos, trk r) else (lo, lt)).2 nxt).2 = some n →
          n.1 < pos + (rest.length + 1) := by
      intro nxt hnxt
      have h := ih (pos + 1) (if trk r < lt then (pos, trk r) else (lo, lt)).1
        (if trk r < lt then (pos, trk r) else (lo, lt)).2 nxt hlo2 hnxt
      constructor
      · have := h.1; omega
      · intro n hn2
        have := h.2 n hn2
        omega
    cases next with
    | none =>
      simp only [Bool.and_true]
      apply finish
      intro n hn2
      split at hn2
      · cases hn2; simp only; omega
      · cases hn2
    | some m =>
      simp only
      apply finish
      intro n hn2
      split at hn2
      · cases hn2; simp only; omega
      · have := hn n hn2; omega

theorem FIFO_live (sch : Scheduler) (hk : sch.kind = SchedKind.FIFO) :
    Live sch (FIFO_getNextRequest sch) := by
  have hk2 : sch.kind ≠ SchedKind.FLOOK := by rw [hk]; decide
  unfold FIFO_getNextRequest
  cases hq : sch.queue with
  | nil => exact live_none sch (by rw [members_queue sch hk2, hq])
  | cons i rest =>
    have := live_of_eraseIdx sch 0 i sch.direction hk2 (by rw [hq]; simp)
    simp only [hq, List.eraseIdx_cons_zero] at this
    exact this

theorem SSTF_live (reqs : List IORequest) (cur : Int) (sch : Scheduler)
    (hk : sch.kind = SchedKind.SSTF) : Live sch (SSTF_getNextRequest reqs cur sch) := by
  have hk2 : sch.kind ≠ SchedKind.FLOOK := by rw [hk]; decide
  unfold SSTF_getNextRequest
  cases hq : sch.queue with
  | nil => exact live_none sch (by rw [members_queue sch hk2, hq])
  | cons i rest =>
    simp only
    have hlt := sstf_scan_lt (fun r => (trackOf reqs r - cur).natAbs) (i :: rest) 0 0
      ((trackOf reqs i - cur).natAbs) (by simp)
    rw [Nat.zero_add, ← hq] at hlt
    have := live_of_eraseIdx sch _ _ sch.direction hk2 (List.getElem?_eq_getElem hlt)
    rw [← hq]
    unfold takeAt
    simp only [List.getElem?_eq_getElem hlt]
    exact this

theorem live_of_takeAt (sch : Scheduler) (pos : Nat) (hk : sch.kind ≠ SchedKind.FLOOK)
    (hlt : pos < sch.queue.length) :
    Live sch ((takeAt sch.queue pos).1, { sch with queue := (takeAt sch.queue pos).2 }) := by
  unfold takeAt
  simp only [List.getElem?_eq_getElem hlt]
  exact live_of_eraseIdx sch pos _ sch.direction hk (List.getElem?_eq_getElem hlt)

theorem CLOOK_live (reqs : List IORequest) (cur : Int) (sch : Scheduler)
    (hk : sch.kind = SchedKind.CLOOK) : Live sch (CLOOK_getNextRequest reqs cur sch) := by
  have hk2 : sch.kind ≠ SchedKind.FLOOK := by rw [hk]; decide
  unfold CLOOK_getNextRequest
  cases hq : sch.queue with
  | nil => exact live_none sch (by rw [members_queue sch hk2, hq])
  | cons i rest =>
    simp only
    obtain ⟨h1, h2⟩ := clook_scan_lt cur (trackOf reqs) (i :: rest) 0 0 (trackOf reqs i) none
      (by simp) (by intro n hn; cases hn)
    rw [Nat.zero_add, ← hq] at h1 h2
    rw [← hq]
    apply live_of_takeAt sch _ hk2
    split
    · rename_i n hr
      exact h2 n hr
    · exact h1

theorem LOOK_live (reqs : List IORequest) (cur : Int) (sch : Scheduler)
    (hk : sch.kind = SchedKind.LOOK) : Live sch (LOOK_getNextRequest reqs cur sch) := by
  have hk2 : sch.kind ≠ SchedKind.FLOOK := by rw [hk]; decide
  by_cases hq : sch.queue = []
  · have : LOOK_getNextRequest reqs cur sch = (none, sch) := by
      unfold LOOK_getNextRequest
      rw [hq]; rfl
    rw [this]
    exact live_none sch (by rw [members_queue sch hk2, hq])
  · rcases inDirection_cases sch.direction cur (trackOf reqs) sch.queue with hex | hall
    · obtain ⟨pos, r, hr, he, _⟩ := LOOK_spec_keep reqs cur sch hex
      rw [he]
      exact live_of_eraseIdx sch pos r sch.direction hk2 hr
    · obtain ⟨pos, r, hr, he, _⟩ := LOOK_spec_flip reqs cur sch hq hall
      rw [he]
      exact live_of_eraseIdx sch pos r (!sch.direction) hk2 hr

theorem FLOOK_live_active (reqs : List IORequest) (cur : Int) (sch : Scheduler)
    (hk : sch.kind = SchedKind.FLOOK) (ha : sch.active_queue ≠ [])
    (hb : ∀ x, x ∈ sch.active_queue → |trackOf reqs x - cur| < INT_MAX) :
    Live sch (FLOOK_getNextRequest reqs cur sch) := by
  have hlen : ∀ (pos r : Nat) (d : Bool), sch.active_queue[pos]? = some r →
      Live sch (some r, { sch with direction := d,
                                   active_queue := sch.active_queue.eraseIdx pos }) := by
    intro pos r d hr
    have hlt : pos < sch.active_queue.length := by
      by_contra hcon
      rw [List.getElem?_eq_none (by omega)] at hr
      cases hr
    refine ⟨rfl, Or.inl ⟨r, rfl, ?_⟩⟩
    rw [members_flook sch hk, members_flook _ (by exact hk)]
    show (sch.active_queue.eraseIdx pos ++ sch.add_queue).length + 1 = _
    rw [List.length_append, List.length_append, List.length_eraseIdx, if_pos hlt]
    omega
  rcases inDirection_cases sch.direction cur (trackOf reqs) sch.active_queue with hex | hall
  · obtain ⟨pos, r, hr, he, _⟩ := FLOOK_spec_keep reqs cur sch hb hex
    rw [he]
    exact hlen pos r sch.direction hr
  · obtain ⟨pos, r, hr, he, _⟩ := FLOOK_spec_flip reqs cur sch ha hb hall
    rw [he]
    exact hlen pos r (!sch.direction) hr

theorem FLOOK_live (reqs : List IORequest) (cur : Int) (sch : Scheduler)
    (hk : sch.kind = SchedKind.FLOOK)
    (hb : ∀ x, x ∈ members sch → |trackOf reqs x - cur| < INT_MAX) :
    Live sch (FLOOK_getNextRequest reqs cur sch) := by
  rw [members_flook sch hk] at hb
  by_cases ha : sch.active_queue = []
  · by_cases hd : sch.add_queue = []
    · have : FLOOK_getNextRequest reqs cur sch = (none, sch) := by
        unfold FLOOK_getNextRequest
        rw [ha, hd]; rfl
      rw [this]
      exact live_none sch (by rw [members_flook sch hk, ha, hd]; rfl)
    · rw [FLOOK_getNextRequest_swap reqs cur sch ha]
      have h := FLOOK_live_active reqs cur
        { sch with active_queue := sch.add_queue, add_queue := [] } hk hd
        (fun x hx => hb x (List.mem_append_right _ hx))
      obtain ⟨h1, h2⟩ := h
      refine ⟨h1, ?_⟩
      have hm : members { sch with active_queue := sch.add_queue, add_queue := [] } =
          members sch := by
        rw [members_flook sch hk, members_flook _ (by exact hk), ha]
        simp
      rw [hm] at h2
      exact h2
  · exact FLOOK_live_active reqs cur sch hk ha (fun x hx => hb x (List.mem_append_left _ hx))

theorem getNextRequest_live (reqs : List IORequest) (cur : Int) (sch : Scheduler)
    (hb : sch.kind = SchedKind.FLOOK →
      ∀ x, x ∈ members sch → |trackOf reqs x - cur| < INT_MAX) :
    Live sch (getNextRequest reqs cur sch) := by
  unfold getNextRequest
  cases hk : sch.kind with
  | FIFO => exact FIFO_live sch hk
  | SSTF => exact SSTF_live reqs cur sch hk
  | LOOK => exact LOOK_live reqs cur sch hk
  | CLOOK => exact CLOOK_live reqs cur sch hk
  | FLOOK => exact FLOOK_live reqs cur sch hk (hb hk)

theorem getElem?_of_keys (l1 l2 : List IORequest)
    (h : l1.map IORequest.key = l2.map IORequest.key) (i : Nat) (r : IORequest)
    (hr : l1[i]? = some r) : ∃ q, l2[i]? = some q ∧ q.key = r.key := by
  have e : (l1.map IORequest.key)[i]? = (l2.map IORequest.key)[i]? := by rw [h]
  rw [List.getElem?_map, List.getElem?_map, hr] at e
  cases hq : l2[i]? with
  | none => rw [hq] at e; cases e
  | some q =>
    rw [hq] at e
    simp only [Option.map_some', Option.some.injEq] at e
    exact ⟨q, rfl, e.symm⟩

theorem length_of_keys (l1 l2 : List IORequest)
    (h : l1.map IORequest.key = l2.map IORequest.key) : l1.length = l2.length := by
  have := congrArg List.length h
  simpa using this

theorem trackOf_of_keys (l1 l2 : List IORequest)
    (h : l1.map IORequest.key = l2.map IORequest.key) (i : Nat) :
    trackOf l1 i = trackOf l2 i := by
  unfold trackOf
  cases h1 : l1[i]? with
  | none =>
    have hlen := length_of_keys l1 l2 h
    have : l2[i]? = none := by
      rw [List.getElem?_eq_none_iff] at h1 ⊢
      omega
    rw [this]
  | some r =>
    obtain ⟨q, hq, hk⟩ := getElem?_of_keys l1 l2 h i r h1
    rw [hq]
    have : q.track = r.track := by
      have := congrArg (fun x => x.2.2) hk
      exact this
    simp only [this]

theorem mem_of_keys (l1 l2 : List IORequest)
    (h : l1.map IORequest.key = l2.map IORequest.key) (r : IORequest) (hr : r ∈ l1) :
    ∃ q, q ∈ l2 ∧ q.key = r.key := by
  obtain ⟨i, hi⟩ := List.getElem?_of_mem hr
  obtain ⟨q, hq, hk⟩ := getElem?_of_keys l1 l2 h i r hi
  exact ⟨q, List.getElem?_mem hq, hk⟩

theorem trackOf_bounds (A T : Nat) (s : Sim) (h : Within A T s) (i : Nat) :
    0 ≤ trackOf s.all_requests i ∧ trackOf s.all_requests i ≤ T := by
  unfold trackOf
  cases hr : s.all_requests[i]? with
  | none => exact ⟨le_refl _, by simp⟩
  | some r =>
    have := h.tracks r (List.getElem?_mem hr)
    simp only
    constructor
    · exact Int.ofNat_nonneg _
    · exact_mod_cast this

/-- The bounds carry over to a state with the same input data, the same head
position and the same policy. -/
theorem Within.of_keys {A T : Nat} {s t : Sim} (h : Within A T s)
    (hk : t.all_requests.map IORequest.key = s.all_requests.map IORequest.key)
    (hc : t.current_track = s.current_track)
    (hs : t.scheduler.kind = s.scheduler.kind) : Within A T t := by
  refine ⟨by rw [hc]; exact h.track_lo, by rw [hc]; exact h.track_hi, ?_, ?_, ?_⟩
  · intro r hr
    obtain ⟨q, hq, hqk⟩ := mem_of_keys _ _ hk r hr
    have : q.track = r.track := congrArg (fun x => x.2.2) hqk
    rw [← this]; exact h.tracks q hq
  · intro r hr
    obtain ⟨q, hq, hqk⟩ := mem_of_keys _ _ hk r hr
    have : q.arrival_time = r.arrival_time := congrArg (fun x => x.2.1) hqk
    rw [← this]; exact h.arrive q hq
  · intro hf
    rw [hs] at hf
    exact h.flook hf

theorem length_members_addRequest (sch : Scheduler) (i : Nat) :
    (members (addRequest sch i)).length = (members sch).length + 1 ∧
      (addRequest sch i).kind = sch.kind := by
  unfold members addRequest
  cases hk : sch.kind <;> simp [hk, Nat.add_assoc]

theorem isEmpty_of_members (sch : Scheduler) (h : members sch = []) : isEmpty sch = true := by
  unfold members at h
  unfold isEmpty
  cases hk : sch.kind <;> simp [hk] at h ⊢ <;> simp_all

/-- The inner `while` of `simulation`: the requests handed over move from the
input to the scheduler, and with enough iterations the next request, if any,
has not arrived yet. -/
theorem arrivals_progress (n : Nat) (s : Sim) :
    (arrivals n s).all_requests = s.all_requests ∧
    (arrivals n s).current_time = s.current_time ∧
    (arrivals n s).current_track = s.current_track ∧
    (arrivals n s).active_request = s.active_request ∧
    (arrivals n s).scheduler.kind = s.scheduler.kind ∧
    s.all_requests.length - (arrivals n s).next_req + (members (arrivals n s).scheduler).length =
      s.all_requests.length - s.next_req + (members s.scheduler).length ∧
    (s.all_requests.length - s.next_req ≤ n →
      ∀ r, s.all_requests[(arrivals n s).next_req]? = some r →
        s.current_time < r.arrival_time) := by
  induction n generalizing s with
  | zero =>
    refine ⟨rfl, rfl, rfl, rfl, rfl, rfl, ?_⟩
    intro hn r hr
    have : (arrivals 0 s).next_req = s.next_req := rfl
    rw [this] at hr
    have hlt : s.next_req < s.all_requests.length := by
      by_contra hcon
      rw [List.getElem?_eq_none (by omega)] at hr
      cases hr
    omega
  | succ n ih =>
    unfold arrivals
    cases hr : s.all_requests[s.next_req]? with
    | none =>
      refine ⟨rfl, rfl, rfl, rfl, rfl, rfl, ?_⟩
      intro _ r hr2
      have hr3 : s.all_requests[s.next_req]? = some r := hr2
      rw [hr] at hr3; cases hr3
    | some r =>
      simp only
      have hlt : s.next_req < s.all_requests.length := by
        by_contra hcon
        rw [List.getElem?_eq_none (by omega)] at hr
        cases hr
      split
      · rename_i hle
        obtain ⟨h1, h2, h3, h4, h5, h6, h7⟩ := ih
          { s with scheduler := addRequest s.scheduler s.next_req, next_req := s.next_req + 1 }
        obtain ⟨e1, e2⟩ := length_members_addRequest s.scheduler s.next_req
        refine ⟨h1, h2, h3, h4, h5.trans e2, ?_, ?_⟩
        · rw [h6]
          show s.all_requests.length - (s.next_req + 1) +
            (members (addRequest s.scheduler s.next_req)).length = _
          rw [e1]
          omega
        · intro hn
          exact h7 (by show s.all_requests.length - (s.next_req + 1) ≤ n; omega)
      · rename_i hle
        refine ⟨rfl, rfl, rfl, rfl, rfl, rfl, ?_⟩
        intro _ q hq
        have hq2 : s.all_requests[s.next_req]? = some q := hq
        rw [hr] at hq2
        cases hq2
        omega

theorem actWork_none (s : Sim) (h : s.active_request = none) : actWork s = 0 := by
  unfold actWork; rw [h]

theorem actWork_some (s : Sim) (i : Nat) (h : s.active_request = some i) :
    actWork s = (trackOf s.all_requests i - s.current_track).natAbs + 1 := by
  unfold actWork; rw [h]

theorem Within.distance {A T : Nat} {s : Sim} (h : Within A T s) (i : Nat) :
    (trackOf s.all_requests i - s.current_track).natAbs ≤ T := by
  obtain ⟨h1, h2⟩ := trackOf_bounds A T s h i
  have h3 := h.track_lo
  have h4 := h.track_hi
  omega

/-- Lines 337-346 of `simulation` with an idle disk: a request held by the
scheduler becomes the active request, or the scheduler holds none. -/
theorem issue_progress (A T : Nat) (s : Sim) (hW : Within A T s)
    (ha : s.active_request = none) :
    (issue s).all_requests.map IORequest.key = s.all_requests.map IORequest.key ∧
    (issue s).next_req = s.next_req ∧ (issue s).current_time = s.current_time ∧
    (issue s).current_track = s.current_track ∧
    (issue s).scheduler.kind = s.scheduler.kind ∧
    ((∃ i, (issue s).active_request = some i ∧
        (members (issue s).scheduler).length + 1 = (members s.scheduler).length) ∨
      ((issue s).active_request = none ∧ members s.scheduler = [] ∧
        members (issue s).scheduler = [])) := by
  have hb : s.scheduler.kind = SchedKind.FLOOK →
      ∀ x, x ∈ members s.scheduler → |trackOf s.all_requests x - s.current_track| < INT_MAX := by
    intro hk x _
    have h1 := hW.flook hk
    obtain ⟨h2, h3⟩ := trackOf_bounds A T s hW x
    have h4 := hW.track_lo
    have h5 := hW.track_hi
    have : |trackOf s.all_requests x - s.current_track| ≤ (T : Int) := by
      rw [abs_le]; constructor <;> omega
    omega
  have hl := getNextRequest_live s.all_requests s.current_track s.scheduler hb
  cases hr : getNextRequest s.all_requests s.current_track s.scheduler with
  | mk o sch2 =>
    rw [hr] at hl
    obtain ⟨hk, hcase⟩ := hl
    cases o with
    | none =>
      have e : issue s = { s with scheduler := sch2, active_request := none } := by
        unfold issue
        rw [ha]
        simp only [hr]
      rw [e]
      rcases hcase with ⟨i, hi, _⟩ | ⟨_, h2, h3⟩
      · cases hi
      · exact ⟨rfl, rfl, rfl, rfl, hk, Or.inr ⟨rfl, h2, h3⟩⟩
    | some i =>
      have e : issue s = Sim.modifyRequest { s with scheduler := sch2, active_request := some i } i
          (fun q => { q with start_time := max s.current_time q.arrival_time,
                             issue_track := s.current_track }) := by
        unfold issue
        rw [ha]
        simp only [hr]
      rw [e]
      rcases hcase with ⟨j, _, h2⟩ | ⟨h1, _, _⟩
      · refine ⟨?_, rfl, rfl, rfl, hk, Or.inl ⟨i, rfl, h2⟩⟩
        exact map_key_updateAt _ (by intro q; rfl) _ _
      · cases h1

theorem finishRequest_progress (s : Sim) (i : Nat) :
    (finishRequest s i).all_requests.map IORequest.key = s.all_requests.map IORequest.key ∧
    (finishRequest s i).next_req = s.next_req ∧
    (finishRequest s i).current_time = s.current_time ∧
    (finishRequest s i).current_track = s.current_track ∧
    (finishRequest s i).scheduler = s.scheduler ∧
    (finishRequest s i).active_request = none := by
  refine ⟨finishRequest_keys s i, ?_, ?_, ?_, ?_, ?_⟩ <;>
  · unfold finishRequest
    simp only [Sim.modifyRequest]
    split <;> rfl

theorem mu_of_eq (A T : Nat) (s t : Sim)
    (hk : t.all_requests.map IORequest.key = s.all_requests.map IORequest.key)
    (hn : t.next_req = s.next_req) (ht : t.current_time = s.current_time)
    (hm : (members t.scheduler).length = (members s.scheduler).length) :
    mu A T t + actWork s = mu A T s + actWork t := by
  unfold mu
  rw [length_of_keys _ _ hk, hn, ht, hm]
  omega

/-- The state after the arrivals and the issue of one iteration: the bounds
hold, the measure has not grown, and an idle disk that does not end the loop
waits for a request that arrives later. -/
theorem issue_arrivals_progress (A T : Nat) (s : Sim) (hW : Within A T s) :
    Within A T (issue (arrivals (s.all_requests.length - s.next_req) s)) ∧
    mu A T (issue (arrivals (s.all_requests.length - s.next_req) s)) ≤ mu A T s ∧
    ((issue (arrivals (s.all_requests.length - s.next_req) s)).active_request = none →
      ¬ ((issue (arrivals (s.all_requests.length - s.next_req) s)).next_req ≥
          (issue (arrivals (s.all_requests.length - s.next_req) s)).all_requests.length ∧
        isEmpty (issue (arrivals (s.all_requests.length - s.next_req) s)).scheduler = true) →
      (issue (arrivals (s.all_requests.length - s.next_req) s)).current_time < A) := by
  obtain ⟨a1, a2, a3, a4, a5, a6, a7⟩ :=
    arrivals_progress (s.all_requests.length - s.next_req) s
  have a7 := a7 (le_refl _)
  generalize arrivals (s.all_requests.length - s.next_req) s = s1 at *
  have hW1 : Within A T s1 := hW.of_keys (by rw [a1]) a3 a5
  have hmu1 : mu A T s1 = mu A T s := by
    unfold mu actWork
    rw [a1, a2, a3, a4, a6]
  cases hact : s1.active_request with
  | some i =>
    have e : issue s1 = s1 := by
      unfold issue
      rw [hact]
    rw [e]
    refine ⟨hW1, le_of_eq hmu1, ?_⟩
    intro hn
    rw [hact] at hn; cases hn
  | none =>
    obtain ⟨i1, i2, i3, i4, i5, i6⟩ := issue_progress A T s1 hW1 hact
    generalize issue s1 = s2 at *
    have hW2 : Within A T s2 := hW1.of_keys i1 i4 i5
    have hlen : s2.all_requests.length = s.all_requests.length := by
      rw [length_of_keys _ _ i1, a1]
    rcases i6 with ⟨i, hi, hm⟩ | ⟨hn, hm1, hm2⟩
    · refine ⟨hW2, ?_, ?_⟩
      · rw [← hmu1]
        have hd := hW2.distance i
        unfold mu
        rw [actWork_some s2 i hi, actWork_none s1 hact, hlen, i2, i3, a1, ← hm]
        have e : (s.all_requests.length - s1.next_req + ((members s2.scheduler).length + 1)) *
            (T + 1) =
            (s.all_requests.length - s1.next_req + (members s2.scheduler).length) * (T + 1) +
              (T + 1) := by ring
        rw [e]
        generalize (s.all_requests.length - s1.next_req + (members s2.scheduler).length) *
          (T + 1) = Y
        omega
      · intro hn
        rw [hi] at hn; cases hn
    · refine ⟨hW2, ?_, ?_⟩
      · rw [← hmu1]
        unfold mu
        rw [actWork_none s2 hn, actWork_none s1 hact, hlen, i2, i3, a1, hm1, hm2]
      · intro _ hcond
        rw [isEmpty_of_members _ hm2, hlen, i2] at hcond
        have hlt : s1.next_req < s.all_requests.length := by
          by_contra hcon
          exact hcond ⟨by omega, rfl⟩
        have hr := a7 _ (List.getElem?_eq_getElem hlt)
        have hA := hW.arrive _ (List.getElem_mem hlt)
        rw [i3, a2]
        omega

theorem moveHead_progress (A T : Nat) (s : Sim) (i : Nat) (hW : Within A T s)
    (ha : s.active_request = some i) (hne : s.current_track ≠ trackOf s.all_requests i) :
    Within A T (moveHead s i) ∧ mu A T (moveHead s i) < mu A T s := by
  obtain ⟨h1, h2⟩ := trackOf_bounds A T s hW i
  have h3 := hW.track_lo
  have h4 := hW.track_hi
  have hact : (moveHead s i).active_request = some i := ha
  have hall : (moveHead s i).all_requests = s.all_requests := rfl
  have htime : (moveHead s i).current_time = s.current_time + 1 := rfl
  have hnr : (moveHead s i).next_req = s.next_req := rfl
  have hsch : (moveHead s i).scheduler = s.scheduler := rfl
  have htrk : (moveHead s i).current_track =
      s.current_track + (if trackOf s.all_requests i > s.current_track then 1 else -1) := rfl
  constructor
  · refine ⟨?_, ?_, ?_, ?_, ?_⟩
    · rw [htrk]; split <;> omega
    · rw [htrk]; split <;> omega
    · intro r hr; rw [hall] at hr; exact hW.tracks r hr
    · intro r hr; rw [hall] at hr; exact hW.arrive r hr
    · intro hk; rw [hsch] at hk; exact hW.flook hk
  · unfold mu
    rw [actWork_some _ i hact, actWork_some s i ha, hall, htime, hnr, hsch, htrk]
    generalize (s.all_requests.length - s.next_req + (members s.scheduler).length) * (T + 1) = Y
    split <;> omega

/-- One iteration of the loop of `simulation` within the bounds: it ends the
loop, with an idle disk, an empty scheduler and every request handed over, or
it keeps the bounds and decreases the measure. -/
theorem iteration_progress (A T : Nat) (s : Sim) (hW : Within A T s) :
    ((iteration s).1 = true ∧ (iteration s).2.active_request = none ∧
      isEmpty (iteration s).2.scheduler = true ∧
      (iteration s).2.next_req ≥ (iteration s).2.all_requests.length) ∨
    ((iteration s).1 = false ∧ Within A T (iteration s).2 ∧
      mu A T (iteration s).2 < mu A T s) := by
  obtain ⟨hW2, hmu2, hidle⟩ := issue_arrivals_progress A T s hW
  unfold iteration
  simp only
  generalize issue (arrivals (s.all_requests.length - s.next_req) s) = s2 at *
  split
  · rename_i i hi
    right
    split
    · rename_i ht
      obtain ⟨f1, f2, f3, f4, f5, f6⟩ := finishRequest_progress s2 i
      refine ⟨rfl, hW2.of_keys f1 f4 (by rw [f5]), ?_⟩
      have h := mu_of_eq A T s2 (finishRequest s2 i) f1 f2 f3 (by rw [f5])
      rw [actWork_some s2 i hi, actWork_none _ f6] at h
      show mu A T (finishRequest s2 i) < mu A T s
      omega
    · rename_i ht
      obtain ⟨m1, m2⟩ := moveHead_progress A T s2 i hW2 hi ht
      exact ⟨rfl, m1, lt_of_lt_of_le m2 hmu2⟩
  · rename_i hi
    split
    · rename_i hc
      left
      exact ⟨rfl, hi, hc.2, hc.1⟩
    · rename_i hc
      right
      have hlt := hidle hi hc
      refine ⟨rfl, hW2.of_keys rfl rfl rfl, ?_⟩
      have h : mu A T { s2 with current_time := s2.current_time + 1 } < mu A T s2 := by
        unfold mu
        have e1 : actWork { s2 with current_time := s2.current_time + 1 } = actWork s2 := rfl
        rw [e1]
        show A - (s2.current_time + 1) + _ + _ < _
        generalize (s2.all_requests.length - s2.next_req +
          (members s2.scheduler).length) * (T + 1) = Y
        omega
      exact lt_of_lt_of_le h hmu2

/-- Within the bounds the loop of `simulation` ends after at most `mu`
iterations, with an idle disk, an empty scheduler and every request handed
over. -/
theorem loop_terminates (A T : Nat) (n : Nat) : ∀ (s : Sim), Within A T s → mu A T s < n →
    ∃ t, loop n s = some t ∧ t.active_request = none ∧ isEmpty t.scheduler = true ∧
      t.next_req ≥ t.all_requests.length := by
  induction n with
  | zero => intro s _ h; omega
  | succ n ih =>
    intro s hW hmu
    unfold loop
    rcases iteration_progress A T s hW with ⟨h1, h2, h3, h4⟩ | ⟨h1, h2, h3⟩
    · cases hit : iteration s with
      | mk b s1 =>
        rw [hit] at h1 h2 h3 h4
        simp only at h1
        subst h1
        exact ⟨s1, rfl, h2, h3, h4⟩
    · cases hit : iteration s with
      | mk b s1 =>
        rw [hit] at h1 h2 h3
        simp only at h1 h2 h3
        subst h1
        exact ih s1 h2 (by omega)

theorem le_maxOf (f : Nat × Nat → Nat) (lines : List (Nat × Nat)) (x : Nat × Nat)
    (hx : x ∈ lines) : f x ≤ maxOf f lines := by
  induction lines with
  | nil => cases hx
  | cons y rest ih =>
    simp only [maxOf, List.foldr_cons]
    rcases List.mem_cons.mp hx with h | h
    · rw [h]; exact le_max_left _ _
    · exact le_trans (ih h) (le_max_right _ _)

theorem maxOf_lt (f : Nat × Nat → Nat) (lines : List (Nat × Nat)) (b : Nat) (hb : 0 < b)
    (h : ∀ x, x ∈ lines → f x < b) : maxOf f lines < b := by
  induction lines with
  | nil => exact hb
  | cons y rest ih =>
    simp only [maxOf, List.foldr_cons]
    exact max_lt (h y (List.mem_cons_self _ _))
      (ih (fun x hx => h x (List.mem_cons_of_mem _ hx)))

theorem parseInputFile_some (lines : List (Nat × Nat)) (hne : lines ≠ [])
    (ht : ∀ x, x ∈ lines → (x.2 : Int) ≤ INT_MAX) :
    ∃ reqs, parseInputFile lines = some reqs ∧ reqs.length = lines.length ∧
      ∀ r, r ∈ reqs → ∃ x, x ∈ lines ∧ r.arrival_time = x.1 ∧ r.track = x.2 := by
  have h1 : lines.any (fun x => decide ((x.2 : Int) > INT_MAX)) = false := by
    rw [List.any_eq_false]
    intro x hx
    have := ht x hx
    simp only [decide_eq_true_eq]
    omega
  have h2 : lines.isEmpty = false := by
    cases lines with
    | nil => exact absurd rfl hne
    | cons a l => rfl
  refine ⟨_, by unfold parseInputFile; simp only [h1, h2, Bool.false_eq_true, if_false]; rfl,
    by simp, ?_⟩
  intro r hr
  obtain ⟨p, hp, hpr⟩ := List.mem_map.mp hr
  obtain ⟨i, x⟩ := p
  have hx : x ∈ lines := by
    have := List.mk_mem_enum_iff_getElem?.mp hp
    exact List.getElem?_mem this
  refine ⟨x, hx, ?_, ?_⟩
  · rw [← hpr]
  · rw [← hpr]

/-- Within the input format every run of `simulation` ends, except possibly
under FLOOK when a request asks for track `INT_MAX`: for every policy and every
non-empty input with tracks up to `INT_MAX` (below `INT_MAX` under FLOOK) some
number of iterations reaches the `break`; then there is no active request, the
scheduler is empty, every request has been handed over, and every request has
its start and end times recorded (`arrival <= start <= end`). -/
theorem simulation_terminates (k : SchedKind) (lines : List (Nat × Nat)) (hne : lines ≠ [])
    (ht : ∀ x, x ∈ lines → (x.2 : Int) ≤ INT_MAX)
    (hf : k = SchedKind.FLOOK → ∀ x, x ∈ lines → (x.2 : Int) < INT_MAX) :
    ∃ fuel s, simulation k lines fuel = some s ∧ s.active_request = none ∧
      isEmpty s.scheduler = true ∧ s.next_req ≥ s.all_requests.length ∧
      s.all_requests.length = lines.length ∧ ∀ r, r ∈ s.all_requests → ReqOK r := by
  obtain ⟨reqs, hp, hlen, hmem⟩ := parseInputFile_some lines hne ht
  have hperm : (sortByArrival reqs).Perm reqs := List.perm_insertionSort _ _
  have hW : Within (maxOf Prod.fst lines) (maxOf Prod.snd lines)
      (Sim.new k (sortByArrival reqs)) := by
    refine ⟨le_refl _, ?_, ?_, ?_, ?_⟩
    · show (0 : Int) ≤ _
      exact Int.ofNat_nonneg _
    · intro r hr
      obtain ⟨x, hx, _, e2⟩ := hmem r (hperm.mem_iff.mp hr)
      rw [e2]; exact le_maxOf Prod.snd lines x hx
    · intro r hr
      obtain ⟨x, hx, e1, _⟩ := hmem r (hperm.mem_iff.mp hr)
      rw [e1]; exact le_maxOf Prod.fst lines x hx
    · intro hk
      have hk2 : k = SchedKind.FLOOK := hk
      have := maxOf_lt Prod.snd lines 2147483647 (by decide) (by
        intro x hx
        have := hf hk2 x hx
        unfold INT_MAX at this
        omega)
      unfold INT_MAX
      omega
  obtain ⟨t, ht1, ht2, ht3, ht4⟩ := loop_terminates _ _ _ _ hW (Nat.lt_succ_self _)
  have hsim : simulation k lines
      (mu (maxOf Prod.fst lines) (maxOf Prod.snd lines) (Sim.new k (sortByArrival reqs)) + 1) =
      some t := by
    unfold simulation
    rw [hp]
    exact ht1
  obtain ⟨hk1, hk2⟩ := loop_spec _ _ t (inv_new k (sortByArrival reqs)) ht1
  refine ⟨_, t, hsim, ht2, ht3, ht4, ?_, hk2⟩
  have e1 : t.all_requests.length = (sortByArrival reqs).length := length_of_keys _ _ hk1
  rw [e1, hperm.length_eq, hlen]

theorem simulation_terminates_witness :
    [(0, 20), (1, 5), (2, 15)] ≠ ([] : List (Nat × Nat)) ∧
    ∃ fuel s, simulation SchedKind.FLOOK [(0, 20), (1, 5), (2, 15)] fuel = some s ∧
      s.active_request = none ∧ isEmpty s.scheduler = true ∧
      s.next_req ≥ s.all_requests.length ∧
      s.all_requests.length = [(0, 20), (1, 5), (2, 15)].length ∧
      ∀ r, r ∈ s.all_requests → ReqOK r :=
  ⟨by decide, simulation_terminates SchedKind.FLOOK [(0, 20), (1, 5), (2, 15)] (by decide)
    (by decide) (by decide)⟩

/-- C31 (amended): under CLOOK, with the head starting at track 0 and the
requests (arrival 0, track 10), (arrival 0, track 30), (arrival 0, track 5),
the loop ends, the requests are finished in the order track 5 (at time 5),
track 10 (at time 10), track 30 (at time 30), and `total_movement` at the end
is 30: all three requests are queued at time 0 and CLOOK takes the lowest track
at or above the head.  The same holds for each of the six orders of the three
requests (they have the same arrival time, so `std::sort` may leave them in any
order). -/
theorem clook_scenario_serves_5_10_30 :
    ∃ s, simulation SchedKind.CLOOK [(0, 10), (0, 30), (0, 5)] 60 = some s ∧
      s.all_requests.map (fun r => (r.track, r.start_time, r.end_time)) =
        [(10, 5, 10), (30, 10, 30), (5, 0, 5)] ∧
      finishOrder s = [5, 10, 30] ∧ s.total_movement = 30 ∧
      (∀ fuel s2, simulation SchedKind.CLOOK [(0, 10), (0, 30), (0, 5)] fuel = some s2 →
        finishOrder s2 = [5, 10, 30] ∧ s2.total_movement = 30) ∧
      ∀ l, l ∈ linesC →
        (simulation SchedKind.CLOOK l 60).map (fun t => (finishOrder t, t.total_movement)) =
          some ([5, 10, 30], 30) := by
  have h2 : (simulation SchedKind.CLOOK [(0, 10), (0, 30), (0, 5)] 60).map
      (fun s => (s.all_requests.map (fun r => (r.track, r.start_time, r.end_time)),
        finishOrder s, s.total_movement)) =
      some ([(10, 5, 10), (30, 10, 30), (5, 0, 5)], [5, 10, 30], 30) := by
    decide
  cases hs : simulation SchedKind.CLOOK [(0, 10), (0, 30), (0, 5)] 60 with
  | none => rw [hs] at h2; cases h2
  | some s =>
    rw [hs] at h2
    simp only [Option.map_some', Option.some.injEq, Prod.mk.injEq] at h2
    refine ⟨s, rfl, h2.1, h2.2.1, h2.2.2, ?_, by decide⟩
    intro fuel s2 hs2
    have : s2 = s := loop_det fuel 60 _ s2 s hs2 hs
    rw [this]
    exact h2.2

/-- C31 (counterexample to the order and the movement of the claim): in that
run the order is not 10, 30, 5 and `total_movement` is not 50. -/
theorem clook_scenario_not_10_30_5 :
    ∃ s, simulation SchedKind.CLOOK [(0, 10), (0, 30), (0, 5)] 60 = some s ∧
      finishOrder s ≠ [10, 30, 5] ∧ s.total_movement ≠ 50 := by
  have h2 : (simulation SchedKind.CLOOK [(0, 10), (0, 30), (0, 5)] 60).map
      (fun s => (finishOrder s, s.total_movement)) = some ([5, 10, 30], 30) := by
    decide
  cases hs : simulation SchedKind.CLOOK [(0, 10), (0, 30), (0, 5)] 60 with
  | none => rw [hs] at h2; cases h2
  | some s =>
    rw [hs] at h2
    simp only [Option.map_some', Option.some.injEq, Prod.mk.injEq] at h2
    refine ⟨s, rfl, ?_, ?_⟩
    · rw [h2.1]; decide
    · rw [h2.2]; decide

theorem takeAt_perm (q : List Nat) (pos : Nat) :
    (∀ i, (takeAt q pos).1 = some i → q.Perm (i :: (takeAt q pos).2)) ∧
    ((takeAt q pos).1 = none → (takeAt q pos).2 = q) := by
  unfold takeAt
  induction q generalizing pos with
  | nil =>
    refine ⟨?_, ?_⟩
    · intro i hi; simp at hi
    · intro _; rfl
  | cons x rest ih =>
    cases pos with
    | zero =>
      refine ⟨?_, ?_⟩
      · intro i hi
        simp only [List.getElem?_cons_zero, Option.some.injEq] at hi
        rw [← hi]
        exact List.Perm.refl _
      · intro h; simp at h
    | succ k =>
      obtain ⟨h1, h2⟩ := ih k
      refine ⟨?_, ?_⟩
      · intro i hi
        simp only [List.getElem?_cons_succ] at hi
        simp only [List.eraseIdx_cons_succ]
        exact ((h1 i hi).cons x).trans (List.Perm.swap i x _)
      · intro h
        simp only [List.getElem?_cons_succ] at h
        simp only [List.eraseIdx_cons_succ]
        have e : rest.eraseIdx k = rest := h2 h
        rw [e]

theorem nextPerm_of_takeAt (sch : Scheduler) (pos : Nat) (d : Bool)
    (hk : sch.kind ≠ SchedKind.FLOOK) :
    NextPerm sch ((takeAt sch.queue pos).1,
      { sch with queue := (takeAt sch.queue pos).2, direction := d }) := by
  obtain ⟨h1, h2⟩ := takeAt_perm sch.queue pos
  have hm : members sch = sch.queue := by
    unfold members; cases hk' : sch.kind <;> simp_all
  have hm' : members { sch with queue := (takeAt sch.queue pos).2, direction := d } =
      (takeAt sch.queue pos).2 := by
    unfold members; cases hk' : sch.kind <;> simp_all
  refine ⟨?_, ?_⟩
  · rw [hm, hm']; exact h1
  · intro h
    rw [hm, hm', h2 h]

theorem nextPerm_none (sch : Scheduler) (d : Bool) :
    NextPerm sch (none, { sch with direction := d }) := by
  have hm : members { sch with direction := d } = members sch := by
    unfold members; cases hk' : sch.kind <;> simp_all
  refine ⟨?_, ?_⟩
  · intro i hi; cases hi
  · intro _; rw [hm]

theorem FIFO_nextPerm (sch : Scheduler) (hk : sch.kind = SchedKind.FIFO) :
    NextPerm sch (FIFO_getNextRequest sch) := by
  unfold FIFO_getNextRequest
  cases hq : sch.queue with
  | nil => exact nextPerm_none sch sch.direction
  | cons i rest =>
    have := nextPerm_of_takeAt sch 0 sch.direction (by rw [hk]; decide)
    simp only [takeAt, hq, List.getElem?_cons_zero, List.eraseIdx_cons_zero] at this
    exact this

theorem SSTF_nextPerm (reqs : List IORequest) (cur : Int) (sch : Scheduler)
    (hk : sch.kind = SchedKind.SSTF) : NextPerm sch (SSTF_getNextRequest reqs cur sch) := by
  unfold SSTF_getNextRequest
  cases hq : sch.queue with
  | nil => exact nextPerm_none sch sch.direction
  | cons i rest =>
    simp only
    rw [← hq]
    exact nextPerm_of_takeAt sch _ sch.direction (by rw [hk]; decide)

theorem CLOOK_nextPerm (reqs : List IORequest) (cur : Int) (sch : Scheduler)
    (hk : sch.kind = SchedKind.CLOOK) : NextPerm sch (CLOOK_getNextRequest reqs cur sch) := by
  unfold CLOOK_getNextRequest
  cases hq : sch.queue with
  | nil => exact nextPerm_none sch sch.direction
  | cons i rest =>
    simp only
    rw [← hq]
    exact nextPerm_of_takeAt sch _ sch.direction (by rw [hk]; decide)

theorem LOOK_nextPerm (reqs : List IORequest) (cur : Int) (sch : Scheduler)
    (hk : sch.kind = SchedKind.LOOK) : NextPerm sch (LOOK_getNextRequest reqs cur sch) := by
  unfold LOOK_getNextRequest
  split
  · exact nextPerm_none sch sch.direction
  · simp only
    cases hf : List.findIdx? (fun r => inDirection sch.direction cur (trackOf reqs r)) sch.queue with
    | some n =>
      simp only
      exact nextPerm_of_takeAt sch _ sch.direction (by rw [hk]; decide)
    | none =>
      simp only
      cases hf2 : List.findIdx? (fun r => inDirection (!sch.direction) cur (trackOf reqs r))
          sch.queue with
      | some n =>
        simp only
        exact nextPerm_of_takeAt sch _ (!sch.direction) (by rw [hk]; decide)
      | none =>
        simp only
        exact nextPerm_none sch (!sch.direction)

theorem nextPerm_flook_none (sch : Scheduler) (hk : sch.kind = SchedKind.FLOOK) (a b : List Nat)
    (d : Bool) (hab : (members sch).Perm (a ++ b)) :
    NextPerm sch (none, { sch with active_queue := a, add_queue := b, direction := d }) := by
  refine ⟨?_, ?_⟩
  · intro i hi; cases hi
  · intro _
    unfold members at hab ⊢
    simp only [hk] at hab ⊢
    exact hab

theorem nextPerm_flook_some (sch : Scheduler) (hk : sch.kind = SchedKind.FLOOK) (a b : List Nat)
    (d : Bool) (hab : (members sch).Perm (a ++ b)) (n : Nat) :
    NextPerm sch ((takeAt a n).1,
      { sch with active_queue := (takeAt a n).2, add_queue := b, direction := d }) := by
  obtain ⟨h1, h2⟩ := takeAt_perm a n
  have hm : members { sch with active_queue := (takeAt a n).2, add_queue := b, direction := d } =
      (takeAt a n).2 ++ b := by
    unfold members; simp only [hk]
  refine ⟨?_, ?_⟩
  · intro i hi
    rw [hm]
    exact hab.trans ((h1 i hi).append_right b)
  · intro h
    rw [hm, h2 h]
    exact hab

theorem FLOOK_nextPerm (reqs : List IORequest) (cur : Int) (sch : Scheduler)
    (hk : sch.kind = SchedKind.FLOOK) : NextPerm sch (FLOOK_getNextRequest reqs cur sch) := by
  have hm : members sch = sch.active_queue ++ sch.add_queue := by
    unfold members; simp only [hk]
  unfold FLOOK_getNextRequest
  split
  · exact nextPerm_none sch sch.direction
  · by_cases he : sch.active_queue.isEmpty = true
    · have ha : sch.active_queue = [] := List.isEmpty_iff.mp he
      have hab : (members sch).Perm (sch.add_queue ++ sch.active_queue) := by
        rw [hm, ha]; simp
      simp only [he, if_true]
      cases hf : flook_scan sch.direction cur (trackOf reqs) sch.add_queue 0 none INT_MAX with
      | some n =>
        simp only
        exact nextPerm_flook_some sch hk _ _ sch.direction hab n
      | none =>
        simp only
        cases hf2 : flook_scan (!sch.direction) cur (trackOf reqs) sch.add_queue 0 none
            INT_MAX with
        | some n =>
          simp only
          exact nextPerm_flook_some sch hk _ _ (!sch.direction) hab n
        | none =>
          simp only
          exact nextPerm_flook_none sch hk _ _ (!sch.direction) hab
    · have hab : (members sch).Perm (sch.active_queue ++ sch.add_queue) := by
        rw [hm]
      have he' : sch.active_queue.isEmpty = false := by simpa using he
      simp only [he', Bool.false_eq_true, if_false]
      cases hf : flook_scan sch.direction cur (trackOf reqs) sch.active_queue 0 none INT_MAX with
      | some n =>
        simp only
        exact nextPerm_flook_some sch hk _ _ sch.direction hab n
      | none =>
        simp only
        cases hf2 : flook_scan (!sch.direction) cur (trackOf reqs) sch.active_queue 0 none
            INT_MAX with
        | some n =>
          simp only
          exact nextPerm_flook_some sch hk _ _ (!sch.direction) hab n
        | none =>
          simp only
          exact nextPerm_flook_none sch hk _ _ (!sch.direction) hab

theorem getNextRequest_nextPerm (reqs : List IORequest) (cur : Int) (sch : Scheduler) :
    NextPerm sch (getNextRequest reqs cur sch) := by
  unfold getNextRequest
  cases hk : sch.kind with
  | FIFO => exact FIFO_nextPerm sch hk
  | SSTF => exact SSTF_nextPerm reqs cur sch hk
  | LOOK => exact LOOK_nextPerm reqs cur sch hk
  | CLOOK => exact CLOOK_nextPerm reqs cur sch hk
  | FLOOK => exact FLOOK_nextPerm reqs cur sch hk

theorem sum_range_congr (n : Nat) (f g : Nat → Nat) (h : ∀ i, i < n → f i = g i) :
    ((List.range n).map f).sum = ((List.range n).map g).sum := by
  congr 1
  apply List.map_congr_left
  intro i hi
  exact h i (List.mem_range.mp hi)

theorem sum_range_bump (n : Nat) (f g : Nat → Nat) (p : Nat) (hp : p < n)
    (h1 : g p = f p + 1) (h2 : ∀ i, i < n → i ≠ p → g i = f i) :
    ((List.range n).map g).sum = ((List.range n).map f).sum + 1 := by
  induction n with
  | zero => omega
  | succ n ih =>
    rw [List.range_succ, List.map_append, List.map_append, List.sum_append, List.sum_append]
    simp only [List.map_cons, List.map_nil, List.sum_cons, List.sum_nil, Nat.add_zero]
    by_cases hpn : p = n
    · subst hpn
      rw [sum_range_congr p g f (fun i hi => h2 i (by omega) (by omega)), h1]
      omega
    · rw [ih (by omega) (fun i hi hne => h2 i (by omega) hne), h2 n (by omega) (fun e => hpn e.symm)]
      omega

theorem sum_range_zero (n : Nat) (f : Nat → Nat) (h : ∀ i, i < n → f i = 0) :
    ((List.range n).map f).sum = 0 := by
  induction n with
  | zero => rfl
  | succ n ih =>
    rw [List.range_succ, List.map_append, List.sum_append, ih (fun i hi => h i (by omega))]
    simp only [List.map_cons, List.map_nil, List.sum_cons, List.sum_nil]
    rw [h n (by omega)]
    rfl

theorem sum_range_getElem (l : List IORequest) (f : IORequest → Nat) :
    ((List.range l.length).map (fun i =>
      match l[i]? with
      | none => 0
      | some r => f r)).sum = (l.map f).sum := by
  induction l using List.reverseRecOn with
  | nil => rfl
  | append_singleton l x ih =>
    rw [List.length_append, List.length_singleton, List.range_succ, List.map_append,
      List.map_append, List.sum_append, List.sum_append]
    have e1 : ((List.range l.length).map (fun i =>
        match (l ++ [x])[i]? with
        | none => 0
        | some r => f r)).sum = ((List.range l.length).map (fun i =>
        match l[i]? with
        | none => 0
        | some r => f r)).sum := by
      apply sum_range_congr
      intro i hi
      rw [List.getElem?_append_left hi]
    rw [e1, ih]
    simp

theorem members_addRequest_eq (sch : Scheduler) (i : Nat) :
    members (addRequest sch i) = members sch ++ [i] := by
  unfold members addRequest
  cases hk : sch.kind <;> simp [hk]

theorem busy_new (k : SchedKind) (reqs : List IORequest) : Busy (Sim.new k reqs) := by
  have hm : members (Sim.new k reqs).scheduler = [] := by
    unfold members Sim.new Scheduler.new; cases k <;> rfl
  refine ⟨rfl, Nat.le_refl _, ?_, ?_, ?_, Nat.zero_le _, ?_⟩
  · rw [hm]; exact List.nodup_nil
  · intro i hi; rw [hm] at hi; cases hi
  · intro i hi; cases hi
  · symm
    apply sum_range_zero
    intro i _
    unfold moved
    exact if_pos (Or.inl (Nat.zero_le i))

theorem arrivals_busy (n : Nat) (s : Sim) (h : Busy s) : Busy (arrivals n s) := by
  induction n generalizing s with
  | zero => exact h
  | succ n ih =>
    unfold arrivals
    cases hr : s.all_requests[s.next_req]? with
    | none => exact h
    | some r =>
      simp only
      split
      · apply ih
        have hlt : s.next_req < s.all_requests.length := (List.getElem?_eq_some_iff.mp hr).1
        have hnot : s.next_req ∉ members s.scheduler := fun hm => by
          have := h.held _ hm
          omega
        refine ⟨h.busy, h.le, ?_, ?_, ?_, hlt, ?_⟩
        · show (members (addRequest s.scheduler s.next_req)).Nodup
          rw [members_addRequest_eq]
          exact List.Nodup.append h.nodup (List.nodup_singleton _) (by
            intro a ha hb
            rw [List.mem_singleton] at hb
            rw [hb] at ha
            exact hnot ha)
        · intro i hi
          have hi2 : i ∈ members (addRequest s.scheduler s.next_req) := hi
          show i < s.next_req + 1
          rcases (members_addRequest _ _ _).mp hi2 with h1 | h1
          · have := h.held i h1; omega
          · omega
        · intro i hi
          obtain ⟨a1, a2⟩ := h.act i hi
          refine ⟨Nat.lt_succ_of_lt a1, ?_⟩
          intro hm
          have hm2 : i ∈ members (addRequest s.scheduler s.next_req) := hm
          rcases (members_addRequest _ _ _).mp hm2 with h1 | h1
          · exact a2 h1
          · omega
        · show s.total_movement = _
          rw [h.sum]
          apply sum_range_congr
          intro i _
          unfold moved
          show _ = if s.next_req + 1 ≤ i ∨ i ∈ members (addRequest s.scheduler s.next_req) then 0
            else _
          by_cases hi : s.next_req ≤ i
          · rw [if_pos (Or.inl hi)]
            by_cases hi2 : i = s.next_req
            · rw [if_pos (Or.inr ((members_addRequest _ _ _).mpr (Or.inr hi2)))]
            · rw [if_pos (Or.inl (by omega))]
          · by_cases hm : i ∈ members s.scheduler
            · rw [if_pos (Or.inr hm), if_pos (Or.inr ((members_addRequest _ _ _).mpr (Or.inl hm)))]
            · have hn : ¬ (s.next_req + 1 ≤ i ∨ i ∈ members (addRequest s.scheduler s.next_req)) := by
                rintro (h1 | h1)
                · omega
                · rcases (members_addRequest _ _ _).mp h1 with h2 | h2
                  · exact hm h2
                  · omega
              rw [if_neg (by rintro (h1 | h1); exact hi h1; exact hm h1), if_neg hn]
      · exact h

theorem issue_busy (s : Sim) (h : Busy s) : Busy (issue s) := by
  unfold issue
  cases ha : s.active_request with
  | some a => simpa using h
  | none =>
    simp only
    obtain ⟨p1, p2⟩ := getNextRequest_nextPerm s.all_requests s.current_track s.scheduler
    cases hres : (getNextRequest s.all_requests s.current_track s.scheduler).1 with
    | none =>
      simp only
      have hp := p2 hres
      refine ⟨h.busy, h.le, hp.nodup_iff.mp h.nodup, ?_, ?_, h.next_le, ?_⟩
      · intro i hi
        exact h.held i (hp.mem_iff.mpr hi)
      · intro i hi; cases hi
      · show s.total_movement = _
        rw [h.sum]
        apply sum_range_congr
        intro i _
        unfold moved
        simp only [hp.mem_iff, ha]
    | some a =>
      simp only [Sim.modifyRequest]
      have hp := p1 a hres
      have hnd : (a :: members (getNextRequest s.all_requests s.current_track s.scheduler).2).Nodup :=
        hp.nodup_iff.mp h.nodup
      have ha_mem : a ∈ members s.scheduler := hp.mem_iff.mpr (List.mem_cons_self _ _)
      have ha_not : a ∉ members (getNextRequest s.all_requests s.current_track s.scheduler).2 :=
        (List.nodup_cons.mp hnd).1
      refine ⟨h.busy, h.le, (List.nodup_cons.mp hnd).2, ?_, ?_, ?_, ?_⟩
      · intro i hi
        exact h.held i (hp.mem_iff.mpr (List.mem_cons_of_mem _ hi))
      · intro i hi
        have hia : a = i := Option.some.inj hi
        rw [← hia]
        exact ⟨h.held a ha_mem, ha_not⟩
      · show s.next_req ≤ (updateAt _ s.all_requests a).length
        rw [length_updateAt]; exact h.next_le
      · show s.total_movement = ((List.range (updateAt _ s.all_requests a).length).map _).sum
        rw [length_updateAt, h.sum]
        apply sum_range_congr
        intro i _
        unfold moved
        simp only [ha]
        show _ = if s.next_req ≤ i ∨
            i ∈ members (getNextRequest s.all_requests s.current_track s.scheduler).2 then 0
          else
            match (updateAt _ s.all_requests a)[i]? with
            | none => 0
            | some r => if some a = some i then s.current_time - r.start_time
              else r.end_time - r.start_time
        by_cases hia : i = a
        · subst hia
          rw [if_pos (Or.inr ha_mem)]
          have hlt := h.held i ha_mem
          rw [if_neg (by rintro (h1 | h1); omega; exact ha_not h1), getElem?_updateAt, if_pos rfl]
          cases hq : s.all_requests[i]? with
          | none => rfl
          | some q =>
            simp only [Option.map_some', if_true]
            exact (Nat.sub_eq_zero_of_le (le_max_left _ _)).symm
        · have hmem : i ∈ members (getNextRequest s.all_requests s.current_track s.scheduler).2 ↔
              i ∈ members s.scheduler := by
            rw [hp.mem_iff, List.mem_cons]
            constructor
            · intro h1; exact Or.inr h1
            · rintro (h1 | h1)
              · exact absurd h1 hia
              · exact h1
          rw [getElem?_updateAt, if_neg hia]
          simp only [hmem]
          have e1 : (some a = some i) = False := by
            simp only [Option.some.injEq, eq_iff_iff, iff_false]
            exact fun e => hia e.symm
          have e2 : ((none : Option Nat) = some i) = False := by simp
          simp only [e1, e2, if_false]

theorem finishRequest_busy (s : Sim) (i : Nat) (h : Busy s) (ha : s.active_request = some i) :
    Busy (finishRequest s i) := by
  obtain ⟨a1, a2⟩ := h.act i ha
  have key : ∀ s1 : Sim, s1.scheduler = s.scheduler → s1.current_time = s.current_time →
      s1.next_req = s.next_req → s1.active_request = none →
      s1.total_movement = s.total_movement → s1.io_busy_time = s.io_busy_time →
      s1.all_requests = updateAt (fun q => { q with end_time := s.current_time })
        s.all_requests i → Busy s1 := by
    intro s1 e1 e2 e3 e4 e5 e6 e7
    refine ⟨by rw [e5, e6]; exact h.busy, by rw [e6, e2]; exact h.le, by rw [e1]; exact h.nodup,
      by rw [e1, e3]; exact h.held, ?_, ?_, ?_⟩
    · intro j hj; rw [e4] at hj; cases hj
    · rw [e3, e7, length_updateAt]; exact h.next_le
    · rw [e5, e7, length_updateAt, h.sum]
      apply sum_range_congr
      intro j _
      unfold moved
      rw [e1, e3, e4, e7, getElem?_updateAt, ha]
      by_cases hc : s.next_req ≤ j ∨ j ∈ members s.scheduler
      · rw [if_pos hc, if_pos hc]
      · rw [if_neg hc, if_neg hc]
        by_cases hji : j = i
        · subst hji
          rw [if_pos rfl]
          cases hq : s.all_requests[j]? with
          | none => rfl
          | some q => simp
        · rw [if_neg hji]
          cases hq : s.all_requests[j]? with
          | none => rfl
          | some q =>
            have e1 : (some i = some j) = False := by
              simp only [Option.some.injEq, eq_iff_iff, iff_false]
              exact fun e => hji e.symm
            simp [e1]
  unfold finishRequest
  simp only [Sim.modifyRequest]
  split
  · exact key _ rfl rfl rfl rfl rfl rfl rfl
  · exact key _ rfl rfl rfl rfl rfl rfl rfl

theorem moveHead_busy (s : Sim) (i : Nat) (hi : Inv s) (h : Busy s)
    (ha : s.active_request = some i) : Busy (moveHead s i) := by
  obtain ⟨a1, a2⟩ := h.act i ha
  have hlt : i < s.all_requests.length := by
    have := h.next_le
    omega
  unfold moveHead
  refine ⟨?_, ?_, h.nodup, h.held, h.act, h.next_le, ?_⟩
  · show s.total_movement + 1 = s.io_busy_time + 1
    rw [h.busy]
  · show s.io_busy_time + 1 ≤ s.current_time + 1
    have := h.le
    omega
  · show s.total_movement + 1 = ((List.range s.all_requests.length).map _).sum
    rw [h.sum]
    symm
    apply sum_range_bump _ _ _ i hlt
    · unfold moved
      simp only [ha]
      rw [if_neg (by rintro (h1 | h1); omega; exact a2 h1),
        if_neg (by rintro (h1 | h1); omega; exact a2 h1)]
      cases hq : s.all_requests[i]? with
      | none =>
        have := (List.getElem?_eq_none_iff.mp hq)
        omega
      | some q =>
        simp only [if_true]
        have := (hi.act i q ha hq).2.1
        omega
    · intro j _ hji
      unfold moved
      simp only [ha]
      have e1 : (some i = some j) = False := by
        simp only [Option.some.injEq, eq_iff_iff, iff_false]
        exact fun e => hji e.symm
      simp only [e1, if_false]

theorem idle_busy (s : Sim) (h : Busy s) (ha : s.active_request = none) :
    Busy { s with current_time := s.current_time + 1 } := by
  refine ⟨h.busy, Nat.le_succ_of_le h.le, h.nodup, h.held, h.act, h.next_le, ?_⟩
  show s.total_movement = _
  rw [h.sum]
  apply sum_range_congr
  intro j _
  unfold moved
  simp only [ha]
  have e2 : ((none : Option Nat) = some j) = False := by simp
  simp only [e2, if_false]

theorem iteration_busy (s : Sim) (hi : Inv s) (h : Busy s) : Busy (iteration s).2 := by
  unfold iteration
  have i1 := (arrivals_spec (s.all_requests.length - s.next_req) s hi).1
  have i2 := issue_inv _ i1
  have b1 := arrivals_busy (s.all_requests.length - s.next_req) s h
  have b2 := issue_busy _ b1
  simp only
  split
  · rename_i i ha
    split
    · exact finishRequest_busy _ i b2 ha
    · exact moveHead_busy _ i i2 b2 ha
  · rename_i ha
    split
    · exact b2
    · exact idle_busy _ b2 ha

theorem iteration_break_idle (s : Sim) (hb : (iteration s).1 = true) :
    (iteration s).2.active_request = none ∧
    (iteration s).2.next_req ≥ (iteration s).2.all_requests.length ∧
    isEmpty (iteration s).2.scheduler = true := by
  revert hb
  unfold iteration
  simp only
  split
  · split <;> intro hb <;> cases hb
  · rename_i ha
    split
    · rename_i hc
      intro _
      exact ⟨ha, hc.1, hc.2⟩
    · intro hb; cases hb

theorem loop_busy (fuel : Nat) : ∀ (s t : Sim), Inv s → Busy s → loop fuel s = some t →
    Busy t ∧ t.active_request = none ∧ t.next_req ≥ t.all_requests.length ∧
      isEmpty t.scheduler = true := by
  induction fuel with
  | zero => intro s t _ _ hl; cases hl
  | succ fuel ih =>
    intro s t hi hb hl
    unfold loop at hl
    have i1 := iteration_inv s hi
    have b1 := iteration_busy s hi hb
    cases hit : iteration s with
    | mk flag s1 =>
      rw [hit] at hl i1 b1
      cases flag with
      | true =>
        simp only [Option.some.injEq] at hl
        have hbr := iteration_break_idle s (by rw [hit])
        rw [hit] at hbr
        rw [← hl]
        exact ⟨b1, hbr⟩
      | false =>
        simp only at hl
        exact ih s1 t i1 b1 hl

theorem iterate_busy (n : Nat) (s : Sim) (hi : Inv s) (hb : Busy s) :
    Inv ((fun x => (iteration x).2)^[n] s) ∧ Busy ((fun x => (iteration x).2)^[n] s) := by
  induction n generalizing s with
  | zero => exact ⟨hi, hb⟩
  | succ n ih =>
    rw [Function.iterate_succ_apply]
    exact ih _ (iteration_inv s hi) (iteration_busy s hi hb)

theorem busy_final_sum (t : Sim) (hb : Busy t) (h1 : t.active_request = none)
    (h2 : t.next_req ≥ t.all_requests.length) (h3 : isEmpty t.scheduler = true) :
    t.total_movement = (t.all_requests.map (fun r => r.end_time - r.start_time)).sum := by
  rw [hb.sum, ← sum_range_getElem]
  apply sum_range_congr
  intro i hi
  unfold moved
  rw [members_of_isEmpty _ h3, h1]
  rw [if_neg (by rintro (h | h); omega; cases h)]
  cases hq : t.all_requests[i]? with
  | none => rfl
  | some q => simp

/-- C40: the movement counters of the disk simulator.  After every iteration of
the loop of `simulation` (the state after `n` iterations, for every `n`)
`total_movement = io_busy_time <= current_time`.  When the loop ends,
`total_movement` is the sum over all requests of `end_time - start_time`, and
the I/O utilisation `io_busy_time / current_time` of `printSummary` (0 when
`current_time` is 0) is at most 1. -/
theorem movement_equals_busy_time (k : SchedKind) (reqs : List IORequest) (fuel : Nat)
    (s : Sim) (h : simulationFrom k reqs fuel = some s) :
    (∀ n, ((fun x => (iteration x).2)^[n] (Sim.new k reqs)).total_movement =
        ((fun x => (iteration x).2)^[n] (Sim.new k reqs)).io_busy_time ∧
      ((fun x => (iteration x).2)^[n] (Sim.new k reqs)).io_busy_time ≤
        ((fun x => (iteration x).2)^[n] (Sim.new k reqs)).current_time) ∧
    s.total_movement = s.io_busy_time ∧ s.io_busy_time ≤ s.current_time ∧
    s.total_movement = (s.all_requests.map (fun r => r.end_time - r.start_time)).sum ∧
    (∀ r, r ∈ s.all_requests → r.start_time ≤ r.end_time) ∧
    io_utilization s ≤ 1 := by
  obtain ⟨hb, h1, h2, h3⟩ := loop_busy fuel (Sim.new k reqs) s (inv_new k reqs) (busy_new k reqs) h
  refine ⟨?_, hb.busy, hb.le, busy_final_sum s hb h1 h2 h3, ?_, ?_⟩
  · intro n
    have := (iterate_busy n (Sim.new k reqs) (inv_new k reqs) (busy_new k reqs)).2
    exact ⟨this.busy, this.le⟩
  · intro r hr
    exact ((loop_spec fuel (Sim.new k reqs) s (inv_new k reqs) h).2 r hr).2.1
  · unfold io_utilization
    split
    · rename_i hpos
      rw [div_le_one (by exact_mod_cast hpos)]
      exact_mod_cast hb.le
    · exact zero_le_one

theorem movement_equals_busy_time_witness :
    simulationFrom SchedKind.LOOK reqsW 50 = some simW ∧
    simW.total_movement = 35 ∧ simW.current_time = 35 ∧
    ((∀ n, ((fun x => (iteration x).2)^[n] (Sim.new SchedKind.LOOK reqsW)).total_movement =
        ((fun x => (iteration x).2)^[n] (Sim.new SchedKind.LOOK reqsW)).io_busy_time ∧
      ((fun x => (iteration x).2)^[n] (Sim.new SchedKind.LOOK reqsW)).io_busy_time ≤
        ((fun x => (iteration x).2)^[n] (Sim.new SchedKind.LOOK reqsW)).current_time) ∧
    simW.total_movement = simW.io_busy_time ∧ simW.io_busy_time ≤ simW.current_time ∧
    simW.total_movement = (simW.all_requests.map (fun r => r.end_time - r.start_time)).sum ∧
    (∀ r, r ∈ simW.all_requests → r.start_time ≤ r.end_time) ∧
    io_utilization simW ≤ 1) :=
  ⟨simulationFrom_some_of_isSome SchedKind.LOOK reqsW 50 (Sim.new SchedKind.LOOK reqsW)
      (by decide), by decide, by decide,
    movement_equals_busy_time SchedKind.LOOK reqsW 50 simW
      (simulationFrom_some_of_isSome SchedKind.LOOK reqsW 50 (Sim.new SchedKind.LOOK reqsW)
        (by decide))⟩

end Disk

namespace Sched

theorem comparator_iff (a b : Event) : EventComparator a b = true ↔ ¬ Event.Before a b := by
  unfold EventComparator Event.Before
  split
  · rename_i h
    simp only [decide_eq_true_eq, h, lt_self_iff_false, true_and, false_or]
    omega
  · rename_i h
    simp only [decide_eq_true_eq]
    omega

theorem before_total (a b : Event) : Event.Before a b ∨ Event.Before b a := by
  unfold Event.Before; omega

theorem before_trans (a b c : Event) (h1 : Event.Before a b) (h2 : Event.Before b c) :
    Event.Before a c := by
  unfold Event.Before at *; omega

theorem add_event_perm (evt : Event) (q : List Event) :
    (EventQueue.add_event evt q).Perm (evt :: q) := by
  induction q with
  | nil => exact List.Perm.refl _
  | cons e rest ih =>
    unfold EventQueue.add_event
    split
    · exact List.Perm.refl _
    · exact (List.Perm.cons e ih).trans (List.Perm.swap evt e rest)

theorem add_event_sorted (evt : Event) (q : List Event) (h : q.Pairwise Event.Before) :
    (EventQueue.add_event evt q).Pairwise Event.Before := by
  induction q with
  | nil => exact List.pairwise_singleton _ _
  | cons e rest ih =>
    unfold EventQueue.add_event
    have hc := List.pairwise_cons.mp h
    split
    · rename_i hcmp
      have hb : Event.Before evt e := by
        rcases before_total evt e with h1 | h1
        · exact h1
        · exact absurd h1 ((comparator_iff e evt).mp hcmp)
      refine List.pairwise_cons.mpr ⟨?_, h⟩
      intro x hx
      rcases List.mem_cons.mp hx with rfl | hx
      · exact hb
      · exact before_trans _ _ _ hb (hc.1 x hx)
    · rename_i hcmp
      have hb : Event.Before e evt := by
        by_contra hn
        exact hcmp ((comparator_iff e evt).mpr hn)
      refine List.pairwise_cons.mpr ⟨?_, ih hc.2⟩
      intro x hx
      rcases List.mem_cons.mp ((add_event_perm evt rest).subset hx) with rfl | hx
      · exact hb
      · exact hc.1 x hx

theorem add_events_spec (evts q : List Event) (h : q.Pairwise Event.Before) :
    (evts.foldl (fun q e => EventQueue.add_event e q) q).Perm (q ++ evts) ∧
      (evts.foldl (fun q e => EventQueue.add_event e q) q).Pairwise Event.Before := by
  induction evts generalizing q with
  | nil => simpa using h
  | cons e rest ih =>
    obtain ⟨p1, p2⟩ := ih (EventQueue.add_event e q) (add_event_sorted e q h)
    refine ⟨?_, p2⟩
    simp only [List.foldl_cons]
    refine p1.trans ?_
    have := add_event_perm e q
    refine (List.Perm.append_right rest this).trans ?_
    simp only [List.cons_append]
    exact List.perm_middle.symm

theorem drain_all (n : Nat) (q : List Event) (h : q.length ≤ n) : EventQueue.drain n q = q := by
  induction n generalizing q with
  | zero =>
    cases q with
    | nil => rfl
    | cons e rest => simp at h
  | succ n ih =>
    cases q with
    | nil => rfl
    | cons e rest =>
      simp only [EventQueue.drain, EventQueue.get_next_event]
      rw [ih rest (by simpa using h)]

/-- C2 (amended): for every sequence of `add_event` calls, `get_next_event`
returns exactly the events added, in ascending timestamp order, and events of
equal timestamp in ascending order of the pid of their process. -/
theorem event_queue_timestamp_then_pid (evts : List Event) :
    (EventQueue.drain evts.length (EventQueue.add_events evts)).Perm evts ∧
    (EventQueue.drain evts.length (EventQueue.add_events evts)).Pairwise
      (fun a b => a.timestamp < b.timestamp ∨
        (a.timestamp = b.timestamp ∧ a.process ≤ b.process)) := by
  obtain ⟨p1, p2⟩ := add_events_spec evts [] List.Pairwise.nil
  have hl : (EventQueue.add_events evts).length ≤ evts.length := by
    have := p1.length_eq
    simp only [List.nil_append] at this
    exact le_of_eq this
  rw [drain_all _ _ hl]
  exact ⟨by simpa using p1, p2⟩

/-- C2 (counterexample): two events of equal timestamp are not returned in
insertion order when the second has the smaller pid: after `add_event` of
`(5, pid 1)` and then of `(5, pid 0)`, `get_next_event` returns `(5, pid 0)` first. -/
theorem event_queue_equal_timestamps_not_fifo :
    ∃ e1 e2 : Event, e1.timestamp = e2.timestamp ∧ e1 ≠ e2 ∧
      EventQueue.drain 2 (EventQueue.add_events [e1, e2]) = [e2, e1] :=
  ⟨⟨5, 1, Transition.TRANS_TO_READY⟩, ⟨5, 0, Transition.TRANS_TO_READY⟩, by decide, by decide,
    by decide⟩

/-- C1: under PREPRIO two processes are RUNNING at once.  With the scheduler
`E10000`, the processes `0 100 100 10`, `5 100 100 10`, `7 100 100 10` and the
random numbers `0 3 0 19 49 4`, the state after eight iterations of the loop of
`run_simulation` has processes 0 and 1 both in `STATE_RUNNING`. -/
theorem preprio_two_processes_running :
    (iterations 8 desE).map running = some 2 ∧
    (iterations 8 desE).map (fun s => (s.processes.map (fun p => p.state))) =
      some [ProcessState.STATE_RUNNING, ProcessState.STATE_RUNNING, ProcessState.STATE_READY] := by
  decide

theorem procAt_modifyAt (f : Process → Process) (l : List Process) (p q : Nat) :
    procAt (modifyAt f l p) q =
      if q = p ∧ p < l.length then f (procAt l p) else procAt l q := by
  induction l generalizing p q with
  | nil => simp [modifyAt, procAt]
  | cons x rest ih =>
    cases p with
    | zero =>
      cases q with
      | zero => simp [modifyAt, procAt]
      | succ q => simp [modifyAt, procAt]
    | succ p =>
      cases q with
      | zero => simp [modifyAt, procAt]
      | succ q =>
        have := ih p q
        simp only [procAt, List.getD_cons_succ, modifyAt, List.length_cons, Nat.succ.injEq,
          Nat.add_lt_add_iff_right] at this ⊢
        exact this

theorem procAt_default_state (l : List Process) (p : Nat) (h : l.length ≤ p) :
    (procAt l p).state = ProcessState.STATE_CREATED := by
  unfold procAt
  rw [List.getD_eq_default _ _ h]
  rfl

theorem state_modifyAt_same (f : Process → Process) (hf : ∀ x, (f x).state = x.state)
    (l : List Process) (p q : Nat) :
    (procAt (modifyAt f l p) q).state = (procAt l q).state := by
  rw [procAt_modifyAt]
  split
  · rename_i h; rw [hf, h.1]
  · rfl

theorem state_modifyAt_ne (f : Process → Process) (l : List Process) (p q : Nat) (h : q ≠ p) :
    (procAt (modifyAt f l p) q).state = (procAt l q).state := by
  rw [procAt_modifyAt, if_neg (fun hh => h hh.1)]

theorem state_modifyAt_self (f : Process → Process) (l : List Process) (p : Nat)
    (hf : ∀ x, (f x).state ≠ ProcessState.STATE_RUNNING) :
    (procAt (modifyAt f l p) p).state ≠ ProcessState.STATE_RUNNING := by
  rw [procAt_modifyAt]
  split
  · exact hf _
  · rename_i h
    have : l.length ≤ p := by
      by_contra hh; exact h ⟨rfl, by omega⟩
    rw [procAt_default_state l p this]; decide

theorem PrioScheduler_add_process_kind (sch : Scheduler) (l : List Process) (p : Nat) :
    (PrioScheduler_add_process sch l p).1.kind = sch.kind := by
  unfold PrioScheduler_add_process
  split <;> rfl

theorem PrioScheduler_add_process_state (sch : Scheduler) (l : List Process) (p q : Nat) :
    (procAt (PrioScheduler_add_process sch l p).2 q).state = (procAt l q).state := by
  unfold PrioScheduler_add_process
  split
  · exact state_modifyAt_same _ (by intro x; rfl) _ _ _
  · rfl

theorem add_process_kind (sch : Scheduler) (l : List Process) (p : Nat) :
    (add_process sch l p).1.kind = sch.kind := by
  unfold add_process
  cases hk : sch.kind <;> simp only [hk] <;> try rfl
  all_goals rw [PrioScheduler_add_process_kind, hk]

theorem add_process_state (sch : Scheduler) (l : List Process) (p q : Nat) :
    (procAt (add_process sch l p).2 q).state = (procAt l q).state := by
  unfold add_process
  cases hk : sch.kind <;> simp only [hk] <;> try rfl
  · exact state_modifyAt_same _ (by intro x; rfl) _ _ _
  all_goals exact PrioScheduler_add_process_state _ _ _ _

theorem PrioScheduler_get_next_process_kind (sch : Scheduler) :
    (PrioScheduler_get_next_process sch).2.kind = sch.kind := by
  unfold PrioScheduler_get_next_process
  split
  · rfl
  · split
    · simp only
      split <;> rfl
    · rfl

theorem get_next_process_kind (sch : Scheduler) : (get_next_process sch).2.kind = sch.kind := by
  unfold get_next_process
  cases hk : sch.kind <;> simp only [hk]
  case PRIO => rw [PrioScheduler_get_next_process_kind, hk]
  case PREPRIO => rw [PrioScheduler_get_next_process_kind, hk]
  all_goals split <;> simp [hk]

theorem test_preempt_false (sch : Scheduler) (hk : sch.kind ≠ SchedKind.PREPRIO) (p : Process)
    (cur : Option Process) (ne : Option Event) (t : Int) : test_preempt sch p cur ne t = false := by
  unfold test_preempt
  cases h : sch.kind <;> simp_all

theorem mem_add_event (e x : Event) (q : List Event) :
    x ∈ EventQueue.add_event e q ↔ x = e ∨ x ∈ q := by
  rw [(add_event_perm e q).mem_iff, List.mem_cons]

theorem cpu_add_event (e : Event) (q : List Event) :
    ((EventQueue.add_event e q).filter Event.cpu).length =
      (if e.cpu then 1 else 0) + (q.filter Event.cpu).length := by
  rw [((add_event_perm e q).filter Event.cpu).length_eq, List.filter_cons]
  split
  · simp; omega
  · simp

theorem Effect.comp {s t u : DES} {proc : Nat} (h1 : Effect s t proc) (h2 : Effect t u proc) :
    Effect s u proc :=
  ⟨h2.kind.trans h1.kind, fun q hq => (h2.others q hq).trans (h1.others q hq)⟩

theorem effect_modifyProc (s : DES) (proc : Nat) (f : Process → Process) :
    Effect s (s.modifyProc proc f) proc :=
  ⟨rfl, fun q hq => state_modifyAt_ne f s.processes proc q hq⟩

theorem effect_add_process (s : DES) (proc : Nat) : Effect s (s.add_process proc) proc :=
  ⟨add_process_kind _ _ _, fun q _ => add_process_state _ _ _ q⟩

theorem effect_add_event (s : DES) (proc : Nat) (t : Int) (p : Nat) (tr : Transition) :
    Effect s (s.add_event t p tr) proc :=
  ⟨rfl, fun _ _ => rfl⟩

theorem effect_of_eq (s t : DES) (proc : Nat) (h1 : t.scheduler = s.scheduler)
    (h2 : t.processes = s.processes) : Effect s t proc :=
  ⟨by rw [h1], fun q _ => by unfold DES.proc; rw [h2]⟩

theorem end_io_effect (s : DES) (proc : Nat) (d : Int) :
    Effect s (end_io s proc d) proc ∧ (end_io s proc d).event_queue = s.event_queue ∧
      (end_io s proc d).CURRENT_RUNNING_PROCESS = s.CURRENT_RUNNING_PROCESS := by
  unfold end_io
  split
  · exact ⟨⟨rfl, fun q hq => state_modifyAt_ne _ s.processes proc q hq⟩, rfl, rfl⟩
  · exact ⟨⟨rfl, fun _ _ => rfl⟩, rfl, rfl⟩

theorem preempt_running_eq (s : DES) (proc : Nat) (hk : s.scheduler.kind ≠ SchedKind.PREPRIO) :
    preempt_running s proc = s := by
  unfold preempt_running
  simp only [test_preempt_false s.scheduler hk]
  split <;> simp

theorem case_TRANS_TO_READY_sum (s : DES) (proc : Nat) (d : Int)
    (hk : s.scheduler.kind ≠ SchedKind.PREPRIO) :
    Effect s (case_TRANS_TO_READY s proc d) proc ∧
    (case_TRANS_TO_READY s proc d).event_queue = s.event_queue ∧
    (case_TRANS_TO_READY s proc d).CURRENT_RUNNING_PROCESS = s.CURRENT_RUNNING_PROCESS ∧
    ((case_TRANS_TO_READY s proc d).proc proc).state ≠ ProcessState.STATE_RUNNING := by
  obtain ⟨h1, h2, h3⟩ := end_io_effect s proc d
  unfold case_TRANS_TO_READY
  simp only
  have hk2 : ((end_io s proc d).modifyProc proc (fun p =>
      { p with state := ProcessState.STATE_READY,
               state_ts := (end_io s proc d).CURRENT_TIME })).scheduler.kind ≠
      SchedKind.PREPRIO := by
    show (end_io s proc d).scheduler.kind ≠ _
    rw [h1.kind]; exact hk
  rw [preempt_running_eq _ proc hk2]
  refine ⟨?_, h2, h3, ?_⟩
  · exact (h1.comp (effect_modifyProc _ proc _)).comp
      ((effect_add_process _ proc).comp (effect_of_eq _ _ proc rfl rfl))
  · show (procAt (add_process _ _ _).2 proc).state ≠ _
    rw [add_process_state]
    exact state_modifyAt_self _ _ _ (by intro x; simp)

theorem new_cpu_burst_effect (s : DES) (proc : Nat) :
    (∀ q, ((new_cpu_burst s proc).proc q).state = (s.proc q).state) ∧
      (new_cpu_burst s proc).scheduler = s.scheduler ∧
      (new_cpu_burst s proc).event_queue = s.event_queue ∧
      (new_cpu_burst s proc).CURRENT_RUNNING_PROCESS = s.CURRENT_RUNNING_PROCESS := by
  unfold new_cpu_burst
  split
  · refine ⟨fun q => ?_, rfl, rfl, rfl⟩
    exact state_modifyAt_same _ (by intro x; rfl) _ _ _
  · exact ⟨fun _ => rfl, rfl, rfl, rfl⟩

theorem case_TRANS_TO_RUN_sum (s : DES) (proc : Nat) :
    Effect s (case_TRANS_TO_RUN s proc) proc ∧
    (∃ e : Event, e.process = proc ∧ e.cpu = true ∧
      (case_TRANS_TO_RUN s proc).event_queue = EventQueue.add_event e s.event_queue) ∧
    (case_TRANS_TO_RUN s proc).CURRENT_RUNNING_PROCESS = s.CURRENT_RUNNING_PROCESS := by
  let S1 : DES := s.modifyProc proc (fun p =>
    { p with state := ProcessState.STATE_RUNNING, state_ts := s.CURRENT_TIME })
  let S2 : DES := new_cpu_burst S1 proc
  obtain ⟨h1, h2, h3, h4⟩ := new_cpu_burst_effect S1 proc
  have he : Effect s S2 proc :=
    ⟨by show S2.scheduler.kind = _; rw [h2]; rfl,
      fun q hq => by
        show (S2.proc q).state = _
        rw [h1 q]; exact state_modifyAt_ne _ _ _ _ hq⟩
  have hq : S2.event_queue = s.event_queue := h3
  have key : ∀ (t : Int) (tr : Transition), tr ≠ Transition.TRANS_TO_READY →
      Effect s (S2.add_event t proc tr) proc ∧
      (∃ e : Event, e.process = proc ∧ e.cpu = true ∧
        (S2.add_event t proc tr).event_queue = EventQueue.add_event e s.event_queue) ∧
      (S2.add_event t proc tr).CURRENT_RUNNING_PROCESS = s.CURRENT_RUNNING_PROCESS := by
    intro t tr htr
    refine ⟨he.comp (effect_add_event S2 proc t proc tr), ⟨⟨t, proc, tr⟩, rfl, ?_, ?_⟩, h4⟩
    · unfold Event.cpu; simpa using htr
    · show EventQueue.add_event _ S2.event_queue = _
      rw [hq]
  show _ ∧ _ ∧ _
  unfold case_TRANS_TO_RUN
  simp only
  split
  · exact key _ _ (by decide)
  · exact key _ _ (by decide)

theorem finish_or_block_effect (s : DES) (proc : Nat) :
    Effect s (finish_or_block s proc) proc ∧
      ((finish_or_block s proc).proc proc).state ≠ ProcessState.STATE_RUNNING ∧
      ((finish_or_block s proc).event_queue = s.event_queue ∨
        ∃ e : Event, e.cpu = false ∧
          (finish_or_block s proc).event_queue = EventQueue.add_event e s.event_queue) := by
  unfold finish_or_block
  split
  · exact ⟨effect_modifyProc _ _ _, state_modifyAt_self _ _ _ (by intro x; simp), Or.inl rfl⟩
  · refine ⟨?_, ?_, Or.inr ⟨_, ?_, rfl⟩⟩
    · exact ⟨rfl, fun q hq => state_modifyAt_ne _ s.processes proc q hq⟩
    · exact state_modifyAt_self _ s.processes _ (by intro x; simp)
    · rfl

theorem case_TRANS_TO_BLOCK_sum (s : DES) (proc : Nat) (d : Int) :
    Effect s (case_TRANS_TO_BLOCK s proc d) proc ∧
    ((case_TRANS_TO_BLOCK s proc d).proc proc).state ≠ ProcessState.STATE_RUNNING ∧
    ((case_TRANS_TO_BLOCK s proc d).event_queue = s.event_queue ∨
      ∃ e : Event, e.cpu = false ∧
        (case_TRANS_TO_BLOCK s proc d).event_queue = EventQueue.add_event e s.event_queue) ∧
    (case_TRANS_TO_BLOCK s proc d).CURRENT_RUNNING_PROCESS = none := by
  let S1 : DES := { s with total_cpu_time := s.total_cpu_time + d }
  let S2 : DES := S1.modifyProc proc (fun p =>
    { p with cpu_time_remaining := p.cpu_time_remaining - p.current_cpu_burst,
             current_cpu_burst := 0 })
  let S3 : DES := finish_or_block S2 proc
  let S4 : DES := S3.modifyProc proc (fun p => { p with state_ts := S3.CURRENT_TIME })
  have e2 : Effect s S2 proc :=
    (effect_of_eq s S1 proc rfl rfl).comp (effect_modifyProc S1 proc _)
  obtain ⟨f1, f2, f3⟩ := finish_or_block_effect S2 proc
  have e4 : Effect s S4 proc := (e2.comp f1).comp (effect_modifyProc S3 proc _)
  refine ⟨?_, ?_, ?_, rfl⟩
  · exact e4.comp (effect_of_eq S4 _ proc rfl rfl)
  · show (procAt (modifyAt _ S3.processes proc) proc).state ≠ _
    rw [procAt_modifyAt]
    split
    · exact f2
    · exact f2
  · exact f3

theorem decay_priority_effect (s : DES) (proc : Nat) :
    (∀ q, ((decay_priority s proc).proc q).state = (s.proc q).state) ∧
      (decay_priority s proc).scheduler = s.scheduler ∧
      (decay_priority s proc).event_queue = s.event_queue := by
  unfold decay_priority
  split
  · refine ⟨fun q => ?_, rfl, rfl⟩
    exact state_modifyAt_same _ (by intro x; rfl) _ _ _
  · refine ⟨fun q => ?_, rfl, rfl⟩
    exact state_modifyAt_same _ (by intro x; split <;> rfl) _ _ _

theorem case_TRANS_TO_PREEMPT_sum (s : DES) (proc : Nat) (d : Int) :
    Effect s (case_TRANS_TO_PREEMPT s proc d) proc ∧
    ((case_TRANS_TO_PREEMPT s proc d).proc proc).state ≠ ProcessState.STATE_RUNNING ∧
    (case_TRANS_TO_PREEMPT s proc d).event_queue = s.event_queue ∧
    (case_TRANS_TO_PREEMPT s proc d).CURRENT_RUNNING_PROCESS = none := by
  let S1 : DES := { s with total_cpu_time := s.total_cpu_time + d }
  let S2 : DES := S1.modifyProc proc (fun p =>
    { p with cpu_time_remaining := p.cpu_time_remaining - d,
             current_cpu_burst := p.current_cpu_burst - d,
             state := ProcessState.STATE_READY, state_ts := S1.CURRENT_TIME })
  let S3 : DES := decay_priority S2 proc
  let S4 : DES := S3.add_process proc
  have e2 : Effect s S2 proc :=
    (effect_of_eq s S1 proc rfl rfl).comp (effect_modifyProc S1 proc _)
  have r2 : (S2.proc proc).state ≠ ProcessState.STATE_RUNNING :=
    state_modifyAt_self _ _ _ (by intro x; simp)
  obtain ⟨f1, f2, f3⟩ := decay_priority_effect S2 proc
  have e3 : Effect S2 S3 proc := ⟨by rw [f2], fun q _ => f1 q⟩
  have e4 : Effect s S4 proc := (e2.comp e3).comp (effect_add_process S3 proc)
  refine ⟨?_, ?_, ?_, rfl⟩
  · exact e4.comp (effect_of_eq S4 _ proc rfl rfl)
  · show (procAt (add_process S3.scheduler S3.processes proc).2 proc).state ≠ _
    rw [add_process_state]
    have := f1 proc
    unfold DES.proc at this
    rw [this]; exact r2
  · exact f3

theorem account_waiting_effect (s : DES) (proc : Nat) (d : Int) :
    (∀ q, ((account_waiting s proc d).proc q).state = (s.proc q).state) ∧
      (account_waiting s proc d).scheduler = s.scheduler ∧
      (account_waiting s proc d).event_queue = s.event_queue ∧
      (account_waiting s proc d).CURRENT_RUNNING_PROCESS = s.CURRENT_RUNNING_PROCESS := by
  unfold account_waiting
  split
  · exact ⟨fun q => state_modifyAt_same _ (by intro x; rfl) _ _ _, rfl, rfl, rfl⟩
  · exact ⟨fun _ => rfl, rfl, rfl, rfl⟩

theorem account_io_effect (s : DES) :
    (account_io s).processes = s.processes ∧
      (account_io s).scheduler = s.scheduler ∧
      (account_io s).event_queue = s.event_queue ∧
      (account_io s).CURRENT_RUNNING_PROCESS = s.CURRENT_RUNNING_PROCESS := by
  unfold account_io
  simp only
  split <;> exact ⟨rfl, rfl, rfl, rfl⟩

theorem begin_event_effect (s : DES) (evt : Event) :
    (∀ q, ((begin_event s evt).proc q).state = (s.proc q).state) ∧
      (begin_event s evt).scheduler = s.scheduler ∧
      (begin_event s evt).event_queue = s.event_queue ∧
      (begin_event s evt).CURRENT_RUNNING_PROCESS = s.CURRENT_RUNNING_PROCESS := by
  unfold begin_event
  simp only
  generalize ({ s with CURRENT_TIME := evt.timestamp } : DES).CURRENT_TIME -
    (({ s with CURRENT_TIME := evt.timestamp } : DES).proc evt.process).state_ts = d
  obtain ⟨a1, a2, a3, a4⟩ :=
    account_waiting_effect ({ s with CURRENT_TIME := evt.timestamp } : DES) evt.process d
  obtain ⟨b1, b2, b3, b4⟩ :=
    account_io_effect (account_waiting ({ s with CURRENT_TIME := evt.timestamp } : DES)
      evt.process d)
  refine ⟨fun q => ?_, b2.trans a2, b3.trans a3, b4.trans a4⟩
  unfold DES.proc
  rw [b1]
  exact a1 q

theorem dispatch_effect (s : DES) : Dispatched s (dispatch s) := by
  unfold dispatch
  split
  · exact ⟨fun _ => rfl, rfl, Or.inl ⟨rfl, rfl⟩⟩
  · rename_i hc
    simp only
    split
    · rename_i p hp
      refine ⟨fun _ => rfl, get_next_process_kind _, Or.inr ⟨hc, p, _, ?_, hp, rfl⟩⟩
      rfl
    · rename_i hp
      refine ⟨fun _ => rfl, get_next_process_kind _, Or.inl ⟨rfl, ?_⟩⟩
      show (get_next_process s.scheduler).1 = _
      rw [hp, hc]

theorem call_scheduler_effect (s : DES) : Dispatched s (call_scheduler s) := by
  unfold call_scheduler
  split
  · split
    · exact ⟨fun _ => rfl, rfl, Or.inl ⟨rfl, rfl⟩⟩
    · exact dispatch_effect { s with CALL_SCHEDULER := false }
  · exact ⟨fun _ => rfl, rfl, Or.inl ⟨rfl, rfl⟩⟩

theorem eq_of_mem_length_le_one {α : Type} (l : List α) (a b : α) (h : l.length ≤ 1)
    (ha : a ∈ l) (hb : b ∈ l) : a = b := by
  match l, h, ha, hb with
  | [x], _, ha, hb =>
    rw [List.mem_singleton] at ha hb
    rw [ha, hb]
  | _ :: _ :: _, h, _, _ => simp at h

theorem OneCpu.dispatched {s t : DES} (h : OneCpu s) (hd : Dispatched s t) : OneCpu t := by
  obtain ⟨d1, _, d3⟩ := hd
  rcases d3 with ⟨q1, q2⟩ | ⟨q1, p, e, he, q2, q3⟩
  · refine ⟨?_, ?_, ?_⟩
    · unfold cpuEvents; rw [q1]; exact h.count
    · intro hn; unfold cpuEvents; rw [q1]; exact h.idle (q2 ▸ hn)
    · intro x hx
      rw [d1 x] at hx
      rw [q1]; exact h.running x hx
  · have h0 := h.idle q1
    unfold cpuEvents at h0
    refine ⟨?_, ?_, ?_⟩
    · unfold cpuEvents
      rw [q3, cpu_add_event, h0, he]; simp
    · intro hn; rw [q2] at hn; cases hn
    · intro x hx
      rw [d1 x] at hx
      obtain ⟨e', m1, m2⟩ := h.running x hx
      exact ⟨e', by rw [q3]; exact (mem_add_event e e' _).mpr (Or.inr m1), m2⟩

/-- After an event that is not of the CPU kind has been taken and handled. -/
theorem OneCpu.after_ready {s t : DES} {evt : Event} {rest : List Event} (h : OneCpu s)
    (hq : s.event_queue = evt :: rest) (hc : evt.cpu = false)
    (q1 : t.event_queue = rest)
    (q2 : t.CURRENT_RUNNING_PROCESS = s.CURRENT_RUNNING_PROCESS)
    (q3 : ∀ q, q ≠ evt.process → (t.proc q).state = (s.proc q).state)
    (q4 : (t.proc evt.process).state ≠ ProcessState.STATE_RUNNING) : OneCpu t := by
  have hf : cpuEvents s = rest.filter Event.cpu := by
    unfold cpuEvents; rw [hq, List.filter_cons, hc]; simp
  refine ⟨?_, ?_, ?_⟩
  · unfold cpuEvents; rw [q1, ← hf]; exact h.count
  · intro hn; unfold cpuEvents; rw [q1, ← hf]; exact h.idle (q2 ▸ hn)
  · intro x hx
    have hne : x ≠ evt.process := fun hh => q4 (hh ▸ hx)
    rw [q3 x hne] at hx
    obtain ⟨e, m1, m2, m3⟩ := h.running x hx
    rw [hq] at m1
    rcases List.mem_cons.mp m1 with rfl | m1
    · rw [hc] at m3; cases m3
    · exact ⟨e, q1 ▸ m1, m2, m3⟩

/-- Facts about the state in which a CPU event is at the top of the queue. -/
theorem OneCpu.top_cpu {s : DES} {evt : Event} {rest : List Event} (h : OneCpu s)
    (hq : s.event_queue = evt :: rest) (hc : evt.cpu = true) :
    rest.filter Event.cpu = [] ∧ s.CURRENT_RUNNING_PROCESS ≠ none ∧
      ∀ x, (s.proc x).state = ProcessState.STATE_RUNNING → x = evt.process := by
  have hf : cpuEvents s = evt :: rest.filter Event.cpu := by
    unfold cpuEvents; rw [hq, List.filter_cons, hc]; simp
  have hcount := h.count
  rw [hf] at hcount
  have hr : rest.filter Event.cpu = [] := by
    cases hrest : rest.filter Event.cpu with
    | nil => rfl
    | cons a b => rw [hrest] at hcount; simp at hcount
  refine ⟨hr, ?_, ?_⟩
  · intro hn
    have := h.idle hn
    rw [hf] at this; cases this
  · intro x hx
    obtain ⟨e, m1, m2, m3⟩ := h.running x hx
    rw [hq] at m1
    rcases List.mem_cons.mp m1 with rfl | m1
    · exact m2.symm
    · have : e ∈ rest.filter Event.cpu := List.mem_filter.mpr ⟨m1, m3⟩
      rw [hr] at this; cases this

/-- After a `TRANS_TO_RUN` has been taken and handled. -/
theorem OneCpu.after_run {s t : DES} {evt : Event} {rest : List Event} (h : OneCpu s)
    (hq : s.event_queue = evt :: rest) (hc : evt.cpu = true)
    (q1 : ∃ e : Event, e.process = evt.process ∧ e.cpu = true ∧
      t.event_queue = EventQueue.add_event e rest)
    (q2 : t.CURRENT_RUNNING_PROCESS = s.CURRENT_RUNNING_PROCESS)
    (q3 : ∀ q, q ≠ evt.process → (t.proc q).state = (s.proc q).state) : OneCpu t := by
  obtain ⟨hr, hcur, hone⟩ := h.top_cpu hq hc
  obtain ⟨e, e1, e2, e3⟩ := q1
  refine ⟨?_, ?_, ?_⟩
  · unfold cpuEvents; rw [e3, cpu_add_event, hr, e2]; simp
  · intro hn; rw [q2] at hn; exact absurd hn hcur
  · intro x hx
    by_cases hxe : x = evt.process
    · exact ⟨e, by rw [e3]; exact (mem_add_event e e _).mpr (Or.inl rfl), hxe ▸ e1, e2⟩
    · rw [q3 x hxe] at hx
      exact absurd (hone x hx) hxe

/-- After a `TRANS_TO_BLOCK` or `TRANS_TO_PREEMPT` has been taken and handled. -/
theorem OneCpu.after_release {s t : DES} {evt : Event} {rest : List Event} (h : OneCpu s)
    (hq : s.event_queue = evt :: rest) (hc : evt.cpu = true)
    (q1 : t.event_queue = rest ∨ ∃ e : Event, e.cpu = false ∧
      t.event_queue = EventQueue.add_event e rest)
    (q3 : ∀ q, q ≠ evt.process → (t.proc q).state = (s.proc q).state)
    (q4 : (t.proc evt.process).state ≠ ProcessState.STATE_RUNNING) : OneCpu t := by
  obtain ⟨hr, _, hone⟩ := h.top_cpu hq hc
  have h0 : cpuEvents t = [] := by
    unfold cpuEvents
    rcases q1 with q1 | ⟨e, e1, e2⟩
    · rw [q1, hr]
    · apply List.eq_nil_of_length_eq_zero
      rw [e2, cpu_add_event, hr, e1]; simp
  refine ⟨by rw [h0]; simp, fun _ => h0, ?_⟩
  intro x hx
  have hne : x ≠ evt.process := fun hh => q4 (hh ▸ hx)
  rw [q3 x hne] at hx
  exact absurd (hone x hx) hne

theorem iteration_oneCpu (s t : DES) (h : OneCpu s) (hk : s.scheduler.kind ≠ SchedKind.PREPRIO)
    (ht : iteration s = some t) : OneCpu t ∧ t.scheduler.kind = s.scheduler.kind := by
  unfold iteration at ht
  cases hq : s.event_queue with
  | nil => rw [hq] at ht; simp [EventQueue.get_next_event] at ht
  | cons evt rest =>
    rw [hq] at ht
    simp only [EventQueue.get_next_event, Option.some.injEq] at ht
    obtain ⟨b1, b2, b3, b4⟩ := begin_event_effect { s with event_queue := rest } evt
    generalize hs3 : begin_event { s with event_queue := rest } evt = s3 at ht b1 b2 b3 b4
    have b1' : ∀ q, (s3.proc q).state = (s.proc q).state := b1
    have b3' : s3.event_queue = rest := b3
    have b4' : s3.CURRENT_RUNNING_PROCESS = s.CURRENT_RUNNING_PROCESS := b4
    have hk3 : s3.scheduler.kind ≠ SchedKind.PREPRIO := by rw [b2]; exact hk
    have hk3' : s3.scheduler.kind = s.scheduler.kind := by rw [b2]
    generalize evt.timestamp - (s.proc evt.process).state_ts = d at ht
    have hd := call_scheduler_effect (handle_transition s3 evt d)
    rw [ht] at hd
    have main : OneCpu (handle_transition s3 evt d) ∧
        (handle_transition s3 evt d).scheduler.kind = s.scheduler.kind := by
      unfold handle_transition
      cases htr : evt.transition with
      | TRANS_TO_READY =>
        simp only
        have hc : evt.cpu = false := by unfold Event.cpu; rw [htr]; rfl
        obtain ⟨c1, c2, c3, c4⟩ := case_TRANS_TO_READY_sum s3 evt.process d hk3
        refine ⟨h.after_ready hq hc (c2.trans b3') (c3.trans b4') ?_ c4, c1.kind.trans hk3'⟩
        intro q hq'
        rw [c1.others q hq', b1' q]
      | TRANS_TO_RUN =>
        simp only
        have hc : evt.cpu = true := by unfold Event.cpu; rw [htr]; rfl
        obtain ⟨c1, ⟨e, e1, e2, e3⟩, c3⟩ := case_TRANS_TO_RUN_sum s3 evt.process
        refine ⟨h.after_run hq hc ⟨e, e1, e2, by rw [e3, b3']⟩ (c3.trans b4') ?_,
          c1.kind.trans hk3'⟩
        intro q hq'
        rw [c1.others q hq', b1' q]
      | TRANS_TO_BLOCK =>
        simp only
        have hc : evt.cpu = true := by unfold Event.cpu; rw [htr]; rfl
        obtain ⟨c1, c2, c3, _⟩ := case_TRANS_TO_BLOCK_sum s3 evt.process d
        refine ⟨h.after_release hq hc ?_ ?_ c2, c1.kind.trans hk3'⟩
        · rcases c3 with c3 | ⟨e, e1, e2⟩
          · left; rw [c3, b3']
          · right; exact ⟨e, e1, by rw [e2, b3']⟩
        · intro q hq'
          rw [c1.others q hq', b1' q]
      | TRANS_TO_PREEMPT =>
        simp only
        have hc : evt.cpu = true := by unfold Event.cpu; rw [htr]; rfl
        obtain ⟨c1, c2, c3, _⟩ := case_TRANS_TO_PREEMPT_sum s3 evt.process d
        refine ⟨h.after_release hq hc (Or.inl (c3.trans b3')) ?_ c2, c1.kind.trans hk3'⟩
        intro q hq'
        rw [c1.others q hq', b1' q]
    exact ⟨main.1.dispatched hd, hd.2.1.trans main.2⟩

theorem iterations_oneCpu (n : Nat) (s t : DES) (h : OneCpu s)
    (hk : s.scheduler.kind ≠ SchedKind.PREPRIO) (ht : iterations n s = some t) : OneCpu t := by
  induction n generalizing s with
  | zero =>
    simp only [iterations, Option.some.injEq] at ht
    rw [← ht]; exact h
  | succ n ih =>
    unfold iterations at ht
    cases hi : iteration s with
    | none => rw [hi] at ht; cases ht
    | some s1 =>
      rw [hi] at ht
      obtain ⟨i1, i2⟩ := iteration_oneCpu s s1 h hk hi
      exact ih s1 i1 (by rw [i2]; exact hk) ht

theorem procAt_state_created (l : List Process)
    (h : ∀ x ∈ l, x.state = ProcessState.STATE_CREATED) (q : Nat) :
    (procAt l q).state = ProcessState.STATE_CREATED := by
  by_cases hq : q < l.length
  · unfold procAt
    rw [List.getD_eq_getElem _ _ hq]
    exact h _ (List.getElem_mem hq)
  · exact procAt_default_state l q (by omega)

theorem read_process_fresh (sch : Scheduler) (s : DES) (line : Int × Int × Int × Int)
    (h : Fresh sch s) : Fresh sch (read_process s line) := by
  unfold read_process
  refine ⟨h.kind, ?_, h.cur, ?_⟩
  · intro e he
    have he' : e ∈ EventQueue.add_event _ s.event_queue := he
    rcases (mem_add_event _ _ _).mp he' with rfl | he'
    · rfl
    · exact h.events e he'
  · intro x hx
    have hx' : x ∈ s.processes ++ [_] := hx
    rcases List.mem_append.mp hx' with hx' | hx'
    · exact h.created x hx'
    · rw [List.mem_singleton] at hx'
      rw [hx']; rfl

theorem read_input_file_fresh (sch : Scheduler) (randvals : List Int)
    (lines : List (Int × Int × Int × Int)) : Fresh sch (read_input_file sch randvals lines) := by
  unfold read_input_file
  have key : ∀ (ls : List (Int × Int × Int × Int)) (s : DES), Fresh sch s →
      Fresh sch (ls.foldl read_process s) := by
    intro ls
    induction ls with
    | nil => intro s h; exact h
    | cons l rest ih => intro s h; exact ih _ (read_process_fresh sch s l h)
  apply key
  exact ⟨rfl, fun e he => (by cases he), rfl, fun x hx => (by cases hx)⟩

theorem Fresh.oneCpu {sch : Scheduler} {s : DES} (h : Fresh sch s) : OneCpu s := by
  have h0 : cpuEvents s = [] := by
    unfold cpuEvents
    rw [List.filter_eq_nil_iff]
    intro e he
    rw [h.events e he]; simp
  refine ⟨by rw [h0]; simp, fun _ => h0, ?_⟩
  intro p hp
  unfold DES.proc at hp
  rw [procAt_state_created _ h.created p] at hp
  cases hp

theorem OneCpu.unique {s : DES} (h : OneCpu s) (p q : Nat)
    (hp : (s.proc p).state = ProcessState.STATE_RUNNING)
    (hq : (s.proc q).state = ProcessState.STATE_RUNNING) : p = q := by
  obtain ⟨e1, a1, a2, a3⟩ := h.running p hp
  obtain ⟨e2, b1, b2, b3⟩ := h.running q hq
  have m1 : e1 ∈ cpuEvents s := List.mem_filter.mpr ⟨a1, a3⟩
  have m2 : e2 ∈ cpuEvents s := List.mem_filter.mpr ⟨b1, b3⟩
  have := eq_of_mem_length_le_one _ e1 e2 h.count m1 m2
  rw [← a2, ← b2, this]

theorem countP_le_one (l : List Process)
    (h : ∀ i j, (procAt l i).state = ProcessState.STATE_RUNNING →
      (procAt l j).state = ProcessState.STATE_RUNNING → i = j) :
    l.countP (fun p => decide (p.state = ProcessState.STATE_RUNNING)) ≤ 1 := by
  induction l with
  | nil => simp
  | cons x rest ih =>
    have hrest : ∀ i j, (procAt rest i).state = ProcessState.STATE_RUNNING →
        (procAt rest j).state = ProcessState.STATE_RUNNING → i = j := by
      intro i j hi hj
      have := h (i + 1) (j + 1) (by simpa [procAt] using hi) (by simpa [procAt] using hj)
      omega
    by_cases hx : x.state = ProcessState.STATE_RUNNING
    · have hz : rest.countP (fun p => decide (p.state = ProcessState.STATE_RUNNING)) = 0 := by
        rw [List.countP_eq_zero]
        intro a ha
        obtain ⟨i, hi⟩ := List.getElem?_of_mem ha
        intro hra
        have hra' : a.state = ProcessState.STATE_RUNNING := by simpa using hra
        have : (procAt (x :: rest) (i + 1)).state = ProcessState.STATE_RUNNING := by
          simp only [procAt, List.getD_cons_succ]
          rw [List.getD_eq_getElem?_getD, hi]
          exact hra'
        have := h (i + 1) 0 this (by simpa [procAt] using hx)
        omega
      rw [List.countP_cons, hz]; split <;> simp
    · rw [List.countP_cons_of_neg _ _ (by simpa using hx)]
      exact ih hrest

/-- Without preemption (every scheduler other than PREPRIO) at most one
process is RUNNING in every state reached by the loop of `run_simulation`,
whatever the input and the random numbers. -/
theorem one_running_without_preemption (sch : Scheduler) (randvals : List Int)
    (lines : List (Int × Int × Int × Int)) (n : Nat) (s : DES)
    (hk : sch.kind ≠ SchedKind.PREPRIO)
    (h : iterations n (read_input_file sch randvals lines) = some s) :
    running s ≤ 1 ∧
    ∀ p q, (s.proc p).state = ProcessState.STATE_RUNNING →
      (s.proc q).state = ProcessState.STATE_RUNNING → p = q := by
  have hf := read_input_file_fresh sch randvals lines
  have ho := iterations_oneCpu n _ s hf.oneCpu (by rw [hf.kind]; exact hk) h
  exact ⟨countP_le_one s.processes (fun i j hi hj => ho.unique i j hi hj), ho.unique⟩

theorem one_running_without_preemption_witness :
    running desP8 ≤ 1 ∧
    ∀ p q, (desP8.proc p).state = ProcessState.STATE_RUNNING →
      (desP8.proc q).state = ProcessState.STATE_RUNNING → p = q :=
  one_running_without_preemption schP [0, 3, 0, 19, 49, 4]
    [(0, 100, 100, 10), (5, 100, 100, 10), (7, 100, 100, 10)] 8 desP8 (by decide) (by decide)

/-- C11 (amended): under PREPRIO `test_preempt` returns true if and only if the
incoming process has a strictly greater dynamic priority than the running one
and the event at the top of the event queue, if there is one, does not carry
the current time, whichever process it belongs to.  In the loop the test is
applied to the top of the queue: when it holds a `TRANS_TO_PREEMPT` of the
running process is added at the current time, otherwise the state is unchanged. -/
theorem preprio_preempts_iff_no_event_now (s : DES) (proc cur : Nat)
    (hk : s.scheduler.kind = SchedKind.PREPRIO)
    (hc : s.CURRENT_RUNNING_PROCESS = some cur) :
    (∀ (p r : Process) (next_event : Option Event) (t : Int),
      test_preempt s.scheduler p (some r) next_event t = true ↔
        (p.dynamic_priority > r.dynamic_priority ∧
          ∀ e, next_event = some e → e.timestamp ≠ t)) ∧
    (((s.proc proc).dynamic_priority > (s.proc cur).dynamic_priority ∧
        ∀ e, EventQueue.peek s.event_queue = some e → e.timestamp ≠ s.CURRENT_TIME) →
      ({ timestamp := s.CURRENT_TIME, process := cur,
         transition := Transition.TRANS_TO_PREEMPT } : Event) ∈
        (preempt_running s proc).event_queue) ∧
    (¬ ((s.proc proc).dynamic_priority > (s.proc cur).dynamic_priority ∧
        ∀ e, EventQueue.peek s.event_queue = some e → e.timestamp ≠ s.CURRENT_TIME) →
      preempt_running s proc = s) := by
  have key : ∀ (p r : Process) (next_event : Option Event) (t : Int),
      test_preempt s.scheduler p (some r) next_event t = true ↔
        (p.dynamic_priority > r.dynamic_priority ∧
          ∀ e, next_event = some e → e.timestamp ≠ t) := by
    intro p r ne t
    unfold test_preempt
    simp only [hk]
    by_cases hd : p.dynamic_priority > r.dynamic_priority
    · simp only [hd, if_true, true_and]
      cases ne with
      | none => simp
      | some e =>
        by_cases ht : e.timestamp = t
        · simp [ht]
        · simp [ht]
    · simp [hd]
  refine ⟨key, ?_, ?_⟩
  · intro h
    have ht := (key (s.proc proc) (s.proc cur) (EventQueue.peek s.event_queue)
      s.CURRENT_TIME).mpr h
    unfold preempt_running
    simp only [hc, ht, if_true]
    unfold DES.add_event
    simp only
    apply (mem_add_event _ _ _).mpr
    left
    split
    · split <;> rfl
    · rfl
  · intro h
    have ht : test_preempt s.scheduler (s.proc proc) (some (s.proc cur))
        (EventQueue.peek s.event_queue) s.CURRENT_TIME = false := by
      cases hb : test_preempt s.scheduler (s.proc proc) (some (s.proc cur))
        (EventQueue.peek s.event_queue) s.CURRENT_TIME with
      | false => rfl
      | true => exact absurd ((key _ _ _ _).mp hb) h
    unfold preempt_running
    simp only [hc, ht]
    simp

theorem preprio_preempts_iff_no_event_now_witness :
    (∀ (p r : Process) (next_event : Option Event) (t : Int),
      test_preempt desS2.scheduler p (some r) next_event t = true ↔
        (p.dynamic_priority > r.dynamic_priority ∧
          ∀ e, next_event = some e → e.timestamp ≠ t)) ∧
    (((desS2.proc 1).dynamic_priority > (desS2.proc 0).dynamic_priority ∧
        ∀ e, EventQueue.peek desS2.event_queue = some e → e.timestamp ≠ desS2.CURRENT_TIME) →
      ({ timestamp := desS2.CURRENT_TIME, process := 0,
         transition := Transition.TRANS_TO_PREEMPT } : Event) ∈
        (preempt_running desS2 1).event_queue) ∧
    (¬ ((desS2.proc 1).dynamic_priority > (desS2.proc 0).dynamic_priority ∧
        ∀ e, EventQueue.peek desS2.event_queue = some e → e.timestamp ≠ desS2.CURRENT_TIME) →
      preempt_running desS2 1 = desS2) :=
  preprio_preempts_iff_no_event_now desS2 1 0 (by decide) (by decide)

/-- C11 (counterexample): an event at the current time that belongs to another
process suppresses the preemption.  In the run `desS` process 0 is running
(dynamic priority 0, its only pending event is the `TRANS_TO_BLOCK` at time 20)
when process 1 (dynamic priority 3) becomes ready at time 5; the queue top is
the arrival of process 2 at time 5, `test_preempt` returns false, and after the
iteration process 0 is still running and no `TRANS_TO_PREEMPT` is pending. -/
theorem preprio_arrival_suppresses_preemption :
    desS2.event_queue =
      [⟨5, 1, Transition.TRANS_TO_READY⟩, ⟨5, 2, Transition.TRANS_TO_READY⟩,
        ⟨20, 0, Transition.TRANS_TO_BLOCK⟩] ∧
    desS2.CURRENT_RUNNING_PROCESS = some 0 ∧
    (desS2.proc 0).state = ProcessState.STATE_RUNNING ∧
    (desS2.proc 1).dynamic_priority = 3 ∧ (desS2.proc 0).dynamic_priority = 0 ∧
    test_preempt desS2.scheduler (desS2.proc 1) (some (desS2.proc 0))
      (some ⟨5, 2, Transition.TRANS_TO_READY⟩) 5 = false ∧
    (iteration desS2).map (fun s => s.event_queue) =
      some [⟨5, 2, Transition.TRANS_TO_READY⟩, ⟨20, 0, Transition.TRANS_TO_BLOCK⟩] ∧
    (iteration desS2).map (fun s => (s.processes.map (fun p => p.state))) =
      some [ProcessState.STATE_RUNNING, ProcessState.STATE_READY,
        ProcessState.STATE_CREATED] := by
  decide

theorem getD_modifyAt {α : Type} (f : α → α) (l : List α) (i j : Nat) (d : α) :
    (modifyAt f l i).getD j d = if j = i ∧ i < l.length then f (l.getD i d) else l.getD j d := by
  induction l generalizing i j with
  | nil => simp [modifyAt]
  | cons x rest ih =>
    cases i with
    | zero =>
      cases j with
      | zero => simp [modifyAt]
      | succ j => simp [modifyAt]
    | succ i =>
      cases j with
      | zero => simp [modifyAt]
      | succ j =>
        have := ih i j
        simp only [List.getD_cons_succ, modifyAt, List.length_cons, Nat.succ.injEq,
          Nat.add_lt_add_iff_right] at this ⊢
        exact this

theorem length_modifyAt {α : Type} (f : α → α) (l : List α) (i : Nat) :
    (modifyAt f l i).length = l.length := by
  induction l generalizing i with
  | nil => rfl
  | cons x rest ih =>
    cases i with
    | zero => rfl
    | succ i => simp [modifyAt, ih]

/-- C12: `PrioScheduler::add_process(p)` for a process with
`1 ≤ static_priority ≤ maxprio`.  If `0 ≤ dynamic_priority < maxprio`, `p` is
appended to the back of `activeQ[dynamic_priority]` and nothing else changes
(the process table, the other active levels and `expiredQ` are as before).  If
`dynamic_priority < 0`, the dynamic priority of `p` becomes
`static_priority - 1` (no other field and no other process changes) and `p` is
appended to the back of `expiredQ[static_priority - 1]`; the other expired
levels and `activeQ` are as before. -/
theorem PrioScheduler_add_process_spec (sch : Scheduler) (processes : List Process) (p : Nat)
    (hp : p < processes.length)
    (hs1 : 1 ≤ (procAt processes p).static_priority)
    (hs2 : (procAt processes p).static_priority ≤ sch.maxprio)
    (hA : sch.activeQ.length = sch.maxprio.toNat)
    (hE : sch.expiredQ.length = sch.maxprio.toNat) :
    (0 ≤ (procAt processes p).dynamic_priority →
      (procAt processes p).dynamic_priority < sch.maxprio →
        (PrioScheduler_add_process sch processes p).2 = processes ∧
        (PrioScheduler_add_process sch processes p).1.expiredQ = sch.expiredQ ∧
        (PrioScheduler_add_process sch processes p).1.activeQ.length = sch.activeQ.length ∧
        ∀ i, (PrioScheduler_add_process sch processes p).1.activeQ.getD i [] =
          if i = (procAt processes p).dynamic_priority.toNat then sch.activeQ.getD i [] ++ [p]
          else sch.activeQ.getD i []) ∧
    ((procAt processes p).dynamic_priority < 0 →
        procAt (PrioScheduler_add_process sch processes p).2 p =
          { procAt processes p with
            dynamic_priority := (procAt processes p).static_priority - 1 } ∧
        (∀ q, q ≠ p → procAt (PrioScheduler_add_process sch processes p).2 q = procAt processes q) ∧
        (PrioScheduler_add_process sch processes p).2.length = processes.length ∧
        (PrioScheduler_add_process sch processes p).1.activeQ = sch.activeQ ∧
        (PrioScheduler_add_process sch processes p).1.expiredQ.length = sch.expiredQ.length ∧
        ∀ i, (PrioScheduler_add_process sch processes p).1.expiredQ.getD i [] =
          if i = ((procAt processes p).static_priority - 1).toNat then
            sch.expiredQ.getD i [] ++ [p]
          else sch.expiredQ.getD i []) ∧
    ((PrioScheduler_add_process sch processes p).1.kind = sch.kind ∧
      (PrioScheduler_add_process sch processes p).1.quantum = sch.quantum ∧
      (PrioScheduler_add_process sch processes p).1.maxprio = sch.maxprio ∧
      (PrioScheduler_add_process sch processes p).1.runqueue = sch.runqueue ∧
      (PrioScheduler_add_process sch processes p).1.runstack = sch.runstack) := by
  have hnew : procAt (modifyAt (fun x => { x with dynamic_priority := x.static_priority - 1 })
      processes p) p =
      { procAt processes p with dynamic_priority := (procAt processes p).static_priority - 1 } := by
    rw [procAt_modifyAt, if_pos ⟨rfl, hp⟩]
  refine ⟨?_, ?_, ?_⟩
  · intro h0 h1
    unfold PrioScheduler_add_process
    rw [if_neg (by omega)]
    refine ⟨rfl, rfl, length_modifyAt _ _ _, ?_⟩
    intro i
    simp only
    rw [getD_modifyAt]
    have hlt : (procAt processes p).dynamic_priority.toNat < sch.activeQ.length := by
      rw [hA]; omega
    by_cases hi : i = (procAt processes p).dynamic_priority.toNat
    · rw [if_pos ⟨hi, hlt⟩, if_pos hi, hi]
    · rw [if_neg (fun h => hi h.1), if_neg hi]
  · intro h0
    unfold PrioScheduler_add_process
    rw [if_pos h0]
    refine ⟨hnew, ?_, length_modifyAt _ _ _, rfl, length_modifyAt _ _ _, ?_⟩
    · intro q hq
      simp only
      rw [procAt_modifyAt, if_neg (fun h => hq h.1)]
    · intro i
      simp only
      rw [hnew, getD_modifyAt]
      simp only
      have hlt : ((procAt processes p).static_priority - 1).toNat < sch.expiredQ.length := by
        rw [hE]; omega
      by_cases hi : i = ((procAt processes p).static_priority - 1).toNat
      · rw [if_pos ⟨hi, hlt⟩, if_pos hi, hi]
      · rw [if_neg (fun h => hi h.1), if_neg hi]
  · unfold PrioScheduler_add_process
    split <;> exact ⟨rfl, rfl, rfl, rfl, rfl⟩

theorem PrioScheduler_add_process_spec_witness :
    (0 : Nat) < procsQ.length ∧
    (PrioScheduler_add_process schQ procsQ 0).2 = procsQ ∧
    (PrioScheduler_add_process schQ procsQ 0).1.expiredQ = schQ.expiredQ ∧
    (PrioScheduler_add_process schQ procsQ 0).1.activeQ.length = schQ.activeQ.length ∧
    ∀ i, (PrioScheduler_add_process schQ procsQ 0).1.activeQ.getD i [] =
      if i = (procAt procsQ 0).dynamic_priority.toNat then schQ.activeQ.getD i [] ++ [0]
      else schQ.activeQ.getD i [] :=
  ⟨by decide,
    (PrioScheduler_add_process_spec schQ procsQ 0 (by decide) (by decide) (by decide) (by decide)
      (by decide)).1 (by decide) (by decide)⟩

theorem prio_scan_some (q : List (List Nat)) (n i p : Nat) (h : prio_scan q n = some (i, p)) :
    i < n ∧ (∃ rest, q.getD i [] = p :: rest) ∧ ∀ j, i < j → j < n → q.getD j [] = [] := by
  induction n with
  | zero => simp [prio_scan] at h
  | succ n ih =>
    unfold prio_scan at h
    split at h
    · rename_i x rest hx
      simp only [Option.some.injEq, Prod.mk.injEq] at h
      obtain ⟨rfl, rfl⟩ := h
      exact ⟨by omega, ⟨rest, hx⟩, fun j h1 h2 => by omega⟩
    · rename_i hx
      obtain ⟨a, b, c⟩ := ih h
      refine ⟨by omega, b, ?_⟩
      intro j h1 h2
      by_cases hj : j = n
      · rw [hj]; exact hx
      · exact c j h1 (by omega)

theorem prio_scan_none (q : List (List Nat)) (n : Nat) :
    prio_scan q n = none ↔ ∀ j, j < n → q.getD j [] = [] := by
  induction n with
  | zero => simp [prio_scan]
  | succ n ih =>
    unfold prio_scan
    split
    · rename_i x rest hx
      constructor
      · intro h; cases h
      · intro h
        have := h n (by omega)
        rw [hx] at this; cases this
    · rename_i hx
      rw [ih]
      constructor
      · intro h j hj
        by_cases hjn : j = n
        · rw [hjn]; exact hx
        · exact h j (by omega)
      · intro h j hj
        exact h j (by omega)

theorem prio_scan_eq (q : List (List Nat)) (n i next : Nat) (rest : List Nat) (hi : i < n)
    (hq : q.getD i [] = next :: rest) (hmax : ∀ j, i < j → j < n → q.getD j [] = []) :
    prio_scan q n = some (i, next) := by
  cases h : prio_scan q n with
  | none =>
    have := (prio_scan_none q n).mp h i hi
    rw [hq] at this; cases this
  | some r =>
    obtain ⟨i', p⟩ := r
    obtain ⟨a, ⟨rest', b⟩, c⟩ := prio_scan_some q n i' p h
    have hii : i' = i := by
      rcases Nat.lt_trichotomy i' i with h1 | h1 | h1
      · have := c i h1 hi
        rw [hq] at this; cases this
      · exact h1
      · have := hmax i' h1 a
        rw [b] at this; cases this
    subst hii
    rw [hq] at b
    simp only [List.cons.injEq] at b
    rw [b.1]

theorem has_expired_processes_false (sch : Scheduler) :
    has_expired_processes sch = false ↔ ∀ j, j < sch.expiredQ.length → sch.expiredQ.getD j [] = [] := by
  unfold has_expired_processes
  rw [Bool.eq_false_iff]
  simp only [ne_eq, List.any_eq_true, Bool.not_eq_true', List.isEmpty_eq_false, not_exists,
    not_and, Decidable.not_not]
  constructor
  · intro h j hj
    rw [List.getD_eq_getElem _ _ hj]
    exact h _ (List.getElem_mem hj)
  · intro h x hx
    obtain ⟨j, hj, rfl⟩ := List.getElem_of_mem hx
    have := h j hj
    rw [List.getD_eq_getElem _ _ hj] at this
    exact this

/-- C13: `PrioScheduler::get_next_process`.  If level `i` is the highest
non-empty level of `activeQ`, the front process of that level is returned and
removed, the rest of the level keeps its order and nothing else changes.  If
every level of `activeQ` is empty and level `i` is the highest non-empty level
of `expiredQ`, the two arrays are swapped and the front process of level `i` of
the new `activeQ` is returned and removed.  The result is `none` exactly when
every level of both arrays is empty, and then the scheduler is unchanged.
Within one level processes leave in the order they were added: a process added
(by `PrioScheduler::add_process`) to the highest non-empty active level goes
behind the processes already there, and the next call returns the old front. -/
theorem PrioScheduler_get_next_process_spec (sch : Scheduler)
    (hA : sch.activeQ.length = sch.maxprio.toNat)
    (hE : sch.expiredQ.length = sch.maxprio.toNat) :
    (∀ i next rest, i < sch.maxprio.toNat → sch.activeQ.getD i [] = next :: rest →
      (∀ j, i < j → j < sch.maxprio.toNat → sch.activeQ.getD j [] = []) →
        (PrioScheduler_get_next_process sch).1 = some next ∧
        (PrioScheduler_get_next_process sch).2.expiredQ = sch.expiredQ ∧
        (PrioScheduler_get_next_process sch).2.activeQ.length = sch.activeQ.length ∧
        ∀ j, (PrioScheduler_get_next_process sch).2.activeQ.getD j [] =
          if j = i then rest else sch.activeQ.getD j []) ∧
    ((∀ j, j < sch.maxprio.toNat → sch.activeQ.getD j [] = []) →
      ∀ i next rest, i < sch.maxprio.toNat → sch.expiredQ.getD i [] = next :: rest →
        (∀ j, i < j → j < sch.maxprio.toNat → sch.expiredQ.getD j [] = []) →
          (PrioScheduler_get_next_process sch).1 = some next ∧
          (PrioScheduler_get_next_process sch).2.expiredQ = sch.activeQ ∧
          (PrioScheduler_get_next_process sch).2.activeQ.length = sch.expiredQ.length ∧
          ∀ j, (PrioScheduler_get_next_process sch).2.activeQ.getD j [] =
            if j = i then rest else sch.expiredQ.getD j []) ∧
    ((PrioScheduler_get_next_process sch).1 = none ↔
      ∀ j, j < sch.maxprio.toNat → sch.activeQ.getD j [] = [] ∧ sch.expiredQ.getD j [] = []) ∧
    ((PrioScheduler_get_next_process sch).1 = none →
      (PrioScheduler_get_next_process sch).2 = sch) ∧
    (∀ (processes : List Process) (p i next : Nat) (rest : List Nat),
      0 ≤ (procAt processes p).dynamic_priority →
      (procAt processes p).dynamic_priority.toNat = i → i < sch.maxprio.toNat →
      sch.activeQ.getD i [] = next :: rest →
      (∀ j, i < j → j < sch.maxprio.toNat → sch.activeQ.getD j [] = []) →
        (PrioScheduler_get_next_process (PrioScheduler_add_process sch processes p).1).1 =
          some next ∧
        (PrioScheduler_get_next_process
          (PrioScheduler_add_process sch processes p).1).2.activeQ.getD i [] = rest ++ [p]) := by
  refine ⟨?_, ?_, ?_, ?_, ?_⟩
  · intro i next rest hi hq hmax
    have hs := prio_scan_eq sch.activeQ _ i next rest hi hq hmax
    unfold PrioScheduler_get_next_process
    rw [hs]
    refine ⟨rfl, rfl, length_modifyAt _ _ _, ?_⟩
    intro j
    simp only
    rw [getD_modifyAt]
    by_cases hj : j = i
    · rw [if_pos ⟨hj, by rw [hA]; exact hi⟩, if_pos hj, hq]; rfl
    · rw [if_neg (fun h => hj h.1), if_neg hj]
  · intro hall i next rest hi hq hmax
    have hn := (prio_scan_none sch.activeQ _).mpr hall
    have hs := prio_scan_eq sch.expiredQ _ i next rest hi hq hmax
    have hex : has_expired_processes sch = true := by
      cases hb : has_expired_processes sch with
      | true => rfl
      | false =>
        have := (has_expired_processes_false sch).mp hb i (by rw [hE]; exact hi)
        rw [hq] at this; cases this
    unfold PrioScheduler_get_next_process
    rw [hn]
    simp only [hex, if_true]
    rw [hs]
    refine ⟨rfl, rfl, length_modifyAt _ _ _, ?_⟩
    intro j
    simp only
    rw [getD_modifyAt]
    by_cases hj : j = i
    · rw [if_pos ⟨hj, by rw [hE]; exact hi⟩, if_pos hj, hq]; rfl
    · rw [if_neg (fun h => hj h.1), if_neg hj]
  · unfold PrioScheduler_get_next_process
    cases hs : prio_scan sch.activeQ sch.maxprio.toNat with
    | some r =>
      obtain ⟨i, p⟩ := r
      obtain ⟨a, ⟨rest, b⟩, _⟩ := prio_scan_some _ _ _ _ hs
      constructor
      · intro h; cases h
      · intro h
        have := (h i a).1
        rw [b] at this; cases this
    | none =>
      have hall := (prio_scan_none _ _).mp hs
      simp only
      cases hb : has_expired_processes sch with
      | false =>
        simp only [Bool.false_eq_true, if_false, true_iff]
        intro j hj
        exact ⟨hall j hj, (has_expired_processes_false sch).mp hb j (by rw [hE]; exact hj)⟩
      | true =>
        simp only [if_true]
        cases hs2 : prio_scan sch.expiredQ sch.maxprio.toNat with
        | some r =>
          obtain ⟨i, p⟩ := r
          obtain ⟨a, ⟨rest, b⟩, _⟩ := prio_scan_some _ _ _ _ hs2
          constructor
          · intro h; cases h
          · intro h
            have := (h i a).2
            rw [b] at this; cases this
        | none =>
          exfalso
          have hall2 := (prio_scan_none _ _).mp hs2
          have : has_expired_processes sch = false :=
            (has_expired_processes_false sch).mpr (fun j hj => hall2 j (by rw [← hE]; exact hj))
          rw [hb] at this; cases this
  · unfold PrioScheduler_get_next_process
    cases hs : prio_scan sch.activeQ sch.maxprio.toNat with
    | some r => intro h; cases h
    | none =>
      simp only
      cases hb : has_expired_processes sch with
      | false => intro _; rfl
      | true =>
        simp only [if_true]
        cases hs2 : prio_scan sch.expiredQ sch.maxprio.toNat with
        | some r => intro h; cases h
        | none =>
          exfalso
          have hall2 := (prio_scan_none _ _).mp hs2
          have : has_expired_processes sch = false :=
            (has_expired_processes_false sch).mpr (fun j hj => hall2 j (by rw [← hE]; exact hj))
          rw [hb] at this; cases this
  · intro processes p i next rest h0 hd hi hq hmax
    have hadd : (PrioScheduler_add_process sch processes p).1 =
        { sch with activeQ := modifyAt (fun l => l ++ [p]) sch.activeQ i } := by
      unfold PrioScheduler_add_process
      rw [if_neg (by omega), hd]
    rw [hadd]
    have hs : prio_scan (modifyAt (fun l => l ++ [p]) sch.activeQ i) sch.maxprio.toNat =
        some (i, next) := by
      apply prio_scan_eq _ _ i next (rest ++ [p]) hi
      · rw [getD_modifyAt, if_pos ⟨rfl, by rw [hA]; exact hi⟩, hq]; rfl
      · intro j h1 h2
        rw [getD_modifyAt, if_neg (fun h => by omega)]
        exact hmax j h1 h2
    unfold PrioScheduler_get_next_process
    simp only
    rw [hs]
    refine ⟨rfl, ?_⟩
    simp only
    rw [getD_modifyAt, if_pos ⟨rfl, by rw [length_modifyAt, hA]; exact hi⟩, getD_modifyAt,
      if_pos ⟨rfl, by rw [hA]; exact hi⟩, hq]
    rfl

theorem PrioScheduler_get_next_process_spec_witness :
    schQ.activeQ.length = schQ.maxprio.toNat ∧ schQ.expiredQ.length = schQ.maxprio.toNat ∧
    (PrioScheduler_get_next_process schQ).1 = some 4 ∧
    (PrioScheduler_get_next_process schQ).2.expiredQ = schQ.expiredQ ∧
    (PrioScheduler_get_next_process schQ).2.activeQ.length = schQ.activeQ.length ∧
    ∀ j, (PrioScheduler_get_next_process schQ).2.activeQ.getD j [] =
      if j = 1 then [] else schQ.activeQ.getD j [] :=
  ⟨by decide, by decide,
    (PrioScheduler_get_next_process_spec schQ (by decide) (by decide)).1 1 4 [] (by decide)
      (by decide) (fun j h1 h2 => by
        have h3 : j < 3 := h2
        have hj : j = 2 := by omega
        rw [hj]; rfl)⟩

theorem SRTFComparator_false (processes : List Process) (a b : Nat) :
    SRTFComparator (procAt processes a) (procAt processes b) = false ↔ SRTFLe processes a b := by
  unfold SRTFComparator SRTFLe
  split
  · rename_i h
    simp only [decide_eq_false_iff_not, not_lt, gt_iff_lt]
    constructor
    · intro h1; exact Or.inr ⟨h, h1⟩
    · intro h1
      rcases h1 with h1 | h1
      · omega
      · exact h1.2
  · rename_i h
    simp only [decide_eq_false_iff_not, not_lt, gt_iff_lt]
    constructor
    · intro h1; exact Or.inl (by omega)
    · intro h1
      rcases h1 with h1 | h1
      · omega
      · exact absurd h1.1 h

theorem SRTFComparator_true (processes : List Process) (a b : Nat)
    (h : SRTFComparator (procAt processes a) (procAt processes b) = true) :
    SRTFLe processes b a := by
  unfold SRTFComparator at h
  unfold SRTFLe
  split at h
  · rename_i he
    simp only [decide_eq_true_eq, gt_iff_lt] at h
    exact Or.inr ⟨he.symm, by omega⟩
  · simp only [decide_eq_true_eq, gt_iff_lt] at h
    exact Or.inl h

theorem SRTFLe_trans (processes : List Process) (a b c : Nat) (h1 : SRTFLe processes a b)
    (h2 : SRTFLe processes b c) : SRTFLe processes a c := by
  unfold SRTFLe at *
  rcases h1 with h1 | ⟨h1, h1'⟩ <;> rcases h2 with h2 | ⟨h2, h2'⟩
  · exact Or.inl (by omega)
  · exact Or.inl (by omega)
  · exact Or.inl (by omega)
  · exact Or.inr ⟨by omega, by omega⟩

theorem srtf_push_perm (processes : List Process) (p : Nat) (l : List Nat) :
    (srtf_push processes p l).Perm (p :: l) := by
  induction l with
  | nil => exact List.Perm.refl _
  | cons q rest ih =>
    unfold srtf_push
    split
    · exact List.Perm.refl _
    · exact (List.Perm.cons q ih).trans (List.Perm.swap p q rest)

theorem srtf_push_sorted (processes : List Process) (p : Nat) (l : List Nat)
    (h : l.Pairwise (SRTFLe processes)) : (srtf_push processes p l).Pairwise (SRTFLe processes) := by
  induction l with
  | nil => exact List.pairwise_singleton _ _
  | cons q rest ih =>
    rw [List.pairwise_cons] at h
    unfold srtf_push
    split
    · rename_i hc
      have hpq := SRTFComparator_true processes q p hc
      rw [List.pairwise_cons]
      refine ⟨?_, List.pairwise_cons.mpr h⟩
      intro x hx
      rcases List.mem_cons.mp hx with rfl | hx
      · exact hpq
      · exact SRTFLe_trans _ _ _ _ hpq (h.1 x hx)
    · rename_i hc
      have hqp : SRTFLe processes q p :=
        (SRTFComparator_false processes q p).mp (by simpa using hc)
      rw [List.pairwise_cons]
      refine ⟨?_, ih h.2⟩
      intro x hx
      rcases List.mem_cons.mp ((srtf_push_perm processes p rest).mem_iff.mp hx) with rfl | hx
      · exact hqp
      · exact h.1 x hx

theorem add_process_SRTF (sch : Scheduler) (processes : List Process) (p : Nat)
    (hk : sch.kind = SchedKind.SRTF) :
    (add_process sch processes p).1.kind = SchedKind.SRTF ∧
    (add_process sch processes p).1.runqueue = srtf_push processes p sch.runqueue := by
  obtain ⟨k, q, mp, rq, rs, aq, eq⟩ := sch
  cases hk
  exact ⟨rfl, rfl⟩

theorem get_next_process_SRTF_nil (sch : Scheduler) (hk : sch.kind = SchedKind.SRTF)
    (hq : sch.runqueue = []) : get_next_process sch = (none, sch) := by
  obtain ⟨k, q, mp, rq, rs, aq, eq⟩ := sch
  cases hk
  cases hq
  rfl

theorem get_next_process_SRTF_cons (sch : Scheduler) (r : Nat) (rest : List Nat)
    (hk : sch.kind = SchedKind.SRTF) (hq : sch.runqueue = r :: rest) :
    (get_next_process sch).1 = some r ∧ (get_next_process sch).2.kind = SchedKind.SRTF ∧
    (get_next_process sch).2.runqueue = rest := by
  obtain ⟨k, q, mp, rq, rs, aq, eq⟩ := sch
  cases hk
  cases hq
  exact ⟨rfl, rfl, rfl⟩

theorem srtf_step_inv (processes : List Process) (st : Scheduler × List Nat) (op : SRTFOp)
    (h : SRTFInv processes st) : SRTFInv processes (srtf_step processes st op) := by
  obtain ⟨hk, hp, hs⟩ := h
  cases op with
  | add p =>
    obtain ⟨h1, h2⟩ := add_process_SRTF st.1 processes p hk
    refine ⟨h1, ?_, ?_⟩
    · show (add_process st.1 processes p).1.runqueue.Perm (p :: st.2)
      rw [h2]
      exact (srtf_push_perm _ _ _).trans (List.Perm.cons p hp)
    · show (add_process st.1 processes p).1.runqueue.Pairwise _
      rw [h2]
      exact srtf_push_sorted _ _ _ hs
  | get =>
    cases hq : st.1.runqueue with
    | nil =>
      have hg := get_next_process_SRTF_nil st.1 hk hq
      have : srtf_step processes st SRTFOp.get = (st.1, st.2) := by
        unfold srtf_step
        simp only [hg]
      rw [this]
      exact ⟨hk, hp, hs⟩
    | cons r rest =>
      obtain ⟨h1, h2, h3⟩ := get_next_process_SRTF_cons st.1 r rest hk hq
      have : srtf_step processes st SRTFOp.get = ((get_next_process st.1).2, st.2.erase r) := by
        unfold srtf_step
        simp only [h1]
      rw [this]
      rw [hq] at hp hs
      refine ⟨h2, ?_, ?_⟩
      · show (get_next_process st.1).2.runqueue.Perm (st.2.erase r)
        rw [h3]
        have := List.Perm.erase r hp
        rw [List.erase_cons_head] at this
        exact this
      · show (get_next_process st.1).2.runqueue.Pairwise _
        rw [h3]
        exact (List.pairwise_cons.mp hs).2

theorem srtf_ops_inv (processes : List Process) (ops : List SRTFOp) :
    SRTFInv processes (srtf_ops processes ops) := by
  unfold srtf_ops
  have hgen : ∀ (l : List SRTFOp) (st : Scheduler × List Nat), SRTFInv processes st →
      SRTFInv processes (l.foldl (srtf_step processes) st) := by
    intro l
    induction l with
    | nil => intro st h; exact h
    | cons op rest ih => intro st h; exact ih _ (srtf_step_inv processes st op h)
  exact hgen ops _ ⟨rfl, List.Perm.refl _, List.Pairwise.nil⟩

/-- C14: after any sequence of `add_process` and `get_next_process` calls on a
fresh `SRTFScheduler` (the `cpu_time_remaining` of the processes being fixed),
`get_next_process` returns `none` exactly when no process that was added is
still to be returned; otherwise it returns one of the processes added and not
yet returned, and every such process has a larger `cpu_time_remaining`, or the
same `cpu_time_remaining` and a pid that is not smaller. -/
theorem srtf_returns_shortest_remaining (processes : List Process) (ops : List SRTFOp) :
    ((get_next_process (srtf_ops processes ops).1).1 = none ↔ (srtf_ops processes ops).2 = []) ∧
    ∀ r, (get_next_process (srtf_ops processes ops).1).1 = some r →
      r ∈ (srtf_ops processes ops).2 ∧
      ∀ q, q ∈ (srtf_ops processes ops).2 →
        (procAt processes r).cpu_time_remaining < (procAt processes q).cpu_time_remaining ∨
        ((procAt processes r).cpu_time_remaining = (procAt processes q).cpu_time_remaining ∧
          (procAt processes r).pid ≤ (procAt processes q).pid) := by
  obtain ⟨hk, hp, hs⟩ := srtf_ops_inv processes ops
  cases hq : (srtf_ops processes ops).1.runqueue with
  | nil =>
    rw [get_next_process_SRTF_nil _ hk hq]
    rw [hq] at hp
    refine ⟨⟨fun _ => (List.nil_perm.mp hp), fun _ => rfl⟩, ?_⟩
    intro r hr; cases hr
  | cons x rest =>
    obtain ⟨h1, _, _⟩ := get_next_process_SRTF_cons _ x rest hk hq
    rw [h1]
    rw [hq] at hp hs
    refine ⟨⟨fun h => (by cases h), fun h => ?_⟩, ?_⟩
    · rw [h] at hp
      exact absurd (List.perm_nil.mp hp) (by simp)
    · intro r hr
      simp only [Option.some.injEq] at hr
      subst hr
      refine ⟨hp.mem_iff.mp (List.mem_cons_self _ _), ?_⟩
      intro q hq2
      rcases List.mem_cons.mp (hp.mem_iff.mpr hq2) with rfl | hq3
      · exact Or.inr ⟨rfl, le_refl _⟩
      · exact (List.pairwise_cons.mp hs).1 q hq3

theorem mem_modifyAt (f : Process → Process) (l : List Process) (i : Nat) (y : Process)
    (h : y ∈ modifyAt f l i) : y ∈ l ∨ (procAt l i ∈ l ∧ y = f (procAt l i)) := by
  induction l generalizing i with
  | nil => simp [modifyAt] at h
  | cons x rest ih =>
    cases i with
    | zero =>
      simp only [modifyAt, List.mem_cons] at h
      rcases h with h | h
      · exact Or.inr ⟨by simp [procAt], by rw [h]; rfl⟩
      · exact Or.inl (List.mem_cons_of_mem _ h)
    | succ i =>
      simp only [modifyAt, List.mem_cons] at h
      rcases h with h | h
      · exact Or.inl (by rw [h]; exact List.mem_cons_self _ _)
      · rcases ih i h with h1 | ⟨h1, h2⟩
        · exact Or.inl (List.mem_cons_of_mem _ h1)
        · refine Or.inr ⟨?_, ?_⟩
          · have : procAt (x :: rest) (i + 1) = procAt rest i := by simp [procAt]
            rw [this]; exact List.mem_cons_of_mem _ h1
          · have : procAt (x :: rest) (i + 1) = procAt rest i := by simp [procAt]
            rw [this]; exact h2

theorem NoPreempt.of_eq {s t : DES} (h : NoPreempt s) (h1 : t.scheduler = s.scheduler)
    (h2 : t.event_queue = s.event_queue) (h3 : t.processes = s.processes) : NoPreempt t :=
  ⟨by rw [h1]; exact h.kind, by rw [h1]; exact h.quantum, by rw [h2]; exact h.events,
    by rw [h3]; exact h.procs⟩

theorem NoPreempt.modifyProc_at {s : DES} (h : NoPreempt s) (proc : Nat) (f : Process → Process)
    (hf : s.proc proc ∈ s.processes → ShortBurst (s.proc proc) → ShortBurst (f (s.proc proc))) :
    NoPreempt (s.modifyProc proc f) := by
  refine ⟨h.kind, h.quantum, h.events, ?_⟩
  intro x hx
  rcases mem_modifyAt f s.processes proc x hx with h1 | ⟨h1, h2⟩
  · exact h.procs x h1
  · rw [h2]; exact hf h1 (h.procs _ h1)

theorem NoPreempt.modifyProc {s : DES} (h : NoPreempt s) (proc : Nat) (f : Process → Process)
    (hf : ∀ x, ShortBurst x → ShortBurst (f x)) : NoPreempt (s.modifyProc proc f) :=
  h.modifyProc_at proc f (fun _ hx => hf _ hx)

theorem NoPreempt.add_event {s : DES} (h : NoPreempt s) (t : Int) (p : Nat) (tr : Transition)
    (htr : tr ≠ Transition.TRANS_TO_PREEMPT) : NoPreempt (s.add_event t p tr) := by
  refine ⟨h.kind, h.quantum, ?_, h.procs⟩
  intro e he
  rcases (mem_add_event _ _ _).mp he with h1 | h1
  · rw [h1]; exact htr
  · exact h.events e h1

theorem NoPreempt.kind_ne {s : DES} (h : NoPreempt s) :
    s.scheduler.kind ≠ SchedKind.PREPRIO := by
  rcases h.kind with h1 | h1 | h1 <;> rw [h1] <;> decide

theorem NoPreempt.add_process {s : DES} (h : NoPreempt s) (proc : Nat) :
    NoPreempt (s.add_process proc) := by
  have hk := h.kind
  have hq := h.quantum
  have hp := h.procs
  have he := h.events
  obtain ⟨ct, eq, sch, cur, cs, procs, rv, ri, pio, tc, tio, lt⟩ := s
  obtain ⟨k, q, mp, rq, rs, aq, xq⟩ := sch
  simp only at hk hq hp he
  rcases hk with rfl | rfl | rfl
  · exact ⟨Or.inl rfl, hq, he, hp⟩
  · exact ⟨Or.inr (Or.inl rfl), hq, he, hp⟩
  · exact ⟨Or.inr (Or.inr rfl), hq, he, hp⟩

theorem get_next_process_quantum (sch : Scheduler)
    (hk : sch.kind = SchedKind.FCFS ∨ sch.kind = SchedKind.LCFS ∨ sch.kind = SchedKind.SRTF) :
    (get_next_process sch).2.quantum = sch.quantum := by
  obtain ⟨k, q, mp, rq, rs, aq, xq⟩ := sch
  simp only at hk
  rcases hk with rfl | rfl | rfl
  · cases rq <;> rfl
  · cases rs <;> rfl
  · cases rq <;> rfl

theorem NoPreempt.dispatch {s : DES} (h : NoPreempt s) : NoPreempt (dispatch s) := by
  unfold Sched.dispatch
  split
  · exact h
  · let s1 : DES := { s with scheduler := (get_next_process s.scheduler).2 }
    have hb : NoPreempt s1 :=
      ⟨by show (get_next_process s.scheduler).2.kind = _ ∨ _
          rw [get_next_process_kind]; exact h.kind,
        by show (get_next_process s.scheduler).2.quantum = _
           rw [get_next_process_quantum _ h.kind]; exact h.quantum,
        h.events, h.procs⟩
    dsimp only
    split
    · refine NoPreempt.add_event ?_ _ _ _ ?_
      · exact hb.of_eq rfl rfl rfl
      · decide
    · exact hb.of_eq rfl rfl rfl

theorem NoPreempt.call_scheduler {s : DES} (h : NoPreempt s) : NoPreempt (call_scheduler s) := by
  unfold Sched.call_scheduler
  split
  · split
    · exact h
    · exact NoPreempt.dispatch (h.of_eq rfl rfl rfl)
  · exact h

theorem NoPreempt.account_waiting {s : DES} (h : NoPreempt s) (proc : Nat) (d : Int) :
    NoPreempt (account_waiting s proc d) := by
  unfold Sched.account_waiting
  split
  · exact h.modifyProc proc _ (by intro x hx; exact hx)
  · exact h

theorem NoPreempt.begin_event {s : DES} (h : NoPreempt s) (evt : Event) :
    NoPreempt (begin_event s evt) := by
  have h0 : NoPreempt { s with CURRENT_TIME := evt.timestamp } := h.of_eq rfl rfl rfl
  unfold Sched.begin_event
  dsimp only
  unfold account_io
  dsimp only
  split
  · exact (h0.account_waiting _ _).of_eq rfl rfl rfl
  · exact (h0.account_waiting _ _).of_eq rfl rfl rfl

theorem NoPreempt.end_io {s : DES} (h : NoPreempt s) (proc : Nat) (d : Int) :
    NoPreempt (end_io s proc d) := by
  unfold Sched.end_io
  split
  · have key : ∀ f : Process → Process, (∀ x, ShortBurst x → ShortBurst (f x)) →
        NoPreempt { s.modifyProc proc f with
          processes_in_io := (s.modifyProc proc f).processes_in_io - 1 } :=
      fun f hf => (h.modifyProc proc f hf).of_eq rfl rfl rfl
    exact key _ (by intro x hx; exact hx)
  · exact h

theorem NoPreempt.case_TRANS_TO_READY {s : DES} (h : NoPreempt s) (proc : Nat) (d : Int) :
    NoPreempt (case_TRANS_TO_READY s proc d) := by
  let S1 : DES := Sched.end_io s proc d
  let S2 : DES := S1.modifyProc proc (fun p =>
    { p with state := ProcessState.STATE_READY, state_ts := S1.CURRENT_TIME })
  have h1 : NoPreempt S1 := h.end_io proc d
  have h2 : NoPreempt S2 := h1.modifyProc proc _ (by intro x hx; exact hx)
  have h3 : NoPreempt (preempt_running S2 proc) := by
    rw [preempt_running_eq S2 proc h2.kind_ne]; exact h2
  have h4 : NoPreempt ((preempt_running S2 proc).add_process proc) := h3.add_process proc
  exact h4.of_eq rfl rfl rfl

theorem myrandom_le (s : DES) (burst : Int) (hb : 1 ≤ burst) : (myrandom s burst).1 ≤ burst := by
  unfold myrandom
  simp only
  have := Int.tmod_lt_of_pos (s.randvals.getD (if s.rand_index ≥ s.randvals.length then 0
    else s.rand_index) 0) (show (0 : Int) < burst by omega)
  omega

theorem NoPreempt.new_cpu_burst {s : DES} (h : NoPreempt s) (proc : Nat) :
    NoPreempt (new_cpu_burst s proc) := by
  unfold Sched.new_cpu_burst
  split
  · have hb : NoPreempt (myrandom s (s.proc proc).cpu_burst).2 := h.of_eq rfl rfl rfl
    refine hb.modifyProc_at proc _ ?_
    intro hm hx
    have hx2 : ShortBurst (s.proc proc) := hx
    have hle := myrandom_le s (s.proc proc).cpu_burst hx2.1
    refine ⟨hx.1, hx.2.1, ?_⟩
    dsimp only
    split
    · rename_i hgt
      have := hx2.2.1
      omega
    · have := hx2.2.1
      omega
  · exact h

theorem NoPreempt.burst_le {s : DES} (h : NoPreempt s) (p : Nat) :
    (s.proc p).current_cpu_burst ≤ 10000 := by
  unfold DES.proc procAt
  by_cases hp : p < s.processes.length
  · rw [List.getD_eq_getElem _ _ hp]
    exact (h.procs _ (List.getElem_mem hp)).2.2
  · rw [List.getD_eq_default _ _ (by omega)]
    decide

theorem NoPreempt.case_TRANS_TO_RUN {s : DES} (h : NoPreempt s) (proc : Nat) :
    NoPreempt (case_TRANS_TO_RUN s proc) := by
  let S1 : DES := s.modifyProc proc (fun p =>
    { p with state := ProcessState.STATE_RUNNING, state_ts := s.CURRENT_TIME })
  let S2 : DES := Sched.new_cpu_burst S1 proc
  have h1 : NoPreempt S1 := h.modifyProc proc _ (by intro x hx; exact hx)
  have h2 : NoPreempt S2 := h1.new_cpu_burst proc
  have hle : (S2.proc proc).current_cpu_burst ≤ S2.scheduler.quantum := by
    rw [h2.quantum]; exact h2.burst_le proc
  show NoPreempt (if (S2.proc proc).current_cpu_burst > S2.scheduler.quantum then
      S2.add_event (S2.CURRENT_TIME + S2.scheduler.quantum) proc Transition.TRANS_TO_PREEMPT
    else
      S2.add_event (S2.CURRENT_TIME + (S2.proc proc).current_cpu_burst) proc
        Transition.TRANS_TO_BLOCK)
  rw [if_neg (by omega)]
  exact h2.add_event _ _ _ (by decide)

theorem NoPreempt.finish_or_block {s : DES} (h : NoPreempt s) (proc : Nat) :
    NoPreempt (finish_or_block s proc) := by
  unfold Sched.finish_or_block
  split
  · exact h.modifyProc proc _ (by intro x hx; exact hx)
  · let T : DES := s.modifyProc proc (fun p => { p with state := ProcessState.STATE_BLOCKED })
    let T1 : DES := { T with processes_in_io := T.processes_in_io + 1 }
    have ht : NoPreempt T := h.modifyProc proc _ (by intro x hx; exact hx)
    have ht1 : NoPreempt T1 := ht.of_eq rfl rfl rfl
    have ht2 : NoPreempt (myrandom T1 (T1.proc proc).io_burst).2 := ht1.of_eq rfl rfl rfl
    exact ht2.add_event _ _ _ (by decide)

theorem NoPreempt.case_TRANS_TO_BLOCK {s : DES} (h : NoPreempt s) (proc : Nat) (d : Int) :
    NoPreempt (case_TRANS_TO_BLOCK s proc d) := by
  let S1 : DES := { s with total_cpu_time := s.total_cpu_time + d }
  let S2 : DES := S1.modifyProc proc (fun p =>
    { p with cpu_time_remaining := p.cpu_time_remaining - p.current_cpu_burst,
             current_cpu_burst := 0 })
  let S3 : DES := Sched.finish_or_block S2 proc
  let S4 : DES := S3.modifyProc proc (fun p => { p with state_ts := S3.CURRENT_TIME })
  have h1 : NoPreempt S1 := h.of_eq rfl rfl rfl
  have h2 : NoPreempt S2 :=
    h1.modifyProc proc _ (by intro x hx; exact ⟨hx.1, hx.2.1, show (0 : Int) ≤ 10000 from by decide⟩)
  have h3 : NoPreempt S3 := h2.finish_or_block proc
  have h4 : NoPreempt S4 := h3.modifyProc proc _ (by intro x hx; exact hx)
  exact h4.of_eq rfl rfl rfl

theorem NoPreempt.iteration {s t : DES} (h : NoPreempt s) (ht : iteration s = some t) :
    NoPreempt t := by
  unfold Sched.iteration at ht
  cases hq : s.event_queue with
  | nil =>
    rw [hq] at ht
    simp [EventQueue.get_next_event] at ht
  | cons evt rest =>
    rw [hq] at ht
    simp only [EventQueue.get_next_event, Option.some.injEq] at ht
    subst ht
    have hevt : evt.transition ≠ Transition.TRANS_TO_PREEMPT :=
      h.events evt (by rw [hq]; exact List.mem_cons_self _ _)
    have h0 : NoPreempt { s with event_queue := rest } :=
      ⟨h.kind, h.quantum, fun e he => h.events e (by rw [hq]; exact List.mem_cons_of_mem _ he),
        h.procs⟩
    have h1 := h0.begin_event evt
    apply NoPreempt.call_scheduler
    unfold handle_transition
    split
    · exact h1.case_TRANS_TO_READY _ _
    · exact h1.case_TRANS_TO_RUN _
    · exact h1.case_TRANS_TO_BLOCK _ _
    · rename_i hp
      exact absurd hp hevt

theorem NoPreempt.iterations (n : Nat) {s t : DES} (h : NoPreempt s)
    (ht : iterations n s = some t) : NoPreempt t := by
  induction n generalizing s with
  | zero =>
    simp only [Sched.iterations, Option.some.injEq] at ht
    rw [← ht]; exact h
  | succ n ih =>
    unfold Sched.iterations at ht
    cases hi : Sched.iteration s with
    | none => rw [hi] at ht; cases ht
    | some s1 =>
      rw [hi] at ht
      exact ih (h.iteration hi) ht

theorem NoPreempt.read_process {s : DES} (h : NoPreempt s) (line : Int × Int × Int × Int)
    (hl : 1 ≤ line.2.2.1 ∧ line.2.2.1 ≤ 10000) : NoPreempt (read_process s line) := by
  unfold Sched.read_process
  dsimp only
  refine NoPreempt.add_event ?_ _ _ _ (by decide)
  refine ⟨h.kind, h.quantum, h.events, ?_⟩
  intro x hx
  have hx2 : x ∈ s.processes ++ [_] := hx
  rcases List.mem_append.mp hx2 with h1 | h1
  · exact h.procs x h1
  · rw [List.mem_singleton.mp h1]
    exact ⟨hl.1, hl.2, show (0 : Int) ≤ 10000 from by decide⟩

theorem NoPreempt.read_input_file (sch : Scheduler) (randvals : List Int)
    (lines : List (Int × Int × Int × Int))
    (hk : sch.kind = SchedKind.FCFS ∨ sch.kind = SchedKind.LCFS ∨ sch.kind = SchedKind.SRTF)
    (hq : sch.quantum = 10000)
    (hl : ∀ line, line ∈ lines → 1 ≤ line.2.2.1 ∧ line.2.2.1 ≤ 10000) :
    NoPreempt (read_input_file sch randvals lines) := by
  unfold Sched.read_input_file
  have hgen : ∀ (l : List (Int × Int × Int × Int)) (s : DES), NoPreempt s →
      (∀ line, line ∈ l → 1 ≤ line.2.2.1 ∧ line.2.2.1 ≤ 10000) →
      NoPreempt (l.foldl Sched.read_process s) := by
    intro l
    induction l with
    | nil => intro s h _; exact h
    | cons x rest ih =>
      intro s h hl
      exact ih _ (h.read_process x (hl x (List.mem_cons_self _ _)))
        (fun line hline => hl line (List.mem_cons_of_mem _ hline))
  exact hgen lines _ ⟨hk, hq, fun e he => (by cases he), fun x hx => (by cases hx)⟩ hl

/-- C15 (amended): under FCFS, LCFS and SRTF, when every process has a
`cpu_burst` between 1 and 10000 (the quantum these schedulers keep from the
base class), no state reached by the loop of `run_simulation` has a pending
`TRANS_TO_PREEMPT` event, and the event the loop takes next, if any, is not a
`TRANS_TO_PREEMPT`; the `TRANS_TO_RUN` handler, run in such a state for any
process, schedules a `TRANS_TO_BLOCK` of that process. -/
theorem no_preemption_when_bursts_fit_quantum (spec : SchedSpec) (sch : Scheduler)
    (randvals : List Int) (lines : List (Int × Int × Int × Int)) (n : Nat) (s : DES)
    (hspec : spec = SchedSpec.F ∨ spec = SchedSpec.L ∨ spec = SchedSpec.S)
    (hsch : create_scheduler spec = some sch)
    (hl : ∀ line, line ∈ lines → 1 ≤ line.2.2.1 ∧ line.2.2.1 ≤ 10000)
    (hs : iterations n (read_input_file sch randvals lines) = some s) :
    (∀ e, e ∈ s.event_queue → e.transition ≠ Transition.TRANS_TO_PREEMPT) ∧
    (∀ evt, (EventQueue.get_next_event s.event_queue).1 = some evt →
      evt.transition ≠ Transition.TRANS_TO_PREEMPT) ∧
    (∀ p, ∃ t, (case_TRANS_TO_RUN s p).event_queue =
      EventQueue.add_event ⟨t, p, Transition.TRANS_TO_BLOCK⟩ s.event_queue) := by
  have hkq : (sch.kind = SchedKind.FCFS ∨ sch.kind = SchedKind.LCFS ∨
      sch.kind = SchedKind.SRTF) ∧ sch.quantum = 10000 := by
    rcases hspec with rfl | rfl | rfl
    · simp only [create_scheduler, Option.some.injEq] at hsch
      rw [← hsch]; exact ⟨Or.inl rfl, rfl⟩
    · simp only [create_scheduler, Option.some.injEq] at hsch
      rw [← hsch]; exact ⟨Or.inr (Or.inl rfl), rfl⟩
    · simp only [create_scheduler, Option.some.injEq] at hsch
      rw [← hsch]; exact ⟨Or.inr (Or.inr rfl), rfl⟩
  have hinv := NoPreempt.iterations n
    (NoPreempt.read_input_file sch randvals lines hkq.1 hkq.2 hl) hs
  refine ⟨hinv.events, ?_, ?_⟩
  · intro evt he
    cases hq : s.event_queue with
    | nil => rw [hq] at he; cases he
    | cons e rest =>
      rw [hq] at he
      simp only [EventQueue.get_next_event, Option.some.injEq] at he
      rw [← he]
      exact hinv.events e (by rw [hq]; exact List.mem_cons_self _ _)
  · intro p
    let S1 : DES := s.modifyProc p (fun x =>
      { x with state := ProcessState.STATE_RUNNING, state_ts := s.CURRENT_TIME })
    let S2 : DES := new_cpu_burst S1 p
    have h1 : NoPreempt S1 := hinv.modifyProc p _ (by intro x hx; exact hx)
    have h2 : NoPreempt S2 := h1.new_cpu_burst p
    have hle : (S2.proc p).current_cpu_burst ≤ S2.scheduler.quantum := by
      rw [h2.quantum]; exact h2.burst_le p
    have hq : S2.event_queue = s.event_queue := (new_cpu_burst_effect S1 p).2.2.1
    refine ⟨S2.CURRENT_TIME + (S2.proc p).current_cpu_burst, ?_⟩
    show (if (S2.proc p).current_cpu_burst > S2.scheduler.quantum then
        S2.add_event (S2.CURRENT_TIME + S2.scheduler.quantum) p Transition.TRANS_TO_PREEMPT
      else
        S2.add_event (S2.CURRENT_TIME + (S2.proc p).current_cpu_burst) p
          Transition.TRANS_TO_BLOCK).event_queue = _
    rw [if_neg (by omega)]
    show EventQueue.add_event _ S2.event_queue = _
    rw [hq]

theorem no_preemption_when_bursts_fit_quantum_witness :
    (∀ e, e ∈ desF5.event_queue → e.transition ≠ Transition.TRANS_TO_PREEMPT) ∧
    (∀ evt, (EventQueue.get_next_event desF5.event_queue).1 = some evt →
      evt.transition ≠ Transition.TRANS_TO_PREEMPT) ∧
    (∀ p, ∃ t, (case_TRANS_TO_RUN desF5 p).event_queue =
      EventQueue.add_event ⟨t, p, Transition.TRANS_TO_BLOCK⟩ desF5.event_queue) :=
  no_preemption_when_bursts_fit_quantum SchedSpec.F schF [0, 0, 15000, 50]
    [(0, 20000, 10000, 10), (5, 100, 100, 10)] 5 desF5 (Or.inl rfl) (by decide) (by decide)
    (by decide)

/-- C15 (counterexample): FCFS preempts a burst longer than 10000.  With `-sF`,
the processes `0 20000 20000 10`, `5 100 100 10` and the random numbers
`0 0 15000 50`, process 0 draws a burst of 15001; its `TRANS_TO_RUN` schedules a
`TRANS_TO_PREEMPT` at time 10000; after five iterations of the loop process 1 is
RUNNING and process 0 is READY with 5001 units of its burst left. -/
theorem fcfs_long_burst_is_preempted :
    (iterations 2 desF).map (fun s => s.event_queue) =
      some [⟨5, 1, Transition.TRANS_TO_READY⟩, ⟨10000, 0, Transition.TRANS_TO_PREEMPT⟩] ∧
    (iterations 5 desF).map (fun s => s.processes.map (fun p => p.state)) =
      some [ProcessState.STATE_READY, ProcessState.STATE_RUNNING] ∧
    (iterations 5 desF).map (fun s => s.processes.map (fun p => p.current_cpu_burst)) =
      some [5001, 51] ∧
    (iterations 5 desF).map (fun s => s.CURRENT_TIME) = some 10000 := by
  decide

/-- C16: under PREPRIO a run ends with the sum of the turnaround times below
the sum of the CPU demands.  With `-sE10000`, the processes `2 25 11 1`,
`3 2 25 1`, `4 8 16 1` and the random numbers `36 34 34 4 36 9` the loop of
`run_simulation` ends with all three processes FINISHED at the times 25, 5 and
13: the sum of `finish_time - arrival_time` is 34, the sum of `total_cpu_time`
is 35. -/
theorem preprio_turnaround_below_demand :
    (run_simulation 40 desT).map (fun s => s.processes.map (fun p => p.state)) =
      some [ProcessState.STATE_FINISHED, ProcessState.STATE_FINISHED,
        ProcessState.STATE_FINISHED] ∧
    (run_simulation 40 desT).map (fun s => s.processes.map (fun p => p.finish_time)) =
      some [25, 5, 13] ∧
    (run_simulation 40 desT).map total_turnaround = some 34 ∧
    (run_simulation 40 desT).map total_demand = some 35 := by
  set_option maxRecDepth 100000 in decide

theorem run_simulation_mono (fuel k : Nat) (s t : DES) (h : run_simulation fuel s = some t) :
    run_simulation (fuel + k) s = some t := by
  induction fuel generalizing s with
  | zero => cases h
  | succ n ih =>
    rw [Nat.add_right_comm]
    unfold run_simulation at h ⊢
    cases hi : iteration s with
    | none => rw [hi] at h; exact h
    | some s1 => rw [hi] at h; exact ih s1 h

theorem run_simulation_det (f g : Nat) (s t u : DES) (h1 : run_simulation f s = some t)
    (h2 : run_simulation g s = some u) : t = u := by
  have a := run_simulation_mono f g s t h1
  have b := run_simulation_mono g f s u h2
  rw [Nat.add_comm] at b
  rw [a] at b
  cases b
  rfl

/-- C29 (amended): running FCFS on A = (AT 0, TC 100, CB 10, IO 10) and
B = (AT 50, TC 50, CB 20, IO 5) with a random file whose numbers are all 1
(one number, or 200 of them so that the cursor never wraps), the loop ends and
process A finishes at time 198 and process B at time 148: every draw is
`1 + 1 mod burst = 2`, so every CPU burst and every I/O burst lasts 2. -/
theorem fcfs_scenario_finish_times :
    (∃ s, run_simulation 300 (desOnes 1) = some s ∧
      s.processes.map (fun p => (p.pid, p.arrival_time, p.total_cpu_time, p.finish_time)) =
        [(0, 0, 100, 198), (1, 50, 50, 148)]) ∧
    (∃ s, run_simulation 300 (desOnes 200) = some s ∧
      s.processes.map (fun p => (p.pid, p.arrival_time, p.total_cpu_time, p.finish_time)) =
        [(0, 0, 100, 198), (1, 50, 50, 148)]) ∧
    (∀ fuel s, run_simulation fuel (desOnes 1) = some s →
      s.processes.map (fun p => p.finish_time) = [198, 148]) := by
  have h1 : (run_simulation 300 (desOnes 1)).map (fun s =>
      s.processes.map (fun p => (p.pid, p.arrival_time, p.total_cpu_time, p.finish_time))) =
      some [(0, 0, 100, 198), (1, 50, 50, 148)] := by
    decide!
  have h2 : (run_simulation 300 (desOnes 200)).map (fun s =>
      s.processes.map (fun p => (p.pid, p.arrival_time, p.total_cpu_time, p.finish_time))) =
      some [(0, 0, 100, 198), (1, 50, 50, 148)] := by
    decide!
  cases hs1 : run_simulation 300 (desOnes 1) with
  | none => rw [hs1] at h1; cases h1
  | some s1 =>
    cases hs2 : run_simulation 300 (desOnes 200) with
    | none => rw [hs2] at h2; cases h2
    | some s2 =>
      rw [hs1] at h1
      rw [hs2] at h2
      simp only [Option.map_some', Option.some.injEq] at h1 h2
      refine ⟨⟨s1, rfl, h1⟩, ⟨s2, rfl, h2⟩, ?_⟩
      intro fuel s hs
      have : s = s1 := run_simulation_det fuel 300 _ s s1 hs hs1
      rw [this]
      have h3 := congrArg (List.map (fun x : Int × Int × Int × Int => x.2.2.2)) h1
      simpa [List.map_map, Function.comp] using h3

/-- C29 (counterexample to the times of the claim): in that run process A does
not finish at time 180 and process B does not finish at time 200. -/
theorem fcfs_scenario_not_180_200 :
    ∃ s, run_simulation 300 (desOnes 1) = some s ∧
      s.processes.map (fun p => p.finish_time) = [198, 148] ∧
      s.processes.map (fun p => p.finish_time) ≠ [180, 200] := by
  have h1 : (run_simulation 300 (desOnes 1)).map (fun s =>
      s.processes.map (fun p => p.finish_time)) = some [198, 148] := by
    decide!
  cases hs1 : run_simulation 300 (desOnes 1) with
  | none => rw [hs1] at h1; cases h1
  | some s1 =>
    rw [hs1] at h1
    simp only [Option.map_some', Option.some.injEq] at h1
    refine ⟨s1, rfl, h1, ?_⟩
    rw [h1]
    decide

/-- C33: `DES_Layer::myrandom(n)` for `n > 0` and a non-empty sequence of
non-negative random numbers.  With `i` the cursor, taken as 0 when it has
reached the end of the sequence, and `v` the number at position `i`, the draw
returns `1 + v mod n`, a value between 1 and `n`, leaves the cursor at `i + 1`
and changes nothing else; two simulators with the same sequence and cursor
draw the same value and leave the same cursor. -/
theorem myrandom_returns_one_plus_mod (s : DES) (n : Int) (hn : 0 < n)
    (hne : s.randvals ≠ []) (hv : ∀ v, v ∈ s.randvals → 0 ≤ v) :
    ∃ v, s.randvals[if s.rand_index ≥ s.randvals.length then 0 else s.rand_index]? = some v ∧
      (myrandom s n).1 = 1 + v % n ∧
      1 ≤ (myrandom s n).1 ∧ (myrandom s n).1 ≤ n ∧
      (myrandom s n).2 =
        { s with rand_index :=
            (if s.rand_index ≥ s.randvals.length then 0 else s.rand_index) + 1 } ∧
      ∀ t : DES, t.randvals = s.randvals → t.rand_index = s.rand_index →
        (myrandom t n).1 = (myrandom s n).1 ∧
          (myrandom t n).2.rand_index = (myrandom s n).2.rand_index := by
  have hlen : 0 < s.randvals.length := List.length_pos.mpr hne
  have hi : (if s.rand_index ≥ s.randvals.length then 0 else s.rand_index) <
      s.randvals.length := by
    split <;> omega
  have hget := List.getElem?_eq_getElem hi
  have hmem : s.randvals[if s.rand_index ≥ s.randvals.length then 0 else s.rand_index] ∈
      s.randvals := List.getElem_mem hi
  have h0 := hv _ hmem
  have hval : (myrandom s n).1 =
      1 + s.randvals[if s.rand_index ≥ s.randvals.length then 0 else s.rand_index] % n := by
    show 1 + Int.tmod (s.randvals.getD _ 0) n = _
    rw [List.getD_eq_getElem?_getD, hget, Option.getD_some,
      Int.tmod_eq_emod h0 (le_of_lt hn)]
  refine ⟨_, hget, hval, ?_, ?_, rfl, ?_⟩
  · rw [hval]
    have := Int.emod_nonneg
      (s.randvals[if s.rand_index ≥ s.randvals.length then 0 else s.rand_index])
      (ne_of_gt hn)
    omega
  · rw [hval]
    have := Int.emod_lt_of_pos
      (s.randvals[if s.rand_index ≥ s.randvals.length then 0 else s.rand_index]) hn
    omega
  · intro t h1 h2
    unfold myrandom
    simp only [h1, h2]
    exact ⟨trivial, trivial⟩

theorem myrandom_returns_one_plus_mod_witness :
    (0 : Int) < 5 ∧ desR.randvals ≠ [] ∧ (∀ v, v ∈ desR.randvals → 0 ≤ v) ∧
    (myrandom desR 5).1 = 3 ∧ (myrandom desR 5).2.rand_index = 1 ∧
    ∃ v, desR.randvals[if desR.rand_index ≥ desR.randvals.length then 0
        else desR.rand_index]? = some v ∧
      (myrandom desR 5).1 = 1 + v % 5 ∧
      1 ≤ (myrandom desR 5).1 ∧ (myrandom desR 5).1 ≤ 5 ∧
      (myrandom desR 5).2 =
        { desR with rand_index :=
            (if desR.rand_index ≥ desR.randvals.length then 0 else desR.rand_index) + 1 } ∧
      ∀ t : DES, t.randvals = desR.randvals → t.rand_index = desR.rand_index →
        (myrandom t 5).1 = (myrandom desR 5).1 ∧
          (myrandom t 5).2.rand_index = (myrandom desR 5).2.rand_index :=
  ⟨by decide, by decide, by decide, by decide, by decide,
    myrandom_returns_one_plus_mod desR 5 (by decide) (by decide) (by decide)⟩

theorem proc_modifyProc_same (s : DES) (p : Nat) (f : Process → Process)
    (hp : p < s.processes.length) : (s.modifyProc p f).proc p = f (s.proc p) := by
  show (modifyAt f s.processes p).getD p _ = f (s.processes.getD p _)
  rw [getD_modifyAt, if_pos ⟨rfl, hp⟩]

theorem proc_modifyProc_other (s : DES) (p q : Nat) (f : Process → Process) (hq : q ≠ p) :
    (s.modifyProc p f).proc q = s.proc q := by
  show (modifyAt f s.processes p).getD q _ = s.processes.getD q _
  rw [getD_modifyAt, if_neg (fun h => hq h.1)]

theorem case_TRANS_TO_RUN_eq (s : DES) (proc : Nat) :
    case_TRANS_TO_RUN s proc =
      case_TRANS_TO_RUN_tail (new_cpu_burst (s.modifyProc proc (fun p =>
        { p with state := ProcessState.STATE_RUNNING, state_ts := s.CURRENT_TIME })) proc)
        proc := rfl

theorem run_tail_spec (s2 : DES) (proc : Nat) :
    (case_TRANS_TO_RUN_tail s2 proc).processes = s2.processes ∧
    (case_TRANS_TO_RUN_tail s2 proc).rand_index = s2.rand_index ∧
    (case_TRANS_TO_RUN_tail s2 proc).scheduler = s2.scheduler ∧
    (case_TRANS_TO_RUN_tail s2 proc).event_queue =
      EventQueue.add_event
        (Event.mk (s2.CURRENT_TIME + min (s2.proc proc).current_cpu_burst s2.scheduler.quantum)
          proc
          (if (s2.proc proc).current_cpu_burst ≤ s2.scheduler.quantum
            then Transition.TRANS_TO_BLOCK else Transition.TRANS_TO_PREEMPT))
        s2.event_queue := by
  unfold case_TRANS_TO_RUN_tail
  by_cases hgt : (s2.proc proc).current_cpu_burst > s2.scheduler.quantum
  · rw [if_pos hgt, if_neg (by omega), min_eq_right (le_of_lt hgt)]
    exact ⟨rfl, rfl, rfl, rfl⟩
  · rw [if_neg hgt, if_pos (by omega), min_eq_left (by omega)]
    exact ⟨rfl, rfl, rfl, rfl⟩

theorem new_cpu_burst_spec (s1 : DES) (proc : Nat) (hp : proc < s1.processes.length) :
    (new_cpu_burst s1 proc).event_queue = s1.event_queue ∧
    (new_cpu_burst s1 proc).CURRENT_TIME = s1.CURRENT_TIME ∧
    (new_cpu_burst s1 proc).scheduler = s1.scheduler ∧
    ((new_cpu_burst s1 proc).proc proc).state = (s1.proc proc).state ∧
    (∀ q, q ≠ proc → (new_cpu_burst s1 proc).proc q = s1.proc q) ∧
    ((s1.proc proc).current_cpu_burst = 0 →
      ((new_cpu_burst s1 proc).proc proc).current_cpu_burst =
        min (myrandom s1 (s1.proc proc).cpu_burst).1 (s1.proc proc).cpu_time_remaining ∧
      (new_cpu_burst s1 proc).rand_index =
        (myrandom s1 (s1.proc proc).cpu_burst).2.rand_index) ∧
    ((s1.proc proc).current_cpu_burst ≠ 0 →
      ((new_cpu_burst s1 proc).proc proc).current_cpu_burst = (s1.proc proc).current_cpu_burst ∧
      (new_cpu_burst s1 proc).rand_index = s1.rand_index) := by
  unfold new_cpu_burst
  by_cases hb : (s1.proc proc).current_cpu_burst = 0
  · rw [if_pos hb]
    simp only
    have hsame := proc_modifyProc_same (myrandom s1 (s1.proc proc).cpu_burst).2 proc
      (fun p => { p with current_cpu_burst :=
        if (myrandom s1 (s1.proc proc).cpu_burst).1 > p.cpu_time_remaining
        then p.cpu_time_remaining else (myrandom s1 (s1.proc proc).cpu_burst).1 }) hp
    have hr : (myrandom s1 (s1.proc proc).cpu_burst).2.proc proc = s1.proc proc := rfl
    refine ⟨rfl, rfl, rfl, ?_, ?_, ?_, fun h => absurd hb h⟩
    · rw [hsame, hr]
    · intro q hq
      rw [proc_modifyProc_other _ _ _ _ hq]
      rfl
    · intro _
      refine ⟨?_, rfl⟩
      rw [hsame, hr]
      show (if _ then _ else _) = _
      by_cases hgt : (myrandom s1 (s1.proc proc).cpu_burst).1 > (s1.proc proc).cpu_time_remaining
      · rw [if_pos hgt, min_eq_right (le_of_lt hgt)]
      · rw [if_neg hgt, min_eq_left (by omega)]
  · rw [if_neg hb]
    exact ⟨rfl, rfl, rfl, rfl, fun _ _ => rfl, fun h => absurd h hb, fun _ => ⟨rfl, rfl⟩⟩

/-- C34: `case TRANS_TO_RUN` for the process `proc`.  When its
`current_cpu_burst` is 0 the burst becomes the smaller of `myrandom(cpu_burst)`
and `cpu_time_remaining`, and the random cursor moves by this one draw;
otherwise the burst is kept and the cursor does not move.  The process becomes
RUNNING, and the new event queue is the old one with exactly one event added:
for `proc`, at time `CURRENT_TIME + min(burst, quantum)`, with transition
`TRANS_TO_BLOCK` when `burst <= quantum` and `TRANS_TO_PREEMPT` otherwise.  With
quantum 1 (as under RR with `-sR1`) a burst greater than 1 gives a
`TRANS_TO_PREEMPT` at `CURRENT_TIME + 1`.  The scheduler and the other
processes are not changed. -/
theorem to_run_schedules_one_event (s : DES) (proc : Nat) (hp : proc < s.processes.length) :
    ((s.proc proc).current_cpu_burst = 0 →
      ((case_TRANS_TO_RUN s proc).proc proc).current_cpu_burst =
        min (myrandom s (s.proc proc).cpu_burst).1 (s.proc proc).cpu_time_remaining ∧
      (case_TRANS_TO_RUN s proc).rand_index =
        (myrandom s (s.proc proc).cpu_burst).2.rand_index) ∧
    ((s.proc proc).current_cpu_burst ≠ 0 →
      ((case_TRANS_TO_RUN s proc).proc proc).current_cpu_burst =
        (s.proc proc).current_cpu_burst ∧
      (case_TRANS_TO_RUN s proc).rand_index = s.rand_index) ∧
    ((case_TRANS_TO_RUN s proc).proc proc).state = ProcessState.STATE_RUNNING ∧
    (case_TRANS_TO_RUN s proc).event_queue =
      EventQueue.add_event
        (Event.mk
          (s.CURRENT_TIME +
            min ((case_TRANS_TO_RUN s proc).proc proc).current_cpu_burst s.scheduler.quantum)
          proc
          (if ((case_TRANS_TO_RUN s proc).proc proc).current_cpu_burst ≤ s.scheduler.quantum
            then Transition.TRANS_TO_BLOCK else Transition.TRANS_TO_PREEMPT))
        s.event_queue ∧
    (s.scheduler.quantum = 1 →
      ((case_TRANS_TO_RUN s proc).proc proc).current_cpu_burst > 1 →
      (case_TRANS_TO_RUN s proc).event_queue =
        EventQueue.add_event (Event.mk (s.CURRENT_TIME + 1) proc Transition.TRANS_TO_PREEMPT)
          s.event_queue) ∧
    (case_TRANS_TO_RUN s proc).scheduler = s.scheduler ∧
    ∀ q, q ≠ proc → (case_TRANS_TO_RUN s proc).proc q = s.proc q := by
  have hp1 : proc < (s.modifyProc proc (fun p =>
      { p with state := ProcessState.STATE_RUNNING, state_ts := s.CURRENT_TIME })).processes.length := by
    show proc < (modifyAt _ s.processes proc).length
    rw [length_modifyAt]; exact hp
  have hs1 := proc_modifyProc_same s proc (fun p =>
      { p with state := ProcessState.STATE_RUNNING, state_ts := s.CURRENT_TIME }) hp
  obtain ⟨n1, n2, n3, n4, n5, n6, n7⟩ := new_cpu_burst_spec _ proc hp1
  obtain ⟨t1, t2, t3, t4⟩ := run_tail_spec (new_cpu_burst (s.modifyProc proc (fun p =>
      { p with state := ProcessState.STATE_RUNNING, state_ts := s.CURRENT_TIME })) proc) proc
  rw [← case_TRANS_TO_RUN_eq] at t1 t2 t3 t4
  have hproc : ∀ q, (case_TRANS_TO_RUN s proc).proc q =
      (new_cpu_burst (s.modifyProc proc (fun p =>
        { p with state := ProcessState.STATE_RUNNING, state_ts := s.CURRENT_TIME })) proc).proc q := by
    intro q
    show procAt (case_TRANS_TO_RUN s proc).processes q = _
    rw [t1]; rfl
  rw [hs1] at n4 n6 n7
  have hev : (case_TRANS_TO_RUN s proc).event_queue =
      EventQueue.add_event
        (Event.mk
          (s.CURRENT_TIME +
            min ((case_TRANS_TO_RUN s proc).proc proc).current_cpu_burst s.scheduler.quantum)
          proc
          (if ((case_TRANS_TO_RUN s proc).proc proc).current_cpu_burst ≤ s.scheduler.quantum
            then Transition.TRANS_TO_BLOCK else Transition.TRANS_TO_PREEMPT))
        s.event_queue := by
    rw [t4, hproc proc, n1, n2, n3]
    rfl
  refine ⟨?_, ?_, ?_, hev, ?_, ?_, ?_⟩
  · intro hb
    obtain ⟨e1, e2⟩ := n6 hb
    rw [hproc proc, t2]
    exact ⟨e1, e2⟩
  · intro hb
    obtain ⟨e1, e2⟩ := n7 hb
    rw [hproc proc, t2]
    exact ⟨e1, e2⟩
  · rw [hproc proc, n4]
  · intro hq hb
    rw [hev, hq, min_eq_right (le_of_lt hb), if_neg (by omega)]
  · rw [t3, n3]; rfl
  · intro q hq
    rw [hproc q, n5 q hq, proc_modifyProc_other _ _ _ _ hq]

theorem to_run_schedules_one_event_witness :
    0 < desRR.processes.length ∧ desRR.scheduler.kind = SchedKind.RR ∧
    desRR.scheduler.quantum = 1 ∧ (desRR.proc 0).current_cpu_burst = 0 ∧
    desRR.event_queue = [Event.mk 0 0 Transition.TRANS_TO_RUN] ∧
    ((case_TRANS_TO_RUN desRR 0).proc 0).current_cpu_burst = 7 ∧
    (case_TRANS_TO_RUN { desRR with event_queue := [] } 0).event_queue =
      [Event.mk 1 0 Transition.TRANS_TO_PREEMPT] ∧
    (((desRR.proc 0).current_cpu_burst = 0 →
      ((case_TRANS_TO_RUN desRR 0).proc 0).current_cpu_burst =
        min (myrandom desRR (desRR.proc 0).cpu_burst).1 (desRR.proc 0).cpu_time_remaining ∧
      (case_TRANS_TO_RUN desRR 0).rand_index =
        (myrandom desRR (desRR.proc 0).cpu_burst).2.rand_index) ∧
    ((desRR.proc 0).current_cpu_burst ≠ 0 →
      ((case_TRANS_TO_RUN desRR 0).proc 0).current_cpu_burst =
        (desRR.proc 0).current_cpu_burst ∧
      (case_TRANS_TO_RUN desRR 0).rand_index = desRR.rand_index) ∧
    ((case_TRANS_TO_RUN desRR 0).proc 0).state = ProcessState.STATE_RUNNING ∧
    (case_TRANS_TO_RUN desRR 0).event_queue =
      EventQueue.add_event
        (Event.mk
          (desRR.CURRENT_TIME +
            min ((case_TRANS_TO_RUN desRR 0).proc 0).current_cpu_burst desRR.scheduler.quantum)
          0
          (if ((case_TRANS_TO_RUN desRR 0).proc 0).current_cpu_burst ≤ desRR.scheduler.quantum
            then Transition.TRANS_TO_BLOCK else Transition.TRANS_TO_PREEMPT))
        desRR.event_queue ∧
    (desRR.scheduler.quantum = 1 →
      ((case_TRANS_TO_RUN desRR 0).proc 0).current_cpu_burst > 1 →
      (case_TRANS_TO_RUN desRR 0).event_queue =
        EventQueue.add_event (Event.mk (desRR.CURRENT_TIME + 1) 0 Transition.TRANS_TO_PREEMPT)
          desRR.event_queue) ∧
    (case_TRANS_TO_RUN desRR 0).scheduler = desRR.scheduler ∧
    ∀ q, q ≠ 0 → (case_TRANS_TO_RUN desRR 0).proc q = desRR.proc q) :=
  ⟨by decide, by decide, by decide, by decide, by decide, by decide, by decide,
    to_run_schedules_one_event desRR 0 (by decide)⟩

theorem mem_modifyAt_gen {α : Type} (f : α → α) (l : List α) (i : Nat) (y : α)
    (h : y ∈ modifyAt f l i) : y ∈ l ∨ ∃ x, x ∈ l ∧ y = f x := by
  induction l generalizing i with
  | nil => simp [modifyAt] at h
  | cons x rest ih =>
    cases i with
    | zero =>
      simp only [modifyAt, List.mem_cons] at h
      rcases h with h | h
      · exact Or.inr ⟨x, List.mem_cons_self _ _, h⟩
      · exact Or.inl (List.mem_cons_of_mem _ h)
    | succ i =>
      simp only [modifyAt, List.mem_cons] at h
      rcases h with h | h
      · exact Or.inl (by rw [h]; exact List.mem_cons_self _ _)
      · rcases ih i h with h1 | ⟨z, h1, h2⟩
        · exact Or.inl (List.mem_cons_of_mem _ h1)
        · exact Or.inr ⟨z, List.mem_cons_of_mem _ h1, h2⟩

theorem procAt_mem (l : List Process) (p : Nat) (hp : p < l.length) : procAt l p ∈ l := by
  unfold procAt
  rw [List.getD_eq_getElem _ _ hp]
  exact List.getElem_mem hp

theorem PrioInv.prio_bounds_at {s : DES} (h : PrioInv s) (p : Nat) (hp : p < s.processes.length) :
    PrioBounds s.scheduler.maxprio (s.proc p) :=
  h.procs _ (procAt_mem s.processes p hp)

theorem PrioInv.prio_of_eq {s t : DES} (h : PrioInv s) (h1 : t.scheduler = s.scheduler)
    (h2 : t.event_queue = s.event_queue) (h3 : t.processes = s.processes)
    (h4 : t.CURRENT_RUNNING_PROCESS = s.CURRENT_RUNNING_PROCESS)
    (h5 : t.randvals = s.randvals) : PrioInv t :=
  ⟨by rw [h1]; exact h.kind, by rw [h1]; exact h.levels, by rw [h1]; exact h.active_len,
    by rw [h1]; exact h.expired_len, by rw [h1, h3]; exact h.procs,
    by rw [h2, h3]; exact h.events, by rw [h3, h4]; exact h.cur,
    by rw [h1, h3]; exact h.active, by rw [h1, h3]; exact h.expired, by rw [h5]; exact h.rand⟩

theorem PrioInv.prio_modifyProc {s : DES} (h : PrioInv s) (proc : Nat) (f : Process → Process)
    (hf : ∀ x, PrioBounds s.scheduler.maxprio x → PrioBounds s.scheduler.maxprio (f x)) :
    PrioInv (s.modifyProc proc f) := by
  have hlen : (s.modifyProc proc f).processes.length = s.processes.length :=
    length_modifyAt f s.processes proc
  refine ⟨h.kind, h.levels, h.active_len, h.expired_len, ?_, ?_, ?_, ?_, ?_, h.rand⟩
  · intro x hx
    rcases mem_modifyAt f s.processes proc x hx with h1 | ⟨h1, h2⟩
    · exact h.procs x h1
    · rw [h2]; exact hf _ (h.procs _ h1)
  · intro e he; rw [hlen]; exact h.events e he
  · intro c hc; rw [hlen]; exact h.cur c hc
  · intro l hl p hp; rw [hlen]; exact h.active l hl p hp
  · intro l hl p hp; rw [hlen]; exact h.expired l hl p hp

theorem PrioInv.prio_add_event {s : DES} (h : PrioInv s) (t : Int) (p : Nat) (tr : Transition)
    (hp : p < s.processes.length) : PrioInv (s.add_event t p tr) := by
  refine ⟨h.kind, h.levels, h.active_len, h.expired_len, h.procs, ?_, h.cur, h.active,
    h.expired, h.rand⟩
  intro e he
  rcases (mem_add_event _ _ _).mp he with h1 | h1
  · rw [h1]; exact hp
  · exact h.events e h1

theorem add_process_prio (sch : Scheduler) (processes : List Process) (p : Nat)
    (hk : sch.kind = SchedKind.PRIO ∨ sch.kind = SchedKind.PREPRIO)
    (hd : 0 ≤ (procAt processes p).dynamic_priority) :
    add_process sch processes p =
      ({ sch with
          activeQ := modifyAt (fun l => l ++ [p]) sch.activeQ
            (procAt processes p).dynamic_priority.toNat }, processes) := by
  have key : PrioScheduler_add_process sch processes p =
      ({ sch with
          activeQ := modifyAt (fun l => l ++ [p]) sch.activeQ
            (procAt processes p).dynamic_priority.toNat }, processes) := by
    unfold PrioScheduler_add_process
    rw [if_neg (by omega)]
  rw [← key]
  unfold add_process
  rcases hk with hk | hk
  · rw [hk]
  · rw [hk]

theorem PrioInv.prio_add_process {s : DES} (h : PrioInv s) (proc : Nat)
    (hp : proc < s.processes.length) : PrioInv (s.add_process proc) := by
  have hb := h.prio_bounds_at proc hp
  have e := add_process_prio s.scheduler s.processes proc h.kind hb.2.2.1
  have e2 : s.add_process proc =
      { s with
        scheduler :=
          { s.scheduler with
            activeQ := modifyAt (fun l => l ++ [proc]) s.scheduler.activeQ
              (procAt s.processes proc).dynamic_priority.toNat } } := by
    unfold DES.add_process
    simp only [e]
  rw [e2]
  refine ⟨h.kind, h.levels, ?_, h.expired_len, h.procs, h.events, h.cur, ?_, h.expired, h.rand⟩
  · show (modifyAt _ _ _).length = _
    rw [length_modifyAt]; exact h.active_len
  · intro l hl p hpl
    rcases mem_modifyAt_gen _ _ _ _ hl with h1 | ⟨z, h1, h2⟩
    · exact h.active l h1 p hpl
    · rw [h2] at hpl
      rcases List.mem_append.mp hpl with h3 | h3
      · exact h.active z h1 p h3
      · rw [List.mem_singleton.mp h3]; exact hp

theorem getD_mem_levels (q : List (List Nat)) (i p : Nat) (rest : List Nat)
    (h : q.getD i [] = p :: rest) : ∃ l, l ∈ q ∧ p ∈ l ∧ ∀ x, x ∈ rest → x ∈ l := by
  by_cases hi : i < q.length
  · rw [List.getD_eq_getElem _ _ hi] at h
    exact ⟨q[i], List.getElem_mem hi, by rw [h]; exact List.mem_cons_self _ _,
      fun x hx => by rw [h]; exact List.mem_cons_of_mem _ hx⟩
  · rw [List.getD_eq_default _ _ (by omega)] at h
    cases h

theorem prio_scan_valid (q : List (List Nat)) (n N : Nat)
    (hq : ∀ l, l ∈ q → ∀ p, p ∈ l → p < N) (i p : Nat) (h : prio_scan q n = some (i, p)) :
    p < N ∧ ∀ l, l ∈ modifyAt List.tail q i → ∀ x, x ∈ l → x < N := by
  obtain ⟨_, ⟨rest, hr⟩, _⟩ := prio_scan_some q n i p h
  obtain ⟨l, hl, hpl, _⟩ := getD_mem_levels q i p rest hr
  refine ⟨hq l hl p hpl, ?_⟩
  intro l2 hl2 x hx
  rcases mem_modifyAt_gen _ _ _ _ hl2 with h1 | ⟨z, h1, h2⟩
  · exact hq l2 h1 x hx
  · rw [h2] at hx
    exact hq z h1 x (List.mem_of_mem_tail hx)

theorem PrioScheduler_get_next_process_valid (sch : Scheduler) (N : Nat)
    (hA : sch.activeQ.length = sch.maxprio.toNat) (hE : sch.expiredQ.length = sch.maxprio.toNat)
    (ha : ∀ l, l ∈ sch.activeQ → ∀ p, p ∈ l → p < N)
    (he : ∀ l, l ∈ sch.expiredQ → ∀ p, p ∈ l → p < N) :
    (PrioScheduler_get_next_process sch).2.maxprio = sch.maxprio ∧
    (PrioScheduler_get_next_process sch).2.activeQ.length = sch.maxprio.toNat ∧
    (PrioScheduler_get_next_process sch).2.expiredQ.length = sch.maxprio.toNat ∧
    (∀ l, l ∈ (PrioScheduler_get_next_process sch).2.activeQ → ∀ p, p ∈ l → p < N) ∧
    (∀ l, l ∈ (PrioScheduler_get_next_process sch).2.expiredQ → ∀ p, p ∈ l → p < N) ∧
    ∀ p, (PrioScheduler_get_next_process sch).1 = some p → p < N := by
  unfold PrioScheduler_get_next_process
  cases h1 : prio_scan sch.activeQ sch.maxprio.toNat with
  | some r =>
    obtain ⟨i, p⟩ := r
    obtain ⟨v1, v2⟩ := prio_scan_valid _ _ N ha i p h1
    refine ⟨rfl, ?_, hE, v2, he, ?_⟩
    · show (modifyAt _ _ _).length = _
      rw [length_modifyAt]; exact hA
    · intro p2 hp2
      simp only [Option.some.injEq] at hp2
      rw [← hp2]; exact v1
  | none =>
    by_cases hx : has_expired_processes sch = true
    · rw [if_pos hx]
      simp only
      cases h2 : prio_scan sch.expiredQ sch.maxprio.toNat with
      | some r =>
        obtain ⟨i, p⟩ := r
        obtain ⟨v1, v2⟩ := prio_scan_valid _ _ N he i p h2
        refine ⟨rfl, ?_, hA, v2, ha, ?_⟩
        · show (modifyAt _ _ _).length = _
          rw [length_modifyAt]; exact hE
        · intro p2 hp2
          simp only [Option.some.injEq] at hp2
          rw [← hp2]; exact v1
      | none =>
        exact ⟨rfl, hE, hA, he, ha, fun p hp => by cases hp⟩
    · rw [if_neg hx]
      exact ⟨rfl, hA, hE, ha, he, fun p hp => by cases hp⟩

theorem get_next_process_prio (sch : Scheduler)
    (hk : sch.kind = SchedKind.PRIO ∨ sch.kind = SchedKind.PREPRIO) :
    get_next_process sch = PrioScheduler_get_next_process sch := by
  unfold get_next_process
  rcases hk with hk | hk <;> rw [hk]

theorem PrioInv.prio_dispatch {s : DES} (h : PrioInv s) : PrioInv (Sched.dispatch s) := by
  unfold Sched.dispatch
  split
  · exact h
  · rename_i hcur
    obtain ⟨g1, g2, g3, g4, g5, g6⟩ := PrioScheduler_get_next_process_valid s.scheduler
      s.processes.length h.active_len h.expired_len h.active h.expired
    rw [← get_next_process_prio _ h.kind] at g1 g2 g3 g4 g5 g6
    have hb : PrioInv
        { s with
          scheduler := (get_next_process s.scheduler).2,
          CURRENT_RUNNING_PROCESS := (get_next_process s.scheduler).1 } :=
      ⟨by show (get_next_process s.scheduler).2.kind = _ ∨ _
          rw [get_next_process_kind]; exact h.kind,
        by show 1 ≤ (get_next_process s.scheduler).2.maxprio
           rw [g1]; exact h.levels,
        by show (get_next_process s.scheduler).2.activeQ.length = _
           rw [g1]; exact g2,
        by show (get_next_process s.scheduler).2.expiredQ.length = _
           rw [g1]; exact g3,
        by show ∀ x, x ∈ s.processes → PrioBounds (get_next_process s.scheduler).2.maxprio x
           rw [g1]; exact h.procs,
        h.events, g6, g4, g5, h.rand⟩
    dsimp only
    split
    · rename_i p hp
      exact hb.prio_add_event _ _ _ (g6 p hp)
    · exact hb

theorem PrioInv.prio_call_scheduler {s : DES} (h : PrioInv s) : PrioInv (Sched.call_scheduler s) := by
  unfold Sched.call_scheduler
  split
  · split
    · exact h
    · exact PrioInv.prio_dispatch (h.prio_of_eq rfl rfl rfl rfl rfl)
  · exact h

theorem PrioInv.prio_account_waiting {s : DES} (h : PrioInv s) (proc : Nat) (d : Int) :
    PrioInv (Sched.account_waiting s proc d) := by
  unfold Sched.account_waiting
  split
  · exact h.prio_modifyProc proc _ (by intro x hx; exact hx)
  · exact h

theorem PrioInv.prio_begin_event {s : DES} (h : PrioInv s) (evt : Event) :
    PrioInv (Sched.begin_event s evt) := by
  have h0 : PrioInv { s with CURRENT_TIME := evt.timestamp } := h.prio_of_eq rfl rfl rfl rfl rfl
  unfold Sched.begin_event
  dsimp only
  unfold account_io
  dsimp only
  split
  · exact (h0.prio_account_waiting _ _).prio_of_eq rfl rfl rfl rfl rfl
  · exact (h0.prio_account_waiting _ _).prio_of_eq rfl rfl rfl rfl rfl

theorem PrioInv.prio_end_io {s : DES} (h : PrioInv s) (proc : Nat) (d : Int) :
    PrioInv (Sched.end_io s proc d) := by
  unfold Sched.end_io
  split
  · have key : ∀ f : Process → Process,
        (∀ x, PrioBounds s.scheduler.maxprio x → PrioBounds s.scheduler.maxprio (f x)) →
        PrioInv { s.modifyProc proc f with
          processes_in_io := (s.modifyProc proc f).processes_in_io - 1 } :=
      fun f hf => (h.prio_modifyProc proc f hf).prio_of_eq rfl rfl rfl rfl rfl
    refine key _ ?_
    intro x hx
    obtain ⟨a, b, c, d⟩ := hx
    exact ⟨a, b, by show 0 ≤ x.static_priority - 1; omega, le_refl _⟩
  · exact h

theorem PrioInv.prio_preempt_running {s : DES} (h : PrioInv s) (proc : Nat) :
    PrioInv (Sched.preempt_running s proc) := by
  unfold Sched.preempt_running
  dsimp only
  split
  · exact h
  · rename_i cur hcur
    have hc := h.cur cur hcur
    split
    · cases hq : s.event_queue with
      | nil =>
        simp only [EventQueue.peek, List.head?_nil]
        exact h.prio_add_event _ _ _ hc
      | cons e rest =>
        simp only [EventQueue.peek, List.head?_cons]
        have hrest : PrioInv { s with event_queue := rest } :=
          ⟨h.kind, h.levels, h.active_len, h.expired_len, h.procs,
            fun x hx => h.events x (by rw [hq]; exact List.mem_cons_of_mem _ hx),
            h.cur, h.active, h.expired, h.rand⟩
        split
        · exact PrioInv.prio_add_event (hrest.prio_of_eq rfl rfl rfl rfl rfl) _ _ _ hc
        · exact h.prio_add_event _ _ _ hc
    · exact h

theorem preempt_running_processes (s : DES) (proc : Nat) :
    (preempt_running s proc).processes = s.processes ∧
    (preempt_running s proc).scheduler = s.scheduler := by
  unfold Sched.preempt_running
  dsimp only
  split
  · exact ⟨rfl, rfl⟩
  · split
    · split
      · split
        · exact ⟨rfl, rfl⟩
        · exact ⟨rfl, rfl⟩
      · exact ⟨rfl, rfl⟩
    · exact ⟨rfl, rfl⟩

theorem PrioInv.prio_ready_call {s : DES} (h : PrioInv s) (proc : Nat) (d : Int) :
    PrioInv (Sched.preempt_running ((Sched.end_io s proc d).modifyProc proc (fun p =>
      { p with state := ProcessState.STATE_READY,
               state_ts := (Sched.end_io s proc d).CURRENT_TIME })) proc) :=
  ((h.prio_end_io proc d).prio_modifyProc proc _ (by intro x hx; exact hx)).prio_preempt_running proc

theorem PrioInv.prio_case_TRANS_TO_READY {s : DES} (h : PrioInv s) (proc : Nat) (d : Int)
    (hp : proc < s.processes.length) : PrioInv (Sched.case_TRANS_TO_READY s proc d) := by
  have h3 := h.prio_ready_call proc d
  have hlen : (Sched.preempt_running ((Sched.end_io s proc d).modifyProc proc (fun p =>
      { p with state := ProcessState.STATE_READY,
               state_ts := (Sched.end_io s proc d).CURRENT_TIME })) proc).processes.length =
      s.processes.length := by
    rw [(preempt_running_processes _ _).1]
    show (modifyAt _ (Sched.end_io s proc d).processes proc).length = _
    rw [length_modifyAt]
    unfold Sched.end_io
    split
    · exact length_modifyAt _ _ _
    · rfl
  exact (h3.prio_add_process proc (by rw [hlen]; exact hp)).prio_of_eq rfl rfl rfl rfl rfl

theorem PrioInv.prio_new_cpu_burst {s : DES} (h : PrioInv s) (proc : Nat) :
    PrioInv (Sched.new_cpu_burst s proc) := by
  unfold Sched.new_cpu_burst
  split
  · have hb : PrioInv (myrandom s (s.proc proc).cpu_burst).2 := h.prio_of_eq rfl rfl rfl rfl rfl
    exact hb.prio_modifyProc proc _ (by intro x hx; exact hx)
  · exact h

theorem new_cpu_burst_length (s : DES) (proc : Nat) :
    (new_cpu_burst s proc).processes.length = s.processes.length := by
  unfold Sched.new_cpu_burst
  split
  · exact length_modifyAt _ _ _
  · rfl

theorem PrioInv.prio_case_TRANS_TO_RUN {s : DES} (h : PrioInv s) (proc : Nat)
    (hp : proc < s.processes.length) : PrioInv (Sched.case_TRANS_TO_RUN s proc) := by
  let S1 : DES := s.modifyProc proc (fun p =>
    { p with state := ProcessState.STATE_RUNNING, state_ts := s.CURRENT_TIME })
  let S2 : DES := Sched.new_cpu_burst S1 proc
  have h1 : PrioInv S1 := h.prio_modifyProc proc _ (by intro x hx; exact hx)
  have h2 : PrioInv S2 := h1.prio_new_cpu_burst proc
  have hlen : S2.processes.length = s.processes.length := by
    show (Sched.new_cpu_burst S1 proc).processes.length = _
    rw [new_cpu_burst_length]
    exact length_modifyAt _ _ _
  show PrioInv (if (S2.proc proc).current_cpu_burst > S2.scheduler.quantum then
      S2.add_event (S2.CURRENT_TIME + S2.scheduler.quantum) proc Transition.TRANS_TO_PREEMPT
    else
      S2.add_event (S2.CURRENT_TIME + (S2.proc proc).current_cpu_burst) proc
        Transition.TRANS_TO_BLOCK)
  split
  · exact h2.prio_add_event _ _ _ (by rw [hlen]; exact hp)
  · exact h2.prio_add_event _ _ _ (by rw [hlen]; exact hp)

theorem PrioInv.prio_finish_or_block {s : DES} (h : PrioInv s) (proc : Nat)
    (hp : proc < s.processes.length) : PrioInv (Sched.finish_or_block s proc) := by
  unfold Sched.finish_or_block
  split
  · exact h.prio_modifyProc proc _ (by intro x hx; exact hx)
  · let T : DES := s.modifyProc proc (fun p => { p with state := ProcessState.STATE_BLOCKED })
    let T1 : DES := { T with processes_in_io := T.processes_in_io + 1 }
    have ht : PrioInv T := h.prio_modifyProc proc _ (by intro x hx; exact hx)
    have ht1 : PrioInv T1 := ht.prio_of_eq rfl rfl rfl rfl rfl
    have ht2 : PrioInv (myrandom T1 (T1.proc proc).io_burst).2 := ht1.prio_of_eq rfl rfl rfl rfl rfl
    refine ht2.prio_add_event _ _ _ ?_
    show proc < (modifyAt _ s.processes proc).length
    rw [length_modifyAt]; exact hp

theorem finish_or_block_length (s : DES) (proc : Nat) :
    (finish_or_block s proc).processes.length = s.processes.length := by
  unfold Sched.finish_or_block
  split
  · exact length_modifyAt _ _ _
  · exact length_modifyAt _ _ _

theorem PrioInv.prio_case_TRANS_TO_BLOCK {s : DES} (h : PrioInv s) (proc : Nat) (d : Int)
    (hp : proc < s.processes.length) : PrioInv (Sched.case_TRANS_TO_BLOCK s proc d) := by
  let S1 : DES := { s with total_cpu_time := s.total_cpu_time + d }
  let S2 : DES := S1.modifyProc proc (fun p =>
    { p with cpu_time_remaining := p.cpu_time_remaining - p.current_cpu_burst,
             current_cpu_burst := 0 })
  let S3 : DES := Sched.finish_or_block S2 proc
  let S4 : DES := S3.modifyProc proc (fun p => { p with state_ts := S3.CURRENT_TIME })
  have h1 : PrioInv S1 := h.prio_of_eq rfl rfl rfl rfl rfl
  have h2 : PrioInv S2 := h1.prio_modifyProc proc _ (by intro x hx; exact hx)
  have h3 : PrioInv S3 := h2.prio_finish_or_block proc (by
    show proc < (modifyAt _ s.processes proc).length
    rw [length_modifyAt]; exact hp)
  have h4 : PrioInv S4 := h3.prio_modifyProc proc _ (by intro x hx; exact hx)
  exact ⟨h4.kind, h4.levels, h4.active_len, h4.expired_len, h4.procs, h4.events,
    fun c hc => (by cases hc), h4.active, h4.expired, h4.rand⟩

theorem PrioInv.prio_decay_priority {s : DES} (h : PrioInv s) (proc : Nat) :
    PrioInv (Sched.decay_priority s proc) := by
  unfold Sched.decay_priority
  split
  · refine h.prio_modifyProc proc _ ?_
    intro x hx
    obtain ⟨a, b, c, d⟩ := hx
    exact ⟨a, b, by show 0 ≤ x.static_priority - 1; omega, le_refl _⟩
  · refine h.prio_modifyProc proc _ ?_
    intro x hx
    obtain ⟨a, b, c, d⟩ := hx
    split
    · exact ⟨a, b, by show 0 ≤ x.static_priority - 1; omega, le_refl _⟩
    · rename_i hlt
      exact ⟨a, b, by show 0 ≤ x.dynamic_priority - 1; omega,
        by show x.dynamic_priority - 1 ≤ x.static_priority - 1; omega⟩

theorem decay_priority_length (s : DES) (proc : Nat) :
    (decay_priority s proc).processes.length = s.processes.length := by
  unfold Sched.decay_priority
  split
  · exact length_modifyAt _ _ _
  · exact length_modifyAt _ _ _

theorem PrioInv.prio_preempt_call {s : DES} (h : PrioInv s) (proc : Nat) (d : Int) :
    PrioInv (Sched.decay_priority
      (DES.modifyProc { s with total_cpu_time := s.total_cpu_time + d } proc (fun p =>
        { p with cpu_time_remaining := p.cpu_time_remaining - d,
                 current_cpu_burst := p.current_cpu_burst - d,
                 state := ProcessState.STATE_READY, state_ts := s.CURRENT_TIME })) proc) := by
  have h1 : PrioInv { s with total_cpu_time := s.total_cpu_time + d } :=
    h.prio_of_eq rfl rfl rfl rfl rfl
  exact (h1.prio_modifyProc proc _ (by intro x hx; exact hx)).prio_decay_priority proc

theorem PrioInv.prio_case_TRANS_TO_PREEMPT {s : DES} (h : PrioInv s) (proc : Nat) (d : Int)
    (hp : proc < s.processes.length) : PrioInv (Sched.case_TRANS_TO_PREEMPT s proc d) := by
  have h3 := h.prio_preempt_call proc d
  have h4 := h3.prio_add_process proc (by
    rw [decay_priority_length]
    show proc < (modifyAt _ s.processes proc).length
    rw [length_modifyAt]; exact hp)
  exact ⟨h4.kind, h4.levels, h4.active_len, h4.expired_len, h4.procs, h4.events,
    fun c hc => (by cases hc), h4.active, h4.expired, h4.rand⟩

theorem begin_event_length (s : DES) (evt : Event) :
    (begin_event s evt).processes.length = s.processes.length := by
  unfold Sched.begin_event
  dsimp only
  unfold account_io
  dsimp only
  have hw : ∀ t : DES, ∀ p d, (Sched.account_waiting t p d).processes.length =
      t.processes.length := by
    intro t p d
    unfold Sched.account_waiting
    split
    · exact length_modifyAt _ _ _
    · rfl
  split
  · exact hw _ _ _
  · exact hw _ _ _

theorem PrioInv.prio_iteration {s t : DES} (h : PrioInv s) (ht : Sched.iteration s = some t) :
    PrioInv t := by
  unfold Sched.iteration at ht
  cases hq : s.event_queue with
  | nil =>
    rw [hq] at ht
    simp [EventQueue.get_next_event] at ht
  | cons evt rest =>
    rw [hq] at ht
    simp only [EventQueue.get_next_event, Option.some.injEq] at ht
    subst ht
    have hevt : evt.process < s.processes.length :=
      h.events evt (by rw [hq]; exact List.mem_cons_self _ _)
    have h0 : PrioInv { s with event_queue := rest } :=
      ⟨h.kind, h.levels, h.active_len, h.expired_len, h.procs,
        fun e he => h.events e (by rw [hq]; exact List.mem_cons_of_mem _ he),
        h.cur, h.active, h.expired, h.rand⟩
    have h1 := h0.prio_begin_event evt
    have hlen : evt.process <
        (Sched.begin_event { s with event_queue := rest } evt).processes.length := by
      rw [begin_event_length]; exact hevt
    apply PrioInv.prio_call_scheduler
    unfold handle_transition
    split
    · exact h1.prio_case_TRANS_TO_READY _ _ hlen
    · exact h1.prio_case_TRANS_TO_RUN _ hlen
    · exact h1.prio_case_TRANS_TO_BLOCK _ _ hlen
    · exact h1.prio_case_TRANS_TO_PREEMPT _ _ hlen

theorem PrioInv.prio_iterations (n : Nat) {s t : DES} (h : PrioInv s)
    (ht : Sched.iterations n s = some t) : PrioInv t := by
  induction n generalizing s with
  | zero =>
    simp only [Sched.iterations, Option.some.injEq] at ht
    rw [← ht]; exact h
  | succ n ih =>
    unfold Sched.iterations at ht
    cases hi : Sched.iteration s with
    | none => rw [hi] at ht; cases ht
    | some s1 =>
      rw [hi] at ht
      exact ih (h.prio_iteration hi) ht

theorem myrandom_ge_one (s : DES) (burst : Int)
    (hr : ∀ v, v ∈ s.randvals → 0 ≤ v) : 1 ≤ (myrandom s burst).1 := by
  unfold myrandom
  simp only
  have hv : ∀ i, 0 ≤ s.randvals.getD i 0 := by
    intro i
    by_cases hi : i < s.randvals.length
    · rw [List.getD_eq_getElem _ _ hi]
      exact hr _ (List.getElem_mem hi)
    · rw [List.getD_eq_default _ _ (by omega)]
  have := Int.tmod_nonneg burst (hv (if s.rand_index ≥ s.randvals.length then 0
    else s.rand_index))
  omega

theorem PrioInv.prio_read_process {s : DES} (h : PrioInv s) (line : Int × Int × Int × Int) :
    PrioInv (Sched.read_process s line) := by
  unfold Sched.read_process
  dsimp only
  have hlen : ∀ x : Process, (s.processes ++ [x]).length = s.processes.length + 1 := by
    intro x; simp
  refine PrioInv.prio_add_event ?_ _ _ _ ?_
  · refine ⟨h.kind, h.levels, h.active_len, h.expired_len, ?_, ?_, ?_, ?_, ?_, h.rand⟩
    · intro x hx
      have hx2 : x ∈ s.processes ++ [_] := hx
      rcases List.mem_append.mp hx2 with h1 | h1
      · exact h.procs x h1
      · rw [List.mem_singleton.mp h1]
        have h1 := myrandom_ge_one s s.scheduler.maxprio h.rand
        have h2 := myrandom_le s s.scheduler.maxprio h.levels
        exact ⟨h1, h2, by show 0 ≤ (myrandom s s.scheduler.maxprio).1 - 1; omega, le_refl _⟩
    · intro e he
      show e.process < (s.processes ++ [_]).length
      rw [hlen]; exact Nat.lt_succ_of_lt (h.events e he)
    · intro c hc
      show c < (s.processes ++ [_]).length
      rw [hlen]; exact Nat.lt_succ_of_lt (h.cur c hc)
    · intro l hl p hp
      show p < (s.processes ++ [_]).length
      rw [hlen]; exact Nat.lt_succ_of_lt (h.active l hl p hp)
    · intro l hl p hp
      show p < (s.processes ++ [_]).length
      rw [hlen]; exact Nat.lt_succ_of_lt (h.expired l hl p hp)
  · show s.processes.length < (s.processes ++ [_]).length
    rw [hlen]; exact Nat.lt_succ_self _

theorem PrioInv.prio_read_input_file (sch : Scheduler) (randvals : List Int)
    (lines : List (Int × Int × Int × Int))
    (hk : sch.kind = SchedKind.PRIO ∨ sch.kind = SchedKind.PREPRIO)
    (hm : 1 ≤ sch.maxprio)
    (hA : sch.activeQ = List.replicate sch.maxprio.toNat [])
    (hE : sch.expiredQ = List.replicate sch.maxprio.toNat [])
    (hr : ∀ v, v ∈ randvals → 0 ≤ v) :
    PrioInv (Sched.read_input_file sch randvals lines) := by
  unfold Sched.read_input_file
  have hgen : ∀ (l : List (Int × Int × Int × Int)) (s : DES), PrioInv s →
      PrioInv (l.foldl Sched.read_process s) := by
    intro l
    induction l with
    | nil => intro s h; exact h
    | cons x rest ih =>
      intro s h
      exact ih _ (h.prio_read_process x)
  refine hgen lines _ ⟨hk, hm, ?_, ?_, fun x hx => (by cases hx), fun e he => (by cases he),
    fun c hc => (by cases hc), ?_, ?_, hr⟩
  · show sch.activeQ.length = _
    rw [hA, List.length_replicate]
  · show sch.expiredQ.length = _
    rw [hE, List.length_replicate]
  · intro l hl p hp
    have hl2 : l ∈ sch.activeQ := hl
    rw [hA] at hl2
    rw [(List.mem_replicate.mp hl2).2] at hp
    cases hp
  · intro l hl p hp
    have hl2 : l ∈ sch.expiredQ := hl
    rw [hE] at hl2
    rw [(List.mem_replicate.mp hl2).2] at hp
    cases hp

theorem iteration_add_process_call_spec (s st : DES) (p : Nat)
    (h : iteration_add_process_call s = some (st, p)) :
    ∃ (evt : Event) (rest : List Event) (t : DES),
      s.event_queue = evt :: rest ∧ p = evt.process ∧
      iteration s = some (call_scheduler t) ∧
      t.scheduler = (st.add_process p).scheduler ∧
      t.processes = (st.add_process p).processes ∧
      ((evt.transition = Transition.TRANS_TO_READY ∧
          st = preempt_running
            ((end_io (begin_event { s with event_queue := rest } evt) evt.process
                (evt.timestamp - (s.proc evt.process).state_ts)).modifyProc evt.process
              (fun x => { x with state := ProcessState.STATE_READY,
                                 state_ts := evt.timestamp })) evt.process) ∨
        (evt.transition = Transition.TRANS_TO_PREEMPT ∧
          st = decay_priority
            (DES.modifyProc
              { begin_event { s with event_queue := rest } evt with
                total_cpu_time := (begin_event { s with event_queue := rest } evt).total_cpu_time +
                  (evt.timestamp - (s.proc evt.process).state_ts) }
              evt.process
              (fun x =>
                { x with
                  cpu_time_remaining :=
                    x.cpu_time_remaining - (evt.timestamp - (s.proc evt.process).state_ts),
                  current_cpu_burst :=
                    x.current_cpu_burst - (evt.timestamp - (s.proc evt.process).state_ts),
                  state := ProcessState.STATE_READY,
                  state_ts := evt.timestamp })) evt.process)) := by
  unfold iteration_add_process_call at h
  cases hq : s.event_queue with
  | nil =>
    rw [hq] at h
    simp [EventQueue.get_next_event] at h
  | cons evt rest =>
    rw [hq] at h
    simp only [EventQueue.get_next_event] at h
    have hit : iteration s = some (call_scheduler (handle_transition
        (begin_event { s with event_queue := rest } evt) evt
        (evt.timestamp - (s.proc evt.process).state_ts))) := by
      unfold iteration
      rw [hq]
      rfl
    have hct : ∀ t : DES, (begin_event t evt).CURRENT_TIME = evt.timestamp := by
      intro t
      unfold begin_event account_io
      dsimp only
      have hw : ∀ (u : DES) (a : Nat) (d : Int),
          (account_waiting u a d).CURRENT_TIME = u.CURRENT_TIME := by
        intro u a d
        unfold account_waiting
        split <;> rfl
      split
      · exact hw _ _ _
      · exact hw _ _ _
    have hct2 : ∀ (t : DES) (a : Nat) (d : Int), (end_io t a d).CURRENT_TIME = t.CURRENT_TIME := by
      intro t a d
      unfold end_io
      split <;> rfl
    obtain ⟨ts, pr, tr⟩ := evt
    cases tr with
    | TRANS_TO_READY =>
      simp only [add_process_call, Option.some.injEq, Prod.mk.injEq] at h
      obtain ⟨h1, h2⟩ := h
      refine ⟨_, rest, _, rfl, h2.symm, hit, ?_, ?_, Or.inl ⟨rfl, ?_⟩⟩
      · rw [← h1, ← h2]; rfl
      · rw [← h1, ← h2]; rfl
      · rw [← h1]
        simp only [hct2, hct]
    | TRANS_TO_PREEMPT =>
      simp only [add_process_call, Option.some.injEq, Prod.mk.injEq] at h
      obtain ⟨h1, h2⟩ := h
      refine ⟨_, rest, _, rfl, h2.symm, hit, ?_, ?_, Or.inr ⟨rfl, ?_⟩⟩
      · rw [← h1, ← h2]; rfl
      · rw [← h1, ← h2]; rfl
      · rw [← h1]
        simp only [hct]
    | TRANS_TO_RUN => simp [add_process_call] at h
    | TRANS_TO_BLOCK => simp [add_process_call] at h

theorem PrioInv.prio_at_call {s st : DES} {p : Nat} (h : PrioInv s)
    (hc : iteration_add_process_call s = some (st, p)) :
    PrioInv st ∧ p < st.processes.length := by
  unfold iteration_add_process_call at hc
  cases hq : s.event_queue with
  | nil =>
    rw [hq] at hc
    simp [EventQueue.get_next_event] at hc
  | cons evt rest =>
    rw [hq] at hc
    simp only [EventQueue.get_next_event] at hc
    have hevt : evt.process < s.processes.length :=
      h.events evt (by rw [hq]; exact List.mem_cons_self _ _)
    have h0 : PrioInv { s with event_queue := rest } :=
      ⟨h.kind, h.levels, h.active_len, h.expired_len, h.procs,
        fun e he => h.events e (by rw [hq]; exact List.mem_cons_of_mem _ he),
        h.cur, h.active, h.expired, h.rand⟩
    have h1 := h0.prio_begin_event evt
    have hlen : (Sched.begin_event { s with event_queue := rest } evt).processes.length =
        s.processes.length := begin_event_length _ _
    obtain ⟨ts, pr, tr⟩ := evt
    cases tr with
    | TRANS_TO_READY =>
      simp only [add_process_call, Option.some.injEq, Prod.mk.injEq] at hc
      obtain ⟨c1, c2⟩ := hc
      rw [← c1, ← c2]
      refine ⟨h1.prio_ready_call pr _, ?_⟩
      rw [(preempt_running_processes _ _).1]
      show pr < (modifyAt _ (Sched.end_io _ pr _).processes pr).length
      rw [length_modifyAt]
      have he : ∀ (t : DES) (a : Nat) (d : Int),
          (Sched.end_io t a d).processes.length = t.processes.length := by
        intro t a d
        unfold Sched.end_io
        split
        · exact length_modifyAt _ _ _
        · rfl
      rw [he, hlen]; exact hevt
    | TRANS_TO_PREEMPT =>
      simp only [add_process_call, Option.some.injEq, Prod.mk.injEq] at hc
      obtain ⟨c1, c2⟩ := hc
      rw [← c1, ← c2]
      refine ⟨h1.prio_preempt_call pr _, ?_⟩
      rw [decay_priority_length]
      show pr < (modifyAt _ (Sched.begin_event _ _).processes pr).length
      rw [length_modifyAt, hlen]; exact hevt
    | TRANS_TO_RUN => simp [add_process_call] at hc
    | TRANS_TO_BLOCK => simp [add_process_call] at hc

/-- C38: a CPU run under PRIO (`-sP`) or PREPRIO (`-sE`) with non-negative random
values; `create_scheduler` accepts the specification only with `maxprio >= 1`.
In every state `s` reached by the loop of `run_simulation`, `maxprio >= 1`,
`activeQ` and `expiredQ` have `maxprio` levels, and every process has
`1 <= static_priority <= maxprio`.  If the iteration that starts in `s` calls
`scheduler->add_process(proc)` (in `case TRANS_TO_READY` or in
`case TRANS_TO_PREEMPT`), then in the state `st` of that call `proc` is a process
of the table, `0 <= dynamic_priority <= static_priority - 1 < maxprio`, the
index `dynamic_priority` is below the lengths of `activeQ` and of `expiredQ`,
the call is the one of `PrioScheduler::add_process`, and it takes the branch
`activeQ[dynamic_priority]`. -/
theorem prio_queue_indices_in_bounds (q mp : Int) (spec : SchedSpec) (sch : Scheduler)
    (randvals : List Int) (lines : List (Int × Int × Int × Int)) (n : Nat) (s : DES)
    (hspec : spec = SchedSpec.P q mp ∨ spec = SchedSpec.E q mp)
    (hsch : create_scheduler spec = some sch)
    (hr : ∀ v, v ∈ randvals → 0 ≤ v)
    (hs : iterations n (read_input_file sch randvals lines) = some s) :
    1 ≤ s.scheduler.maxprio ∧
    s.scheduler.activeQ.length = s.scheduler.maxprio.toNat ∧
    s.scheduler.expiredQ.length = s.scheduler.maxprio.toNat ∧
    (∀ x, x ∈ s.processes → 1 ≤ x.static_priority ∧ x.static_priority ≤ s.scheduler.maxprio) ∧
    ∀ st p, iteration_add_process_call s = some (st, p) →
      p < st.processes.length ∧
      0 ≤ (st.proc p).dynamic_priority ∧
      (st.proc p).dynamic_priority ≤ (st.proc p).static_priority - 1 ∧
      (st.proc p).static_priority - 1 < st.scheduler.maxprio ∧
      (st.proc p).dynamic_priority.toNat < st.scheduler.activeQ.length ∧
      (st.proc p).dynamic_priority.toNat < st.scheduler.expiredQ.length ∧
      add_process st.scheduler st.processes p =
        PrioScheduler_add_process st.scheduler st.processes p ∧
      PrioScheduler_add_process st.scheduler st.processes p =
        ({ st.scheduler with
            activeQ := modifyAt (fun l => l ++ [p]) st.scheduler.activeQ
              (st.proc p).dynamic_priority.toNat }, st.processes) := by
  have hsch2 : (sch.kind = SchedKind.PRIO ∨ sch.kind = SchedKind.PREPRIO) ∧ 1 ≤ sch.maxprio ∧
      sch.activeQ = List.replicate sch.maxprio.toNat [] ∧
      sch.expiredQ = List.replicate sch.maxprio.toNat [] := by
    rcases hspec with rfl | rfl
    · simp only [create_scheduler] at hsch
      by_cases hc : q > 0 ∧ mp > 0
      · rw [if_pos hc] at hsch
        simp only [Option.some.injEq] at hsch
        rw [← hsch]
        exact ⟨Or.inl rfl, by show 1 ≤ mp; omega, rfl, rfl⟩
      · rw [if_neg hc] at hsch; cases hsch
    · simp only [create_scheduler] at hsch
      by_cases hc : q > 0 ∧ mp > 0
      · rw [if_pos hc] at hsch
        simp only [Option.some.injEq] at hsch
        rw [← hsch]
        exact ⟨Or.inr rfl, by show 1 ≤ mp; omega, rfl, rfl⟩
      · rw [if_neg hc] at hsch; cases hsch
  have hinv : PrioInv s := PrioInv.prio_iterations n
    (PrioInv.prio_read_input_file sch randvals lines hsch2.1 hsch2.2.1 hsch2.2.2.1 hsch2.2.2.2 hr) hs
  refine ⟨hinv.levels, hinv.active_len, hinv.expired_len,
    fun x hx => ⟨(hinv.procs x hx).1, (hinv.procs x hx).2.1⟩, ?_⟩
  intro st p hcall
  obtain ⟨hst, hp⟩ := hinv.prio_at_call hcall
  obtain ⟨b1, b2, b3, b4⟩ := hst.prio_bounds_at p hp
  have hpr := add_process_prio st.scheduler st.processes p hst.kind b3
  have hdisp : add_process st.scheduler st.processes p =
      PrioScheduler_add_process st.scheduler st.processes p := by
    unfold add_process
    rcases hst.kind with hk | hk <;> rw [hk]
  have hlt : (st.proc p).dynamic_priority.toNat < st.scheduler.maxprio.toNat := by
    have := hst.levels
    omega
  refine ⟨hp, b3, b4, by omega, by rw [hst.active_len]; exact hlt,
    by rw [hst.expired_len]; exact hlt, hdisp, ?_⟩
  rw [← hdisp]
  exact hpr

theorem prio_queue_indices_in_bounds_witness :
    (∀ v, v ∈ [(0 : Int), 5] → 0 ≤ v) ∧
    iterations 2 (read_input_file schD [0, 5] [(0, 100, 10, 10)]) = some desD2 ∧
    (∃ st, iteration_add_process_call desD2 = some (st, 0) ∧
      (st.proc 0).dynamic_priority = 0 ∧ (st.proc 0).static_priority = 1) ∧
    (1 ≤ desD2.scheduler.maxprio ∧
    desD2.scheduler.activeQ.length = desD2.scheduler.maxprio.toNat ∧
    desD2.scheduler.expiredQ.length = desD2.scheduler.maxprio.toNat ∧
    (∀ x, x ∈ desD2.processes →
      1 ≤ x.static_priority ∧ x.static_priority ≤ desD2.scheduler.maxprio) ∧
    ∀ st p, iteration_add_process_call desD2 = some (st, p) →
      p < st.processes.length ∧
      0 ≤ (st.proc p).dynamic_priority ∧
      (st.proc p).dynamic_priority ≤ (st.proc p).static_priority - 1 ∧
      (st.proc p).static_priority - 1 < st.scheduler.maxprio ∧
      (st.proc p).dynamic_priority.toNat < st.scheduler.activeQ.length ∧
      (st.proc p).dynamic_priority.toNat < st.scheduler.expiredQ.length ∧
      add_process st.scheduler st.processes p =
        PrioScheduler_add_process st.scheduler st.processes p ∧
      PrioScheduler_add_process st.scheduler st.processes p =
        ({ st.scheduler with
            activeQ := modifyAt (fun l => l ++ [p]) st.scheduler.activeQ
              (st.proc p).dynamic_priority.toNat }, st.processes)) :=
  ⟨by decide, by decide, ⟨_, rfl, by decide, by decide⟩,
    prio_queue_indices_in_bounds 2 4 (SchedSpec.P 2 4) schD [0, 5] [(0, 100, 10, 10)] 2 desD2
      (Or.inl rfl) (by decide) (by decide) (by decide)⟩

/-- C35: the run `-sP2:4` with the process `0 100 10 10` and the random numbers
`0 5`.  Process 0 has static priority 1 and dynamic priority 0 and draws a CPU
burst of 6, so after two iterations its `TRANS_TO_PREEMPT` at time 2 heads the
event queue.  `case TRANS_TO_PREEMPT` decrements the dynamic priority to -1,
resets it to `static_priority - 1 = 0` itself and only then calls
`add_process`: the process is appended to `activeQ[0]` and every level of
`expiredQ` stays empty.  `PrioScheduler::add_process`, called on the same state
with the dynamic priority -1 (the decrement without the handler's reset), sets
the dynamic priority to 0 and appends the process to `expiredQ[0]`, leaving
`activeQ` empty. -/
theorem preempt_at_priority_zero_stays_active :
    iterations 2 desD = some desD2 ∧
    desD2.scheduler.kind = SchedKind.PRIO ∧
    desD2.event_queue = [Event.mk 2 0 Transition.TRANS_TO_PREEMPT] ∧
    (desD2.proc 0).static_priority = 1 ∧ (desD2.proc 0).dynamic_priority = 0 ∧
    desD2.scheduler.activeQ = [[], [], [], []] ∧
    desD2.scheduler.expiredQ = [[], [], [], []] ∧
    iteration desD2 = some (call_scheduler (case_TRANS_TO_PREEMPT
      (begin_event { desD2 with event_queue := [] } (Event.mk 2 0 Transition.TRANS_TO_PREEMPT))
      0 2)) ∧
    (case_TRANS_TO_PREEMPT
      (begin_event { desD2 with event_queue := [] } (Event.mk 2 0 Transition.TRANS_TO_PREEMPT))
      0 2).scheduler.activeQ = [[0], [], [], []] ∧
    (case_TRANS_TO_PREEMPT
      (begin_event { desD2 with event_queue := [] } (Event.mk 2 0 Transition.TRANS_TO_PREEMPT))
      0 2).scheduler.expiredQ = [[], [], [], []] ∧
    ((case_TRANS_TO_PREEMPT
      (begin_event { desD2 with event_queue := [] } (Event.mk 2 0 Transition.TRANS_TO_PREEMPT))
      0 2).proc 0).dynamic_priority = 0 ∧
    (PrioScheduler_add_process desD2.scheduler
      (modifyAt (fun x => { x with dynamic_priority := x.dynamic_priority - 1 })
        desD2.processes 0) 0).1.expiredQ = [[0], [], [], []] ∧
    (PrioScheduler_add_process desD2.scheduler
      (modifyAt (fun x => { x with dynamic_priority := x.dynamic_priority - 1 })
        desD2.processes 0) 0).1.activeQ = [[], [], [], []] ∧
    (procAt (PrioScheduler_add_process desD2.scheduler
      (modifyAt (fun x => { x with dynamic_priority := x.dynamic_priority - 1 })
        desD2.processes 0) 0).2 0).dynamic_priority = 0 := by
  decide

theorem end_io_scheduler (s : DES) (proc : Nat) (d : Int) :
    (end_io s proc d).scheduler = s.scheduler := by
  unfold end_io
  split <;> rfl

theorem decay_priority_scheduler (s : DES) (proc : Nat) :
    (decay_priority s proc).scheduler = s.scheduler := by
  unfold decay_priority
  split <;> rfl

theorem finish_or_block_scheduler (s : DES) (proc : Nat) :
    (finish_or_block s proc).scheduler = s.scheduler := by
  unfold finish_or_block
  split <;> rfl

theorem begin_event_scheduler (s : DES) (evt : Event) :
    (begin_event s evt).scheduler = s.scheduler := by
  unfold begin_event account_io
  dsimp only
  have hw : ∀ (u : DES) (a : Nat) (d : Int), (account_waiting u a d).scheduler = u.scheduler := by
    intro u a d
    unfold account_waiting
    split <;> rfl
  split
  · exact hw _ _ _
  · exact hw _ _ _

theorem case_TRANS_TO_RUN_scheduler (s : DES) (proc : Nat) :
    (case_TRANS_TO_RUN s proc).scheduler = s.scheduler := by
  rw [case_TRANS_TO_RUN_eq, (run_tail_spec _ proc).2.2.1, (new_cpu_burst_effect _ proc).2.1]
  rfl

theorem case_TRANS_TO_BLOCK_scheduler (s : DES) (proc : Nat) (d : Int) :
    (case_TRANS_TO_BLOCK s proc d).scheduler = s.scheduler := by
  show (finish_or_block _ proc).scheduler = _
  rw [finish_or_block_scheduler]
  rfl

theorem PrioInv.prio_add_process_expired {s : DES} (h : PrioInv s) (proc : Nat)
    (hp : proc < s.processes.length) :
    (s.add_process proc).scheduler.expiredQ = s.scheduler.expiredQ := by
  have hb := h.prio_bounds_at proc hp
  have e := add_process_prio s.scheduler s.processes proc h.kind hb.2.2.1
  show (Sched.add_process s.scheduler s.processes proc).1.expiredQ = _
  rw [e]

theorem PrioScheduler_get_next_process_expired (sch : Scheduler)
    (he : ∀ l, l ∈ sch.expiredQ → l = []) :
    (PrioScheduler_get_next_process sch).2.expiredQ = sch.expiredQ := by
  unfold PrioScheduler_get_next_process
  cases h1 : prio_scan sch.activeQ sch.maxprio.toNat with
  | some r => rfl
  | none =>
    have hx : has_expired_processes sch = false := by
      rw [has_expired_processes_false]
      intro j hj
      rw [List.getD_eq_getElem _ _ hj]
      exact he _ (List.getElem_mem hj)
    simp only [hx]
    rfl

theorem dispatch_expired (s : DES) (h : PrioInv s) (he : NoExpired s) :
    (dispatch s).scheduler.expiredQ = s.scheduler.expiredQ := by
  unfold dispatch
  split
  · rfl
  · dsimp only
    have e : (get_next_process s.scheduler).2.expiredQ = s.scheduler.expiredQ := by
      rw [get_next_process_prio _ h.kind]
      exact PrioScheduler_get_next_process_expired _ he
    split
    · exact e
    · exact e

theorem call_scheduler_expired (s : DES) (h : PrioInv s) (he : NoExpired s) :
    (call_scheduler s).scheduler.expiredQ = s.scheduler.expiredQ := by
  unfold call_scheduler
  split
  · split
    · rfl
    · exact dispatch_expired _ (h.prio_of_eq rfl rfl rfl rfl rfl) he
  · rfl

theorem iteration_expired (s t : DES) (h : PrioInv s) (he : NoExpired s)
    (ht : iteration s = some t) : t.scheduler.expiredQ = s.scheduler.expiredQ := by
  have hinv := h.prio_iteration ht
  unfold iteration at ht
  cases hq : s.event_queue with
  | nil =>
    rw [hq] at ht
    simp [EventQueue.get_next_event] at ht
  | cons evt rest =>
    rw [hq] at ht
    simp only [EventQueue.get_next_event, Option.some.injEq] at ht
    have hevt : evt.process < s.processes.length :=
      h.events evt (by rw [hq]; exact List.mem_cons_self _ _)
    have h0 : PrioInv { s with event_queue := rest } :=
      ⟨h.kind, h.levels, h.active_len, h.expired_len, h.procs,
        fun e he => h.events e (by rw [hq]; exact List.mem_cons_of_mem _ he),
        h.cur, h.active, h.expired, h.rand⟩
    have h1 := h0.prio_begin_event evt
    have hlen : evt.process <
        (begin_event { s with event_queue := rest } evt).processes.length := by
      rw [begin_event_length]; exact hevt
    have hb : (begin_event { s with event_queue := rest } evt).scheduler = s.scheduler :=
      begin_event_scheduler _ _
    have hh : PrioInv (handle_transition (begin_event { s with event_queue := rest } evt) evt
        (evt.timestamp - (s.proc evt.process).state_ts)) ∧
        (handle_transition (begin_event { s with event_queue := rest } evt) evt
          (evt.timestamp - (s.proc evt.process).state_ts)).scheduler.expiredQ =
          s.scheduler.expiredQ := by
      unfold handle_transition
      split
      · refine ⟨h1.prio_case_TRANS_TO_READY _ _ hlen, ?_⟩
        have h3 := h1.prio_ready_call evt.process (evt.timestamp - (s.proc evt.process).state_ts)
        have hp3 := (h3.prio_add_process_expired evt.process (by
          rw [(preempt_running_processes _ _).1]
          show evt.process < (modifyAt _ (end_io _ evt.process _).processes evt.process).length
          rw [length_modifyAt]
          have hel : ∀ (u : DES) (a : Nat) (d : Int),
              (end_io u a d).processes.length = u.processes.length := by
            intro u a d
            unfold end_io
            split
            · exact length_modifyAt _ _ _
            · rfl
          rw [hel]; exact hlen))
        show (DES.add_process _ evt.process).scheduler.expiredQ = _
        rw [hp3, (preempt_running_processes _ _).2]
        show (end_io _ evt.process _).scheduler.expiredQ = _
        rw [end_io_scheduler, hb]
      · refine ⟨h1.prio_case_TRANS_TO_RUN _ hlen, ?_⟩
        rw [case_TRANS_TO_RUN_scheduler, hb]
      · refine ⟨h1.prio_case_TRANS_TO_BLOCK _ _ hlen, ?_⟩
        rw [case_TRANS_TO_BLOCK_scheduler, hb]
      · refine ⟨h1.prio_case_TRANS_TO_PREEMPT _ _ hlen, ?_⟩
        have h3 := h1.prio_preempt_call evt.process (evt.timestamp - (s.proc evt.process).state_ts)
        have hp3 := (h3.prio_add_process_expired evt.process (by
          rw [decay_priority_length]
          show evt.process < (modifyAt _ (begin_event _ _).processes evt.process).length
          rw [length_modifyAt]; exact hlen))
        show (DES.add_process _ evt.process).scheduler.expiredQ = _
        rw [hp3, decay_priority_scheduler]
        show (begin_event _ _).scheduler.expiredQ = _
        rw [hb]
    have hne : NoExpired (handle_transition (begin_event { s with event_queue := rest } evt) evt
        (evt.timestamp - (s.proc evt.process).state_ts)) := by
      unfold NoExpired
      rw [hh.2]; exact he
    rw [← ht, call_scheduler_expired _ hh.1 hne, hh.2]

theorem iterations_expired (n : Nat) (s t : DES) (h : PrioInv s) (he : NoExpired s)
    (ht : iterations n s = some t) : t.scheduler.expiredQ = s.scheduler.expiredQ := by
  induction n generalizing s with
  | zero =>
    simp only [iterations, Option.some.injEq] at ht
    rw [← ht]
  | succ n ih =>
    unfold iterations at ht
    cases hi : iteration s with
    | none => rw [hi] at ht; cases ht
    | some s1 =>
      rw [hi] at ht
      have e1 := iteration_expired s s1 h he hi
      have he1 : NoExpired s1 := by
        unfold NoExpired
        rw [e1]; exact he
      rw [ih s1 (h.prio_iteration hi) he1 ht, e1]

theorem read_input_file_scheduler (sch : Scheduler) (randvals : List Int)
    (lines : List (Int × Int × Int × Int)) :
    (read_input_file sch randvals lines).scheduler = sch := by
  unfold read_input_file
  have hgen : ∀ (l : List (Int × Int × Int × Int)) (s : DES),
      (l.foldl read_process s).scheduler = s.scheduler := by
    intro l
    induction l with
    | nil => intro s; rfl
    | cons x rest ih =>
      intro s
      rw [List.foldl_cons, ih]
      rfl
  rw [hgen]

/-- Under PRIO and PREPRIO with non-negative random values no process is ever
on an expired level: in every state reached by the loop of `run_simulation`
every level of `expiredQ` is empty (`case TRANS_TO_PREEMPT` resets a dynamic
priority that fell below 0 before it calls `add_process`, and
`get_next_process` swaps the two arrays only when an expired level is not
empty). -/
theorem prio_expired_levels_stay_empty (q mp : Int) (spec : SchedSpec) (sch : Scheduler)
    (randvals : List Int) (lines : List (Int × Int × Int × Int)) (n : Nat) (s : DES)
    (hspec : spec = SchedSpec.P q mp ∨ spec = SchedSpec.E q mp)
    (hsch : create_scheduler spec = some sch)
    (hr : ∀ v, v ∈ randvals → 0 ≤ v)
    (hs : iterations n (read_input_file sch randvals lines) = some s) :
    s.scheduler.expiredQ = List.replicate mp.toNat [] := by
  have hsch2 : (sch.kind = SchedKind.PRIO ∨ sch.kind = SchedKind.PREPRIO) ∧ 1 ≤ sch.maxprio ∧
      sch.activeQ = List.replicate sch.maxprio.toNat [] ∧
      sch.expiredQ = List.replicate sch.maxprio.toNat [] ∧ sch.maxprio = mp := by
    rcases hspec with rfl | rfl
    · simp only [create_scheduler] at hsch
      by_cases hc : q > 0 ∧ mp > 0
      · rw [if_pos hc] at hsch
        simp only [Option.some.injEq] at hsch
        rw [← hsch]
        exact ⟨Or.inl rfl, by show 1 ≤ mp; omega, rfl, rfl, rfl⟩
      · rw [if_neg hc] at hsch; cases hsch
    · simp only [create_scheduler] at hsch
      by_cases hc : q > 0 ∧ mp > 0
      · rw [if_pos hc] at hsch
        simp only [Option.some.injEq] at hsch
        rw [← hsch]
        exact ⟨Or.inr rfl, by show 1 ≤ mp; omega, rfl, rfl, rfl⟩
      · rw [if_neg hc] at hsch; cases hsch
  have hinv := PrioInv.prio_read_input_file sch randvals lines hsch2.1 hsch2.2.1 hsch2.2.2.1
    hsch2.2.2.2.1 hr
  have hsc := read_input_file_scheduler sch randvals lines
  have hne : NoExpired (read_input_file sch randvals lines) := by
    unfold NoExpired
    rw [hsc, hsch2.2.2.2.1]
    intro l hl
    exact (List.mem_replicate.mp hl).2
  rw [iterations_expired n _ s hinv hne hs, hsc, hsch2.2.2.2.1, hsch2.2.2.2.2]

/-- C36: the run `-sE10000` with the processes `0 100 100 10`, `5 100 100 10`,
`7 100 100 10` and the random numbers `0 3 0 19 49 4`.  After two iterations
process 0 is running and the event queue holds the arrivals of processes 1 and
2 at times 5 and 7 and the `TRANS_TO_BLOCK` of process 0 at time 20.  The
`TRANS_TO_READY` of process 1 (dynamic priority 3 against 0) makes
`test_preempt` return true; the event at the top of the queue is then the
arrival of process 2, so the preemption block removes nothing, and when
`add_process` is called the event queue holds two events of the running process
0: the injected `TRANS_TO_PREEMPT` at time 5 and the `TRANS_TO_BLOCK` at time
20, which is still there after the iteration. -/
theorem preemption_leaves_stale_event :
    iterations 2 desE = some desE2 ∧
    desE2.CURRENT_RUNNING_PROCESS = some 0 ∧
    desE2.event_queue =
      [Event.mk 5 1 Transition.TRANS_TO_READY, Event.mk 7 2 Transition.TRANS_TO_READY,
        Event.mk 20 0 Transition.TRANS_TO_BLOCK] ∧
    (∃ st, iteration_add_process_call desE2 = some (st, 1) ∧
      st.CURRENT_RUNNING_PROCESS = some 0 ∧ st.CURRENT_TIME = 5 ∧
      (st.proc 1).dynamic_priority = 3 ∧ (st.proc 0).dynamic_priority = 0 ∧
      st.event_queue =
        [Event.mk 5 0 Transition.TRANS_TO_PREEMPT, Event.mk 7 2 Transition.TRANS_TO_READY,
          Event.mk 20 0 Transition.TRANS_TO_BLOCK] ∧
      (st.event_queue.filter (fun e => decide (e.process = 0))).length = 2) ∧
    (iterations 3 desE).map (fun s => (s.CURRENT_TIME, s.event_queue)) =
      some (5, [Event.mk 5 0 Transition.TRANS_TO_PREEMPT, Event.mk 7 2 Transition.TRANS_TO_READY,
        Event.mk 20 0 Transition.TRANS_TO_BLOCK]) :=
  ⟨by decide, by decide, by decide,
    ⟨_, rfl, by decide, by decide, by decide, by decide, by decide, by decide⟩, by decide⟩

end Sched
